import Mathlib

/-!
# fxd: fixed-point decimal in base 10^9

A shallow embedding of the Go package `fxd` (files `decimal.go`, `arith.go`,
`cmp.go`, `round.go`, `serde.go`, `conv.go`).

* Go `int`, `int32`, `int64` values are modelled as `Int`; the `int8` fields
  `intg` and `frac` are `Int` values in `[-128, 127]` and every Go conversion
  `int8(x)` is the explicit wrap `wrap8 x`; `int32(x)` is `wrap32 x`.
* The array `lsu [9]int32` is a `List Int`; every indexed read or write goes
  through `rd` / `wr`, which fail with `Fault.panic` exactly when Go raises an
  index-out-of-range runtime panic.
* A Go function returning `error` becomes a function into `Except Fault _`;
  the three error values of the package and the runtime panic are the
  constructors of `Fault`.
* Loops are recursive functions on a counter of remaining iterations.
-/

namespace Fxd

/-! ## Constants (`decimal.go`) -/

def MaxDigits : Int := 65
def MaxFrac : Int := 30
def DigitsPerUnit : Int := 9
def Unit : Int := 1000000000
def MaxIntgUnits : Int := (MaxDigits + DigitsPerUnit - 1) / DigitsPerUnit
def MaxFracUnits : Int := (MaxFrac + DigitsPerUnit - 1) / DigitsPerUnit
def MaxUnits : Int := 9
def DoubleMaxUnits : Int := MaxUnits * 2
def HalfUnit : Int := Unit / 2

/-- Outcome of a call that does not return normally: one of the package's
error values, or a Go runtime panic (index out of range, failed assertion). -/
inductive Fault where
  | DecErrOverflow
  | DecErrDivisionByZero
  | DecErrConversionSyntax
  | panic
  deriving DecidableEq, Repr

/-- The record `FixedDecimal`: `intg` and `frac` are the raw `int8` fields
(sign bit in `intg`, NaN and Inf bits in `frac`), `lsu` the nine limbs. -/
structure FixedDecimal where
  intg : Int
  frac : Int
  lsu : List Int
  deriving DecidableEq, Repr

/-- Go conversion `int8(x)`: two's complement wrap into `[-128, 127]`. -/
def wrap8 (x : Int) : Int := (x + 128) % 256 - 128

/-- Go conversion `int32(x)`: two's complement wrap into `[-2^31, 2^31)`. -/
def wrap32 (x : Int) : Int := (x + 2147483648) % 4294967296 - 2147483648

/-- Indexed read `a[i]` of an array of length `n`; panics out of range. -/
def rd (n : Int) (a : List Int) (i : Int) : Except Fault Int :=
  if 0 ≤ i ∧ i < n then .ok (a.getD i.toNat 0) else .error .panic

/-- Indexed write `a[i] = v` of an array of length `n`; panics out of range. -/
def wr (n : Int) (a : List Int) (i : Int) (v : Int) : Except Fault (List Int) :=
  if 0 ≤ i ∧ i < n then .ok (a.set i.toNat v) else .error .panic

/-- Slice `a[lo:hi]` of an array of length `n`; panics when the bounds are
not `0 ≤ lo ≤ hi ≤ n`. -/
def slice (n : Int) (a : List Int) (lo hi : Int) : Except Fault (List Int) :=
  if 0 ≤ lo ∧ lo ≤ hi ∧ hi ≤ n then .ok ((a.drop lo.toNat).take (hi - lo).toNat)
  else .error .panic

/-- Builtin `copy(dst, src)` on the already sliced destination `a[lo:hi]`:
writes `min(len dst, len src)` elements of `src` starting at `a[lo]`. -/
def copyInto (a : List Int) (lo : Nat) : Nat → List Int → List Int
  | 0, _ => a
  | _, [] => a
  | k + 1, x :: xs => copyInto (a.set lo x) (lo + 1) k xs

/-- Statement `copy(a[lo:hi], src)` for an array of length `n`. -/
def copyTo (n : Int) (a : List Int) (lo hi : Int) (src : List Int) :
    Except Fault (List Int) :=
  if 0 ≤ lo ∧ lo ≤ hi ∧ hi ≤ n then .ok (copyInto a lo.toNat (hi - lo).toNat src)
  else .error .panic

/-- Nine zero limbs. -/
def zeroUnits : List Int := [0, 0, 0, 0, 0, 0, 0, 0, 0]

/-! ## Helpers of the package that are not part of the given sources -/

/-- Modelled from the spec: `getUnits` is missing from the sources; the spec
gives `intg_units` and `frac_units` as `ceil(digits/9)`, written here the way
`decimal.go` writes `MaxIntgUnits`, with Go's truncating division. -/
def getUnits (digits : Int) : Int := Int.tdiv (digits + DigitsPerUnit - 1) DigitsPerUnit

/-- Modelled from the spec: `div9` is missing from the sources (small-integer
helper of the limb primitives): quotient by 9. -/
def div9 (n : Int) : Int := Int.tdiv n 9

/-- Modelled from the spec: `mod9` is missing from the sources (small-integer
helper of the limb primitives): remainder by 9. -/
def mod9 (n : Int) : Int := Int.tmod n 9

/-- Modelled from the spec: the table `pow10` is missing from the sources;
`pow10[k] = 10^k` for `k` in `0..9`, out of range panics. -/
def pow10 (k : Int) : Except Fault Int :=
  if 0 ≤ k ∧ k < 10 then .ok (10 ^ k.toNat) else .error .panic

/-- Modelled from the spec: `minInt` is missing from the sources. -/
def minInt (a b : Int) : Int := if a < b then a else b

/-- Modelled from the spec: `maxInt` is missing from the sources. -/
def maxInt (a b : Int) : Int := if a > b then a else b

/-- Modelled from the spec: `minInt8` is missing from the sources. -/
def minInt8 (a b : Int) : Int := if a < b then a else b

/-- Modelled from the spec: `maxInt8` is missing from the sources. -/
def maxInt8 (a b : Int) : Int := if a > b then a else b

/-- Modelled from the spec: `assertTrue` is missing from the sources; a failed
assertion is a panic. -/
def assertTrue (c : Bool) : Except Fault PUnit :=
  if c then .ok ⟨⟩ else .error .panic

/-- Modelled from the spec: `unitLeadingZeroes` is missing from the sources;
the number of leading zero digits of a limb printed with nine digits. -/
def unitLeadingZeroes (u : Int) : Int :=
  if u ≥ 100000000 then 0
  else if u ≥ 10000000 then 1
  else if u ≥ 1000000 then 2
  else if u ≥ 100000 then 3
  else if u ≥ 10000 then 4
  else if u ≥ 1000 then 5
  else if u ≥ 100 then 6
  else if u ≥ 10 then 7
  else if u ≥ 1 then 8
  else 9

/-- Modelled from the spec: `unitGreaterEqualHalf` is missing from the
sources; the limb is at least `5 * 10^8`. -/
def unitGreaterEqualHalf (u : Int) : Bool := decide (u ≥ HalfUnit)

/-- Top-down comparison of two limb sequences given most significant limb
first; when the left one is exhausted the rest of the right one must be zero. -/
def geFromTop : List Int → List Int → Bool
  | x :: xs, y :: ys => if x > y then true else if x < y then false else geFromTop xs ys
  | [], ys => ys.all (fun y => decide (y ≤ 0))
  | _ :: _, [] => true

/-- Modelled from the spec: `unitsGreaterEqual` is missing from the sources
(only its test `TestUnitsGreaterEqual` is given): both slices hold the least
significant limb first and are compared from the top limb downward, the
shorter one padded with zero limbs at the bottom. -/
def unitsGreaterEqual (lhs rhs : List Int) : Bool := geFromTop lhs.reverse rhs.reverse

/-! ## Value and flags (`decimal.go`) -/

namespace FixedDecimal

/-- Go `uint8(fd.intg)&0x80 != 0`: the top bit of an `int8` is its sign. -/
def IsNeg (fd : FixedDecimal) : Bool := decide (fd.intg < 0)

/-- Go `fd.intg |= ^0x7f`: set the top bit. -/
def setNeg (fd : FixedDecimal) : FixedDecimal :=
  { fd with intg := if fd.intg < 0 then fd.intg else fd.intg - 128 }

/-- Go `fd.intg &= 0x7f`: clear the top bit. -/
def setPos (fd : FixedDecimal) : FixedDecimal :=
  { fd with intg := fd.intg % 128 }

/-- Go `uint8(fd.frac)&0x80 != 0`. -/
def IsNaN (fd : FixedDecimal) : Bool := decide (fd.frac < 0)

/-- Go `fd.frac |= ^0x7f`. -/
def setNaN (fd : FixedDecimal) : FixedDecimal :=
  { fd with frac := if fd.frac < 0 then fd.frac else fd.frac - 128 }

/-- Go `uint8(fd.frac)&0x40 != 0`: bit 6 of the `frac` byte. -/
def IsInf (fd : FixedDecimal) : Bool := decide (fd.frac / 64 % 2 = 1)

/-- Go `fd.frac |= 0x40`. -/
def setInf (fd : FixedDecimal) : FixedDecimal :=
  { fd with frac := if fd.frac / 64 % 2 = 1 then fd.frac else fd.frac + 64 }

/-- Go `uint8(fd.intg)&0x80 != 0 || uint8(fd.frac)&0xcf != 0`; the mask
`0xcf` selects bits 7, 6, 3, 2, 1, 0 of the `frac` byte. -/
def IsSpecial (fd : FixedDecimal) : Bool :=
  decide (fd.intg < 0) || decide (fd.frac % 256 / 64 ≠ 0 ∨ fd.frac % 16 ≠ 0)

/-- Go `fd.intg &= 0x7f; fd.frac &= 0x3f`. -/
def setNormal (fd : FixedDecimal) : FixedDecimal :=
  { fd with intg := fd.intg % 128, frac := fd.frac % 64 }

def resetUnits (fd : FixedDecimal) : FixedDecimal := { fd with lsu := zeroUnits }

def SetZero (_fd : FixedDecimal) : FixedDecimal := { intg := 1, frac := 0, lsu := zeroUnits }

def SetOne (_fd : FixedDecimal) : FixedDecimal :=
  { intg := 1, frac := 0, lsu := zeroUnits.set 0 1 }

/-- Modelled from the spec: `Reset` is missing from the sources; it is called
with the comment "always clear result first" and leaves every field zero. -/
def Reset (_fd : FixedDecimal) : FixedDecimal := { intg := 0, frac := 0, lsu := zeroUnits }

def IsZero (fd : FixedDecimal) : Bool :=
  decide (fd.lsu.getD 0 0 = 0) && decide (fd.intg = 1) && decide (fd.frac = 0)

def allUnitsZero (fd : FixedDecimal) : Bool :=
  decide (fd.lsu.getD 0 0 = 0) && decide (fd.lsu.getD 1 0 = 0) &&
  decide (fd.lsu.getD 2 0 = 0) && decide (fd.lsu.getD 3 0 = 0) &&
  decide (fd.lsu.getD 4 0 = 0) && decide (fd.lsu.getD 5 0 = 0) &&
  decide (fd.lsu.getD 6 0 = 0) && decide (fd.lsu.getD 7 0 = 0) &&
  decide (fd.lsu.getD 8 0 = 0)

def setNegAndCheckZero (fd : FixedDecimal) : FixedDecimal :=
  let fd1 := fd.setNeg
  if fd1.allUnitsZero then fd1.SetZero else fd1

/-- Go `fd.intg & 0x7f`: the low seven bits. -/
def Intg (fd : FixedDecimal) : Int := fd.intg % 128

def IntgUnits (fd : FixedDecimal) : Int := getUnits fd.Intg

/-- Go `fd.frac & 0x3f`: the low six bits. -/
def Frac (fd : FixedDecimal) : Int := fd.frac % 64

def FracUnits (fd : FixedDecimal) : Int := getUnits fd.Frac

end FixedDecimal

def DecimalZero : FixedDecimal := { intg := 1, frac := 0, lsu := zeroUnits }

def DecimalOne : FixedDecimal := { intg := 1, frac := 0, lsu := zeroUnits.set 0 1 }

/-! ## Limb primitives (`arith.go`) -/

def addWithCarry (a b carry : Int) : Int × Int :=
  let r := wrap32 (a + b + carry)
  if r ≥ Unit then (wrap32 (r - Unit), 1) else (r, 0)

def subWithBorrow (a b borrow : Int) : Int × Int :=
  let r := wrap32 (a - b + borrow)
  if r < 0 then (wrap32 (Unit + r), -1) else (r, 0)

/-! ## Addition and subtraction kernels (`arith.go`) -/

/-- Loop `for ; idx < n; idx++ { result.lsu[idx] = src.lsu[idx] }` of `addAbs`
and `subAbs` (fraction-only segment of the wider operand). -/
def copyFracSeg (src : List Int) : Nat → Int → List Int → Except Fault (List Int)
  | 0, _, res => .ok res
  | k + 1, idx, res => do
    let v ← rd MaxUnits src idx
    let res1 ← wr MaxUnits res idx v
    copyFracSeg src k (idx + 1) res1

/-- Common segment of `addAbs`: limb-wise `addWithCarry` of both operands.
Returns the limbs and the carry. -/
def addCommonSeg (l r : List Int) : Nat → Int → Int → Int → Int → List Int →
    Except Fault (List Int × Int)
  | 0, _, _, _, carry, res => .ok (res, carry)
  | k + 1, lhsIdx, rhsIdx, resultIdx, carry, res => do
    let a ← rd MaxUnits l lhsIdx
    let b ← rd MaxUnits r rhsIdx
    let p := addWithCarry a b carry
    let res1 ← wr MaxUnits res resultIdx p.1
    addCommonSeg l r k (lhsIdx + 1) (rhsIdx + 1) (resultIdx + 1) p.2 res1

/-- Integer-only segment of `addAbs`: the longer operand plus zero and carry. -/
def addIntgSeg (src : List Int) : Nat → Int → Int → Int → List Int →
    Except Fault (List Int × Int)
  | 0, _, _, carry, res => .ok (res, carry)
  | k + 1, srcIdx, resultIdx, carry, res => do
    let a ← rd MaxUnits src srcIdx
    let p := addWithCarry a 0 carry
    let res1 ← wr MaxUnits res resultIdx p.1
    addIntgSeg src k (srcIdx + 1) (resultIdx + 1) p.2 res1

/-- Loop `for ; resultIntgNonZero >= 0; resultIntgNonZero-- { if
result.lsu[resultIntgNonZero+resultFracUnits] > 0 { break } }`; the argument
is `resultIntgNonZero + 1`, the value is the final `resultIntgNonZero`. -/
def scanIntgNonZero (lsu : List Int) (resultFracUnits : Int) : Nat → Except Fault Int
  | 0 => .ok (-1)
  | n + 1 => do
    let v ← rd MaxUnits lsu ((n : Int) + resultFracUnits)
    if v > 0 then .ok (n : Int) else scanIntgNonZero lsu resultFracUnits n

/-- Tail shared by `addAbs` and `subAbs`: set `frac`, find the leading
non-zero integer limb and set `intg`. -/
def finishAddSub (lhs rhs : FixedDecimal) (lsu : List Int) (start : Int) :
    Except Fault FixedDecimal := do
  let result : FixedDecimal := { intg := 0, frac := maxInt8 lhs.frac rhs.frac, lsu := lsu }
  let resultFracUnits := result.FracUnits
  let resultIntgNonZero ← scanIntgNonZero lsu resultFracUnits (start + 1).toNat
  if resultIntgNonZero ≥ 0 then
    .ok { result with intg := wrap8 ((resultIntgNonZero + 1) * DigitsPerUnit) }
  else
    .ok { result with intg := 0 }

def addAbs (lhs rhs : FixedDecimal) : Except Fault FixedDecimal := do
  let res0 := zeroUnits
  let liu := lhs.IntgUnits
  let lfu := lhs.FracUnits
  let riu := rhs.IntgUnits
  let rfu := rhs.FracUnits
  let fracUnitDiff := lfu - rfu
  -- fraction-only segment
  let res1 ←
    (if fracUnitDiff > 0 then copyFracSeg lhs.lsu fracUnitDiff.toNat 0 res0
    else if fracUnitDiff < 0 then copyFracSeg rhs.lsu (-fracUnitDiff).toNat 0 res0
    else .ok res0)
  let lhsIdx : Int := if fracUnitDiff > 0 then fracUnitDiff else 0
  let rhsIdx : Int := if fracUnitDiff > 0 then 0 else if fracUnitDiff < 0 then -fracUnitDiff else 0
  let resultIdx : Int := if fracUnitDiff > 0 then lhsIdx else if fracUnitDiff < 0 then rhsIdx else 0
  -- common segment
  let n := minInt liu riu + minInt lfu rfu
  let (res2, carry2) ← addCommonSeg lhs.lsu rhs.lsu n.toNat lhsIdx rhsIdx resultIdx 0 res1
  let lhsIdx2 := lhsIdx + n.toNat
  let rhsIdx2 := rhsIdx + n.toNat
  let resultIdx2 := resultIdx + n.toNat
  -- integer-only segment
  let intgUnitDiff := liu - riu
  let (res3, carry3) ←
    (if intgUnitDiff > 0 then do
      let (r, c) ← addIntgSeg lhs.lsu intgUnitDiff.toNat lhsIdx2 resultIdx2 carry2 res2
      if c > 0 then do
        let r1 ← wr MaxUnits r (resultIdx2 + intgUnitDiff.toNat) c
        pure (r1, c)
      else pure (r, c)
    else if intgUnitDiff < 0 then do
      let (r, c) ← addIntgSeg rhs.lsu (-intgUnitDiff).toNat rhsIdx2 resultIdx2 carry2 res2
      if c > 0 then do
        let r1 ← wr MaxUnits r (resultIdx2 + (-intgUnitDiff).toNat) c
        pure (r1, c)
      else pure (r, c)
    else if carry2 ≠ 0 then do
      let r1 ← wr MaxUnits res2 resultIdx2 carry2
      pure (r1, carry2)
    else pure (res2, carry2))
  finishAddSub lhs rhs res3 (maxInt liu riu + carry3)

/-- Loop of `subAbs` over the fraction-only segment of the right operand:
`result.lsu[idx], borrow = subWithBorrow(0, rhs.lsu[idx], borrow)`; also the
integer-only segment of the right operand. -/
def subZeroSeg (src : List Int) : Nat → Int → Int → Int → List Int →
    Except Fault (List Int × Int)
  | 0, _, _, borrow, res => .ok (res, borrow)
  | k + 1, srcIdx, resultIdx, borrow, res => do
    let b ← rd MaxUnits src srcIdx
    let p := subWithBorrow 0 b borrow
    let res1 ← wr MaxUnits res resultIdx p.1
    subZeroSeg src k (srcIdx + 1) (resultIdx + 1) p.2 res1

/-- Common segment of `subAbs`. -/
def subCommonSeg (l r : List Int) : Nat → Int → Int → Int → Int → List Int →
    Except Fault (List Int × Int)
  | 0, _, _, _, borrow, res => .ok (res, borrow)
  | k + 1, lhsIdx, rhsIdx, resultIdx, borrow, res => do
    let a ← rd MaxUnits l lhsIdx
    let b ← rd MaxUnits r rhsIdx
    let p := subWithBorrow a b borrow
    let res1 ← wr MaxUnits res resultIdx p.1
    subCommonSeg l r k (lhsIdx + 1) (rhsIdx + 1) (resultIdx + 1) p.2 res1

/-- Integer-only segment of the left operand in `subAbs`. -/
def subIntgSeg (src : List Int) : Nat → Int → Int → Int → List Int →
    Except Fault (List Int × Int)
  | 0, _, _, borrow, res => .ok (res, borrow)
  | k + 1, srcIdx, resultIdx, borrow, res => do
    let a ← rd MaxUnits src srcIdx
    let p := subWithBorrow a 0 borrow
    let res1 ← wr MaxUnits res resultIdx p.1
    subIntgSeg src k (srcIdx + 1) (resultIdx + 1) p.2 res1

/-- Second pass of `subAbs` when the left operand was smaller:
`for i := 0; i < resultIdx; i++ { result.lsu[i], borrow =
subWithBorrow(0, result.lsu[i], borrow) }`. -/
def negateUnits : Nat → Int → Int → List Int → Except Fault (List Int)
  | 0, _, _, res => .ok res
  | k + 1, i, borrow, res => do
    let v ← rd MaxUnits res i
    let p := subWithBorrow 0 v borrow
    let res1 ← wr MaxUnits res i p.1
    negateUnits k (i + 1) p.2 res1

def subAbs (lhs rhs : FixedDecimal) : Except Fault (Bool × FixedDecimal) := do
  let res0 := zeroUnits
  let liu := lhs.IntgUnits
  let lfu := lhs.FracUnits
  let riu := rhs.IntgUnits
  let rfu := rhs.FracUnits
  let fracUnitDiff := lfu - rfu
  let (res1, borrow1) ←
    (if fracUnitDiff > 0 then do
      let r ← copyFracSeg lhs.lsu fracUnitDiff.toNat 0 res0
      pure (r, (0 : Int))
    else if fracUnitDiff < 0 then subZeroSeg rhs.lsu (-fracUnitDiff).toNat 0 0 0 res0
    else pure (res0, (0 : Int)))
  let lhsIdx : Int := if fracUnitDiff > 0 then fracUnitDiff else 0
  let rhsIdx : Int := if fracUnitDiff > 0 then 0 else if fracUnitDiff < 0 then -fracUnitDiff else 0
  let resultIdx : Int := if fracUnitDiff > 0 then lhsIdx else if fracUnitDiff < 0 then rhsIdx else 0
  let n := minInt liu riu + minInt lfu rfu
  let (res2, borrow2) ← subCommonSeg lhs.lsu rhs.lsu n.toNat lhsIdx rhsIdx resultIdx borrow1 res1
  let lhsIdx2 := lhsIdx + n.toNat
  let rhsIdx2 := rhsIdx + n.toNat
  let resultIdx2 := resultIdx + n.toNat
  let intgUnitDiff := liu - riu
  let (res3, borrow3) ←
    (if intgUnitDiff > 0 then
      subIntgSeg lhs.lsu intgUnitDiff.toNat lhsIdx2 resultIdx2 borrow2 res2
    else if intgUnitDiff < 0 then
      subZeroSeg rhs.lsu (-intgUnitDiff).toNat rhsIdx2 resultIdx2 borrow2 res2
    else pure (res2, borrow2))
  let resultIdx3 : Int :=
    if intgUnitDiff > 0 then resultIdx2 + intgUnitDiff.toNat
    else if intgUnitDiff < 0 then resultIdx2 + (-intgUnitDiff).toNat
    else resultIdx2
  let neg := decide (borrow3 = -1)
  let res4 ← (if neg then negateUnits resultIdx3.toNat 0 0 res3 else pure res3)
  let result ← finishAddSub lhs rhs res4 (maxInt liu riu)
  pure (neg, result)

def DecimalAdd (lhs rhs : FixedDecimal) : Except Fault FixedDecimal :=
  if lhs.IsZero then .ok rhs
  else if rhs.IsZero then .ok lhs
  else
    let lneg := lhs.IsNeg
    let rneg := rhs.IsNeg
    if lneg = rneg then do
      let result ← addAbs lhs rhs
      if lneg then pure result.setNegAndCheckZero else pure result
    else do
      let (subNeg, result) ← subAbs lhs rhs
      if subNeg ≠ lneg then pure result.setNegAndCheckZero else pure result

def DecimalSub (lhs rhs : FixedDecimal) : Except Fault FixedDecimal :=
  if lhs.IsZero then
    if rhs.IsNeg then .ok rhs.setPos else .ok rhs.setNegAndCheckZero
  else if rhs.IsZero then .ok lhs
  else
    let lneg := lhs.IsNeg
    let rneg := rhs.IsNeg
    if lneg ≠ rneg then do
      let result ← addAbs lhs rhs
      if lneg then pure result.setNegAndCheckZero else pure result
    else do
      let (subNeg, result) ← subAbs lhs rhs
      if subNeg ≠ lneg then pure result.setNegAndCheckZero else pure result

/-! ## Multiplication kernel (`arith.go`) -/

/-- Inner loop of `mulAbs` over the limbs of `lhs` for one limb `rv` of `rhs`.
The state is the result limbs, the carry and the variable `resultIdx`, which
outlives the loop. -/
def mulInner (rv rightIdx shiftUnits : Int) : List Int → Int → List Int × Int × Int →
    Except Fault (List Int × Int × Int)
  | [], _, st => .ok st
  | lv :: ls, leftIdx, (res, carry, _) =>
    let resultIdx := leftIdx + rightIdx - shiftUnits
    if resultIdx < -1 then
      mulInner rv rightIdx shiftUnits ls (leftIdx + 1) (res, carry, resultIdx)
    else if resultIdx = -1 then
      let v := lv * rv
      if v < Unit then
        mulInner rv rightIdx shiftUnits ls (leftIdx + 1) (res, carry, resultIdx)
      else
        mulInner rv rightIdx shiftUnits ls (leftIdx + 1) (res, Int.tdiv v Unit, resultIdx)
    else do
      let cur ← rd MaxUnits res resultIdx
      let v := lv * rv + cur + carry
      let carry1 := Int.tdiv v Unit
      let res1 ← wr MaxUnits res resultIdx (wrap32 (v - carry1 * Unit))
      mulInner rv rightIdx shiftUnits ls (leftIdx + 1) (res1, carry1, resultIdx)

/-- Outer loop of `mulAbs` over the limbs of `rhs`. -/
def mulOuter (lhsUnits : List Int) (shiftUnits : Int) : List Int → Int → List Int × Int →
    Except Fault (List Int)
  | [], _, st => .ok st.1
  | rv :: rs, rightIdx, (res, resultIdx0) => do
    let (res1, carry, resultIdx) ← mulInner rv rightIdx shiftUnits lhsUnits 0 (res, 0, resultIdx0)
    let res2 ←
      (if resultIdx + 1 < MaxUnits then wr MaxUnits res1 (resultIdx + 1) (wrap32 carry)
      else if carry > 0 then .error .DecErrOverflow
      else .ok res1)
    mulOuter lhsUnits shiftUnits rs (rightIdx + 1) (res2, resultIdx)

def mulAbs (lhs rhs : FixedDecimal) : Except Fault FixedDecimal := do
  let resultIntgDigits := wrap8 (lhs.Intg + rhs.Intg)
  let resultIntgUnits := getUnits resultIntgDigits
  let resultFracDigits := wrap8 (lhs.Frac + rhs.Frac)
  let resultFracUnits0 := getUnits resultFracDigits
  if resultIntgUnits > MaxUnits then .error .DecErrOverflow
  else
    let resultFracUnits1 :=
      if resultIntgUnits + resultFracUnits0 > MaxUnits then MaxUnits - resultIntgUnits
      else resultFracUnits0
    let resultFracUnits :=
      if resultFracUnits1 > MaxFracUnits then MaxFracUnits else resultFracUnits1
    let liu := lhs.IntgUnits
    let lfu := lhs.FracUnits
    let riu := rhs.IntgUnits
    let rfu := rhs.FracUnits
    let shiftUnits := lfu + rfu - resultFracUnits
    let rs ← slice MaxUnits rhs.lsu 0 (riu + rfu)
    let ls ← slice MaxUnits lhs.lsu 0 (liu + lfu)
    let res ← mulOuter ls shiftUnits rs 0 (zeroUnits, 0)
    pure { intg := wrap8 (wrap8 resultIntgUnits * DigitsPerUnit)
           frac := minInt8 (wrap8 resultFracDigits) (wrap8 (wrap8 resultFracUnits * DigitsPerUnit))
           lsu := res }

def DecimalMul (lhs rhs : FixedDecimal) : Except Fault FixedDecimal :=
  if lhs.IsZero || rhs.IsZero then .ok DecimalZero
  else do
    let resultNeg := lhs.IsNeg != rhs.IsNeg
    let result ← mulAbs lhs rhs
    if resultNeg then pure result.setNegAndCheckZero else pure result

/-! ## Comparator (`cmp.go`) -/

/-- First two loops of `cmpAbsLsu`: `for iu > 0 && iu > other { if
lsu[fu+iu-1] > 0 { return }; iu-- }`.  Returns `(true, _)` when a non-zero
excess limb was found, else `(false, iu)` with the final `iu`. -/
def cmpExcess (lsu : List Int) (fu other : Int) : Nat → Int → Except Fault (Bool × Int)
  | 0, iu => .ok (false, iu)
  | k + 1, iu =>
    if iu > 0 ∧ iu > other then do
      let v ← rd MaxUnits lsu (fu + iu - 1)
      if v > 0 then .ok (true, iu) else cmpExcess lsu fu other k (iu - 1)
    else .ok (false, iu)

/-- Third loop of `cmpAbsLsu`: `for ; i >= 0 && j >= 0; i, j = i-1, j-1`.
Returns the decision when two limbs differ, else the final `i` and `j`. -/
def cmpCommon (llsu rlsu : List Int) : Nat → Int → Int → Except Fault (Option Int × Int × Int)
  | 0, i, j => .ok (none, i, j)
  | k + 1, i, j =>
    if i ≥ 0 ∧ j ≥ 0 then do
      let lv ← rd MaxUnits llsu i
      let rv ← rd MaxUnits rlsu j
      if lv > rv then .ok (some 1, i, j)
      else if lv < rv then .ok (some (-1), i, j)
      else cmpCommon llsu rlsu k (i - 1) (j - 1)
    else .ok (none, i, j)

/-- Last two loops of `cmpAbsLsu`: `for ; i >= 0; i-- { if lsu[i] > 0 {
return } }`; true when a non-zero limb was found. -/
def cmpTail (lsu : List Int) : Nat → Int → Except Fault Bool
  | 0, _ => .ok false
  | k + 1, i =>
    if i ≥ 0 then do
      let v ← rd MaxUnits lsu i
      if v > 0 then .ok true else cmpTail lsu k (i - 1)
    else .ok false

def cmpAbsLsu (liu lfu : Int) (llsu : List Int) (riu rfu : Int) (rlsu : List Int) :
    Except Fault Int := do
  let (hitL, liu1) ← cmpExcess llsu lfu riu liu.toNat liu
  if hitL then .ok 1
  else
    let (hitR, riu1) ← cmpExcess rlsu rfu liu1 riu.toNat riu
    if hitR then .ok (-1)
    else
      let i := liu1 + lfu - 1
      let j := riu1 + rfu - 1
      let (dec, i1, j1) ← cmpCommon llsu rlsu (i + 1).toNat i j
      match dec with
      | some c => .ok c
      | none =>
        let tl ← cmpTail llsu (i1 + 1).toNat i1
        if tl then .ok 1
        else
          let tr ← cmpTail rlsu (j1 + 1).toNat j1
          if tr then .ok (-1) else .ok 0

def cmpAbs (lhs rhs : FixedDecimal) : Except Fault Int :=
  cmpAbsLsu lhs.IntgUnits lhs.FracUnits lhs.lsu rhs.IntgUnits rhs.FracUnits rhs.lsu

namespace FixedDecimal

def Compare (fd rhs : FixedDecimal) : Except Fault Int :=
  let lneg := fd.IsNeg
  let rneg := rhs.IsNeg
  if lneg then
    if rneg then cmpAbs rhs fd else .ok (-1)
  else if rneg then .ok 1
  else cmpAbs fd rhs

end FixedDecimal

/-! ## Division kernel (`arith.go`) -/

/-- Go integer division `a / b`: truncates toward zero, panics on a zero
divisor. -/
def goDiv (a b : Int) : Except Fault Int :=
  if b = 0 then .error .panic else .ok (Int.tdiv a b)

/-- Loop `for nz = n-1; nz >= 0; nz-- { if lsu[nz] != 0 { break } }` of
`divAbs` and `modAbs`; the argument is `n`, the value the final `nz`. -/
def leadingNonZero (lsu : List Int) : Nat → Except Fault Int
  | 0 => .ok (-1)
  | n + 1 => do
    let v ← rd MaxUnits lsu (n : Int)
    if v ≠ 0 then .ok (n : Int) else leadingNonZero lsu n

/-- Short division loop of `divAbs`: `i` indexes `lhs`, `j` the result. -/
def divShortLoop (lhsLsu : List Int) (d : Int) : Nat → Int → Int → Int → List Int →
    Except Fault (List Int)
  | 0, _, _, _, res => .ok res
  | k + 1, i, j, rem, res => do
    let u ← (if i ≥ 0 then do
        let x ← rd MaxUnits lhsLsu i
        pure (rem * Unit + x)
      else pure (rem * Unit))
    let q ← goDiv u d
    let rem1 := u - q * d
    let res1 ← wr MaxUnits res j (wrap32 q)
    divShortLoop lhsLsu d k (i - 1) (j - 1) rem1 res1

/-- Normalization loop (D1): `buf[j] = src[i] * normFactor + carry` limb by
limb; returns the buffer and the last carry. -/
def normLoop (size : Int) (src : List Int) (normFactor : Int) : Nat → Int → Int → Int →
    List Int → Except Fault (List Int × Int)
  | 0, _, _, carry, buf => .ok (buf, carry)
  | k + 1, i, j, carry, buf => do
    let x ← rd MaxUnits src i
    let v := x * normFactor + carry
    let carry1 := Int.tdiv v Unit
    let buf1 ← wr size buf j (wrap32 (v - carry1 * Unit))
    normLoop size src normFactor k (i + 1) (j + 1) carry1 buf1

/-- Loop `for qhat*vd1 > rhat*Unit+u2 { qhat--; rhat += vd0 }` (D3).  Every
round lowers `qhat` by one and the test fails once `qhat ≤ 0` when the limbs
are non-negative, so `qhat + 1` rounds of fuel are enough; running out of
fuel is reported as a panic. -/
def qhatAdjust (vd0 vd1 u2 : Int) : Nat → Int → Int → Except Fault (Int × Int)
  | 0, _, _ => .error .panic
  | k + 1, qhat, rhat =>
    if qhat * vd1 > rhat * Unit + u2 then qhatAdjust vd0 vd1 u2 k (qhat - 1) (rhat + vd0)
    else .ok (qhat, rhat)

/-- Multiply-and-subtract loop (D4) of `divAbs`: `k` indexes the divisor,
`msIdx` the dividend buffer; a negative `msIdx` subtracts from an implicit
zero limb and drops the difference. -/
def divMulSub (buf2 : List Int) (qhat : Int) : Nat → Int → Int → Int → Int → List Int →
    Except Fault (List Int × Int × Int)
  | 0, _, _, carry, borrow, buf1 => .ok (buf1, carry, borrow)
  | n + 1, k, msIdx, carry, borrow, buf1 => do
    let b ← rd MaxUnits buf2 k
    let mulV := qhat * b + carry
    let carry1 := Int.tdiv mulV Unit
    let mulV0 := mulV - carry1 * Unit
    if msIdx < 0 then
      let p := subWithBorrow 0 (wrap32 mulV0) borrow
      divMulSub buf2 qhat n (k + 1) (msIdx + 1) carry1 p.2 buf1
    else do
      let x ← rd DoubleMaxUnits buf1 msIdx
      let p := subWithBorrow x (wrap32 mulV0) borrow
      let buf1a ← wr DoubleMaxUnits buf1 msIdx p.1
      divMulSub buf2 qhat n (k + 1) (msIdx + 1) carry1 p.2 buf1a

/-- Add-back loop (D6) of `divAbs`: `for i := 0; i < rhsNonZero; i++ {
buf1[i+j], borrow = subWithBorrow(0, buf1[i+j], borrow) }`. -/
def divAddBack (j : Int) : Nat → Int → Int → List Int → Except Fault (List Int)
  | 0, _, _, buf1 => .ok buf1
  | n + 1, i, borrow, buf1 => do
    let x ← rd DoubleMaxUnits buf1 (i + j)
    let p := subWithBorrow 0 x borrow
    let buf1a ← wr DoubleMaxUnits buf1 (i + j) p.1
    divAddBack j n (i + 1) p.2 buf1a

/-- Main loop of the long division in `divAbs`, one quotient limb per round:
`for i, j = ..., resultStartIdx; j >= 0; i, j = i-1, j-1`. -/
def divLongLoop (buf2 : List Int) (rhsNonZero vd0 vd1 : Int) : Nat → Int → Int →
    List Int → List Int → Except Fault (List Int)
  | 0, _, _, _, res => .ok res
  | n + 1, i, j, buf1, res => do
    -- D3
    let u0 ← rd DoubleMaxUnits buf1 (i + 1)
    let u1 ← (if i ≥ 0 then rd DoubleMaxUnits buf1 i else pure 0)
    let v := u0 * Unit + u1
    let qhat0 ← goDiv v vd0
    let rhat0 := v - qhat0 * vd0
    assertTrue (decide (qhat0 < Unit))
    let u2 ← (if i > 0 then rd DoubleMaxUnits buf1 (i - 1) else pure 0)
    let (qhat1, _) ← qhatAdjust vd0 vd1 u2 (qhat0 + 1).toNat qhat0 rhat0
    -- D4
    let (buf1a, carry, borrow) ←
      divMulSub buf2 qhat1 (rhsNonZero + 1).toNat 0 (i - rhsNonZero) 0 0 buf1
    let msIdx := i - rhsNonZero + (rhsNonZero + 1).toNat
    let top ← rd DoubleMaxUnits buf1a msIdx
    let borrow1 := wrap32 (top - wrap32 carry + borrow)
    if borrow1 = -1 then do
      -- D6
      let buf1b ← divAddBack j rhsNonZero.toNat 0 0 buf1a
      let res1 ← wr MaxUnits res j (wrap32 (qhat1 - 1))
      divLongLoop buf2 rhsNonZero vd0 vd1 n (i - 1) (j - 1) buf1b res1
    else do
      let buf1b ← wr DoubleMaxUnits buf1a msIdx 0
      let res1 ← wr MaxUnits res j (wrap32 qhat1)
      divLongLoop buf2 rhsNonZero vd0 vd1 n (i - 1) (j - 1) buf1b res1

/-- Eighteen zero limbs (`var buf1 [MaxUnits * 2]int32`). -/
def zeroBuf : List Int := zeroUnits ++ zeroUnits

/-- The part of `divAbs` after both leading non-zero limbs are known. -/
def divAbsCore (lhs rhs : FixedDecimal) (incrFrac0 lhsNonZero rhsNonZero : Int) :
    Except Fault FixedDecimal := do
  let lhsFrac := lhs.Frac
  let lfu := getUnits lhsFrac
  let lhsExtFrac := lfu * DigitsPerUnit
  let rhsFrac := rhs.Frac
  let rfu := getUnits rhsFrac
  let rhsExtFrac := rfu * DigitsPerUnit
  let rtop ← rd MaxUnits rhs.lsu rhsNonZero
  let rhsPrec := rhsNonZero * DigitsPerUnit + DigitsPerUnit - unitLeadingZeroes rtop
  let lhsPrec := lhsNonZero * DigitsPerUnit + DigitsPerUnit - unitLeadingZeroes rtop
  let incrFrac1 := incrFrac0 - (lhsExtFrac - lhsFrac + rhsExtFrac - rhsFrac)
  let incrFrac := if incrFrac1 < 0 then 0 else incrFrac1
  let resultFracUnits0 := getUnits (lhsExtFrac + rhsExtFrac + incrFrac)
  let resultFracUnits1 :=
    if resultFracUnits0 > MaxFracUnits then MaxFracUnits else resultFracUnits0
  let resultIntg0 := (lhsPrec - lhsExtFrac) - (rhsPrec - rhsExtFrac)
  let ls ← slice MaxUnits lhs.lsu 0 (lhsNonZero + 1)
  let rs ← slice MaxUnits rhs.lsu 0 (rhsNonZero + 1)
  let ge := unitsGreaterEqual ls rs
  let resultIntg1 := if ge then resultIntg0 + 1 else resultIntg0
  let dividendShift : Int := if ge then 0 else -1
  if resultIntg1 > 0 ∧ getUnits resultIntg1 > MaxUnits then .error .DecErrOverflow
  else
    let resultIntgUnits := if resultIntg1 > 0 then getUnits resultIntg1 else 0
    let resultFracUnits :=
      if resultIntg1 > 0 ∧ resultIntgUnits + resultFracUnits1 > MaxUnits then
        MaxUnits - resultIntgUnits
      else resultFracUnits1
    let resultStartIdx :=
      if resultIntg1 > 0 then resultFracUnits + resultIntgUnits - 1
      else resultFracUnits - getUnits (1 - resultIntg1)
    let resultIntg := if resultIntg1 > 0 then resultIntg1 else 0
    let resultUnits := resultIntgUnits + resultFracUnits
    if rhsNonZero = 0 then do
      -- short division
      let d := rtop
      let rem0 ← (if dividendShift < 0 then rd MaxUnits lhs.lsu lhsNonZero else pure 0)
      let res ← divShortLoop lhs.lsu d (resultStartIdx + 1).toNat
        (lhsNonZero + dividendShift) resultStartIdx rem0 zeroUnits
      pure { intg := wrap8 resultIntg, frac := wrap8 (resultFracUnits * DigitsPerUnit), lsu := res }
    else do
      -- long division, D1
      let normFactor ← goDiv Unit (wrap32 (rtop + 1))
      let (buf1, buf2) ←
        (if normFactor = 1 then do
          let b1 ← copyTo DoubleMaxUnits zeroBuf resultUnits (resultUnits + lhsNonZero + 1) ls
          let b2 ← copyTo MaxUnits zeroUnits 0 (rhsNonZero + 1) rs
          pure (b1, b2)
        else do
          let (b1, carry1) ← normLoop DoubleMaxUnits lhs.lsu normFactor (lhsNonZero + 1).toNat
            0 resultUnits 0 zeroBuf
          let b1a ← wr DoubleMaxUnits b1 (resultUnits + (lhsNonZero + 1).toNat) (wrap32 carry1)
          let (b2, carry2) ← normLoop MaxUnits rhs.lsu normFactor (rhsNonZero + 1).toNat
            0 0 0 zeroUnits
          assertTrue (decide (carry2 = 0))
          pure (b1a, b2))
      let vd0 ← rd MaxUnits buf2 rhsNonZero
      let vd1 ← rd MaxUnits buf2 (rhsNonZero - 1)
      let res ← divLongLoop buf2 rhsNonZero vd0 vd1 (resultStartIdx + 1).toNat
        (resultUnits + lhsNonZero + dividendShift) resultStartIdx buf1 zeroUnits
      pure { intg := wrap8 resultIntg, frac := wrap8 (resultFracUnits * DigitsPerUnit), lsu := res }

def divAbs (lhs rhs : FixedDecimal) (incrFrac : Int) : Except Fault FixedDecimal := do
  let liu := getUnits lhs.Intg
  let lfu := getUnits lhs.Frac
  let riu := getUnits rhs.Intg
  let rfu := getUnits rhs.Frac
  let rhsNonZero ← leadingNonZero rhs.lsu (riu + rfu).toNat
  if rhsNonZero < 0 then .error .DecErrDivisionByZero
  else do
    let lhsNonZero ← leadingNonZero lhs.lsu (liu + lfu).toNat
    if lhsNonZero < 0 then pure DecimalZero
    else divAbsCore lhs rhs incrFrac lhsNonZero rhsNonZero

def DecimalDiv (lhs rhs : FixedDecimal) (incrFrac : Int) : Except Fault FixedDecimal := do
  let resultNeg := lhs.IsNeg != rhs.IsNeg
  let result ← divAbs lhs rhs incrFrac
  if resultNeg then pure result.setNegAndCheckZero else pure result

/-! ## Modulo kernel (`arith.go`) -/

/-- Short division loop of `modAbs`: `for i = ...; i >= stop; i-- { u =
rem*Unit + buf[i]; q = u / d; rem = u - q*d }`; returns the final `i` and
the remainder. -/
def modShortLoop (buf : List Int) (d stop : Int) : Nat → Int → Int → Except Fault (Int × Int)
  | 0, i, rem => .ok (i, rem)
  | k + 1, i, rem =>
    if i ≥ stop then do
      let x ← rd DoubleMaxUnits buf i
      let u := rem * Unit + x
      let q ← goDiv u d
      modShortLoop buf d stop k (i - 1) (u - q * d)
    else .ok (i, rem)

/-- Loop `for ; i >= 0; i-- { result.lsu[i] = buf[i]; if buf[i] > 0 &&
resultNonZero < 0 { resultNonZero = i } }` of `modAbs`. -/
def modCopyRest (buf : List Int) : Nat → Int → Int → List Int → Except Fault (List Int × Int)
  | 0, _, resultNonZero, res => .ok (res, resultNonZero)
  | k + 1, i, resultNonZero, res => do
    let x ← rd DoubleMaxUnits buf i
    let res1 ← wr MaxUnits res i x
    let nz := if x > 0 ∧ resultNonZero < 0 then i else resultNonZero
    modCopyRest buf k (i - 1) nz res1

/-- Multiply-and-subtract loop (D4) of `modAbs`. -/
def modMulSub (buf2 : List Int) (qhat : Int) : Nat → Int → Int → Int → Int → List Int →
    Except Fault (List Int × Int × Int)
  | 0, _, _, carry, borrow, buf1 => .ok (buf1, carry, borrow)
  | n + 1, k, msIdx, carry, borrow, buf1 => do
    let b ← rd DoubleMaxUnits buf2 k
    let mulV := qhat * b + carry
    let carry1 := Int.tdiv mulV Unit
    let mulV0 := mulV - carry1 * Unit
    let x ← rd DoubleMaxUnits buf1 msIdx
    let p := subWithBorrow x (wrap32 mulV0) borrow
    let buf1a ← wr DoubleMaxUnits buf1 msIdx p.1
    modMulSub buf2 qhat n (k + 1) (msIdx + 1) carry1 p.2 buf1a

/-- Add-back loop (D6) of `modAbs`: `for msIdx = i - buf2len + 1; k <
buf2len; k, msIdx = k+1, msIdx+1 { buf1[msIdx], borrow = subWithBorrow(0,
buf1[msIdx], borrow) }`; `k` keeps its value from the loop before. -/
def modAddBack : Nat → Int → Int → List Int → Except Fault (List Int × Int)
  | 0, msIdx, _, buf1 => .ok (buf1, msIdx)
  | n + 1, msIdx, borrow, buf1 => do
    let x ← rd DoubleMaxUnits buf1 msIdx
    let p := subWithBorrow 0 x borrow
    let buf1a ← wr DoubleMaxUnits buf1 msIdx p.1
    modAddBack n (msIdx + 1) p.2 buf1a

/-- Main loop of the long division in `modAbs`: `for i := buf1len +
dividendShift - 1; i >= stop; i--`. -/
def modLongLoop (buf2 : List Int) (buf2len stop vd0 vd1 : Int) : Nat → Int → List Int →
    Except Fault (List Int)
  | 0, _, buf1 => .ok buf1
  | n + 1, i, buf1 =>
    if i ≥ stop then do
      let u0 ← rd DoubleMaxUnits buf1 (i + 1)
      let u1 ← (if i ≥ 0 then rd DoubleMaxUnits buf1 i else pure 0)
      let v := u0 * Unit + u1
      let qhat0 ← goDiv v vd0
      let rhat0 := v - qhat0 * vd0
      assertTrue (decide (qhat0 < Unit))
      let u2 ← (if i > 0 then rd DoubleMaxUnits buf1 (i - 1) else pure 0)
      let (qhat1, _) ← qhatAdjust vd0 vd1 u2 (qhat0 + 1).toNat qhat0 rhat0
      let (buf1a, carry, borrow) ←
        modMulSub buf2 qhat1 buf2len.toNat 0 (i - buf2len + 1) 0 0 buf1
      let k : Int := buf2len.toNat
      let msIdx := i - buf2len + 1 + buf2len.toNat
      let top ← rd DoubleMaxUnits buf1a msIdx
      let borrow1 := wrap32 (top - wrap32 carry + borrow)
      let (buf1b, msIdx1) ←
        (if borrow1 = -1 then modAddBack (buf2len - k).toNat (i - buf2len + 1) 0 buf1a
        else pure (buf1a, msIdx))
      let buf1c ← wr DoubleMaxUnits buf1b msIdx1 0
      modLongLoop buf2 buf2len stop vd0 vd1 n (i - 1) buf1c
    else .ok buf1

/-- Last loop of `modAbs`: divide the remainder in `buf1` by `normFactor`,
`for i := buf1len - 1; i >= 0; i--`, skipping a round when `v == 0`. -/
def modUnnormalize (buf1 : List Int) (normFactor : Int) : Nat → Int → Int → Int → List Int →
    Except Fault (List Int × Int × Int)
  | 0, _, rem, resultNonZero, res => .ok (res, rem, resultNonZero)
  | n + 1, i, rem, resultNonZero, res => do
    let x ← rd DoubleMaxUnits buf1 i
    let v := rem * Unit + x
    if v = 0 then modUnnormalize buf1 normFactor n (i - 1) rem resultNonZero res
    else do
      let q ← goDiv v normFactor
      let rem1 := v - q * normFactor
      let nz := if q > 0 ∧ resultNonZero < 0 then i else resultNonZero
      let res1 ← wr MaxUnits res i (wrap32 q)
      modUnnormalize buf1 normFactor n (i - 1) rem1 nz res1

/-- The part of `modAbs` after both leading non-zero limbs are known. -/
def modAbsCore (lhs rhs : FixedDecimal) (lhsNonZero rhsNonZero : Int) :
    Except Fault FixedDecimal := do
  let lhsIntg := lhs.Intg
  let liu := getUnits lhsIntg
  let lhsFrac := lhs.Frac
  let lfu := getUnits lhsFrac
  let rhsIntg := rhs.Intg
  let riu := getUnits rhsIntg
  let rhsFrac := rhs.Frac
  let rfu := getUnits rhsFrac
  let lhsExtFrac := lfu * DigitsPerUnit
  let rhsExtFrac := rfu * DigitsPerUnit
  let cmp ← cmpAbsLsu liu lfu lhs.lsu riu rfu rhs.lsu
  if cmp < 0 then
    if rfu > lfu then do
      let src ← slice MaxUnits lhs.lsu 0 (lfu + liu)
      let res ← copyTo MaxUnits zeroUnits (rfu - lfu) (liu + rfu) src
      pure { intg := wrap8 lhsIntg, frac := wrap8 rhsFrac, lsu := res }
    else do
      let src ← slice MaxUnits lhs.lsu 0 (lfu + liu)
      let res ← copyTo MaxUnits zeroUnits 0 (lfu + liu) src
      pure { intg := wrap8 lhsIntg, frac := wrap8 (maxInt lhsFrac rhsFrac), lsu := res }
  else if cmp = 0 then
    pure { intg := 0, frac := wrap8 (maxInt lhsFrac rhsFrac), lsu := zeroUnits }
  else do
    let rtop ← rd MaxUnits rhs.lsu rhsNonZero
    let rhsPrec := rhsNonZero * DigitsPerUnit + DigitsPerUnit - unitLeadingZeroes rtop
    let lhsPrec := lhsNonZero * DigitsPerUnit + DigitsPerUnit - unitLeadingZeroes rtop
    let remainderFrac := maxInt lhsFrac rhsFrac
    let remainderFracUnits := getUnits remainderFrac
    let quotientIntg0 := (lhsPrec - lhsExtFrac) - (rhsPrec - rhsExtFrac)
    let ls ← slice MaxUnits lhs.lsu 0 (lhsNonZero + 1)
    let rs ← slice MaxUnits rhs.lsu 0 (rhsNonZero + 1)
    let ge := unitsGreaterEqual ls rs
    let _quotientIntg := if ge then quotientIntg0 + 1 else quotientIntg0
    let dividendShift : Int := if ge then 0 else -1
    let lhsLeftShiftUnits : Int := if lfu < rfu then rfu - lfu else 0
    let rhsLeftShiftUnits : Int := if lfu < rfu then 0 else if lfu > rfu then lfu - rfu else 0
    if rhsNonZero = 0 then do
      -- short division
      let d ← rd MaxUnits rhs.lsu 0
      let buflen := lhsLeftShiftUnits + lhsNonZero + 1
      let buf ← copyTo DoubleMaxUnits zeroBuf lhsLeftShiftUnits buflen ls
      let rem0 ← (if dividendShift < 0 then rd MaxUnits lhs.lsu lhsNonZero else pure 0)
      let stop := rhsNonZero + rhsLeftShiftUnits
      let i0 := buflen - 1 + dividendShift
      let (i1, rem) ← modShortLoop buf d stop (i0 + 1 - stop).toNat i0 rem0
      let (res1, nz1) ←
        (if rem > 0 then do
          let r ← wr MaxUnits zeroUnits (i1 + 1) (wrap32 rem)
          pure (r, i1 + 1)
        else pure (zeroUnits, (-1 : Int)))
      let (res2, resultNonZero) ← modCopyRest buf (i1 + 1).toNat i1 nz1 res1
      let intg :=
        if resultNonZero ≥ remainderFracUnits then wrap8 (resultNonZero + 1 - remainderFracUnits)
        else 0
      pure { intg := intg, frac := wrap8 remainderFrac, lsu := res2 }
    else do
      let buf1len := lhsNonZero + 1 + lhsLeftShiftUnits
      let buf2len := rhsNonZero + 1 + rhsLeftShiftUnits
      -- D1
      let normFactor ← goDiv Unit (wrap32 (rtop + 1))
      let (buf1, buf2) ←
        (if normFactor = 1 then do
          let b1 ← copyTo DoubleMaxUnits zeroBuf lhsLeftShiftUnits buf1len ls
          let b2 ← copyTo DoubleMaxUnits zeroBuf rhsLeftShiftUnits buf2len rs
          pure (b1, b2)
        else do
          let (b1, carry1) ← normLoop DoubleMaxUnits lhs.lsu normFactor (lhsNonZero + 1).toNat
            0 lhsLeftShiftUnits 0 zeroBuf
          let b1a ← wr DoubleMaxUnits b1 ((lhsNonZero + 1).toNat + lhsLeftShiftUnits)
            (wrap32 carry1)
          let (b2, carry2) ← normLoop DoubleMaxUnits rhs.lsu normFactor (rhsNonZero + 1).toNat
            0 rhsLeftShiftUnits 0 zeroBuf
          assertTrue (decide (carry2 = 0))
          pure (b1a, b2))
      let stop := buf2len - 1
      let vd0 ← rd DoubleMaxUnits buf2 (rhsNonZero + rhsLeftShiftUnits)
      let vd1 ← rd DoubleMaxUnits buf2 (rhsNonZero + rhsLeftShiftUnits - 1)
      let i0 := buf1len + dividendShift - 1
      let buf1r ← modLongLoop buf2 buf2len stop vd0 vd1 (i0 + 1 - stop).toNat i0 buf1
      let top ← rd DoubleMaxUnits buf1r buf1len
      assertTrue (decide (top = 0))
      let (res, rem, resultNonZero) ←
        modUnnormalize buf1r normFactor buf1len.toNat (buf1len - 1) 0 (-1) zeroUnits
      assertTrue (decide (rem = 0))
      let intg :=
        if resultNonZero ≥ remainderFracUnits then wrap8 (resultNonZero + 1 - remainderFracUnits)
        else 0
      pure { intg := intg, frac := wrap8 remainderFrac, lsu := res }

def modAbs (lhs rhs : FixedDecimal) : Except Fault FixedDecimal := do
  let liu := getUnits lhs.Intg
  let lfu := getUnits lhs.Frac
  let riu := getUnits rhs.Intg
  let rfu := getUnits rhs.Frac
  let rhsNonZero ← leadingNonZero rhs.lsu (riu + rfu).toNat
  if rhsNonZero < 0 then .error .DecErrDivisionByZero
  else do
    let lhsNonZero ← leadingNonZero lhs.lsu (liu + lfu).toNat
    if lhsNonZero < 0 then pure DecimalZero
    else modAbsCore lhs rhs lhsNonZero rhsNonZero

def DecimalMod (lhs rhs : FixedDecimal) : Except Fault FixedDecimal := do
  let resultNeg := lhs.IsNeg
  let result ← modAbs lhs rhs
  if resultNeg then pure result.setNegAndCheckZero else pure result

/-! ## Rounding (`round.go`) -/

/-- One arm of the `switch roundPos` in `roundHalfUp`: round the limb `v` at
digit position `roundPos` (1..8); returns the new limb and whether it
overflowed into a carry.  Any other `roundPos` reaches `panic("unreachable")`. -/
def roundUnit (roundPos v : Int) : Except Fault (Int × Bool) :=
  if 1 ≤ roundPos ∧ roundPos ≤ 8 then
    let p : Int := 10 ^ roundPos.toNat
    let r := Int.tmod v p
    let v1 := wrap32 (v - r)
    let v2 := if r ≥ 5 * 10 ^ (roundPos.toNat - 1) then wrap32 (v1 + p) else v1
    if v2 ≥ Unit then .ok (wrap32 (v2 - Unit), true) else .ok (v2, false)
  else .error .panic

/-- Loop `for ; carry > 0 && roundIdx < endIdx; roundIdx++ { fd.lsu[roundIdx],
carry = addWithCarry(fd.lsu[roundIdx], 0, carry) }`. -/
def roundCarry (endIdx : Int) : Nat → Int → Int → List Int → Except Fault (List Int × Int)
  | 0, _, carry, lsu => .ok (lsu, carry)
  | k + 1, roundIdx, carry, lsu =>
    if carry > 0 ∧ roundIdx < endIdx then do
      let x ← rd MaxUnits lsu roundIdx
      let p := addWithCarry x 0 carry
      let lsu1 ← wr MaxUnits lsu roundIdx p.1
      roundCarry endIdx k (roundIdx + 1) p.2 lsu1
    else .ok (lsu, carry)

/-- Loop `for i := from; i < to; i++ { lsu[i] = 0 }`; the first argument is
the number of rounds. -/
def zeroRange : Nat → Int → List Int → Except Fault (List Int)
  | 0, _, lsu => .ok lsu
  | k + 1, i, lsu => do
    let lsu1 ← wr MaxUnits lsu i 0
    zeroRange k (i + 1) lsu1

def roundHalfUp (fd : FixedDecimal) (intgUnits fracUnits trunc roundFrac carry0 : Int) :
    Except Fault FixedDecimal := do
  let roundIdx0 := div9 trunc
  let roundPos := mod9 trunc
  let clearIdx := roundIdx0
  let (lsu1, carry1, roundIdx1) ←
    (if roundPos ≠ 0 then do
      let v ← rd MaxUnits fd.lsu roundIdx0
      let (v1, c) ← roundUnit roundPos v
      let l ← wr MaxUnits fd.lsu roundIdx0 v1
      pure (l, (if c then 1 else carry0), roundIdx0 + 1)
    else pure (fd.lsu, carry0, roundIdx0))
  let endIdx := intgUnits + fracUnits
  let (lsu2, carry2) ← roundCarry endIdx (endIdx - roundIdx1).toNat roundIdx1 carry1 lsu1
  let (lsu3, intgUnits1) ←
    (if carry2 > 0 then do
      let l ← wr MaxUnits lsu2 endIdx 1
      pure (l, intgUnits + 1)
    else pure (lsu2, intgUnits))
  let lsu4 ← zeroRange clearIdx.toNat 0 lsu3
  let neg := fd.IsNeg
  let fd1 : FixedDecimal :=
    { intg := wrap8 (intgUnits1 * DigitsPerUnit), frac := roundFrac, lsu := lsu4 }
  if neg then pure fd1.setNeg else pure fd1

namespace FixedDecimal

def Round (fd : FixedDecimal) (frac : Int) : Except Fault FixedDecimal := do
  let thisFrac := fd.Frac
  let intgUnits := fd.IntgUnits
  let fracUnits := fd.FracUnits
  if frac ≥ thisFrac then
    let roundFracUnits := getUnits frac
    if roundFracUnits = fracUnits then
      pure { fd with frac := wrap8 frac }
    else do
      let src ← slice MaxUnits fd.lsu 0 (fracUnits + intgUnits)
      let lsu1 ← copyTo MaxUnits fd.lsu (roundFracUnits - fracUnits) (roundFracUnits + intgUnits) src
      pure { fd with lsu := lsu1, frac := wrap8 frac }
  else if frac < 0 then
    let intg := -frac
    if intg + 1 > fd.Intg then pure fd.SetZero
    else do
      let src ← slice MaxUnits fd.lsu fracUnits (fracUnits + intgUnits)
      let lsu1 ← copyTo MaxUnits fd.lsu 0 intgUnits src
      let lsu2 ← zeroRange fracUnits.toNat intgUnits lsu1
      roundHalfUp { fd with lsu := lsu2 } intgUnits 0 intg 0 0
  else
    let roundFrac := wrap8 frac
    let roundFracUnits := getUnits (frac + 1)
    if roundFracUnits < fracUnits then do
      let atEdge := decide (mod9 frac = 0)
      let carry ← (if atEdge then do
          let x ← rd MaxUnits fd.lsu (fracUnits - roundFracUnits)
          pure (if unitGreaterEqualHalf x then (1 : Int) else 0)
        else pure 0)
      let roundFracUnits1 := if atEdge then roundFracUnits - 1 else roundFracUnits
      let src ← slice MaxUnits fd.lsu (fracUnits - roundFracUnits1) (fracUnits + intgUnits)
      let lsu1 ← copyTo MaxUnits fd.lsu 0 (roundFracUnits1 + intgUnits) src
      let lsu2 ← zeroRange (fracUnits - roundFracUnits1).toNat (roundFracUnits1 + intgUnits) lsu1
      roundHalfUp { fd with lsu := lsu2 } intgUnits roundFracUnits1
        (roundFracUnits1 * DigitsPerUnit - frac) roundFrac carry
    else if roundFracUnits > fracUnits then .error .panic
    else if mod9 frac = 0 then do
      let x ← rd MaxUnits fd.lsu 0
      let carry : Int := if unitGreaterEqualHalf x then 1 else 0
      let src ← slice MaxUnits fd.lsu 1 (fracUnits + intgUnits)
      let lsu1 ← copyTo MaxUnits fd.lsu 0 (fracUnits + intgUnits - 1) src
      let lsu2 ← zeroRange ((fracUnits + intgUnits) - (roundFracUnits + intgUnits - 1)).toNat
        (roundFracUnits + intgUnits - 1) lsu1
      roundHalfUp { fd with lsu := lsu2 } intgUnits (fracUnits - 1)
        ((fracUnits - 1) * DigitsPerUnit - frac) roundFrac carry
    else
      roundHalfUp fd intgUnits fracUnits (fracUnits * DigitsPerUnit - frac) roundFrac 0

end FixedDecimal

/-! ## String codec (`serde.go`) -/

/-- Indexed read `bs[i]` of a byte slice; panics out of range. -/
def rdB (bs : List Nat) (i : Int) : Except Fault Nat :=
  if 0 ≤ i ∧ i < bs.length then .ok (bs.getD i.toNat 0) else .error .panic

/-- The bytes of an ASCII string literal. -/
def bytes (s : String) : List Nat := s.toList.map Char.toNat

/-- Variables of the first loop of `DecimalFromBytesString`. -/
structure ScanState where
  d : Int
  dotchar : Int
  last : Int
  cfirst : Int
  neg : Bool
  i : Int
  c : Nat
  moreToProcess : Bool
  deriving DecidableEq, Repr

/-- First loop of `DecimalFromBytesString`: `for i, c = range bs`. -/
def scanLoop : List Nat → Int → ScanState → ScanState
  | [], _, st => st
  | c :: cs, i, st =>
    let st1 := { st with i := i, c := c }
    if c ≥ 48 ∧ c ≤ 57 then scanLoop cs (i + 1) { st1 with last := i, d := st1.d + 1 }
    else if c = 46 ∧ st1.dotchar = -1 then
      scanLoop cs (i + 1)
        { st1 with dotchar := i, cfirst := if i = st1.cfirst then st1.cfirst + 1 else st1.cfirst }
    else if i = 0 ∧ c = 45 then scanLoop cs (i + 1) { st1 with cfirst := st1.cfirst + 1, neg := true }
    else if i = 0 ∧ c = 43 then scanLoop cs (i + 1) { st1 with cfirst := st1.cfirst + 1 }
    else { st1 with moreToProcess := true }

/-- ASCII lower-casing of a byte. -/
def lowerByte (c : Nat) : Nat := if 65 ≤ c ∧ c ≤ 90 then c + 32 else c

/-- Modelled from the spec: `decBiStr` and the `decStrInfinity*` constants
are missing from the sources; the spec accepts `inf` and `infinity`
case-insensitively. -/
def isInfinityToken (bs : List Nat) : Bool :=
  decide (bs.map lowerByte = bytes "inf") || decide (bs.map lowerByte = bytes "infinity")

/-- Loop `for cfirst = i; cfirst < len(bs); cfirst++ { if bs[cfirst] != '0' {
return DecErrConversionSyntax } }` on the rest of the input. -/
def allZeroDigits : List Nat → Bool
  | [] => true
  | c :: cs => if c ≠ 48 then false else allZeroDigits cs

/-- Loop `for { c = bs[i]; if c == '0' && i != len(bs)-1 { i++ } else {
break } }`; returns the final `i`. -/
def skipExpZeros (bs : List Nat) : Nat → Int → Except Fault Int
  | 0, _ => .error .panic
  | k + 1, i => do
    let c ← rdB bs i
    if c = 48 ∧ i ≠ (bs.length : Int) - 1 then skipExpZeros bs k (i + 1) else .ok i

/-- Loop `for ; i < len(bs); i++` accumulating the exponent; returns the
final `i` and `exp`. -/
def expDigits (bs : List Nat) : Nat → Int → Int → Except Fault (Int × Int)
  | 0, i, exp => .ok (i, exp)
  | k + 1, i, exp =>
    if i < bs.length then do
      let c ← rdB bs i
      if c < 48 ∨ c > 57 then .error .DecErrConversionSyntax
      else expDigits bs k (i + 1) (exp * 10 + (c : Int) - 48)
    else .ok (i, exp)

/-- Integer part loop `for ; ; i++` of `DecimalFromBytesString`; returns the
limbs, `up`, `out`, `cut` and the final `i`. -/
def parseIntgLoop (bs : List Nat) (last : Int) : Nat → Int → Int → Int → Int → List Int →
    Except Fault (List Int × Int × Int × Int × Int)
  | 0, _, _, _, _, _ => .error .panic
  | k + 1, i, up, out, cut, lsu => do
    let c ← rdB bs i
    if c = 46 then parseIntgLoop bs last k (i + 1) up out cut lsu
    else
      let out1 := out * 10 + (c : Int) - 48
      let cut1 := cut - 1
      if cut1 = 0 then .ok (lsu, up, out1, cut1, i)
      else if i = last then .ok (lsu, up, out1, cut1, i)
      else if mod9 cut1 > 0 then parseIntgLoop bs last k (i + 1) up out1 cut1 lsu
      else do
        let lsu1 ← wr MaxUnits lsu up (wrap32 out1)
        parseIntgLoop bs last k (i + 1) (up - 1) 0 cut1 lsu1

/-- Loops `for ; cut > 0; cut -= DigitsPerUnit { result.lsu[up] = 0; up-- }`
(threshold 1) and `for ; headingZeros >= DigitsPerUnit; headingZeros -=
DigitsPerUnit { result.lsu[up] = 0; up-- }` (threshold 9); returns the limbs,
`up` and the counter. -/
def zeroDown (threshold : Int) : Nat → Int → Int → List Int → Except Fault (List Int × Int × Int)
  | 0, up, cnt, lsu => .ok (lsu, up, cnt)
  | k + 1, up, cnt, lsu =>
    if cnt ≥ threshold then do
      let lsu1 ← wr MaxUnits lsu up 0
      zeroDown threshold k (up - 1) (cnt - DigitsPerUnit) lsu1
    else .ok (lsu, up, cnt)

/-- Fractional part loop `for ; ; i++` of `DecimalFromBytesString`; returns
the limbs, `up` and `out`. -/
def parseFracLoop (bs : List Nat) (last : Int) : Nat → Int → Int → Int → Int → List Int →
    Except Fault (List Int × Int × Int)
  | 0, _, _, _, _, _ => .error .panic
  | k + 1, i, up, out, cut, lsu => do
    let c ← rdB bs i
    if c = 46 then parseFracLoop bs last k (i + 1) up out cut lsu
    else do
      let cut1 := cut - 1
      let pw ← pow10 cut1
      let out1 := out + ((c : Int) - 48) * pw
      if i = last then .ok (lsu, up, out1)
      else if cut1 > 0 then parseFracLoop bs last k (i + 1) up out1 cut1 lsu
      else do
        let lsu1 ← wr MaxUnits lsu up (wrap32 out1)
        parseFracLoop bs last k (i + 1) (up - 1) 0 DigitsPerUnit lsu1

/-- The branch `last == -1` of `DecimalFromBytesString`: infinities and NaNs. -/
def parseSpecial (bs : List Nat) (st : ScanState) : Except Fault FixedDecimal :=
  if st.i = (bs.length : Int) - 1 then .error .DecErrConversionSyntax
  else if st.dotchar ≠ -1 then .error .DecErrConversionSyntax
  else if isInfinityToken (bs.drop st.i.toNat) then .ok DecimalZero.setInf
  else do
    let c0 ← rdB bs st.i
    if c0 ≠ 110 ∧ c0 ≠ 78 then .error .DecErrConversionSyntax
    else do
      let c1 ← rdB bs (st.i + 1)
      if c1 ≠ 97 ∧ c1 ≠ 65 then .error .DecErrConversionSyntax
      else do
        let c2 ← rdB bs (st.i + 2)
        if c2 ≠ 110 ∧ c2 ≠ 78 then .error .DecErrConversionSyntax
        else if allZeroDigits (bs.drop (st.i + 3).toNat) then .ok DecimalZero.setNaN
        else .error .DecErrConversionSyntax

/-- The branch `moreToProcess` of `DecimalFromBytesString`: the exponent. -/
def parseExponent (bs : List Nat) (i0 : Int) : Except Fault Int := do
  let c ← rdB bs i0
  if c ≠ 101 ∧ c ≠ 69 then .error .DecErrConversionSyntax
  else do
    let c1 ← rdB bs (i0 + 1)
    let nege := decide (c1 = 45)
    let i1 := if c1 = 45 then i0 + 2 else if c1 = 43 then i0 + 2 else i0 + 1
    if i1 = bs.length then .error .DecErrConversionSyntax
    else do
      let firstexp ← skipExpZeros bs (bs.length + 1) i1
      let (i2, exp) ← expDigits bs (bs.length + 1) firstexp 0
      if i2 ≥ firstexp + 4 then .error .DecErrConversionSyntax
      else if (!nege ∧ exp > MaxDigits) ∨ (nege ∧ exp > MaxFrac) then
        .error .DecErrConversionSyntax
      else pure (if nege then -exp else exp)

/-- The limb-filling part of `DecimalFromBytesString`, after the syntax has
been accepted and `exp` is known. -/
def parseFill (bs : List Nat) (result : FixedDecimal) (st : ScanState) (exp : Int) :
    Except Fault FixedDecimal := do
  let fracDigits : Int :=
    if st.dotchar = -1 ∨ st.last < st.dotchar then 0 else st.last - st.dotchar
  let frac0 := fracDigits - exp
  let digits : Int :=
    if frac0 = 0 then st.d
    else if frac0 > 0 then (if st.d > frac0 then st.d else frac0)
    else st.d - frac0
  let headingZeros : Int := if frac0 > 0 ∧ ¬ st.d > frac0 then frac0 - st.d else 0
  let frac : Int := if frac0 < 0 then 0 else frac0
  if digits > MaxDigits then .error .DecErrConversionSyntax
  else do
    let intgUnits := getUnits (digits - frac)
    let fracUnits := getUnits frac
    let up0 := intgUnits + fracUnits - 1
    let (lsu1, up1, i1) ←
      (if intgUnits > 0 then do
        let (l, up, out, cut, i) ←
          parseIntgLoop bs st.last (bs.length + 1) st.cfirst up0 0 (digits - frac) result.lsu
        let re := mod9 cut
        let pw ← pow10 re
        let l1 ← wr MaxUnits l up (wrap32 (out * pw))
        let (l2, up2, _) ← zeroDown 1 (cut - re).toNat (up - 1) (cut - re) l1
        pure (l2, up2, i + 1)
      else pure (result.lsu, up0, st.cfirst))
    let lsu2 ←
      (if fracUnits > 0 then do
        let (l, up, hz) ← zeroDown DigitsPerUnit headingZeros.toNat up1 headingZeros lsu1
        let (l1, up2, out) ← parseFracLoop bs st.last (bs.length + 1) i1 up 0 (DigitsPerUnit - hz) l
        wr MaxUnits l1 up2 (wrap32 out)
      else pure lsu1)
    let fd : FixedDecimal := { intg := wrap8 (digits - frac), frac := wrap8 frac, lsu := lsu2 }
    if st.neg then pure fd.setNeg else pure fd

/-- `DecimalFromBytesString(bs, result)`: the second argument is the prior
content of the destination, the value is its content on return. -/
def DecimalFromBytesString (bs : List Nat) (result : FixedDecimal) : Except Fault FixedDecimal :=
  let st := scanLoop bs 0
    { d := 0, dotchar := -1, last := -1, cfirst := 0, neg := false, i := 0, c := 0,
      moreToProcess := false }
  if st.last = -1 then parseSpecial bs st
  else if st.moreToProcess then do
    let exp ← parseExponent bs st.i
    parseFill bs result st exp
  else parseFill bs result st 0

def DecimalFromAsciiString (s : String) (result : FixedDecimal) : Except Fault FixedDecimal :=
  DecimalFromBytesString (bytes s) result

/-- Modelled from the spec: `BinHighUnit` is missing from the sources; the
weight of the high three-digit group of a limb. -/
def BinHighUnit : Int := 1000000

/-- Modelled from the spec: `BinMidUnit` is missing from the sources; the
weight of the middle three-digit group of a limb. -/
def BinMidUnit : Int := 1000

/-- Modelled from the spec: the table `BIN2CHAR` is missing from the sources;
the slice `BIN2CHAR[v*4+1 : v*4+1+n]` holds the first `n` of the three decimal
digits of `v`; an index outside the table panics. -/
def bin2char (v : Int) (n : Int) : Except Fault (List Nat) :=
  if 0 ≤ v ∧ v < 1000 ∧ 0 ≤ n ∧ n ≤ 3 then
    .ok (([v.toNat / 100 + 48, v.toNat / 10 % 10 + 48, v.toNat % 10 + 48] : List Nat).take n.toNat)
  else .error .panic

/-- Modelled from the spec: `d3str` is missing from the sources; it appends
the three digits of `v`, suppressing leading zeros while
`eliminateHeadingZeros` is set, and clears the flag once a digit is written. -/
def d3str (v : Int) (buf : List Nat) (eliminateHeadingZeros : Bool) :
    Except Fault (List Nat × Bool) := do
  let ds ← bin2char v 3
  if eliminateHeadingZeros then
    let ds1 := ds.dropWhile (fun c => c == 48)
    pure (buf ++ ds1, ds1.isEmpty)
  else pure (buf ++ ds, false)

/-- Integer part loop of `AppendStringBuffer`: `for ; up >= fracUnits; up--`. -/
def appendIntg (lsu : List Int) (fracUnits : Int) : Nat → Int → List Nat → Bool →
    Except Fault (List Nat × Int)
  | 0, up, buf, _ => .ok (buf, up)
  | k + 1, up, buf, elim =>
    if up ≥ fracUnits then do
      let uv ← rd MaxUnits lsu up
      if elim ∧ uv = 0 then appendIntg lsu fracUnits k (up - 1) (buf ++ [48]) false
      else do
        let (buf1, elim1, uv1) ←
          (if uv ≥ BinHighUnit then do
            let high := Int.tdiv uv BinHighUnit
            let (b, e) ← d3str high buf elim
            pure (b, e, wrap32 (uv - wrap32 (high * BinHighUnit)))
          else do
            let (b, e) ← d3str 0 buf elim
            pure (b, e, uv))
        let (buf2, elim2, uv2) ←
          (if uv1 ≥ BinMidUnit then do
            let mid := Int.tdiv uv1 BinMidUnit
            let (b, e) ← d3str mid buf1 elim1
            pure (b, e, wrap32 (uv1 - wrap32 (mid * BinMidUnit)))
          else do
            let (b, e) ← d3str 0 buf1 elim1
            pure (b, e, uv1))
        let (buf3, elim3) ← d3str uv2 buf2 elim2
        appendIntg lsu fracUnits k (up - 1) buf3 elim3
    else .ok (buf, up)

/-- One three-digit group of `appendFrac`: appends `min(fracDigits, 3)` digits
of `v`; returns the buffer and the remaining `fracDigits`. -/
def fracGroup (v : Int) (fracDigits : Int) (buf : List Nat) : Except Fault (List Nat × Int) :=
  if fracDigits < 3 then do
    let ds ← bin2char v fracDigits
    pure (buf ++ ds, 0)
  else do
    let ds ← bin2char v 3
    pure (buf ++ ds, fracDigits - 3)

/-- `appendFrac(fd, up, fracDigits, buf)`: `for ; up >= 0; up--`.  The three
groups of a non-zero limb are written by `fracGroup`; a `break` of the source
is a return of the buffer.  In the source a group whose value is zero (limb
below `BinHighUnit`, rest below `BinMidUnit`) is written from `BIN2CHAR[1:]`
without a `break`, a non-zero group with `fracDigits < 3` breaks. -/
def appendFrac (lsu : List Int) : Nat → Int → Int → List Nat → Except Fault (List Nat)
  | 0, _, _, buf => .ok buf
  | k + 1, up, fracDigits, buf =>
    if up ≥ 0 then
      if fracDigits = 0 then .ok buf
      else do
        let uv ← rd MaxUnits lsu up
        if uv = 0 then
          if fracDigits > DigitsPerUnit then
            appendFrac lsu k (up - 1) (fracDigits - DigitsPerUnit) (buf ++ List.replicate 9 48)
          else .ok (buf ++ List.replicate fracDigits.toNat 48)
        else do
          -- XXX,xxx,xxx
          let high := if uv ≥ BinHighUnit then Int.tdiv uv BinHighUnit else 0
          let (buf1, fd1) ← fracGroup high fracDigits buf
          if uv ≥ BinHighUnit ∧ fracDigits < 3 then .ok buf1
          else
            let uv1 := if uv ≥ BinHighUnit then wrap32 (uv - wrap32 (high * BinHighUnit)) else uv
            -- xxx,XXX,xxx
            if uv1 ≥ BinMidUnit ∧ fd1 = 0 then .ok buf1
            else do
              let mid := if uv1 ≥ BinMidUnit then Int.tdiv uv1 BinMidUnit else 0
              let (buf2, fd2) ← fracGroup mid fd1 buf1
              if uv1 ≥ BinMidUnit ∧ fd1 < 3 then .ok buf2
              else
                let uv2 := if uv1 ≥ BinMidUnit then wrap32 (uv1 - wrap32 (mid * BinMidUnit)) else uv1
                -- xxx,xxx,XXX
                if fd2 = 0 then .ok buf2
                else do
                  let (buf3, fd3) ← fracGroup uv2 fd2 buf2
                  if fd2 < 3 then .ok buf3
                  else appendFrac lsu k (up - 1) fd3 buf3
    else .ok buf

namespace FixedDecimal

/-- `AppendStringBuffer(buf, frac)`; the texts appended for the special states
are modelled from the spec (`"Infinity"`, `"NaN"`), the constants
`decStrInfinityOutput` and `decStrNaNOutput` being missing from the sources. -/
def AppendStringBuffer (fd : FixedDecimal) (buf0 : List Nat) (frac : Int) :
    Except Fault (List Nat) := do
  let buf := if fd.IsNeg then buf0 ++ [45] else buf0
  if fd.IsInf then pure (buf ++ bytes "Infinity")
  else if fd.IsNaN then pure (buf ++ bytes "NaN")
  else do
    let intgUnits := fd.IntgUnits
    let fracUnits := fd.FracUnits
    let up0 := intgUnits + fracUnits - 1
    let (buf1, up) ←
      (if intgUnits > 0 then appendIntg fd.lsu fracUnits (up0 + 1 - fracUnits).toNat up0 buf true
      else pure (buf ++ [48], up0))
    if frac = 0 then pure buf1
    else if frac < 0 then
      if fracUnits > 0 then appendFrac fd.lsu (up + 1).toNat up fd.Frac (buf1 ++ [46])
      else pure buf1
    else if fracUnits = 0 then pure (buf1 ++ [46] ++ List.replicate frac.toNat 48)
    else
      let fullFracDigits := fracUnits * DigitsPerUnit
      if frac ≤ fullFracDigits then appendFrac fd.lsu (up + 1).toNat up frac (buf1 ++ [46])
      else do
        let buf2 ← appendFrac fd.lsu (up + 1).toNat up fullFracDigits (buf1 ++ [46])
        pure (buf2 ++ List.replicate (frac - fullFracDigits).toNat 48)

def ToString (fd : FixedDecimal) (frac : Int) : Except Fault (List Nat) :=
  fd.AppendStringBuffer [] frac

end FixedDecimal

/-! ## Denotation of a decimal -/

/-- Value of the lowest `n` limbs: the sum of `l[i] * Unit^i` for `i < n`. -/
def limbsVal (l : List Int) : Nat → Int
  | 0 => 0
  | n + 1 => limbsVal l n + l.getD n 0 * Unit ^ n

namespace FixedDecimal

/-- Number of limbs in use: `IntgUnits() + FracUnits()`. -/
def units (fd : FixedDecimal) : Nat := (fd.IntgUnits + fd.FracUnits).toNat

/-- The magnitude times `Unit^FracUnits`: the limbs in use read as one integer. -/
def scaled (fd : FixedDecimal) : Int := limbsVal fd.lsu fd.units

/-- The magnitude denoted by the limbs in use: the fractional limbs are the
low `FracUnits()` limbs. -/
def absValue (fd : FixedDecimal) : ℚ := (fd.scaled : ℚ) / ((Unit : Int) : ℚ) ^ fd.FracUnits.toNat

/-- The rational number denoted by a non-special decimal. -/
def value (fd : FixedDecimal) : ℚ := if fd.IsNeg then -fd.absValue else fd.absValue

/-- A valid non-special decimal: the fields are `int8` values with the NaN
and Inf bits clear, there are nine limbs, each in `[0, 10^9)`, and
`IntgUnits() + FracUnits() ≤ 9`. -/
def Valid (fd : FixedDecimal) : Prop :=
  -128 ≤ fd.intg ∧ fd.intg ≤ 127 ∧ 0 ≤ fd.frac ∧ fd.frac < 64 ∧ fd.lsu.length = 9 ∧
  (∀ x ∈ fd.lsu, 0 ≤ x ∧ x < Unit) ∧ fd.IntgUnits + fd.FracUnits ≤ MaxUnits

instance (fd : FixedDecimal) : Decidable fd.Valid := by
  unfold Valid; infer_instance

/-- No limb in use is non-zero. -/
def unitsInUseZero (fd : FixedDecimal) : Prop := ∀ i : Nat, i < fd.units → fd.lsu.getD i 0 = 0

end FixedDecimal

deriving instance DecidableEq for Except

/-- Sign of a rational as the comparator reports it: `-1`, `0` or `1`. -/
def signOf (q : ℚ) : Int := if q < 0 then -1 else if q = 0 then 0 else 1

/-! ## Concrete decimals used in the evaluations below -/

/-- The decimal `1` as the parser returns it. -/
def decOne : FixedDecimal := { intg := 1, frac := 0, lsu := [1, 0, 0, 0, 0, 0, 0, 0, 0] }

/-- The parsed `1234567890123456789012345678901234567.1234567890123456789012345678`
(37 integer and 28 fractional digits: all nine limbs in use). -/
def decNineLimbs : FixedDecimal :=
  { intg := 37, frac := 28
    lsu := [800000000, 901234567, 12345678, 123456789, 901234567, 12345678, 123456789,
      234567890, 1] }

/-- The parsed `500000000.0000000001`. -/
def decDivisor : FixedDecimal :=
  { intg := 9, frac := 10, lsu := [100000000, 0, 500000000, 0, 0, 0, 0, 0, 0] }

/-- What `DecimalDiv` returns for `1 / 500000000.0000000001` with `incrFrac = 4`. -/
def decQuotient : FixedDecimal := { intg := 0, frac := 18, lsu := [3, 1, 0, 0, 0, 0, 0, 0, 0] }

/-- The parsed `3000000000`. -/
def decThreeE9 : FixedDecimal := { intg := 10, frac := 0, lsu := [0, 3, 0, 0, 0, 0, 0, 0, 0] }

/-- The parsed `2000000000`. -/
def decTwoE9 : FixedDecimal := { intg := 10, frac := 0, lsu := [0, 2, 0, 0, 0, 0, 0, 0, 0] }

/-- What `DecimalMod` returns for `3000000000 mod 2000000000`. -/
def decRemainder : FixedDecimal := { intg := 2, frac := 0, lsu := [0, 1, 0, 0, 0, 0, 0, 0, 0] }

/-- A dot followed by 63 zeros and a one: 64 fractional digits. -/
def text64Frac : String := ".0000000000000000000000000000000000000000000000000000000000000001"

/-- What the parser returns for `text64Frac`. -/
def dec64Frac : FixedDecimal := { intg := 0, frac := 64, lsu := [100000000, 0, 0, 0, 0, 0, 0, 0, 0] }

/-- What the parser returns for `-0`: zero limbs with the sign bit set. -/
def decNegZero : FixedDecimal := { intg := -127, frac := 0, lsu := zeroUnits }

/-- The value one stored with ten fractional digits (two fractional limbs). -/
def decOneFrac10 : FixedDecimal := { intg := 1, frac := 10, lsu := [0, 0, 1, 0, 0, 0, 0, 0, 0] }

/-- The value one stored with two fractional digits and a zero upper integer limb. -/
def decOneIntg10 : FixedDecimal := { intg := 10, frac := 2, lsu := [0, 1, 0, 0, 0, 0, 0, 0, 0] }

/-- Seventy-two nines before the point and two after it: all nine limbs in use. -/
def decAllNines : FixedDecimal :=
  { intg := 72, frac := 2
    lsu := [990000000, 999999999, 999999999, 999999999, 999999999, 999999999, 999999999,
      999999999, 999999999] }

/-- The parsed `999999999999999999.95`. -/
def decRoundInput : FixedDecimal :=
  { intg := 18, frac := 2, lsu := [950000000, 999999999, 999999999, 0, 0, 0, 0, 0, 0] }

/-- The parsed `1` followed by 64 zeros (65 digits, eight integer limbs). -/
def decTenPow64 : FixedDecimal := { intg := 65, frac := 0, lsu := [0, 0, 0, 0, 0, 0, 0, 10, 0] }

/-- The parsed `0.0000000001` (ten fractional digits, two fractional limbs). -/
def decTenPowNeg10 : FixedDecimal :=
  { intg := 1, frac := 10, lsu := [100000000, 0, 0, 0, 0, 0, 0, 0, 0] }

/-- The parsed `999999999`. -/
def decNines9 : FixedDecimal := { intg := 9, frac := 0, lsu := [999999999, 0, 0, 0, 0, 0, 0, 0, 0] }

/-- The parsed `1.00000000001`. -/
def decSubLhs : FixedDecimal := { intg := 1, frac := 11, lsu := [10000000, 0, 1, 0, 0, 0, 0, 0, 0] }

/-- The parsed `1000.01`. -/
def decSubRhs : FixedDecimal := { intg := 4, frac := 2, lsu := [10000000, 1000, 0, 0, 0, 0, 0, 0, 0] }

/-! ## NaN and infinity dispatch (`arith.go`) -/

/-- The destination keeps its prior content on the two special paths: only the
flag bit is or-ed in; the kernel path rebuilds the destination. -/
def DecimalAddAny (lhs rhs result : FixedDecimal) : Except Fault FixedDecimal :=
  if lhs.IsNaN || rhs.IsNaN then .ok result.setNaN
  else if lhs.IsInf || rhs.IsInf then .ok result.setInf
  else DecimalAdd lhs rhs

def DecimalSubAny (lhs rhs result : FixedDecimal) : Except Fault FixedDecimal :=
  if lhs.IsNaN || rhs.IsNaN then .ok result.setNaN
  else if lhs.IsInf || rhs.IsInf then .ok result.setInf
  else DecimalSub lhs rhs

def DecimalMulAny (lhs rhs result : FixedDecimal) : Except Fault FixedDecimal :=
  if lhs.IsNaN || rhs.IsNaN then .ok result.setNaN
  else if lhs.IsInf || rhs.IsInf then .ok result.setInf
  else DecimalMul lhs rhs

def DecimalDivAny (lhs rhs result : FixedDecimal) (incrFrac : Int) : Except Fault FixedDecimal :=
  if lhs.IsNaN || rhs.IsNaN then .ok result.setNaN
  else if lhs.IsInf || rhs.IsInf then .ok result.setInf
  else DecimalDiv lhs rhs incrFrac

def DecimalModAny (lhs rhs result : FixedDecimal) : Except Fault FixedDecimal :=
  if lhs.IsNaN || rhs.IsNaN then .ok result.setNaN
  else if lhs.IsInf || rhs.IsInf then .ok result.setInf
  else DecimalMod lhs rhs

/-! ## Further concrete decimals -/

/-- Positive infinity as the parser builds it: canonical zero with bit 6 of `frac`. -/
def decInf : FixedDecimal := { intg := 1, frac := 64, lsu := zeroUnits }

/-- A NaN as the parser builds it: canonical zero with bit 7 of `frac`. -/
def decNaN : FixedDecimal := { intg := 1, frac := -128, lsu := zeroUnits }

/-- The decimal `-1`. -/
def decNegOne : FixedDecimal := { intg := -127, frac := 0, lsu := [1, 0, 0, 0, 0, 0, 0, 0, 0] }

/-- Negative zero with one fraction digit, `-0.0`. -/
def decNegZeroFrac1 : FixedDecimal := { intg := -127, frac := 1, lsu := zeroUnits }

/-- All limbs zero with `intg = 0`: numerically zero, not the canonical zero. -/
def decZeroIntg0 : FixedDecimal := { intg := 0, frac := 0, lsu := zeroUnits }

/-- The decimal `-0.4`. -/
def decNegPoint4 : FixedDecimal :=
  { intg := -127, frac := 1, lsu := [400000000, 0, 0, 0, 0, 0, 0, 0, 0] }

/-- Negative zero as `Round` leaves it: sign bit set, `Intg() = 9`. -/
def decNegZeroIntg9 : FixedDecimal := { intg := -119, frac := 0, lsu := zeroUnits }

/-- The decimal `0.000000000000000001`, eighteen fraction digits. -/
def decTenPowNeg18 : FixedDecimal := { intg := 1, frac := 18, lsu := [1, 0, 0, 0, 0, 0, 0, 0, 0] }

/-- The decimal `10^-36` as `DecimalMul` stores it: 36 fraction digits. -/
def decTenPowNeg36 : FixedDecimal := { intg := 9, frac := 36, lsu := [1, 0, 0, 0, 0, 0, 0, 0, 0] }

/-- The decimal `10^-31` as the parser stores it: 31 fraction digits. -/
def decTenPowNeg31 : FixedDecimal :=
  { intg := 1, frac := 31, lsu := [100000, 0, 0, 0, 0, 0, 0, 0, 0] }

/-! ## The numeric grammar of the parser -/

/-- Modelled from the spec: a literal of the numeric grammar
`sign? ( d+ ('.' d*)? | '.' d+ ) ([eE] sign? d+)?`, given by its parts: sign,
integer digits, whether there is a decimal point, fraction digits, whether
there is an exponent, the exponent letter, the exponent sign and digits. -/
structure NumLit where
  sign : List Nat
  ip : List Nat
  dot : Bool
  fp : List Nat
  hasExp : Bool
  e : Nat
  esign : List Nat
  ed : List Nat

/-- Modelled from the spec: decimal value of a digit string. -/
def digitsValue (ds : List Nat) : Int :=
  ds.foldl (fun (a : Int) (c : Nat) => a * 10 + (c : Int) - 48) 0

namespace NumLit

/-- Modelled from the spec: the parts form a literal of the grammar. Signs
are empty, `+` or `-`; digits are `0`..`9`; without a point there is an
integer digit, with one there is a digit on either side; the exponent has a
letter `e` or `E` and a digit. -/
def WF (l : NumLit) : Prop :=
  (l.sign = [] ∨ l.sign = [43] ∨ l.sign = [45]) ∧
  (∀ c ∈ l.ip, 48 ≤ c ∧ c ≤ 57) ∧ (∀ c ∈ l.fp, 48 ≤ c ∧ c ≤ 57) ∧
  (if l.dot then l.ip ≠ [] ∨ l.fp ≠ [] else l.ip ≠ [] ∧ l.fp = []) ∧
  (l.hasExp = true →
    (l.e = 101 ∨ l.e = 69) ∧ (l.esign = [] ∨ l.esign = [43] ∨ l.esign = [45]) ∧
    l.ed ≠ [] ∧ ∀ c ∈ l.ed, 48 ≤ c ∧ c ≤ 57)

instance (l : NumLit) : Decidable l.WF := by
  unfold WF; infer_instance

/-- The bytes of the literal. -/
def text (l : NumLit) : List Nat :=
  l.sign ++ l.ip ++ (if l.dot then 46 :: l.fp else []) ++
    (if l.hasExp then l.e :: (l.esign ++ l.ed) else [])

/-- Modelled from the spec: the signed exponent, zero when absent. -/
def exponent (l : NumLit) : Int :=
  if l.hasExp then (if l.esign = [45] then -digitsValue l.ed else digitsValue l.ed) else 0

/-- Modelled from the spec: "positive exponent > 65 or negative exponent with
magnitude > 30". -/
def ExpOutOfRange (l : NumLit) : Prop :=
  l.hasExp = true ∧
    ((l.esign ≠ [45] ∧ digitsValue l.ed > 65) ∨ (l.esign = [45] ∧ digitsValue l.ed > 30))

/-- Modelled from the spec: digits written in the mantissa. -/
def digitCount (l : NumLit) : Int := l.ip.length + l.fp.length

/-- Modelled from the spec: `frac = fracDigits - exp`. -/
def fracNeeded (l : NumLit) : Int := l.fp.length - l.exponent

/-- Modelled from the spec: the total digit count needed after applying the
exponent: a negative `frac` appends that many integer zeros, a `frac` above
the digit count pads with leading zeros. -/
def digitsNeeded (l : NumLit) : Int :=
  if l.fracNeeded ≤ 0 then l.digitCount - l.fracNeeded else max l.digitCount l.fracNeeded

end NumLit

/-- The literal `-12.5e+3`. -/
def litExample : NumLit :=
  { sign := [45], ip := [49, 50], dot := true, fp := [53], hasExp := true, e := 101,
    esign := [43], ed := [51] }

/-! ## Rounding into a destination (`round.go`) -/

namespace FixedDecimal

/-- `fd.RoundTo(result, frac)`: the second argument is the prior content of the
destination, the value is its content on return; `fd` itself is not written.
The loops `for i := from; i < MaxUnits; i++ { result.lsu[i] = 0 }` run
`MaxUnits - from` rounds. -/
def RoundTo (fd result : FixedDecimal) (frac : Int) : Except Fault FixedDecimal := do
  let thisFrac := fd.Frac
  let intgUnits := fd.IntgUnits
  let fracUnits := fd.FracUnits
  if frac ≥ thisFrac then
    let roundFracUnits := getUnits frac
    if roundFracUnits = fracUnits then
      pure { fd with frac := wrap8 frac }
    else do
      let src ← slice MaxUnits fd.lsu 0 (fracUnits + intgUnits)
      let lsu1 ← copyTo MaxUnits result.lsu (roundFracUnits - fracUnits)
        (roundFracUnits + intgUnits) src
      pure { intg := fd.intg, frac := wrap8 frac, lsu := lsu1 }
  else if frac < 0 then
    let intg := -frac
    if intg + 1 > fd.Intg then pure result.SetZero
    else do
      let src ← slice MaxUnits fd.lsu fracUnits (fracUnits + intgUnits)
      let lsu1 ← copyTo MaxUnits result.lsu 0 intgUnits src
      let lsu2 ← zeroRange (MaxUnits - (intgUnits + 1)).toNat (intgUnits + 1) lsu1
      roundHalfUp { result with lsu := lsu2 } intgUnits 0 intg 0 0
  else
    let roundFrac := wrap8 frac
    let roundFracUnits := getUnits (frac + 1)
    if roundFracUnits < fracUnits then do
      let atEdge := decide (mod9 frac = 0)
      let carry ← (if atEdge then do
          let x ← rd MaxUnits fd.lsu (fracUnits - roundFracUnits)
          pure (if unitGreaterEqualHalf x then (1 : Int) else 0)
        else pure 0)
      let roundFracUnits1 := if atEdge then roundFracUnits - 1 else roundFracUnits
      let src ← slice MaxUnits fd.lsu (fracUnits - roundFracUnits1) (fracUnits + intgUnits)
      let lsu1 ← copyTo MaxUnits result.lsu 0 (roundFracUnits1 + intgUnits) src
      let lsu2 ← zeroRange (MaxUnits - (roundFracUnits1 + intgUnits)).toNat
        (roundFracUnits1 + intgUnits) lsu1
      roundHalfUp { result with lsu := lsu2 } intgUnits roundFracUnits1
        (roundFracUnits1 * DigitsPerUnit - frac) roundFrac carry
    else if roundFracUnits > fracUnits then .error .panic
    else if mod9 frac = 0 then do
      let x ← rd MaxUnits fd.lsu 0
      let carry : Int := if unitGreaterEqualHalf x then 1 else 0
      let src ← slice MaxUnits fd.lsu 1 (fracUnits + intgUnits)
      let lsu1 ← copyTo MaxUnits result.lsu 0 (fracUnits + intgUnits - 1) src
      let lsu2 ← zeroRange (MaxUnits - (roundFracUnits + intgUnits - 1)).toNat
        (roundFracUnits + intgUnits - 1) lsu1
      roundHalfUp { result with lsu := lsu2 } intgUnits (fracUnits - 1)
        ((fracUnits - 1) * DigitsPerUnit - frac) roundFrac carry
    else
      roundHalfUp fd intgUnits fracUnits (fracUnits * DigitsPerUnit - frac) roundFrac 0

end FixedDecimal

/-! ## Concrete decimals for rounding, ordering and formatting -/

/-- The decimal `10^64 + 999999999 * 10^9`: 65 integer digits. -/
def decTenPow64Plus : FixedDecimal :=
  { intg := 65, frac := 0, lsu := [0, 999999999, 0, 0, 0, 0, 0, 10, 0] }

/-- The decimal `5.0`. -/
def decFive : FixedDecimal := { intg := 1, frac := 1, lsu := [0, 5, 0, 0, 0, 0, 0, 0, 0] }

/-- The decimal `-5.0`. -/
def decNegFive : FixedDecimal := { intg := -127, frac := 1, lsu := [0, 5, 0, 0, 0, 0, 0, 0, 0] }

/-- All limbs zero with `intg = 0` and one fraction digit: prints `0.0`. -/
def decZeroFrac1 : FixedDecimal := { intg := 0, frac := 1, lsu := zeroUnits }

/-- The decimal `0.123456789`. -/
def decFrac9A : FixedDecimal :=
  { intg := 1, frac := 9, lsu := [123456789, 0, 0, 0, 0, 0, 0, 0, 0] }

/-- The decimal `0.987654321`. -/
def decFrac9B : FixedDecimal :=
  { intg := 1, frac := 9, lsu := [987654321, 0, 0, 0, 0, 0, 0, 0, 0] }

/-- The quotient that `DecimalDiv` stores for `0.123456789 / 0.987654321`
with `incrFrac = 4`: 27 fraction digits. -/
def decQuot27 : FixedDecimal :=
  { intg := 0, frac := 27, lsu := [14238281, 860937500, 124999998, 0, 0, 0, 0, 0, 0] }

/-- The decimal `0.3`. -/
def decThreeTenths : FixedDecimal :=
  { intg := 1, frac := 1, lsu := [300000000, 0, 0, 0, 0, 0, 0, 0, 0] }

/-- The decimal `0.7`. -/
def decSevenTenths : FixedDecimal :=
  { intg := 1, frac := 1, lsu := [700000000, 0, 0, 0, 0, 0, 0, 0, 0] }

/-- The quotient `0.428571428571428571` of `0.3 / 0.7`: 18 fraction digits. -/
def decQuot18 : FixedDecimal :=
  { intg := 0, frac := 18, lsu := [571428571, 428571428, 0, 0, 0, 0, 0, 0, 0] }

/-- The decimal `-0.1`. -/
def decNegTenth : FixedDecimal :=
  { intg := -127, frac := 1, lsu := [100000000, 0, 0, 0, 0, 0, 0, 0, 0] }

/-- The decimal `0.1`. -/
def decTenth : FixedDecimal :=
  { intg := 1, frac := 1, lsu := [100000000, 0, 0, 0, 0, 0, 0, 0, 0] }

/-- The decimal `10^50`. -/
def decTenPow50 : FixedDecimal :=
  { intg := 51, frac := 0, lsu := [0, 0, 0, 0, 0, 100000, 0, 0, 0] }

/-- All limbs zero with `intg = 0` and nine fraction digits. -/
def decZeroFrac9 : FixedDecimal := { intg := 0, frac := 9, lsu := zeroUnits }

/-- The decimal `1.5`. -/
def decOnePointFive : FixedDecimal :=
  { intg := 1, frac := 1, lsu := [500000000, 1, 0, 0, 0, 0, 0, 0, 0] }

/-- The decimal `2` with `Intg() = 9`, as `roundHalfUp` stores it. -/
def decTwoIntg9 : FixedDecimal := { intg := 9, frac := 0, lsu := [2, 0, 0, 0, 0, 0, 0, 0, 0] }

/-- The decimal `-2` with `Intg() = 9`. -/
def decNegTwoIntg9 : FixedDecimal :=
  { intg := -119, frac := 0, lsu := [2, 0, 0, 0, 0, 0, 0, 0, 0] }

/-- What `Round(1)` leaves of the decimal `1`: the integer limb is copied up
and the old limb 0 stays below it. -/
def decOneDirty : FixedDecimal := { intg := 1, frac := 1, lsu := [1, 1, 0, 0, 0, 0, 0, 0, 0] }

/-- The decimal `1.0`. -/
def decOneFrac1 : FixedDecimal := { intg := 1, frac := 1, lsu := [0, 1, 0, 0, 0, 0, 0, 0, 0] }

/-- The decimal `1999999999`. -/
def decNearTwoE9 : FixedDecimal :=
  { intg := 10, frac := 0, lsu := [999999999, 1, 0, 0, 0, 0, 0, 0, 0] }

/-- The decimal `10^9` with `Intg() = 18`. -/
def decOneE9Intg18 : FixedDecimal :=
  { intg := 18, frac := 0, lsu := [0, 1, 0, 0, 0, 0, 0, 0, 0] }

/-- The decimal `123456789`. -/
def dec123456789 : FixedDecimal :=
  { intg := 9, frac := 0, lsu := [123456789, 0, 0, 0, 0, 0, 0, 0, 0] }

/-- The product of `123456789` and `1` as `mulAbs` stores it: `Intg() = 18`,
the top integer limb zero. -/
def dec123456789Wide : FixedDecimal :=
  { intg := 18, frac := 0, lsu := [123456789, 0, 0, 0, 0, 0, 0, 0, 0] }

/-- One integer limb `1`, one fraction digit, and the fraction limb
`500000001`: the digits of the limb below the first are not all zero. -/
def decPadded : FixedDecimal :=
  { intg := 1, frac := 1, lsu := [500000001, 1, 0, 0, 0, 0, 0, 0, 0] }

/-! ## Digits of the fraction limbs -/

/-- Modelled from the spec: the nine decimal digits of a limb as ASCII bytes,
most significant first. -/
def limbDigits (u : Int) : List Nat :=
  [u.toNat / 100000000 % 10 + 48, u.toNat / 10000000 % 10 + 48, u.toNat / 1000000 % 10 + 48,
   u.toNat / 100000 % 10 + 48, u.toNat / 10000 % 10 + 48, u.toNat / 1000 % 10 + 48,
   u.toNat / 100 % 10 + 48, u.toNat / 10 % 10 + 48, u.toNat % 10 + 48]

/-- Modelled from the spec: the digits held by the lowest `n` limbs, read from
limb `n - 1` down to limb 0: with `n = FracUnits()` the fraction digits that
the limbs store, `9 * n` of them. -/
def limbsText (lsu : List Int) : Nat → List Nat
  | 0 => []
  | n + 1 => limbDigits (lsu.getD n 0) ++ limbsText lsu n

/-! ## Conversions from and to `int64` (`decimal.go`, `conv.go`) -/

/-- Go `int64` arithmetic: wrap a mathematical integer into `[-2^63, 2^63)`. -/
def wrap64 (x : Int) : Int := (x + 9223372036854775808) % 18446744073709551616 - 9223372036854775808

def MaxInt64 : Int := 9223372036854775807

def MinInt64 : Int := -9223372036854775808

/-- Loop `for val != 0 { q := val / Unit; r := val - q*Unit; fd.lsu[i] = int32(r);
i++; val = q }` of `FromInt64`; returns the limbs and the final `i`.  The
tenth round writes `fd.lsu[9]` and panics, so ten rounds of fuel cover every
run. -/
def fromInt64Loop : Nat → Int → Int → List Int → Except Fault (List Int × Int)
  | 0, _, _, _ => .error .panic
  | k + 1, val, i, lsu =>
    if val ≠ 0 then do
      let q := Int.tdiv val Unit
      let r := wrap64 (val - wrap64 (q * Unit))
      let lsu1 ← wr MaxUnits lsu i (wrap32 r)
      fromInt64Loop k q (i + 1) lsu1
    else .ok (lsu, i)

namespace FixedDecimal

/-- `fd.FromInt64(val, reset)`: the receiver is passed in and returned. -/
def FromInt64 (fd : FixedDecimal) (val : Int) (reset : Bool) : Except Fault FixedDecimal := do
  let fd1 : FixedDecimal := if reset then { intg := 0, frac := 0, lsu := zeroUnits } else fd
  if val = 0 then pure { fd1 with intg := 1 }
  else
    let neg := decide (val < 0)
    let val1 := if neg then wrap64 (-val) else val
    let (lsu, i) ← fromInt64Loop 10 val1 0 fd1.lsu
    let fd2 : FixedDecimal := { fd1 with intg := wrap8 (i * DigitsPerUnit), lsu := lsu }
    pure (if neg then fd2.setNeg else fd2)

end FixedDecimal

/-- `DecMaxInt64`, set by `init` from the text `9223372036854775807`. -/
def DecMaxInt64 : FixedDecimal :=
  { intg := 19, frac := 0, lsu := [854775807, 223372036, 9, 0, 0, 0, 0, 0, 0] }

/-- `DecMinInt64`, set by `init` from the text `-9223372036854775808`. -/
def DecMinInt64 : FixedDecimal :=
  { intg := -109, frac := 0, lsu := [854775808, 223372036, 9, 0, 0, 0, 0, 0, 0] }

namespace FixedDecimal

/-- `fd.ToInt()`: `tgt := fd` copies the pointer, so `tgt.Round(0)` writes the
receiver and `fd` and `tgt` name the same rounded value from then on.  The
result is paired with the receiver as the call leaves it. -/
def ToInt (fd : FixedDecimal) : Except Fault (Int × FixedDecimal) := do
  let tgt ← fd.Round 0
  let neg := tgt.IsNeg
  let atMin ← (if neg then do
      let c ← tgt.Compare DecMinInt64
      pure (decide (c ≤ 0))
    else pure false)
  if atMin then pure (MinInt64, tgt)
  else do
    let atMax ← (if !neg then do
        let c ← tgt.Compare DecMaxInt64
        pure (decide (c ≥ 0))
      else pure false)
    if atMax then pure (MaxInt64, tgt)
    else do
      let limbs ← slice MaxUnits tgt.lsu 0 tgt.IntgUnits
      let acc := limbs.foldl
        (fun (p : Int × Int) (v : Int) => (wrap64 (p.1 + wrap64 (v * p.2)), wrap64 (p.2 * Unit)))
        ((0 : Int), (1 : Int))
      pure (if neg then wrap64 (-acc.1) else acc.1, tgt)

end FixedDecimal

/-! ## Concrete decimals for conversion, division and stale limbs -/

/-- What `FromInt64(MinInt64, true)` leaves: three negative limbs. -/
def decFromMinInt64 : FixedDecimal :=
  { intg := -101, frac := 0, lsu := [-854775808, -223372036, -9, 0, 0, 0, 0, 0, 0] }

/-- The decimal `100`, as parsed. -/
def decHundred : FixedDecimal := { intg := 3, frac := 0, lsu := [100, 0, 0, 0, 0, 0, 0, 0, 0] }

/-- The quotient that `DecimalDiv` stores for `100 / 1`: limb `100` with
`Intg() = 1`. -/
def decHundredIntg1 : FixedDecimal :=
  { intg := 1, frac := 0, lsu := [100, 0, 0, 0, 0, 0, 0, 0, 0] }

/-- The decimal `1.0000000001`, as parsed. -/
def decOnePlusTenth10 : FixedDecimal :=
  { intg := 1, frac := 10, lsu := [100000000, 0, 1, 0, 0, 0, 0, 0, 0] }

/-- The decimal `1` parsed into a destination that held nine limbs of nines. -/
def decOneStale : FixedDecimal :=
  { intg := 1, frac := 0,
    lsu := [1, 999999999, 999999999, 999999999, 999999999, 999999999, 999999999, 999999999,
      999999999] }

/-- A zero with one fraction digit and `intg = 1`: the parsed `-0.0` with the
sign bit cleared. -/
def decPosZeroFrac1 : FixedDecimal := { intg := 1, frac := 1, lsu := zeroUnits }

/-- The decimal `0` parsed into a destination that held nine limbs of nines:
one limb in use, limbs 1 to 8 stale. -/
def decZeroStale : FixedDecimal :=
  { intg := 1, frac := 0,
    lsu := [0, 999999999, 999999999, 999999999, 999999999, 999999999, 999999999, 999999999,
      999999999] }

/-- The same limbs with the sign bit set. -/
def decNegZeroStale : FixedDecimal :=
  { intg := -127, frac := 0,
    lsu := [0, 999999999, 999999999, 999999999, 999999999, 999999999, 999999999, 999999999,
      999999999] }

/-! ## Limb sequences read from the top -/

/-- Modelled from the spec: a limb slice (least significant limb first) padded
with zero limbs at the low end up to `n` limbs. -/
def padLow (n : Nat) (l : List Int) : List Int := List.replicate (n - l.length) 0 ++ l

/-- The integer denoted by a limb sequence given most significant limb first. -/
def topVal : List Int → Int
  | [] => 0
  | x :: xs => x * Unit ^ xs.length + topVal xs

/-! ## Concrete decimals for the remainder -/

/-- The decimal `-4.0`, as parsed. -/
def decNegFourFrac1 : FixedDecimal :=
  { intg := -127, frac := 1, lsu := [0, 4, 0, 0, 0, 0, 0, 0, 0] }

/-- The decimal `4.0`, as parsed. -/
def decFourFrac1 : FixedDecimal := { intg := 1, frac := 1, lsu := [0, 4, 0, 0, 0, 0, 0, 0, 0] }

/-- The decimal `2`. -/
def decTwo : FixedDecimal := { intg := 1, frac := 0, lsu := [2, 0, 0, 0, 0, 0, 0, 0, 0] }

/-- The outcome is not the error `e`. -/
def Avoids {α : Type} (e : Fault) (x : Except Fault α) : Prop := x ≠ .error e

/-- Every successful outcome satisfies `P`. -/
def Yields {α : Type} (P : α → Prop) (x : Except Fault α) : Prop := ∀ r, x = .ok r → P r

/-! # Theorems -/

set_option maxRecDepth 100000
set_option linter.unusedTactic false
set_option linter.unreachableTactic false

/-! ## Errors that a call cannot return -/

theorem avoids_ok {α : Type} (e : Fault) (a : α) : Avoids e (Except.ok a : Except Fault α) := by
  simp [Avoids]

theorem avoids_pure {α : Type} (e : Fault) (a : α) : Avoids e (pure a : Except Fault α) := by
  simp [Avoids, pure, Except.pure]

theorem avoids_error {α : Type} (e e' : Fault) (h : e ≠ e') :
    Avoids e (Except.error e' : Except Fault α) := by
  simp [Avoids]; exact fun h' => h h'.symm

theorem avoids_panic {α : Type} (e : Fault) (h : e ≠ .panic) :
    Avoids e (Except.error .panic : Except Fault α) := avoids_error e _ h

theorem avoids_bind {α β : Type} (e : Fault) (x : Except Fault α) (f : α → Except Fault β)
    (hx : Avoids e x) (hf : ∀ a, Avoids e (f a)) : Avoids e (x >>= f) := by
  cases x with
  | error e' => simpa [Avoids, bind, Except.bind] using hx
  | ok a => simpa [bind, Except.bind] using hf a

theorem avoids_ite {α : Type} (e : Fault) (c : Prop) [Decidable c] (x y : Except Fault α)
    (hx : Avoids e x) (hy : Avoids e y) : Avoids e (if c then x else y) := by
  split <;> assumption

theorem avoids_rd (e : Fault) (h : e ≠ .panic) (n : Int) (a : List Int) (i : Int) :
    Avoids e (rd n a i) := by
  unfold rd; split
  · exact avoids_ok _ _
  · exact avoids_panic _ h

theorem avoids_wr (e : Fault) (h : e ≠ .panic) (n : Int) (a : List Int) (i v : Int) :
    Avoids e (wr n a i v) := by
  unfold wr; split
  · exact avoids_ok _ _
  · exact avoids_panic _ h

theorem avoids_goDiv (e : Fault) (h : e ≠ .panic) (a b : Int) : Avoids e (goDiv a b) := by
  unfold goDiv; split
  · exact avoids_panic _ h
  · exact avoids_ok _ _

theorem avoids_assertTrue (e : Fault) (h : e ≠ .panic) (c : Bool) : Avoids e (assertTrue c) := by
  unfold assertTrue; split
  · exact avoids_ok _ _
  · exact avoids_panic _ h

theorem avoids_slice (e : Fault) (h : e ≠ .panic) (n : Int) (a : List Int) (lo hi : Int) :
    Avoids e (slice n a lo hi) := by
  unfold slice; split
  · exact avoids_ok _ _
  · exact avoids_panic _ h

theorem avoids_copyTo (e : Fault) (h : e ≠ .panic) (n : Int) (a : List Int) (lo hi : Int)
    (src : List Int) : Avoids e (copyTo n a lo hi src) := by
  unfold copyTo; split
  · exact avoids_ok _ _
  · exact avoids_panic _ h

theorem avoids_divShortLoop (e : Fault) (h : e ≠ .panic) (l : List Int) (d : Int) (k : Nat) :
    ∀ a0 a1 a2 a3, Avoids e (divShortLoop l d k a0 a1 a2 a3) := by
  induction k with
  | zero => intro a0 a1 a2 a3; unfold divShortLoop; first | exact avoids_ok _ _ | exact avoids_panic _ h
  | succ k ih =>
    intro a0 a1 a2 a3
    unfold divShortLoop
    repeat' (first
      | exact avoids_ok _ _ | exact avoids_pure _ _ | exact avoids_panic _ h
      | exact avoids_error _ _ (by decide)
      | exact avoids_rd _ h _ _ _ | exact avoids_wr _ h _ _ _ _ | exact avoids_goDiv _ h _ _
      | exact avoids_assertTrue _ h _ | exact avoids_slice _ h _ _ _ _
      | exact avoids_copyTo _ h _ _ _ _ _
      | apply ih
      | refine avoids_bind _ _ _ ?_ (fun _ => ?_)
      | refine avoids_ite _ _ _ _ ?_ ?_
      | split)

theorem avoids_normLoop (e : Fault) (h : e ≠ .panic) (size : Int) (src : List Int) (nf : Int) (k : Nat) :
    ∀ a0 a1 a2 a3, Avoids e (normLoop size src nf k a0 a1 a2 a3) := by
  induction k with
  | zero => intro a0 a1 a2 a3; unfold normLoop; first | exact avoids_ok _ _ | exact avoids_panic _ h
  | succ k ih =>
    intro a0 a1 a2 a3
    unfold normLoop
    repeat' (first
      | exact avoids_ok _ _ | exact avoids_pure _ _ | exact avoids_panic _ h
      | exact avoids_error _ _ (by decide)
      | exact avoids_rd _ h _ _ _ | exact avoids_wr _ h _ _ _ _ | exact avoids_goDiv _ h _ _
      | exact avoids_assertTrue _ h _ | exact avoids_slice _ h _ _ _ _
      | exact avoids_copyTo _ h _ _ _ _ _
      | apply ih
      | refine avoids_bind _ _ _ ?_ (fun _ => ?_)
      | refine avoids_ite _ _ _ _ ?_ ?_
      | split)

theorem avoids_qhatAdjust (e : Fault) (h : e ≠ .panic) (vd0 vd1 u2 : Int) (k : Nat) :
    ∀ a0 a1, Avoids e (qhatAdjust vd0 vd1 u2 k a0 a1) := by
  induction k with
  | zero => intro a0 a1; unfold qhatAdjust; first | exact avoids_ok _ _ | exact avoids_panic _ h
  | succ k ih =>
    intro a0 a1
    unfold qhatAdjust
    repeat' (first
      | exact avoids_ok _ _ | exact avoids_pure _ _ | exact avoids_panic _ h
      | exact avoids_error _ _ (by decide)
      | exact avoids_rd _ h _ _ _ | exact avoids_wr _ h _ _ _ _ | exact avoids_goDiv _ h _ _
      | exact avoids_assertTrue _ h _ | exact avoids_slice _ h _ _ _ _
      | exact avoids_copyTo _ h _ _ _ _ _
      | apply ih
      | refine avoids_bind _ _ _ ?_ (fun _ => ?_)
      | refine avoids_ite _ _ _ _ ?_ ?_
      | split)

theorem avoids_divMulSub (e : Fault) (h : e ≠ .panic) (buf2 : List Int) (qhat : Int) (k : Nat) :
    ∀ a0 a1 a2 a3 a4, Avoids e (divMulSub buf2 qhat k a0 a1 a2 a3 a4) := by
  induction k with
  | zero => intro a0 a1 a2 a3 a4; unfold divMulSub; first | exact avoids_ok _ _ | exact avoids_panic _ h
  | succ k ih =>
    intro a0 a1 a2 a3 a4
    unfold divMulSub
    repeat' (first
      | exact avoids_ok _ _ | exact avoids_pure _ _ | exact avoids_panic _ h
      | exact avoids_error _ _ (by decide)
      | exact avoids_rd _ h _ _ _ | exact avoids_wr _ h _ _ _ _ | exact avoids_goDiv _ h _ _
      | exact avoids_assertTrue _ h _ | exact avoids_slice _ h _ _ _ _
      | exact avoids_copyTo _ h _ _ _ _ _
      | apply ih
      | refine avoids_bind _ _ _ ?_ (fun _ => ?_)
      | refine avoids_ite _ _ _ _ ?_ ?_
      | split)

theorem avoids_divAddBack (e : Fault) (h : e ≠ .panic) (j : Int) (k : Nat) :
    ∀ a0 a1 a2, Avoids e (divAddBack j k a0 a1 a2) := by
  induction k with
  | zero => intro a0 a1 a2; unfold divAddBack; first | exact avoids_ok _ _ | exact avoids_panic _ h
  | succ k ih =>
    intro a0 a1 a2
    unfold divAddBack
    repeat' (first
      | exact avoids_ok _ _ | exact avoids_pure _ _ | exact avoids_panic _ h
      | exact avoids_error _ _ (by decide)
      | exact avoids_rd _ h _ _ _ | exact avoids_wr _ h _ _ _ _ | exact avoids_goDiv _ h _ _
      | exact avoids_assertTrue _ h _ | exact avoids_slice _ h _ _ _ _
      | exact avoids_copyTo _ h _ _ _ _ _
      | apply ih
      | refine avoids_bind _ _ _ ?_ (fun _ => ?_)
      | refine avoids_ite _ _ _ _ ?_ ?_
      | split)

theorem avoids_divLongLoop (e : Fault) (h : e ≠ .panic) (buf2 : List Int) (rnz vd0 vd1 : Int) (k : Nat) :
    ∀ a0 a1 a2 a3, Avoids e (divLongLoop buf2 rnz vd0 vd1 k a0 a1 a2 a3) := by
  induction k with
  | zero => intro a0 a1 a2 a3; unfold divLongLoop; first | exact avoids_ok _ _ | exact avoids_panic _ h
  | succ k ih =>
    intro a0 a1 a2 a3
    unfold divLongLoop
    repeat' (first
      | exact avoids_ok _ _ | exact avoids_pure _ _ | exact avoids_panic _ h
      | exact avoids_error _ _ (by decide)
      | exact avoids_rd _ h _ _ _ | exact avoids_wr _ h _ _ _ _ | exact avoids_goDiv _ h _ _
      | exact avoids_assertTrue _ h _ | exact avoids_slice _ h _ _ _ _
      | exact avoids_copyTo _ h _ _ _ _ _
      | exact avoids_qhatAdjust _ h _ _ _ _ _ _
      | exact avoids_divMulSub _ h _ _ _ _ _ _ _ _
      | exact avoids_divAddBack _ h _ _ _ _ _
      | apply ih
      | refine avoids_bind _ _ _ ?_ (fun _ => ?_)
      | refine avoids_ite _ _ _ _ ?_ ?_
      | split)

theorem avoids_modShortLoop (e : Fault) (h : e ≠ .panic) (buf : List Int) (d stop : Int) (k : Nat) :
    ∀ a0 a1, Avoids e (modShortLoop buf d stop k a0 a1) := by
  induction k with
  | zero => intro a0 a1; unfold modShortLoop; first | exact avoids_ok _ _ | exact avoids_panic _ h
  | succ k ih =>
    intro a0 a1
    unfold modShortLoop
    repeat' (first
      | exact avoids_ok _ _ | exact avoids_pure _ _ | exact avoids_panic _ h
      | exact avoids_error _ _ (by decide)
      | exact avoids_rd _ h _ _ _ | exact avoids_wr _ h _ _ _ _ | exact avoids_goDiv _ h _ _
      | exact avoids_assertTrue _ h _ | exact avoids_slice _ h _ _ _ _
      | exact avoids_copyTo _ h _ _ _ _ _
      | apply ih
      | refine avoids_bind _ _ _ ?_ (fun _ => ?_)
      | refine avoids_ite _ _ _ _ ?_ ?_
      | split)

theorem avoids_modCopyRest (e : Fault) (h : e ≠ .panic) (buf : List Int) (k : Nat) :
    ∀ a0 a1 a2, Avoids e (modCopyRest buf k a0 a1 a2) := by
  induction k with
  | zero => intro a0 a1 a2; unfold modCopyRest; first | exact avoids_ok _ _ | exact avoids_panic _ h
  | succ k ih =>
    intro a0 a1 a2
    unfold modCopyRest
    repeat' (first
      | exact avoids_ok _ _ | exact avoids_pure _ _ | exact avoids_panic _ h
      | exact avoids_error _ _ (by decide)
      | exact avoids_rd _ h _ _ _ | exact avoids_wr _ h _ _ _ _ | exact avoids_goDiv _ h _ _
      | exact avoids_assertTrue _ h _ | exact avoids_slice _ h _ _ _ _
      | exact avoids_copyTo _ h _ _ _ _ _
      | apply ih
      | refine avoids_bind _ _ _ ?_ (fun _ => ?_)
      | refine avoids_ite _ _ _ _ ?_ ?_
      | split)

theorem avoids_modMulSub (e : Fault) (h : e ≠ .panic) (buf2 : List Int) (qhat : Int) (k : Nat) :
    ∀ a0 a1 a2 a3 a4, Avoids e (modMulSub buf2 qhat k a0 a1 a2 a3 a4) := by
  induction k with
  | zero => intro a0 a1 a2 a3 a4; unfold modMulSub; first | exact avoids_ok _ _ | exact avoids_panic _ h
  | succ k ih =>
    intro a0 a1 a2 a3 a4
    unfold modMulSub
    repeat' (first
      | exact avoids_ok _ _ | exact avoids_pure _ _ | exact avoids_panic _ h
      | exact avoids_error _ _ (by decide)
      | exact avoids_rd _ h _ _ _ | exact avoids_wr _ h _ _ _ _ | exact avoids_goDiv _ h _ _
      | exact avoids_assertTrue _ h _ | exact avoids_slice _ h _ _ _ _
      | exact avoids_copyTo _ h _ _ _ _ _
      | apply ih
      | refine avoids_bind _ _ _ ?_ (fun _ => ?_)
      | refine avoids_ite _ _ _ _ ?_ ?_
      | split)

theorem avoids_modAddBack (e : Fault) (h : e ≠ .panic)  (k : Nat) :
    ∀ a0 a1 a2, Avoids e (modAddBack  k a0 a1 a2) := by
  induction k with
  | zero => intro a0 a1 a2; unfold modAddBack; first | exact avoids_ok _ _ | exact avoids_panic _ h
  | succ k ih =>
    intro a0 a1 a2
    unfold modAddBack
    repeat' (first
      | exact avoids_ok _ _ | exact avoids_pure _ _ | exact avoids_panic _ h
      | exact avoids_error _ _ (by decide)
      | exact avoids_rd _ h _ _ _ | exact avoids_wr _ h _ _ _ _ | exact avoids_goDiv _ h _ _
      | exact avoids_assertTrue _ h _ | exact avoids_slice _ h _ _ _ _
      | exact avoids_copyTo _ h _ _ _ _ _
      | apply ih
      | refine avoids_bind _ _ _ ?_ (fun _ => ?_)
      | refine avoids_ite _ _ _ _ ?_ ?_
      | split)

theorem avoids_modLongLoop (e : Fault) (h : e ≠ .panic) (buf2 : List Int) (buf2len stop vd0 vd1 : Int) (k : Nat) :
    ∀ a0 a1, Avoids e (modLongLoop buf2 buf2len stop vd0 vd1 k a0 a1) := by
  induction k with
  | zero => intro a0 a1; unfold modLongLoop; first | exact avoids_ok _ _ | exact avoids_panic _ h
  | succ k ih =>
    intro a0 a1
    unfold modLongLoop
    repeat' (first
      | exact avoids_ok _ _ | exact avoids_pure _ _ | exact avoids_panic _ h
      | exact avoids_error _ _ (by decide)
      | exact avoids_rd _ h _ _ _ | exact avoids_wr _ h _ _ _ _ | exact avoids_goDiv _ h _ _
      | exact avoids_assertTrue _ h _ | exact avoids_slice _ h _ _ _ _
      | exact avoids_copyTo _ h _ _ _ _ _
      | exact avoids_qhatAdjust _ h _ _ _ _ _ _
      | exact avoids_modMulSub _ h _ _ _ _ _ _ _ _
      | exact avoids_modAddBack _ h _ _ _ _
      | apply ih
      | refine avoids_bind _ _ _ ?_ (fun _ => ?_)
      | refine avoids_ite _ _ _ _ ?_ ?_
      | split)

theorem avoids_modUnnormalize (e : Fault) (h : e ≠ .panic) (buf1 : List Int) (nf : Int) (k : Nat) :
    ∀ a0 a1 a2 a3, Avoids e (modUnnormalize buf1 nf k a0 a1 a2 a3) := by
  induction k with
  | zero => intro a0 a1 a2 a3; unfold modUnnormalize; first | exact avoids_ok _ _ | exact avoids_panic _ h
  | succ k ih =>
    intro a0 a1 a2 a3
    unfold modUnnormalize
    repeat' (first
      | exact avoids_ok _ _ | exact avoids_pure _ _ | exact avoids_panic _ h
      | exact avoids_error _ _ (by decide)
      | exact avoids_rd _ h _ _ _ | exact avoids_wr _ h _ _ _ _ | exact avoids_goDiv _ h _ _
      | exact avoids_assertTrue _ h _ | exact avoids_slice _ h _ _ _ _
      | exact avoids_copyTo _ h _ _ _ _ _
      | apply ih
      | refine avoids_bind _ _ _ ?_ (fun _ => ?_)
      | refine avoids_ite _ _ _ _ ?_ ?_
      | split)

theorem avoids_cmpExcess (e : Fault) (h : e ≠ .panic) (lsu : List Int) (fu other : Int) (k : Nat) :
    ∀ a0, Avoids e (cmpExcess lsu fu other k a0) := by
  induction k with
  | zero => intro a0; unfold cmpExcess; first | exact avoids_ok _ _ | exact avoids_panic _ h
  | succ k ih =>
    intro a0
    unfold cmpExcess
    repeat' (first
      | exact avoids_ok _ _ | exact avoids_pure _ _ | exact avoids_panic _ h
      | exact avoids_error _ _ (by decide)
      | exact avoids_rd _ h _ _ _ | exact avoids_wr _ h _ _ _ _ | exact avoids_goDiv _ h _ _
      | exact avoids_assertTrue _ h _ | exact avoids_slice _ h _ _ _ _
      | exact avoids_copyTo _ h _ _ _ _ _
      | apply ih
      | refine avoids_bind _ _ _ ?_ (fun _ => ?_)
      | refine avoids_ite _ _ _ _ ?_ ?_
      | split)

theorem avoids_cmpCommon (e : Fault) (h : e ≠ .panic) (l r : List Int) (k : Nat) :
    ∀ a0 a1, Avoids e (cmpCommon l r k a0 a1) := by
  induction k with
  | zero => intro a0 a1; unfold cmpCommon; first | exact avoids_ok _ _ | exact avoids_panic _ h
  | succ k ih =>
    intro a0 a1
    unfold cmpCommon
    repeat' (first
      | exact avoids_ok _ _ | exact avoids_pure _ _ | exact avoids_panic _ h
      | exact avoids_error _ _ (by decide)
      | exact avoids_rd _ h _ _ _ | exact avoids_wr _ h _ _ _ _ | exact avoids_goDiv _ h _ _
      | exact avoids_assertTrue _ h _ | exact avoids_slice _ h _ _ _ _
      | exact avoids_copyTo _ h _ _ _ _ _
      | apply ih
      | refine avoids_bind _ _ _ ?_ (fun _ => ?_)
      | refine avoids_ite _ _ _ _ ?_ ?_
      | split)

theorem avoids_cmpTail (e : Fault) (h : e ≠ .panic) (lsu : List Int) (k : Nat) :
    ∀ a0, Avoids e (cmpTail lsu k a0) := by
  induction k with
  | zero => intro a0; unfold cmpTail; first | exact avoids_ok _ _ | exact avoids_panic _ h
  | succ k ih =>
    intro a0
    unfold cmpTail
    repeat' (first
      | exact avoids_ok _ _ | exact avoids_pure _ _ | exact avoids_panic _ h
      | exact avoids_error _ _ (by decide)
      | exact avoids_rd _ h _ _ _ | exact avoids_wr _ h _ _ _ _ | exact avoids_goDiv _ h _ _
      | exact avoids_assertTrue _ h _ | exact avoids_slice _ h _ _ _ _
      | exact avoids_copyTo _ h _ _ _ _ _
      | apply ih
      | refine avoids_bind _ _ _ ?_ (fun _ => ?_)
      | refine avoids_ite _ _ _ _ ?_ ?_
      | split)

theorem avoids_cmpAbsLsu (e : Fault) (h : e ≠ .panic) (liu lfu : Int) (l : List Int)
    (riu rfu : Int) (r : List Int) : Avoids e (cmpAbsLsu liu lfu l riu rfu r) := by
  unfold cmpAbsLsu
  repeat' (first
      | exact avoids_ok _ _ | exact avoids_pure _ _ | exact avoids_panic _ h
      | exact avoids_error _ _ (by decide)
      | exact avoids_rd _ h _ _ _ | exact avoids_wr _ h _ _ _ _ | exact avoids_goDiv _ h _ _
      | exact avoids_assertTrue _ h _ | exact avoids_slice _ h _ _ _ _
      | exact avoids_copyTo _ h _ _ _ _ _
      | exact avoids_cmpExcess _ h _ _ _ _ _
      | exact avoids_cmpCommon _ h _ _ _ _ _
      | exact avoids_cmpTail _ h _ _ _
      | refine avoids_bind _ _ _ ?_ (fun _ => ?_)
      | refine avoids_ite _ _ _ _ ?_ ?_
      | split)

theorem avoids_divAbsCore (lhs rhs : FixedDecimal) (incr lnz rnz : Int) :
    Avoids .DecErrDivisionByZero (divAbsCore lhs rhs incr lnz rnz) := by
  have h : Fault.DecErrDivisionByZero ≠ .panic := by decide
  unfold divAbsCore
  repeat' (first
      | exact avoids_ok _ _ | exact avoids_pure _ _ | exact avoids_panic _ h
      | exact avoids_error _ _ (by decide)
      | exact avoids_rd _ h _ _ _ | exact avoids_wr _ h _ _ _ _ | exact avoids_goDiv _ h _ _
      | exact avoids_assertTrue _ h _ | exact avoids_slice _ h _ _ _ _
      | exact avoids_copyTo _ h _ _ _ _ _
      | exact avoids_divShortLoop _ h _ _ _ _ _ _ _
      | exact avoids_normLoop _ h _ _ _ _ _ _ _ _
      | exact avoids_divLongLoop _ h _ _ _ _ _ _ _ _ _
      | refine avoids_bind _ _ _ ?_ (fun _ => ?_)
      | refine avoids_ite _ _ _ _ ?_ ?_
      | split)

theorem avoids_modAbsCore (lhs rhs : FixedDecimal) (lnz rnz : Int) :
    Avoids .DecErrDivisionByZero (modAbsCore lhs rhs lnz rnz) := by
  have h : Fault.DecErrDivisionByZero ≠ .panic := by decide
  unfold modAbsCore
  repeat' (first
      | exact avoids_ok _ _ | exact avoids_pure _ _ | exact avoids_panic _ h
      | exact avoids_error _ _ (by decide)
      | exact avoids_rd _ h _ _ _ | exact avoids_wr _ h _ _ _ _ | exact avoids_goDiv _ h _ _
      | exact avoids_assertTrue _ h _ | exact avoids_slice _ h _ _ _ _
      | exact avoids_copyTo _ h _ _ _ _ _
      | exact avoids_cmpAbsLsu _ h _ _ _ _ _ _
      | exact avoids_modShortLoop _ h _ _ _ _ _ _
      | exact avoids_modCopyRest _ h _ _ _ _ _
      | exact avoids_normLoop _ h _ _ _ _ _ _ _ _
      | exact avoids_modLongLoop _ h _ _ _ _ _ _ _ _
      | exact avoids_modUnnormalize _ h _ _ _ _ _ _ _
      | refine avoids_bind _ _ _ ?_ (fun _ => ?_)
      | refine avoids_ite _ _ _ _ ?_ ?_
      | split)

/-! ## Division by zero (C10) -/

theorem rd_ok {n : Int} {a : List Int} {i : Int} (h0 : 0 ≤ i) (h1 : i < n) :
    rd n a i = .ok (a.getD i.toNat 0) := by
  simp [rd, h0, h1]

/-- The scan for the leading non-zero limb returns `-1` exactly when the
lowest `n` limbs are zero, and an index in `[0, n)` otherwise. -/
theorem leadingNonZero_spec (lsu : List Int) (n : Nat) (hn : (n : Int) ≤ MaxUnits) :
    ∃ r, leadingNonZero lsu n = .ok r ∧ (r < 0 ↔ ∀ i : Nat, i < n → lsu.getD i 0 = 0) ∧
      (0 ≤ r → r < n ∧ lsu.getD r.toNat 0 ≠ 0 ∧ ∀ i : Nat, r.toNat < i → i < n → lsu.getD i 0 = 0) := by
  induction n with
  | zero =>
    refine ⟨-1, rfl, by simp, ?_⟩
    intro h; omega
  | succ n ih =>
    have hn' : (n : Int) ≤ MaxUnits := by push_cast at hn; omega
    have hn9 : (n : Int) < MaxUnits := by push_cast at hn; omega
    obtain ⟨r, hr, hz, hp⟩ := ih hn'
    unfold leadingNonZero
    rw [rd_ok (Int.natCast_nonneg n) hn9]
    simp only [Int.toNat_ofNat, bind, Except.bind]
    by_cases hv : lsu.getD n 0 = 0
    · simp only [hv, ne_eq, not_true_eq_false, if_false]
      refine ⟨r, hr, ?_, ?_⟩
      · rw [hz]
        constructor
        · intro h i hi
          rcases Nat.lt_succ_iff_lt_or_eq.mp hi with h' | h'
          · exact h i h'
          · rw [h']; exact hv
        · intro h i hi
          exact h i (Nat.lt_succ_of_lt hi)
      · intro h0
        obtain ⟨h1, h2, h3⟩ := hp h0
        refine ⟨by push_cast; omega, h2, ?_⟩
        intro i hi1 hi2
        rcases Nat.lt_succ_iff_lt_or_eq.mp hi2 with h' | h'
        · exact h3 i hi1 h'
        · rw [h']; exact hv
    · simp only [ne_eq, hv, not_false_eq_true, if_true]
      refine ⟨n, rfl, ?_, ?_⟩
      · constructor
        · intro h; omega
        · intro h; exact absurd (h n (Nat.lt_succ_self n)) hv
      · intro _
        refine ⟨by push_cast; omega, by simpa using hv, ?_⟩
        intro i hi1 hi2
        simp at hi1; omega

theorem valid_units_le {fd : FixedDecimal} (h : fd.Valid) :
    ((fd.IntgUnits + fd.FracUnits).toNat : Int) ≤ MaxUnits := by
  have := h.2.2.2.2.2.2
  have h9 : MaxUnits = 9 := rfl
  omega

theorem setNegAndCheckZero_zero : DecimalZero.setNegAndCheckZero = DecimalZero := by decide

/-- C10: `DecimalDiv` and `DecimalMod` return `DecErrDivisionByZero` exactly
when no limb in use of the divisor is non-zero, whatever the dividend; and
when the divisor has a non-zero limb and the dividend has none, both return
no error and the canonical zero. -/
theorem C10_division_by_zero (a b : FixedDecimal) (incrFrac : Int) (ha : a.Valid)
    (hb : b.Valid) :
    (DecimalDiv a b incrFrac = .error .DecErrDivisionByZero ↔ b.unitsInUseZero) ∧
    (DecimalMod a b = .error .DecErrDivisionByZero ↔ b.unitsInUseZero) ∧
    (¬ b.unitsInUseZero → a.unitsInUseZero →
      DecimalDiv a b incrFrac = .ok DecimalZero ∧ DecimalMod a b = .ok DecimalZero) := by
  obtain ⟨rb, hrb, hzb, -⟩ := leadingNonZero_spec b.lsu _ (valid_units_le hb)
  obtain ⟨ra, hra, hza, -⟩ := leadingNonZero_spec a.lsu _ (valid_units_le ha)
  have hdiv : divAbs a b incrFrac =
      if rb < 0 then .error .DecErrDivisionByZero
      else if ra < 0 then .ok DecimalZero else divAbsCore a b incrFrac ra rb := by
    unfold divAbs
    simp only [FixedDecimal.IntgUnits, FixedDecimal.FracUnits] at hrb hra
    dsimp only
    rw [hrb]
    simp only [bind, Except.bind]
    split
    · rfl
    · rw [hra]; simp only [pure, Except.pure]
  have hmod : modAbs a b =
      if rb < 0 then .error .DecErrDivisionByZero
      else if ra < 0 then .ok DecimalZero else modAbsCore a b ra rb := by
    unfold modAbs
    simp only [FixedDecimal.IntgUnits, FixedDecimal.FracUnits] at hrb hra
    dsimp only
    rw [hrb]
    simp only [bind, Except.bind]
    split
    · rfl
    · rw [hra]; simp only [pure, Except.pure]
  have hzb' : rb < 0 ↔ b.unitsInUseZero := hzb
  have hza' : ra < 0 ↔ a.unitsInUseZero := hza
  refine ⟨?_, ?_, ?_⟩
  · unfold DecimalDiv
    rw [hdiv, ← hzb']
    constructor
    · intro h
      by_contra hn
      rw [if_neg hn] at h
      have h1 : Avoids .DecErrDivisionByZero
          (if ra < 0 then (Except.ok DecimalZero) else divAbsCore a b incrFrac ra rb) :=
        avoids_ite _ _ _ _ (avoids_ok _ _) (avoids_divAbsCore _ _ _ _ _)
      have h2 := avoids_bind .DecErrDivisionByZero _
        (fun result => if (a.IsNeg != b.IsNeg) = true then
          (pure result.setNegAndCheckZero : Except Fault FixedDecimal) else pure result) h1
        (fun r => avoids_ite _ _ _ _ (avoids_pure _ _) (avoids_pure _ _))
      exact h2 h
    · intro h
      rw [if_pos h]; rfl
  · unfold DecimalMod
    rw [hmod, ← hzb']
    constructor
    · intro h
      by_contra hn
      rw [if_neg hn] at h
      have h1 : Avoids .DecErrDivisionByZero
          (if ra < 0 then (Except.ok DecimalZero) else modAbsCore a b ra rb) :=
        avoids_ite _ _ _ _ (avoids_ok _ _) (avoids_modAbsCore _ _ _ _)
      have h2 := avoids_bind .DecErrDivisionByZero _
        (fun result => if a.IsNeg = true then
          (pure result.setNegAndCheckZero : Except Fault FixedDecimal) else pure result) h1
        (fun r => avoids_ite _ _ _ _ (avoids_pure _ _) (avoids_pure _ _))
      exact h2 h
    · intro h
      rw [if_pos h]; rfl
  · intro hnb hna
    rw [← hzb'] at hnb
    rw [← hza'] at hna
    constructor
    · unfold DecimalDiv
      rw [hdiv, if_neg hnb, if_pos hna]
      simp only [bind, Except.bind, pure, Except.pure]
      split
      · rw [setNegAndCheckZero_zero]
      · rfl
    · unfold DecimalMod
      rw [hmod, if_neg hnb, if_pos hna]
      simp only [bind, Except.bind, pure, Except.pure]
      split
      · rw [setNegAndCheckZero_zero]
      · rfl

/-- C10 at a concrete pair: dividend `1`, divisor `2000000000`. -/
theorem C10_division_by_zero_witness :
    decOne.Valid ∧ decTwoE9.Valid ∧
    ((DecimalDiv decOne decTwoE9 4 = .error .DecErrDivisionByZero ↔ decTwoE9.unitsInUseZero) ∧
    (DecimalMod decOne decTwoE9 = .error .DecErrDivisionByZero ↔ decTwoE9.unitsInUseZero) ∧
    (¬ decTwoE9.unitsInUseZero → decOne.unitsInUseZero →
      DecimalDiv decOne decTwoE9 4 = .ok DecimalZero ∧
      DecimalMod decOne decTwoE9 = .ok DecimalZero)) :=
  ⟨by decide, by decide, C10_division_by_zero decOne decTwoE9 4 (by decide) (by decide)⟩

/-! ## Evaluations at concrete inputs (C4, C5, C7) -/

/-- C4 (code defect): `DecimalDiv` of the parsed `1` by the parsed
`500000000.0000000001` with `incrFrac = 4` returns no error and a result with
18 fractional digits denoting `0.000000001000000003`, while the quotient
truncated at 18 fractional digits is `0.000000001999999999`. -/
theorem C4_div_result_not_truncated_quotient :
    DecimalFromAsciiString "1" DecimalZero = .ok decOne ∧
    DecimalFromAsciiString "500000000.0000000001" DecimalZero = .ok decDivisor ∧
    decOne.Valid ∧ decDivisor.Valid ∧
    DecimalDiv decOne decDivisor 4 = .ok decQuotient ∧
    decQuotient.Frac = 18 ∧
    decQuotient.absValue * 10 ^ 18 = 1000000003 ∧
    ⌊decOne.absValue / decDivisor.absValue * 10 ^ 18⌋ = 1999999999 := by
  have h1 : decQuotient.scaled = 1000000003 := by decide
  have h2 : decQuotient.FracUnits.toNat = 2 := by decide
  have h3 : decOne.scaled = 1 := by decide
  have h4 : decOne.FracUnits.toNat = 0 := by decide
  have h5 : decDivisor.scaled = 500000000000000000100000000 := by decide
  have h6 : decDivisor.FracUnits.toNat = 2 := by decide
  refine ⟨by decide, by decide, by decide, by decide, by decide, by decide, ?_, ?_⟩
  · unfold FixedDecimal.absValue
    rw [h1, h2]
    norm_num [Unit]
  · rw [Int.floor_eq_iff]
    unfold FixedDecimal.absValue
    rw [h3, h4, h5, h6]
    norm_num [Unit]

/-- C5 (code defect): `DecimalMod` of the parsed `3000000000` by the parsed
`2000000000` returns no error and a result with `intg = 2`, one integer limb
in use, which denotes `0`, while the remainder is `1000000000`. -/
theorem C5_mod_result_not_remainder :
    DecimalFromAsciiString "3000000000" DecimalZero = .ok decThreeE9 ∧
    DecimalFromAsciiString "2000000000" DecimalZero = .ok decTwoE9 ∧
    decThreeE9.Valid ∧ decTwoE9.Valid ∧
    DecimalMod decThreeE9 decTwoE9 = .ok decRemainder ∧
    decRemainder.value = 0 ∧
    decThreeE9.value - decTwoE9.value * ⌊decThreeE9.value / decTwoE9.value⌋ = 1000000000 := by
  have h1 : decRemainder.scaled = 0 := by decide
  have h3 : decThreeE9.scaled = 3000000000 := by decide
  have h4 : decThreeE9.FracUnits.toNat = 0 := by decide
  have h5 : decTwoE9.scaled = 2000000000 := by decide
  have h6 : decTwoE9.FracUnits.toNat = 0 := by decide
  have h7 : decThreeE9.IsNeg = false := by decide
  have h8 : decTwoE9.IsNeg = false := by decide
  have h9 : decRemainder.IsNeg = false := by decide
  have hv3 : decThreeE9.value = 3000000000 := by
    unfold FixedDecimal.value FixedDecimal.absValue
    rw [h3, h4, h7]; norm_num
  have hv2 : decTwoE9.value = 2000000000 := by
    unfold FixedDecimal.value FixedDecimal.absValue
    rw [h5, h6, h8]; norm_num
  refine ⟨by decide, by decide, by decide, by decide, by decide, ?_, ?_⟩
  · unfold FixedDecimal.value FixedDecimal.absValue
    rw [h1, h9]; norm_num
  · rw [hv3, hv2]
    have : ⌊(3000000000 : ℚ) / 2000000000⌋ = 1 := by
      rw [Int.floor_eq_iff]; norm_num
    rw [this]; norm_num

/-- C7 (code defect): the parser accepts a dot followed by 64 digits, which
matches the numeric grammar, and returns a result whose `frac` byte is 64:
the Inf bit is set and `Frac()` is 0 instead of 64. -/
theorem C7_parse_64_fraction_digits :
    DecimalFromAsciiString text64Frac DecimalZero = .ok dec64Frac ∧
    dec64Frac.IsInf = true ∧ dec64Frac.Frac = 0 := by
  refine ⟨by decide, by decide, by decide⟩

/-! ## Comparison (C6) -/

/-! ## Limb sums -/

theorem Unit_pos : (0 : Int) < Unit := by decide

theorem getD_limb_bounds {l : List Int} (h : ∀ x ∈ l, 0 ≤ x ∧ x < Unit) (i : Nat) :
    0 ≤ l.getD i 0 ∧ l.getD i 0 < Unit := by
  by_cases hi : i < l.length
  · rw [List.getD_eq_getElem _ _ hi]
    exact h _ (List.getElem_mem hi)
  · rw [List.getD_eq_default _ _ (by omega)]
    exact ⟨le_refl _, Unit_pos⟩

theorem limbsVal_nonneg {l : List Int} (h : ∀ x ∈ l, 0 ≤ x ∧ x < Unit) (n : Nat) :
    0 ≤ limbsVal l n := by
  induction n with
  | zero => simp [limbsVal]
  | succ n ih =>
    simp only [limbsVal]
    have := (getD_limb_bounds h n).1
    have hp : (0 : Int) ≤ Unit ^ n := pow_nonneg (le_of_lt Unit_pos) n
    nlinarith

theorem limbsVal_lt {l : List Int} (h : ∀ x ∈ l, 0 ≤ x ∧ x < Unit) (n : Nat) :
    limbsVal l n < Unit ^ n := by
  induction n with
  | zero => simp [limbsVal]
  | succ n ih =>
    simp only [limbsVal, pow_succ]
    have h1 := (getD_limb_bounds h n).2
    have hp : (0 : Int) ≤ Unit ^ n := pow_nonneg (le_of_lt Unit_pos) n
    nlinarith

theorem getD_drop (l : List Int) (k i : Nat) : (l.drop k).getD i 0 = l.getD (k + i) 0 := by
  simp [List.getD_eq_getElem?_getD, List.getElem?_drop]

theorem limbsVal_drop (l : List Int) (k n : Nat) :
    limbsVal l (k + n) = limbsVal l k + Unit ^ k * limbsVal (l.drop k) n := by
  induction n with
  | zero => simp [limbsVal]
  | succ n ih =>
    rw [← Nat.add_assoc]
    simp only [limbsVal]
    rw [ih, getD_drop, pow_add]
    ring

theorem mem_drop_bounds {l : List Int} (h : ∀ x ∈ l, 0 ≤ x ∧ x < Unit) (k : Nat) :
    ∀ x ∈ l.drop k, 0 ≤ x ∧ x < Unit :=
  fun x hx => h x (List.mem_of_mem_drop hx)

/-- Limbs that are zero above `m` do not contribute. -/
theorem limbsVal_zero_above (l : List Int) (m n : Nat) (hmn : m ≤ n)
    (hz : ∀ t : Nat, m ≤ t → t < n → l.getD t 0 = 0) : limbsVal l n = limbsVal l m := by
  induction n with
  | zero =>
    have : m = 0 := by omega
    rw [this]
  | succ n ih =>
    by_cases hm : m = n + 1
    · rw [hm]
    · simp only [limbsVal]
      rw [hz n (by omega) (by omega), ih (by omega) (fun t h1 h2 => hz t h1 (by omega))]
      ring

/-- A non-zero limb at index `t < n` bounds the sum from below. -/
theorem limbsVal_ge_of_pos {l : List Int} (h : ∀ x ∈ l, 0 ≤ x ∧ x < Unit) (t n : Nat)
    (htn : t < n) (hp : 0 < l.getD t 0) : Unit ^ t ≤ limbsVal l n := by
  induction n with
  | zero => omega
  | succ n ih =>
    simp only [limbsVal]
    have hnn := limbsVal_nonneg h n
    have hb := (getD_limb_bounds h n).1
    have hpw : (0 : Int) ≤ Unit ^ n := pow_nonneg (le_of_lt Unit_pos) n
    by_cases htn' : t = n
    · subst htn'
      nlinarith
    · have := ih (by omega)
      nlinarith

/-- First loops of `cmpAbsLsu`: either a positive limb is found among the
excess integer limbs, or they are all non-positive and the count drops to the
other operand's. -/
theorem cmpExcess_spec (lsu : List Int) (fu other : Int) (hfu : 0 ≤ fu) (ho : 0 ≤ other) :
    ∀ (k : Nat) (iu : Int), 0 ≤ iu → fu + iu ≤ MaxUnits → iu ≤ k →
    ∃ hit iu', cmpExcess lsu fu other k iu = .ok (hit, iu') ∧
      (hit = true → ∃ t : Nat, fu + other ≤ t ∧ (t : Int) < fu + iu ∧ 0 < lsu.getD t 0) ∧
      (hit = false → iu' = min iu other ∧
        ∀ t : Nat, fu + min iu other ≤ t → (t : Int) < fu + iu → lsu.getD t 0 ≤ 0) := by
  intro k
  induction k with
  | zero =>
    intro iu h0 h9 hk
    have : iu = 0 := by omega
    subst this
    refine ⟨false, 0, rfl, by simp, ?_⟩
    intro _
    refine ⟨by omega, ?_⟩
    intro t h1 h2
    omega
  | succ k ih =>
    intro iu h0 h9 hk
    unfold cmpExcess
    by_cases hc : iu > 0 ∧ iu > other
    · rw [if_pos hc, rd_ok (by omega) (by omega)]
      simp only [bind, Except.bind]
      by_cases hv : lsu.getD (fu + iu - 1).toNat 0 > 0
      · rw [if_pos hv]
        refine ⟨true, iu, rfl, ?_, by simp⟩
        intro _
        exact ⟨(fu + iu - 1).toNat, by omega, by omega, hv⟩
      · rw [if_neg hv]
        obtain ⟨hit, iu', he, h1, h2⟩ := ih (iu - 1) (by omega) (by omega) (by push_cast at hk; omega)
        refine ⟨hit, iu', he, ?_, ?_⟩
        · intro hh
          obtain ⟨t, ht1, ht2, ht3⟩ := h1 hh
          exact ⟨t, ht1, by omega, ht3⟩
        · intro hh
          obtain ⟨e1, e2⟩ := h2 hh
          have hmin : min (iu - 1) other = min iu other := by omega
          refine ⟨by omega, ?_⟩
          intro t ht1 ht2
          by_cases htt : (t : Int) < fu + (iu - 1)
          · exact e2 t (by omega) htt
          · have : t = (fu + iu - 1).toNat := by omega
            rw [this]; omega
    · rw [if_neg hc]
      refine ⟨false, iu, rfl, by simp, ?_⟩
      intro _
      refine ⟨by omega, ?_⟩
      intro t h1 h2
      omega

/-- Last loops of `cmpAbsLsu`: true exactly when a limb at index `≤ i` is
positive. -/
theorem cmpTail_spec (lsu : List Int) :
    ∀ (k : Nat) (i : Int), -1 ≤ i → i < MaxUnits → i + 1 ≤ k →
    ∃ b, cmpTail lsu k i = .ok b ∧
      (b = true ↔ ∃ t : Nat, (t : Int) ≤ i ∧ 0 < lsu.getD t 0) := by
  intro k
  induction k with
  | zero =>
    intro i h0 h9 hk
    refine ⟨false, rfl, ?_⟩
    constructor
    · intro h; simp at h
    · rintro ⟨t, ht, -⟩; omega
  | succ k ih =>
    intro i h0 h9 hk
    unfold cmpTail
    by_cases hc : i ≥ 0
    · rw [if_pos hc, rd_ok (by omega) (by omega)]
      simp only [bind, Except.bind]
      by_cases hv : lsu.getD i.toNat 0 > 0
      · rw [if_pos hv]
        exact ⟨true, rfl, ⟨fun _ => ⟨i.toNat, by omega, hv⟩, fun _ => rfl⟩⟩
      · rw [if_neg hv]
        obtain ⟨b, he, hb⟩ := ih (i - 1) (by omega) (by omega) (by push_cast at hk; omega)
        refine ⟨b, he, ?_⟩
        rw [hb]
        constructor
        · rintro ⟨t, ht1, ht2⟩
          exact ⟨t, by omega, ht2⟩
        · rintro ⟨t, ht1, ht2⟩
          refine ⟨t, ?_, ht2⟩
          by_contra hcon
          have : t = i.toNat := by omega
          rw [this] at ht2
          exact hv ht2
    · rw [if_neg hc]
      refine ⟨false, rfl, ?_⟩
      constructor
      · intro h; simp at h
      · rintro ⟨t, ht, -⟩; omega

/-- Middle loop of `cmpAbsLsu`: the `c = min(i, j) + 1` limbs below and
including `llsu[i]` are compared with those below and including `rlsu[j]`,
top limb first. -/
theorem cmpCommon_spec (llsu rlsu : List Int)
    (hl : ∀ x ∈ llsu, 0 ≤ x ∧ x < Unit) (hr : ∀ x ∈ rlsu, 0 ≤ x ∧ x < Unit) :
    ∀ (c k : Nat) (i j : Int), (c : Int) = min i j + 1 → i < MaxUnits → j < MaxUnits →
      c ≤ k →
    ∃ dec i1 j1, cmpCommon llsu rlsu k i j = .ok (dec, i1, j1) ∧
      (limbsVal (llsu.drop (i + 1 - c).toNat) c > limbsVal (rlsu.drop (j + 1 - c).toNat) c →
        dec = some 1) ∧
      (limbsVal (llsu.drop (i + 1 - c).toNat) c < limbsVal (rlsu.drop (j + 1 - c).toNat) c →
        dec = some (-1)) ∧
      (limbsVal (llsu.drop (i + 1 - c).toNat) c = limbsVal (rlsu.drop (j + 1 - c).toNat) c →
        dec = none ∧ i1 = i - c ∧ j1 = j - c) := by
  intro c
  induction c with
  | zero =>
    intro k i j hc hi hj hk
    have hmin : min i j = -1 := by push_cast at hc; omega
    have hstop : ¬ (i ≥ 0 ∧ j ≥ 0) := by omega
    refine ⟨none, i, j, ?_, ?_, ?_, ?_⟩
    · cases k with
      | zero => rfl
      | succ k => unfold cmpCommon; rw [if_neg hstop]
    · simp [limbsVal]
    · simp [limbsVal]
    · intro _; simp
  | succ c ih =>
    intro k i j hc hi hj hk
    cases k with
    | zero => omega
    | succ k =>
      have hgo : i ≥ 0 ∧ j ≥ 0 := by push_cast at hc; omega
      unfold cmpCommon
      rw [if_pos hgo, rd_ok hgo.1 hi, rd_ok hgo.2 hj]
      simp only [bind, Except.bind]
      obtain ⟨dec, i1, j1, he, h1, h2, h3⟩ :=
        ih k (i - 1) (j - 1) (by push_cast at hc ⊢; omega) (by omega) (by omega) (by omega)
      have eoffL : (i + 1 - ((c + 1 : Nat) : Int)).toNat = (i - 1 + 1 - (c : Int)).toNat := by
        push_cast; congr 1; ring
      have eoffR : (j + 1 - ((c + 1 : Nat) : Int)).toNat = (j - 1 + 1 - (c : Int)).toNat := by
        push_cast; congr 1; ring
      rw [eoffL, eoffR]
      simp only [limbsVal, getD_drop]
      have eiL : (i - 1 + 1 - (c : Int)).toNat + c = i.toNat := by push_cast at hc; omega
      have eiR : (j - 1 + 1 - (c : Int)).toNat + c = j.toNat := by push_cast at hc; omega
      rw [eiL, eiR]
      have bL := limbsVal_lt (mem_drop_bounds hl (i - 1 + 1 - (c : Int)).toNat) c
      have bR := limbsVal_lt (mem_drop_bounds hr (j - 1 + 1 - (c : Int)).toNat) c
      have nL := limbsVal_nonneg (mem_drop_bounds hl (i - 1 + 1 - (c : Int)).toNat) c
      have nR := limbsVal_nonneg (mem_drop_bounds hr (j - 1 + 1 - (c : Int)).toNat) c
      have hpw : (0 : Int) < Unit ^ c := pow_pos Unit_pos c
      by_cases hgt : llsu.getD i.toNat 0 > rlsu.getD j.toNat 0
      · rw [if_pos hgt]
        refine ⟨some 1, i, j, rfl, fun _ => rfl, ?_, ?_⟩
        · intro hlt; exfalso; nlinarith
        · intro heq; exfalso; nlinarith
      · rw [if_neg hgt]
        by_cases hlt : llsu.getD i.toNat 0 < rlsu.getD j.toNat 0
        · rw [if_pos hlt]
          refine ⟨some (-1), i, j, rfl, ?_, fun _ => rfl, ?_⟩
          · intro hgt'; exfalso; nlinarith
          · intro heq; exfalso; nlinarith
        · rw [if_neg hlt]
          have heq : llsu.getD i.toNat 0 = rlsu.getD j.toNat 0 := by omega
          refine ⟨dec, i1, j1, he, ?_, ?_, ?_⟩
          · intro h; apply h1; rw [heq] at h; linarith
          · intro h; apply h2; rw [heq] at h; linarith
          · intro h
            obtain ⟨e1, e2, e3⟩ := h3 (by rw [heq] at h; linarith)
            refine ⟨e1, ?_, ?_⟩
            · rw [e2]; push_cast; ring
            · rw [e3]; push_cast; ring

theorem limbsVal_eq_zero_of_nonpos {l : List Int} (h : ∀ x ∈ l, 0 ≤ x ∧ x < Unit) (n : Nat)
    (hz : ∀ t : Nat, t < n → l.getD t 0 ≤ 0) : limbsVal l n = 0 := by
  have := limbsVal_zero_above l 0 n (Nat.zero_le n)
    (fun t _ h2 => le_antisymm (hz t h2) (getD_limb_bounds h t).1)
  rw [this]; rfl

theorem pow_le_pow_Unit {a b : Nat} (h : a ≤ b) : Unit ^ a ≤ Unit ^ b :=
  pow_le_pow_right₀ (by decide) h

/-- A positive limb at index `t ≥ fu + other` makes the magnitude exceed any
magnitude with `other` integer limbs. -/
theorem excess_decides {L R : List Int}
    (hl : ∀ x ∈ L, 0 ≤ x ∧ x < Unit) (hr : ∀ x ∈ R, 0 ≤ x ∧ x < Unit)
    (n fu other ofu t : Nat) (ht1 : fu + other ≤ t) (ht2 : t < n) (ht3 : 0 < L.getD t 0) :
    0 < limbsVal L n * Unit ^ ofu - limbsVal R (other + ofu) * Unit ^ fu := by
  have hA : Unit ^ t ≤ limbsVal L n := limbsVal_ge_of_pos hl t _ ht2 ht3
  have hpw : Unit ^ (other + ofu + fu) ≤ Unit ^ t * Unit ^ ofu := by
    rw [← pow_add]; exact pow_le_pow_Unit (by omega)
  have hlf : (0 : Int) < Unit ^ fu := pow_pos Unit_pos _
  have hrf : (0 : Int) < Unit ^ ofu := pow_pos Unit_pos _
  have hB0 := limbsVal_lt hr (other + ofu)
  have hB : limbsVal R (other + ofu) * Unit ^ fu < Unit ^ (other + ofu + fu) := by
    rw [pow_add (Unit) (other + ofu) fu]; nlinarith
  nlinarith

/-- Sign of a difference from its high and low parts, when one low part is
empty. -/
theorem sign_by_parts (lowA lowB XA XB pL pR : Int) (hpL : 0 < pL) (hpR : 0 < pR)
    (hA0 : 0 ≤ lowA) (hA1 : lowA < pL) (hB0 : 0 ≤ lowB) (hB1 : lowB < pR)
    (hdd : (lowA = 0 ∧ pL = 1) ∨ (lowB = 0 ∧ pR = 1)) :
    (XA < XB → lowA * pR - lowB * pL + pL * pR * (XA - XB) < 0) ∧
    (XB < XA → 0 < lowA * pR - lowB * pL + pL * pR * (XA - XB)) := by
  constructor
  · intro h
    have hx : XA - XB ≤ -1 := by omega
    rcases hdd with ⟨h0, h1⟩ | ⟨h0, h1⟩
    · subst h0; subst h1; nlinarith
    · subst h0; subst h1; nlinarith
  · intro h
    have hx : 1 ≤ XA - XB := by omega
    rcases hdd with ⟨h0, h1⟩ | ⟨h0, h1⟩
    · subst h0; subst h1; nlinarith
    · subst h0; subst h1; nlinarith

theorem sign_scale (p z : Int) (hp : 0 < p) : Int.sign (p * z) = Int.sign z := by
  rw [Int.sign_mul, Int.sign_eq_one_of_pos hp, one_mul]

/-- The two magnitudes split at the common scale. -/
theorem diff_factored (L R : List Int) (m mn dL dR : Nat) :
    limbsVal L (m + (dL + mn)) * Unit ^ (dR + mn) - limbsVal R (m + (dR + mn)) * Unit ^ (dL + mn) =
      Unit ^ mn * (limbsVal L dL * Unit ^ dR - limbsVal R dR * Unit ^ dL +
        Unit ^ dL * Unit ^ dR *
          (limbsVal (L.drop dL) (m + mn) - limbsVal (R.drop dR) (m + mn))) := by
  have e1 : m + (dL + mn) = dL + (m + mn) := by omega
  have e2 : m + (dR + mn) = dR + (m + mn) := by omega
  rw [e1, e2, limbsVal_drop L dL (m + mn), limbsVal_drop R dR (m + mn), pow_add Unit dR mn,
    pow_add Unit dL mn]
  ring

theorem tail_pos {l : List Int} (h : ∀ x ∈ l, 0 ≤ x ∧ x < Unit) (n : Nat)
    (hex : ∃ t : Nat, (t : Int) ≤ (n : Int) - 1 ∧ 0 < l.getD t 0) : 0 < limbsVal l n := by
  obtain ⟨t, ht1, ht2⟩ := hex
  have := limbsVal_ge_of_pos h t n (by omega) ht2
  have hpt : (0 : Int) < Unit ^ t := pow_pos Unit_pos _
  linarith

theorem tail_zero {l : List Int} (h : ∀ x ∈ l, 0 ≤ x ∧ x < Unit) (n : Nat)
    (hex : ¬ ∃ t : Nat, (t : Int) ≤ (n : Int) - 1 ∧ 0 < l.getD t 0) : limbsVal l n = 0 := by
  apply limbsVal_eq_zero_of_nonpos h
  intro t ht
  by_contra hcon
  exact hex ⟨t, by omega, by omega⟩

/-- The part of `cmpAbsLsu` after the excess integer limbs: both operands
have `m` integer limbs. -/
theorem cmpAbsLsu_tails (L R : List Int)
    (hl : ∀ x ∈ L, 0 ≤ x ∧ x < Unit) (hr : ∀ x ∈ R, 0 ≤ x ∧ x < Unit)
    (m mn dL dR : Nat) (hdd : dL = 0 ∨ dR = 0) (h1 : m + (dL + mn) ≤ 9) (h2 : m + (dR + mn) ≤ 9)
    (i j : Int) (hi : i = ((m + (dL + mn) : Nat) : Int) - 1)
    (hj : j = ((m + (dR + mn) : Nat) : Int) - 1) :
    (do
      let (dec, i1, j1) ← cmpCommon L R (i + 1).toNat i j
      match dec with
      | some c => Except.ok c
      | none =>
        let tl ← cmpTail L (i1 + 1).toNat i1
        if tl then Except.ok 1
        else
          let tr ← cmpTail R (j1 + 1).toNat j1
          if tr then Except.ok (-1) else Except.ok 0) =
      (.ok (Int.sign (limbsVal L (m + (dL + mn)) * Unit ^ (dR + mn) -
        limbsVal R (m + (dR + mn)) * Unit ^ (dL + mn))) : Except Fault Int) := by
  have h9 : MaxUnits = 9 := rfl
  obtain ⟨dec, i1, j1, heC, hC1, hC2, hC3⟩ := cmpCommon_spec L R hl hr (m + mn)
    (i + 1).toNat i j (by push_cast; omega) (by omega) (by omega) (by omega)
  have eoL : (i + 1 - ((m + mn : Nat) : Int)).toNat = dL := by push_cast at hi ⊢; omega
  have eoR : (j + 1 - ((m + mn : Nat) : Int)).toNat = dR := by push_cast at hj ⊢; omega
  rw [eoL, eoR] at hC1 hC2 hC3
  rw [heC, diff_factored, sign_scale _ _ (pow_pos Unit_pos _)]
  simp only [bind, Except.bind]
  have hlowA0 := limbsVal_nonneg hl dL
  have hlowA1 := limbsVal_lt hl dL
  have hlowB0 := limbsVal_nonneg hr dR
  have hlowB1 := limbsVal_lt hr dR
  have hdd' : (limbsVal L dL = 0 ∧ Unit ^ dL = 1) ∨ (limbsVal R dR = 0 ∧ Unit ^ dR = 1) := by
    rcases hdd with h | h
    · left; rw [h]; exact ⟨rfl, rfl⟩
    · right; rw [h]; exact ⟨rfl, rfl⟩
  obtain ⟨sl, sg⟩ := sign_by_parts (limbsVal L dL) (limbsVal R dR)
    (limbsVal (L.drop dL) (m + mn)) (limbsVal (R.drop dR) (m + mn)) (Unit ^ dL) (Unit ^ dR)
    (pow_pos Unit_pos _) (pow_pos Unit_pos _) hlowA0 hlowA1 hlowB0 hlowB1 hdd'
  rcases lt_trichotomy (limbsVal (L.drop dL) (m + mn)) (limbsVal (R.drop dR) (m + mn)) with
    hlt | heq | hgt
  · rw [hC2 hlt, Int.sign_eq_neg_one_of_neg (sl hlt)]
  · obtain ⟨e1, e2, e3⟩ := hC3 heq
    rw [e1, e2, e3, heq, sub_self, mul_zero, add_zero]
    simp only
    have ei : i - ((m + mn : Nat) : Int) = (dL : Int) - 1 := by push_cast at hi ⊢; omega
    have ej : j - ((m + mn : Nat) : Int) = (dR : Int) - 1 := by push_cast at hj ⊢; omega
    rw [ei, ej]
    obtain ⟨tl, heT, hT⟩ := cmpTail_spec L ((dL : Int) - 1 + 1).toNat ((dL : Int) - 1)
      (by omega) (by omega) (by omega)
    rw [heT]
    simp only
    cases tl with
    | true =>
      simp only [if_true]
      have hpos := tail_pos hl dL (hT.mp rfl)
      have hdR0 : dR = 0 := by
        rcases hdd with h | h
        · rw [h] at hpos; simp [limbsVal] at hpos
        · exact h
      have : 0 < limbsVal L dL * Unit ^ dR - limbsVal R dR * Unit ^ dL := by
        rw [hdR0]; simp only [limbsVal, pow_zero, mul_one, zero_mul, sub_zero]; exact hpos
      rw [Int.sign_eq_one_of_pos this]
    | false =>
      simp only [Bool.false_eq_true, if_false]
      have hAz := tail_zero hl dL (fun h => Bool.false_ne_true (hT.mpr h))
      obtain ⟨tr, heT2, hT2⟩ := cmpTail_spec R ((dR : Int) - 1 + 1).toNat ((dR : Int) - 1)
        (by omega) (by omega) (by omega)
      rw [heT2]
      simp only
      cases tr with
      | true =>
        simp only [if_true]
        have hpos := tail_pos hr dR (hT2.mp rfl)
        have hpL : (0 : Int) < Unit ^ dL := pow_pos Unit_pos _
        have : limbsVal L dL * Unit ^ dR - limbsVal R dR * Unit ^ dL < 0 := by
          rw [hAz]; nlinarith
        rw [Int.sign_eq_neg_one_of_neg this]
      | false =>
        simp only [Bool.false_eq_true, if_false]
        have hBz := tail_zero hr dR (fun h => Bool.false_ne_true (hT2.mpr h))
        rw [hAz, hBz]; simp
  · rw [hC1 hgt, Int.sign_eq_one_of_pos (sg hgt)]

/-- Absolute comparison of two limb arrays: the result is the sign of the
difference of the two magnitudes brought to a common scale. -/
theorem cmpAbsLsu_spec (L R : List Int)
    (hl : ∀ x ∈ L, 0 ≤ x ∧ x < Unit) (hr : ∀ x ∈ R, 0 ≤ x ∧ x < Unit)
    (liu lfu riu rfu : Nat) (h1 : liu + lfu ≤ 9) (h2 : riu + rfu ≤ 9) :
    cmpAbsLsu liu lfu L riu rfu R =
      .ok (Int.sign (limbsVal L (liu + lfu) * Unit ^ rfu - limbsVal R (riu + rfu) * Unit ^ lfu)) := by
  have h9 : MaxUnits = 9 := rfl
  unfold cmpAbsLsu
  obtain ⟨hitL, liu1, heL, hL1, hL2⟩ := cmpExcess_spec L lfu riu (by omega) (by omega)
    (liu : Int).toNat liu (by omega) (by omega) (by omega)
  rw [heL]
  simp only [bind, Except.bind]
  cases hitL with
  | true =>
    simp only [if_true]
    obtain ⟨t, ht1, ht2, ht3⟩ := hL1 rfl
    rw [Int.sign_eq_one_of_pos
      (excess_decides hl hr (liu + lfu) lfu riu rfu t (by omega) (by omega) ht3)]
  | false =>
    simp only [Bool.false_eq_true, if_false]
    obtain ⟨e1, z1⟩ := hL2 rfl
    obtain ⟨hitR, riu1, heR, hR1, hR2⟩ := cmpExcess_spec R rfu liu1 (by omega) (by omega)
      (riu : Int).toNat riu (by omega) (by omega) (by omega)
    rw [heR]
    simp only
    obtain ⟨m, hm⟩ : ∃ m : Nat, m = min liu riu := ⟨_, rfl⟩
    have hAeq : limbsVal L (liu + lfu) = limbsVal L (m + lfu) := by
      apply limbsVal_zero_above L _ _ (by omega)
      intro t ht1 ht2
      exact le_antisymm (z1 t (by omega) (by omega)) (getD_limb_bounds hl t).1
    cases hitR with
    | true =>
      simp only [if_true]
      obtain ⟨t, ht1, ht2, ht3⟩ := hR1 rfl
      have := excess_decides hr hl (riu + rfu) rfu m lfu t (by omega) (by omega) ht3
      rw [hAeq, Int.sign_eq_neg_one_of_neg (by linarith)]
    | false =>
      simp only [Bool.false_eq_true, if_false]
      obtain ⟨e2, z2⟩ := hR2 rfl
      have hBeq : limbsVal R (riu + rfu) = limbsVal R (m + rfu) := by
        apply limbsVal_zero_above R _ _ (by omega)
        intro t ht1 ht2
        exact le_antisymm (z2 t (by omega) (by omega)) (getD_limb_bounds hr t).1
      obtain ⟨mn, hmn⟩ : ∃ mn : Nat, mn = min lfu rfu := ⟨_, rfl⟩
      obtain ⟨dL, hdL⟩ : ∃ dL : Nat, dL = lfu - mn := ⟨_, rfl⟩
      obtain ⟨dR, hdR⟩ : ∃ dR : Nat, dR = rfu - mn := ⟨_, rfl⟩
      have hlfe : lfu = dL + mn := by omega
      have hrfe : rfu = dR + mn := by omega
      rw [hAeq, hBeq]
      subst hlfe
      subst hrfe
      exact cmpAbsLsu_tails L R hl hr m mn dL dR (by omega) (by omega) (by omega) _ _
        (by push_cast; omega) (by push_cast; omega)

theorem getUnits_eq (x : Int) (hx : 0 ≤ x) : getUnits x = (x + 8) / 9 := by
  unfold getUnits DigitsPerUnit
  rw [Int.tdiv_eq_ediv (by omega) (by omega)]
  congr 1
  omega

theorem getUnits_nonneg (x : Int) (hx : 0 ≤ x) : 0 ≤ getUnits x := by
  rw [getUnits_eq x hx]; omega

theorem intgUnits_nonneg (fd : FixedDecimal) : 0 ≤ fd.IntgUnits := by
  unfold FixedDecimal.IntgUnits FixedDecimal.Intg
  exact getUnits_nonneg _ (by omega)

theorem fracUnits_nonneg (fd : FixedDecimal) : 0 ≤ fd.FracUnits := by
  unfold FixedDecimal.FracUnits FixedDecimal.Frac
  exact getUnits_nonneg _ (by omega)

/-- The sign of a difference of two fractions with positive denominators. -/
theorem signOf_div_sub (x y p q : Int) (hp : 0 < p) (hq : 0 < q) :
    signOf ((x : ℚ) / (p : ℚ) - (y : ℚ) / (q : ℚ)) = Int.sign (x * q - y * p) := by
  have hp' : (0 : ℚ) < (p : ℚ) := by exact_mod_cast hp
  have hq' : (0 : ℚ) < (q : ℚ) := by exact_mod_cast hq
  have key : (x : ℚ) / p - y / q = ((x * q - y * p : Int) : ℚ) / (p * q) := by
    push_cast; field_simp; ring
  have hpq : (0 : ℚ) < (p : ℚ) * q := mul_pos hp' hq'
  unfold signOf
  rw [key]
  rcases lt_trichotomy (x * q - y * p) 0 with h | h | h
  · have : ((x * q - y * p : Int) : ℚ) / (p * q) < 0 :=
      div_neg_of_neg_of_pos (by exact_mod_cast h) hpq
    rw [if_pos this, Int.sign_eq_neg_one_of_neg h]
  · rw [h]; simp
  · have : 0 < ((x * q - y * p : Int) : ℚ) / (p * q) := div_pos (by exact_mod_cast h) hpq
    rw [if_neg (not_lt.mpr (le_of_lt this)), if_neg (ne_of_gt this), Int.sign_eq_one_of_pos h]

theorem cmpAbs_spec (a b : FixedDecimal) (ha : a.Valid) (hb : b.Valid) :
    cmpAbs a b = .ok (signOf (a.absValue - b.absValue)) := by
  obtain ⟨-, -, -, -, -, hla, hua⟩ := ha
  obtain ⟨-, -, -, -, -, hlb, hub⟩ := hb
  have h9 : MaxUnits = 9 := rfl
  have ia := intgUnits_nonneg a
  have fa := fracUnits_nonneg a
  have ib := intgUnits_nonneg b
  have fb := fracUnits_nonneg b
  obtain ⟨liu, hliu⟩ := Int.eq_ofNat_of_zero_le ia
  obtain ⟨lfu, hlfu⟩ := Int.eq_ofNat_of_zero_le fa
  obtain ⟨riu, hriu⟩ := Int.eq_ofNat_of_zero_le ib
  obtain ⟨rfu, hrfu⟩ := Int.eq_ofNat_of_zero_le fb
  unfold cmpAbs FixedDecimal.absValue FixedDecimal.scaled FixedDecimal.units
  rw [hliu, hlfu, hriu, hrfu]
  rw [cmpAbsLsu_spec a.lsu b.lsu hla hlb liu lfu riu rfu (by omega) (by omega)]
  have e1 : ((liu : Int) + (lfu : Int)).toNat = liu + lfu := by omega
  have e2 : ((riu : Int) + (rfu : Int)).toNat = riu + rfu := by omega
  rw [e1, e2, Int.toNat_ofNat, Int.toNat_ofNat]
  have := signOf_div_sub (limbsVal a.lsu (liu + lfu)) (limbsVal b.lsu (riu + rfu))
    (Unit ^ lfu) (Unit ^ rfu) (pow_pos Unit_pos _) (pow_pos Unit_pos _)
  push_cast at this
  rw [this]

theorem absValue_nonneg (a : FixedDecimal) (ha : a.Valid) : 0 ≤ a.absValue := by
  unfold FixedDecimal.absValue FixedDecimal.scaled
  have h1 := limbsVal_nonneg ha.2.2.2.2.2.1 a.units
  have h2 : (0 : ℚ) < ((Unit : Int) : ℚ) ^ a.FracUnits.toNat :=
    pow_pos (by exact_mod_cast Unit_pos) _
  exact div_nonneg (by exact_mod_cast h1) (le_of_lt h2)

theorem absValue_eq_zero_iff (a : FixedDecimal) : a.absValue = 0 ↔ a.scaled = 0 := by
  unfold FixedDecimal.absValue
  have h2 : ((Unit : Int) : ℚ) ^ a.FracUnits.toNat ≠ 0 :=
    pow_ne_zero _ (by exact_mod_cast (ne_of_gt Unit_pos))
  rw [div_eq_zero_iff]
  constructor
  · rintro (h | h)
    · exact_mod_cast h
    · exact absurd h h2
  · intro h; left; exact_mod_cast h

theorem signOf_neg (q : ℚ) : signOf (-q) = - signOf q := by
  unfold signOf
  rcases lt_trichotomy q 0 with h | h | h
  · rw [if_pos h, if_neg (by linarith), if_neg (by linarith)]; rfl
  · subst h; simp
  · rw [if_pos (by linarith), if_neg (by linarith), if_neg (by linarith)]

/-- C6 (amended): for valid non-special decimals `a` and `b` that are not two
zeros with different sign bits, `a.Compare(b)` returns the sign of
`value(a) - value(b)`, whatever the numbers of fractional digits and of zero
integer limbs stored. -/
theorem C6_compare_sign (a b : FixedDecimal) (ha : a.Valid) (hb : b.Valid)
    (hz : ¬ (a.IsNeg ≠ b.IsNeg ∧ a.scaled = 0 ∧ b.scaled = 0)) :
    a.Compare b = .ok (signOf (a.value - b.value)) := by
  have na := absValue_nonneg a ha
  have nb := absValue_nonneg b hb
  unfold FixedDecimal.Compare FixedDecimal.value
  cases hna : a.IsNeg <;> cases hnb : b.IsNeg
  · simp only [Bool.false_eq_true, if_false]
    exact cmpAbs_spec a b ha hb
  · simp only [Bool.false_eq_true, if_false, if_true]
    have hne : ¬ (a.scaled = 0 ∧ b.scaled = 0) := by
      intro h; exact hz ⟨by rw [hna, hnb]; decide, h⟩
    have hpos : 0 < a.absValue - -b.absValue := by
      rcases lt_or_eq_of_le na with h | h
      · linarith
      · rcases lt_or_eq_of_le nb with h' | h'
        · linarith
        · exact absurd ⟨(absValue_eq_zero_iff a).mp h.symm, (absValue_eq_zero_iff b).mp h'.symm⟩ hne
    unfold signOf
    rw [if_neg (by linarith), if_neg (ne_of_gt hpos)]
  · simp only [Bool.false_eq_true, if_false, if_true]
    have hne : ¬ (a.scaled = 0 ∧ b.scaled = 0) := by
      intro h; exact hz ⟨by rw [hna, hnb]; decide, h⟩
    have hneg : -a.absValue - b.absValue < 0 := by
      rcases lt_or_eq_of_le na with h | h
      · linarith
      · rcases lt_or_eq_of_le nb with h' | h'
        · linarith
        · exact absurd ⟨(absValue_eq_zero_iff a).mp h.symm, (absValue_eq_zero_iff b).mp h'.symm⟩ hne
    unfold signOf
    rw [if_pos hneg]
  · simp only [if_true]
    rw [cmpAbs_spec b a hb ha]
    congr 2
    ring



/-- C6 (amended), at an instance: one stored with ten fractional digits
compares equal to one stored with two fractional digits and a zero upper
integer limb. -/
theorem C6_compare_sign_witness :
    decOneFrac10.Valid ∧ decOneIntg10.Valid ∧
    ¬ (decOneFrac10.IsNeg ≠ decOneIntg10.IsNeg ∧ decOneFrac10.scaled = 0 ∧ decOneIntg10.scaled = 0) ∧
    decOneFrac10.Compare decOneIntg10 = .ok (signOf (decOneFrac10.value - decOneIntg10.value)) :=
  ⟨by decide, by decide, by decide,
    C6_compare_sign decOneFrac10 decOneIntg10 (by decide) (by decide) (by decide)⟩

theorem negZero_value : decNegZero.value = 0 := by
  have h1 : decNegZero.scaled = 0 := by decide
  unfold FixedDecimal.value FixedDecimal.absValue
  rw [h1]; simp

theorem zero_value : DecimalZero.value = 0 := by
  have h1 : DecimalZero.scaled = 0 := by decide
  unfold FixedDecimal.value FixedDecimal.absValue
  rw [h1]; simp

/-- C6 (as stated, refuted): the parsed `-0` is a valid decimal that is neither
NaN nor infinite and denotes zero, yet `Compare` with canonical zero returns
`-1`, because `Compare` decides on the sign bits before looking at the limbs. -/
theorem C6_compare_negative_zero :
    DecimalFromAsciiString "-0" DecimalZero = .ok decNegZero ∧
    decNegZero.Valid ∧ DecimalZero.Valid ∧
    decNegZero.IsNaN = false ∧ decNegZero.IsInf = false ∧
    decNegZero.Compare DecimalZero = .ok (-1) ∧
    signOf (decNegZero.value - DecimalZero.value) = 0 ∧
    decNegZero.Compare DecimalZero ≠ .ok (signOf (decNegZero.value - DecimalZero.value)) := by
  have hv : signOf (decNegZero.value - DecimalZero.value) = 0 := by
    rw [negZero_value, zero_value]; simp [signOf]
  refine ⟨by decide, by decide, by decide, by decide, by decide, by decide, hv, ?_⟩
  rw [hv]; decide

/-! ## Rounding (C9) -/

theorem limbsVal_congr (l l' : List Int) (n : Nat)
    (h : ∀ i : Nat, i < n → l.getD i 0 = l'.getD i 0) : limbsVal l n = limbsVal l' n := by
  induction n with
  | zero => rfl
  | succ n ih =>
    unfold limbsVal
    rw [ih (fun i hi => h i (by omega)), h n (by omega)]

theorem bounds_of_getD {l : List Int}
    (h : ∀ i : Nat, i < l.length → 0 ≤ l.getD i 0 ∧ l.getD i 0 < Unit) :
    ∀ x ∈ l, 0 ≤ x ∧ x < Unit := by
  intro x hx
  obtain ⟨i, hi, rfl⟩ := List.mem_iff_getElem.mp hx
  have := h i hi
  simpa [List.getD_eq_getElem?_getD, List.getElem?_eq_getElem hi] using this

theorem getD_set_int (l : List Int) (i j : Nat) (v : Int) :
    (l.set i v).getD j 0 = if i = j ∧ j < l.length then v else l.getD j 0 := by
  simp only [List.getD_eq_getElem?_getD, List.getElem?_set]
  by_cases h : i = j
  · subst h
    by_cases h2 : i < l.length
    · simp [h2]
    · simp [h2, List.getElem?_eq_none (not_lt.mp h2)]
  · simp [h]

theorem copyInto_length (a : List Int) (lo n : Nat) (src : List Int) :
    (copyInto a lo n src).length = a.length := by
  induction n generalizing a lo src with
  | zero => cases src <;> rfl
  | succ n ih =>
    cases src with
    | nil => rfl
    | cons x xs => simp only [copyInto]; rw [ih]; simp

theorem copyInto_getD (a : List Int) (lo n : Nat) (src : List Int) (i : Nat) :
    (copyInto a lo n src).getD i 0 =
      if lo ≤ i ∧ i < lo + n ∧ i < lo + src.length ∧ i < a.length then src.getD (i - lo) 0
      else a.getD i 0 := by
  induction n generalizing a lo src with
  | zero =>
    have : ¬ (lo ≤ i ∧ i < lo + 0 ∧ i < lo + src.length ∧ i < a.length) := by omega
    rw [if_neg this]; cases src <;> rfl
  | succ n ih =>
    cases src with
    | nil =>
      have : ¬ (lo ≤ i ∧ i < lo + (n + 1) ∧ i < lo + ([] : List Int).length ∧ i < a.length) := by
        simp only [List.length_nil]; omega
      rw [if_neg this]; rfl
    | cons x xs =>
      simp only [copyInto]
      rw [ih, getD_set_int]
      simp only [List.length_set, List.length_cons]
      by_cases h1 : lo = i
      · subst h1
        by_cases h2 : lo < a.length
        · have c1 : ¬ (lo + 1 ≤ lo ∧ lo < lo + 1 + n ∧ lo < lo + 1 + xs.length ∧ lo < a.length) := by omega
          have c2 : (lo ≤ lo ∧ lo < lo + (n + 1) ∧ lo < lo + (xs.length + 1) ∧ lo < a.length) := by omega
          rw [if_neg c1, if_pos c2, if_pos ⟨rfl, h2⟩]; simp
        · have c1 : ¬ (lo + 1 ≤ lo ∧ lo < lo + 1 + n ∧ lo < lo + 1 + xs.length ∧ lo < a.length) := by omega
          have c2 : ¬ (lo ≤ lo ∧ lo < lo + (n + 1) ∧ lo < lo + (xs.length + 1) ∧ lo < a.length) := by omega
          rw [if_neg c1, if_neg c2, if_neg (by omega)]
      · by_cases h3 : (lo + 1 ≤ i ∧ i < lo + 1 + n ∧ i < lo + 1 + xs.length ∧ i < a.length)
        · have c2 : (lo ≤ i ∧ i < lo + (n + 1) ∧ i < lo + (xs.length + 1) ∧ i < a.length) := by omega
          rw [if_pos h3, if_pos c2]
          have : i - lo = (i - (lo + 1)) + 1 := by omega
          rw [this]; simp [List.getD_cons_succ]
        · have c2 : ¬ (lo ≤ i ∧ i < lo + (n + 1) ∧ i < lo + (xs.length + 1) ∧ i < a.length) := by omega
          rw [if_neg h3, if_neg c2, if_neg (by omega)]

theorem zeroRange_spec (n : Nat) (i : Nat) (lsu : List Int) (h : i + n ≤ 9) (hl : lsu.length = 9) :
    ∃ l, zeroRange n (i : Int) lsu = .ok l ∧ l.length = 9 ∧
      ∀ j : Nat, l.getD j 0 = if i ≤ j ∧ j < i + n then 0 else lsu.getD j 0 := by
  induction n generalizing i lsu with
  | zero =>
    refine ⟨lsu, rfl, hl, fun j => ?_⟩
    rw [if_neg (by omega)]
  | succ n ih =>
    unfold zeroRange
    have hw : wr MaxUnits lsu (i : Int) 0 = .ok (lsu.set i 0) := by
      unfold wr MaxUnits
      rw [if_pos (by omega)]; simp
    rw [hw]
    obtain ⟨l, h1, h2, h3⟩ := ih (i + 1) (lsu.set i 0) (by omega) (by simp [hl])
    refine ⟨l, ?_, h2, fun j => ?_⟩
    · simpa using h1
    · rw [h3, getD_set_int]
      by_cases c : i = j
      · subst c
        rw [if_neg (by omega), if_pos ⟨rfl, by omega⟩, if_pos (by omega)]
      · by_cases c2 : i + 1 ≤ j ∧ j < i + 1 + n
        · rw [if_pos c2, if_pos (by omega)]
        · rw [if_neg c2, if_neg (by omega), if_neg (by omega)]

theorem limbsVal_set (l : List Int) (r n : Nat) (v : Int) (hr : r < n) (hl : r < l.length) :
    limbsVal (l.set r v) n = limbsVal l n + (v - l.getD r 0) * Unit ^ r := by
  induction n with
  | zero => omega
  | succ n ih =>
    unfold limbsVal
    by_cases h : r = n
    · subst h
      have e1 : limbsVal (l.set r v) r = limbsVal l r := by
        apply limbsVal_congr
        intro i hi
        rw [getD_set_int, if_neg (by omega)]
      rw [e1, getD_set_int, if_pos ⟨rfl, hl⟩]; ring
    · rw [ih (by omega), getD_set_int, if_neg (by omega)]; ring

theorem limbsVal_set_above (l : List Int) (r n : Nat) (v : Int) (hr : n ≤ r) :
    limbsVal (l.set r v) n = limbsVal l n := by
  apply limbsVal_congr
  intro i hi
  rw [getD_set_int, if_neg (by omega)]

theorem set_bounds {l : List Int} (h : ∀ x ∈ l, 0 ≤ x ∧ x < Unit) (r : Nat) (v : Int)
    (hv : 0 ≤ v ∧ v < Unit) : ∀ x ∈ l.set r v, 0 ≤ x ∧ x < Unit := by
  intro x hx
  rcases List.mem_or_eq_of_mem_set hx with h1 | h1
  · exact h x h1
  · rw [h1]; exact hv

theorem wr_ok {a : List Int} {i : Nat} (v : Int) (h1 : i < 9) :
    wr MaxUnits a (i : Int) v = .ok (a.set i v) := by
  unfold wr MaxUnits
  rw [if_pos (by omega)]; simp

theorem addWithCarry_spec (a b c : Int) (ha : 0 ≤ a ∧ a < Unit) (hb : 0 ≤ b ∧ b < Unit)
    (hc : c = 0 ∨ c = 1) :
    0 ≤ (addWithCarry a b c).1 ∧ (addWithCarry a b c).1 < Unit ∧
    ((addWithCarry a b c).2 = 0 ∨ (addWithCarry a b c).2 = 1) ∧
    (addWithCarry a b c).1 + (addWithCarry a b c).2 * Unit = a + b + c := by
  unfold addWithCarry wrap32 Unit at *
  dsimp only
  split
  · refine ⟨?_, ?_, ?_, ?_⟩
    · omega
    · omega
    · right; rfl
    · dsimp only
      omega
  · refine ⟨?_, ?_, ?_, ?_⟩
    · omega
    · omega
    · left; rfl
    · dsimp only
      omega

theorem roundCarry_spec (e : Nat) (he : e ≤ 9) (k : Nat) :
    ∀ (r : Nat) (c : Int) (M : List Int), r + k = e → (c = 0 ∨ c = 1) → M.length = 9 →
      (∀ x ∈ M, 0 ≤ x ∧ x < Unit) →
      ∃ M' c', roundCarry (e : Int) k (r : Int) c M = .ok (M', c') ∧ M'.length = 9 ∧
        (∀ x ∈ M', 0 ≤ x ∧ x < Unit) ∧ (c' = 0 ∨ c' = 1) ∧
        (∀ j : Nat, e ≤ j → M'.getD j 0 = M.getD j 0) ∧
        limbsVal M' e + c' * Unit ^ e = limbsVal M e + c * Unit ^ r := by
  induction k with
  | zero =>
    intro r c M hk hc hl hM
    have : r = e := by omega
    subst this
    exact ⟨M, c, rfl, hl, hM, hc, fun _ _ => rfl, rfl⟩
  | succ k ih =>
    intro r c M hk hc hl hM
    unfold roundCarry
    rcases hc with hc | hc
    · subst hc
      rw [if_neg (by omega)]
      refine ⟨M, 0, rfl, hl, hM, Or.inl rfl, fun _ _ => rfl, ?_⟩
      ring
    · subst hc
      rw [if_pos ⟨by omega, by omega⟩, rd_ok (by omega) (by unfold MaxUnits; omega)]
      have hx := getD_limb_bounds hM r
      obtain ⟨p1, p2, p3, p4⟩ := addWithCarry_spec (M.getD r 0) 0 1 hx ⟨le_refl _, Unit_pos⟩ (Or.inr rfl)
      simp only [Int.toNat_ofNat, bind, Except.bind]
      rw [wr_ok _ (by omega)]
      simp only []
      obtain ⟨M', c', q1, q2, q3, q4, q5, q6⟩ := ih (r + 1) (addWithCarry (M.getD r 0) 0 1).2
        (M.set r (addWithCarry (M.getD r 0) 0 1).1) (by omega) p3 (by simp [hl])
        (set_bounds hM r _ ⟨p1, p2⟩)
      refine ⟨M', c', ?_, q2, q3, q4, ?_, ?_⟩
      · simpa using q1
      · intro j hj
        rw [q5 j hj, getD_set_int, if_neg (by omega)]
      · rw [q6, limbsVal_set _ _ _ _ (by omega) (by omega), pow_succ]
        have : (addWithCarry (M.getD r 0) 0 1).1 = M.getD r 0 + 0 + 1 - (addWithCarry (M.getD r 0) 0 1).2 * Unit := by
          omega
        rw [this]; ring

theorem wrap32_id (x : Int) (h : -2147483648 ≤ x ∧ x < 2147483648) : wrap32 x = x := by
  unfold wrap32; omega

theorem roundUnit_spec (p : Nat) (hp : 1 ≤ p ∧ p ≤ 8) (v : Int) (hv : 0 ≤ v ∧ v < Unit) :
    ∃ v' c, roundUnit (p : Int) v = .ok (v', c) ∧ 0 ≤ v' ∧ v' < Unit ∧
      v' + (if c then Unit else 0) =
        v - v % 10 ^ p + (if 10 ^ p ≤ 2 * (v % 10 ^ p) then 10 ^ p else 0) := by
  have hP : (0 : Int) < 10 ^ p := by positivity
  have hP8 : (10 : Int) ^ p ≤ 10 ^ 8 := pow_le_pow_right₀ (by norm_num) hp.2
  have hPh : (10 : Int) ^ p = 10 * 10 ^ (p - 1) := by
    rw [← pow_succ']; congr 1; omega
  have r0 := Int.emod_nonneg v (ne_of_gt hP)
  have r1 := Int.emod_lt_of_pos v hP
  have r2 : v % 10 ^ p ≤ v := by
    have := Int.emod_add_ediv v (10 ^ p)
    have : 0 ≤ v / 10 ^ p := Int.ediv_nonneg hv.1 (le_of_lt hP)
    nlinarith
  unfold roundUnit
  rw [if_pos (by omega)]
  simp only [Int.toNat_ofNat]
  rw [Int.tmod_eq_emod hv.1 (le_of_lt hP)]
  unfold Unit at *
  generalize v % 10 ^ p = r at *
  generalize (10 : Int) ^ (p - 1) = h at *
  generalize (10 : Int) ^ p = P at *
  norm_num at hP8
  rw [wrap32_id (v - r) (by omega)]
  by_cases c1 : r ≥ 5 * h
  · have c3 : P ≤ 2 * r := by omega
    rw [if_pos c1, wrap32_id _ (by omega), if_pos c3]
    by_cases c2 : v - r + P ≥ 1000000000
    · rw [if_pos c2, wrap32_id _ (by omega)]
      exact ⟨_, _, rfl, by omega, by omega, by simp⟩
    · rw [if_neg c2]
      exact ⟨_, _, rfl, by omega, by omega, by simp⟩
  · have c3 : ¬ P ≤ 2 * r := by omega
    have c2 : ¬ v - r ≥ 1000000000 := by omega
    rw [if_neg c1, if_neg c3, if_neg c2]
    exact ⟨_, _, rfl, by omega, by omega, by simp⟩

theorem Unit_eq_pow : Unit = 10 ^ 9 := by decide

theorem limbsVal_emod (l : List Int) (n t : Nat) (hn : 1 ≤ n) (ht : t ≤ 9) :
    limbsVal l n % 10 ^ t = l.getD 0 0 % 10 ^ t := by
  obtain ⟨m, rfl⟩ : ∃ m, n = 1 + m := ⟨n - 1, by omega⟩
  rw [limbsVal_drop l 1 m]
  have h1 : limbsVal l 1 = l.getD 0 0 := by simp [limbsVal]
  have h2 : (10 : Int) ^ t ∣ Unit ^ 1 * limbsVal (l.drop 1) m := by
    apply Dvd.dvd.mul_right
    rw [pow_one, Unit_eq_pow]
    exact pow_dvd_pow 10 ht
  rw [h1]
  obtain ⟨q, hq⟩ := h2
  rw [hq, Int.add_mul_emod_self_left]

theorem roundHalfUp_spec (fd : FixedDecimal) (iu fu t : Nat) (s : Int) (c0 : Int)
    (hl : fd.lsu.length = 9) (hM : ∀ x ∈ fd.lsu, 0 ≤ x ∧ x < Unit) (hn : iu + fu ≤ 9)
    (ht : t < 9) (hc0 : c0 = 0 ∨ c0 = 1) (ht0 : t ≠ 0 → c0 = 0 ∧ 1 ≤ fu)
    (hroom : iu + fu < 9 ∨
      limbsVal fd.lsu (iu + fu) - limbsVal fd.lsu (iu + fu) % 10 ^ t +
        (if 10 ^ t ≤ 2 * (limbsVal fd.lsu (iu + fu) % 10 ^ t) then 10 ^ t else 0) + c0
        < Unit ^ (iu + fu)) :
    ∃ r iu1, roundHalfUp fd (iu : Int) (fu : Int) (t : Int) s c0 = .ok r ∧ r.lsu.length = 9 ∧
      (∀ x ∈ r.lsu, 0 ≤ x ∧ x < Unit) ∧ r.frac = s ∧ (iu1 = iu ∨ iu1 = iu + 1) ∧ iu1 + fu ≤ 9 ∧
      r.intg = (if fd.IsNeg then 9 * (iu1 : Int) - 128 else 9 * (iu1 : Int)) ∧
      limbsVal r.lsu (iu1 + fu) =
        limbsVal fd.lsu (iu + fu) - limbsVal fd.lsu (iu + fu) % 10 ^ t +
        (if 10 ^ t ≤ 2 * (limbsVal fd.lsu (iu + fu) % 10 ^ t) then 10 ^ t else 0) + c0 := by
  -- the limbs after the in-limb rounding and the carry loop
  have step1 : ∃ M' c', (c' = 0 ∨ c' = 1) ∧ M'.length = 9 ∧ (∀ x ∈ M', 0 ≤ x ∧ x < Unit) ∧
      limbsVal M' (iu + fu) + c' * Unit ^ (iu + fu) =
        limbsVal fd.lsu (iu + fu) - limbsVal fd.lsu (iu + fu) % 10 ^ t +
        (if 10 ^ t ≤ 2 * (limbsVal fd.lsu (iu + fu) % 10 ^ t) then 10 ^ t else 0) + c0 ∧
      roundHalfUp fd (iu : Int) (fu : Int) (t : Int) s c0 =
        (do
          let (lsu3, intgUnits1) ←
            (if c' > 0 then do
              let l ← wr MaxUnits M' ((iu : Int) + (fu : Int)) 1
              pure (l, (iu : Int) + 1)
            else pure (M', (iu : Int)))
          let lsu4 ← zeroRange 0 0 lsu3
          let fd1 : FixedDecimal :=
            { intg := wrap8 (intgUnits1 * DigitsPerUnit), frac := s, lsu := lsu4 }
          if fd.IsNeg then pure fd1.setNeg else pure fd1) := by
    have hd : div9 (t : Int) = 0 := by
      unfold div9; rw [Int.tdiv_eq_ediv (by omega) (by omega)]; omega
    have hm : mod9 (t : Int) = (t : Int) := by
      unfold mod9; rw [Int.tmod_eq_emod (by omega) (by omega)]; omega
    by_cases h0 : t = 0
    · subst h0
      obtain ⟨M', c', q1, q2, q3, q4, q5, q6⟩ :=
        roundCarry_spec (iu + fu) hn (iu + fu) 0 c0 fd.lsu (by omega) hc0 hl hM
      refine ⟨M', c', q4, q2, q3, ?_, ?_⟩
      · rw [q6]; simp
      · unfold roundHalfUp
        simp only [hd, hm]
        have e1 : ((iu : Int) + (fu : Int) - 0).toNat = iu + fu := by omega
        have q1' : roundCarry ((iu : Int) + (fu : Int)) (iu + fu) 0 c0 fd.lsu = .ok (M', c') := by
          have := q1; push_cast at this; exact this
        have e2 : ((iu : Int) + (fu : Int)).toNat = iu + fu := by omega
        simp [e1, e2, q1', bind, Except.bind, pure, Except.pure]
    · obtain ⟨hc, hfu⟩ := ht0 h0
      subst hc
      obtain ⟨v1, c, p1, p2, p3, p4⟩ := roundUnit_spec t (by omega) (fd.lsu.getD 0 0)
        (getD_limb_bounds hM 0)
      obtain ⟨M', c', q1, q2, q3, q4, q5, q6⟩ :=
        roundCarry_spec (iu + fu) hn (iu + fu - 1) 1 (if c then 1 else 0) (fd.lsu.set 0 v1)
          (by omega) (by cases c <;> simp) (by simp [hl]) (set_bounds hM 0 v1 ⟨p2, p3⟩)
      refine ⟨M', c', q4, q2, q3, ?_, ?_⟩
      · rw [q6, limbsVal_set _ _ _ _ (by omega) (by omega),
          limbsVal_emod fd.lsu (iu + fu) t (by omega) (by omega)]
        have : v1 = fd.lsu.getD 0 0 - fd.lsu.getD 0 0 % 10 ^ t +
            (if 10 ^ t ≤ 2 * (fd.lsu.getD 0 0 % 10 ^ t) then 10 ^ t else 0) -
            (if c then Unit else 0) := by omega
        rw [this]
        cases c <;> simp <;> ring
      · unfold roundHalfUp
        simp only [hd, hm]
        have hne : (t : Int) ≠ 0 := by omega
        have e1 : ((iu : Int) + (fu : Int) - (0 + 1)).toNat = iu + fu - 1 := by omega
        have hr : rd MaxUnits fd.lsu 0 = .ok (fd.lsu.getD 0 0) := rd_ok (le_refl _) (by decide)
        have hw : wr MaxUnits fd.lsu 0 v1 = .ok (fd.lsu.set 0 v1) := by
          have := wr_ok (a := fd.lsu) (i := 0) v1 (by omega)
          simpa using this
        have q1' : roundCarry ((iu : Int) + (fu : Int)) (iu + fu - 1) (0 + 1)
            (if c then 1 else 0) (fd.lsu.set 0 v1) = .ok (M', c') := by
          have := q1; push_cast at this; simpa using this
        simp only [if_pos hne, hr, bind, Except.bind, p1, hw, pure, Except.pure, e1]
        cases c <;> simp at q1' <;> simp [q1', e1]
  obtain ⟨M', c', hc', hl', hM', hval, heq⟩ := step1
  rw [heq]
  have hz : ∀ l : List Int, zeroRange 0 0 l = .ok l := fun _ => rfl
  have h9 : DigitsPerUnit = 9 := rfl
  rcases hc' with hc' | hc'
  · subst hc'
    have hw8 : wrap8 ((iu : Int) * DigitsPerUnit) = 9 * iu := by
      unfold wrap8; rw [h9]; omega
    cases hneg : fd.IsNeg
    · refine ⟨{ intg := wrap8 ((iu : Int) * DigitsPerUnit), frac := s, lsu := M' }, iu, ?_,
        hl', hM', rfl, Or.inl rfl, hn, ?_, ?_⟩
      · simp [bind, Except.bind, pure, Except.pure, hz]
      · simpa using hw8
      · rw [← hval]; simp
    · refine ⟨FixedDecimal.setNeg { intg := wrap8 ((iu : Int) * DigitsPerUnit), frac := s, lsu := M' },
        iu, ?_, hl', hM', rfl, Or.inl rfl, hn, ?_, ?_⟩
      · simp [bind, Except.bind, pure, Except.pure, hz]
      · simp only [FixedDecimal.setNeg, if_true]
        rw [hw8, if_neg (by omega)]
      · rw [← hval]; simp [FixedDecimal.setNeg]
  · subst hc'
    have hlt : iu + fu < 9 := by
      rcases hroom with h | h
      · exact h
      · exfalso
        have := limbsVal_nonneg hM' (iu + fu)
        rw [← hval] at h
        linarith
    have hw : wr MaxUnits M' ((iu : Int) + (fu : Int)) 1 = .ok (M'.set (iu + fu) 1) := by
      have := wr_ok (a := M') (i := iu + fu) 1 hlt
      push_cast at this; exact this
    have hw8 : wrap8 (((iu : Int) + 1) * DigitsPerUnit) = 9 * ((iu + 1 : Nat) : Int) := by
      unfold wrap8; rw [h9]; push_cast; omega
    have hv : limbsVal (M'.set (iu + fu) 1) (iu + 1 + fu) =
        limbsVal M' (iu + fu) + 1 * Unit ^ (iu + fu) := by
      have e : iu + 1 + fu = (iu + fu) + 1 := by omega
      rw [e]
      show limbsVal (M'.set (iu + fu) 1) (iu + fu) +
        (M'.set (iu + fu) 1).getD (iu + fu) 0 * Unit ^ (iu + fu) = _
      rw [limbsVal_set_above _ _ _ _ (le_refl _), getD_set_int, if_pos ⟨rfl, by omega⟩]
    cases hneg : fd.IsNeg
    · refine ⟨FixedDecimal.mk (wrap8 (((iu : Int) + 1) * DigitsPerUnit)) s (M'.set (iu + fu) 1),
        iu + 1, ?_,
        by simp [hl'], set_bounds hM' _ 1 (by decide), rfl, Or.inr rfl, by omega, ?_, ?_⟩
      · simp [bind, Except.bind, pure, Except.pure, hz, hw]
      · simpa using hw8
      · simp only []; rw [hv, hval]
    · refine ⟨FixedDecimal.setNeg
          (FixedDecimal.mk (wrap8 (((iu : Int) + 1) * DigitsPerUnit)) s (M'.set (iu + fu) 1)),
        iu + 1, ?_,
        by simp [hl', FixedDecimal.setNeg], set_bounds hM' _ 1 (by decide), rfl, Or.inr rfl,
        by omega, ?_, ?_⟩
      · simp [bind, Except.bind, pure, Except.pure, hz, hw]
      · simp only [FixedDecimal.setNeg, if_true]
        rw [hw8, if_neg (by omega)]
      · simp only [FixedDecimal.setNeg]; rw [hv, hval]

theorem getD_take_drop (l : List Int) (k n j : Nat) :
    ((l.drop k).take n).getD j 0 = if j < n then l.getD (k + j) 0 else 0 := by
  simp only [List.getD_eq_getElem?_getD, List.getElem?_take, List.getElem?_drop]
  split <;> simp

theorem take_drop_length (l : List Int) (k n : Nat) (h : k + n ≤ l.length) :
    ((l.drop k).take n).length = n := by
  simp; omega

/-- The three statements that drop the `k` lowest limbs: `copy(lsu[:n], lsu[k:k+n])`
and the loop that clears `lsu[n..n+k)`. -/
theorem shift_spec (L : List Int) (hl : L.length = 9) (hL : ∀ x ∈ L, 0 ≤ x ∧ x < Unit)
    (k n : Nat) (h : k + n ≤ 9) (lo hi n1 zi : Int) (zc : Nat)
    (e1 : lo = k) (e2 : hi = k + n) (e3 : n1 = n) (e4 : zi = n) (e5 : zc = k) :
    ∃ src lsu1 l2, slice MaxUnits L lo hi = .ok src ∧ copyTo MaxUnits L 0 n1 src = .ok lsu1 ∧
      zeroRange zc zi lsu1 = .ok l2 ∧ l2.length = 9 ∧ (∀ x ∈ l2, 0 ≤ x ∧ x < Unit) ∧
      ∀ i : Nat, i < n → l2.getD i 0 = L.getD (k + i) 0 := by
  subst e1 e2 e3 e4
  rw [e5]
  have hs : slice MaxUnits L (k : Int) ((k : Int) + (n : Int)) = .ok ((L.drop k).take n) := by
    unfold slice MaxUnits
    rw [if_pos (by omega)]
    have : ((k : Int) + (n : Int) - (k : Int)).toNat = n := by omega
    simp [this]
  have hc : copyTo MaxUnits L 0 (n : Int) ((L.drop k).take n) =
      .ok (copyInto L 0 n ((L.drop k).take n)) := by
    unfold copyTo MaxUnits
    rw [if_pos (by omega)]
    simp
  obtain ⟨l2, z1, z2, z3⟩ := zeroRange_spec k n (copyInto L 0 n ((L.drop k).take n)) (by omega)
    (by rw [copyInto_length]; exact hl)
  have hg : ∀ j : Nat, l2.getD j 0 =
      if n ≤ j ∧ j < n + k then 0 else if j < n then L.getD (k + j) 0 else L.getD j 0 := by
    intro j
    rw [z3, copyInto_getD, getD_take_drop, take_drop_length _ _ _ (by omega)]
    simp only [Nat.sub_zero, Nat.zero_add, Nat.zero_le, true_and]
    by_cases c1 : n ≤ j ∧ j < n + k
    · rw [if_pos c1, if_pos c1]
    · rw [if_neg c1, if_neg c1]
      by_cases c2 : j < n
      · rw [if_pos (by omega), if_pos c2, if_pos c2]
      · rw [if_neg (by omega), if_neg c2]
  refine ⟨_, _, l2, hs, hc, z1, z2, ?_, ?_⟩
  · apply bounds_of_getD
    intro i _
    rw [hg]
    split
    · exact ⟨le_refl _, Unit_pos⟩
    · split <;> exact getD_limb_bounds hL _
  · intro i hi
    rw [hg, if_neg (by omega), if_pos hi]

/-- Rounding to nearest of a quotient of integers, ties upwards. -/
theorem floor_half_eq (A B m : Int) (hB : 0 < B) (h1 : 2 * B * m ≤ 2 * A + B)
    (h2 : 2 * A + B < 2 * B * (m + 1)) : ⌊(A : ℚ) / (B : ℚ) + 1 / 2⌋ = m := by
  have hB' : (0 : ℚ) < (B : ℚ) := by exact_mod_cast hB
  rw [Int.floor_eq_iff]
  have h1' : (2 * (B : ℚ) * m ≤ 2 * A + B) := by exact_mod_cast h1
  have h2' : (2 * (A : ℚ) + B < 2 * B * (m + 1)) := by exact_mod_cast h2
  constructor
  · rw [← sub_nonneg]
    have : (A : ℚ) / B + 1 / 2 - m = (2 * A + B - 2 * B * m) / (2 * B) := by
      field_simp; ring
    rw [this]
    apply div_nonneg <;> linarith
  · rw [← sub_pos]
    have : (m : ℚ) + 1 - ((A : ℚ) / B + 1 / 2) = (2 * B * (m + 1) - (2 * A + B)) / (2 * B) := by
      field_simp; ring
    rw [this]
    apply div_pos <;> linarith

/-- Rounding inside a limb: with `T = q * P + r`, `P` even, and a dropped part
`low < W`, the nearest multiple of `P * W` is decided by `r` alone. -/
theorem round_in_limb (T low W P : Int) (hW : 0 < W) (hP : 0 < P) (hev : 2 ∣ P)
    (hlow : 0 ≤ low ∧ low < W) :
    ⌊((low + W * T : Int) : ℚ) / ((P * W : Int) : ℚ) + 1 / 2⌋ * P =
      T - T % P + (if P ≤ 2 * (T % P) then P else 0) := by
  have r0 := Int.emod_nonneg T (ne_of_gt hP)
  have r1 := Int.emod_lt_of_pos T hP
  have hq := Int.emod_add_ediv T P
  obtain ⟨P2, hP2⟩ := hev
  generalize T % P = r at *
  generalize T / P = q at *
  have hT : T = r + P * q := hq.symm
  by_cases c : P ≤ 2 * r
  · rw [if_pos c, floor_half_eq _ _ (q + 1) (mul_pos hP hW)]
    · rw [hT]; ring
    · have : 0 ≤ W * (2 * r - P) := mul_nonneg (le_of_lt hW) (by linarith)
      rw [hT]; nlinarith
    · have : 0 ≤ W * (P - 1 - r) := mul_nonneg (le_of_lt hW) (by linarith)
      rw [hT]; nlinarith
  · rw [if_neg c, floor_half_eq _ _ q (mul_pos hP hW)]
    · rw [hT]; ring
    · have : 0 ≤ W * r := mul_nonneg (le_of_lt hW) r0
      rw [hT]; nlinarith
    · have hr : r ≤ P2 - 1 := by omega
      have : 0 ≤ W * (P2 - 1 - r) := mul_nonneg (le_of_lt hW) (by linarith)
      rw [hT, hP2]; nlinarith

/-- Rounding at a limb edge: the top dropped limb `x` decides. -/
theorem round_at_edge (T low1 x W : Int) (hW : 0 < W) (hlow : 0 ≤ low1 ∧ low1 < W)
    (hx : 0 ≤ x ∧ x < Unit) :
    ⌊((low1 + W * x + W * Unit * T : Int) : ℚ) / ((W * Unit : Int) : ℚ) + 1 / 2⌋ =
      T + (if x ≥ HalfUnit then 1 else 0) := by
  have hU : Unit = 2 * HalfUnit := by decide
  have hWU : 0 < W * Unit := mul_pos hW Unit_pos
  by_cases c : x ≥ HalfUnit
  · rw [if_pos c, floor_half_eq _ _ (T + 1) hWU]
    · have : 0 ≤ W * (x - HalfUnit) := mul_nonneg (le_of_lt hW) (by linarith)
      rw [hU]; nlinarith
    · have : 0 ≤ W * (Unit - 1 - x) := mul_nonneg (le_of_lt hW) (by linarith [hx.2])
      nlinarith
  · rw [if_neg c, floor_half_eq _ _ T hWU]
    · simp
    · have : 0 ≤ W * x := mul_nonneg (le_of_lt hW) hx.1
      nlinarith
    · have hx2 : x ≤ HalfUnit - 1 := by omega
      have : 0 ≤ W * (HalfUnit - 1 - x) := mul_nonneg (le_of_lt hW) (by linarith)
      rw [hU]; nlinarith

theorem wrap8_id (x : Int) (h : -128 ≤ x ∧ x < 128) : wrap8 x = x := by
  unfold wrap8; omega

theorem round_reduce (v : FixedDecimal) (hv : v.Valid) (s : Nat) (hs : (s : Int) < v.Frac) :
    ∃ l2 c0, l2.length = 9 ∧ (∀ x ∈ l2, 0 ≤ x ∧ x < Unit) ∧
      (∀ i : Nat, i < v.IntgUnits.toNat + (s + 8) / 9 →
        l2.getD i 0 = v.lsu.getD (v.FracUnits.toNat - (s + 8) / 9 + i) 0) ∧
      ((s % 9 = 0 ∧ 1 ≤ v.FracUnits.toNat - (s + 8) / 9 ∧
          c0 = (if v.lsu.getD (v.FracUnits.toNat - (s + 8) / 9 - 1) 0 ≥ HalfUnit then 1 else 0)) ∨
        (s % 9 ≠ 0 ∧ c0 = 0)) ∧
      v.Round (s : Int) = roundHalfUp { v with lsu := l2 } (v.IntgUnits.toNat : Int)
        (((s + 8) / 9 : Nat) : Int) ((9 * ((s + 8) / 9) - s : Nat) : Int) (s : Int) c0 := by
  obtain ⟨h1, h2, h3, h4, hl, hL, hu⟩ := hv
  have h9 : MaxUnits = 9 := rfl
  have hF : v.Frac = v.frac := by unfold FixedDecimal.Frac; omega
  have ia := intgUnits_nonneg v
  have hfu : v.FracUnits = (v.frac + 8) / 9 := by
    unfold FixedDecimal.FracUnits; rw [hF]; exact getUnits_eq _ h3
  obtain ⟨iu, hiu⟩ := Int.eq_ofNat_of_zero_le ia
  obtain ⟨fu, hfuN⟩ := Int.eq_ofNat_of_zero_le (fracUnits_nonneg v)
  have hg1 : getUnits ((s : Int) + 1) = ((s : Int) + 9) / 9 := by
    rw [getUnits_eq _ (by omega)]; congr 1
  have hm : mod9 (s : Int) = (s : Int) % 9 := by
    unfold mod9; rw [Int.tmod_eq_emod (by omega) (by omega)]
  have hw : wrap8 (s : Int) = s := wrap8_id _ (by omega)
  have hdp : DigitsPerUnit = 9 := rfl
  rw [hiu, hfuN]
  simp only [Int.toNat_ofNat]
  rw [hiu, hfuN] at hu
  rw [hfuN] at hfu
  unfold FixedDecimal.Round
  dsimp only
  rw [if_neg (show ¬ ((s : Int) ≥ v.Frac) by omega), if_neg (show ¬ ((s : Int) < 0) by omega),
    hg1, hm, hw, hiu, hfuN, hdp]
  by_cases hedge : s % 9 = 0
  · have hedge' : (s : Int) % 9 = 0 := by omega
    by_cases hlt : ((s : Int) + 9) / 9 < (fu : Int)
    · -- more fractional limbs than needed, at a limb edge
      rw [if_pos hlt]
      simp only [hedge', decide_True, if_true]
      rw [rd_ok (by omega) (by rw [h9]; omega)]
      obtain ⟨src, lsu1, l2, q1, q2, q3, q4, q5, q6⟩ := shift_spec v.lsu hl hL (fu - (s + 8) / 9)
        (iu + (s + 8) / 9) (by omega)
        ((fu : Int) - (((s : Int) + 9) / 9 - 1)) ((fu : Int) + (iu : Int))
        ((((s : Int) + 9) / 9 - 1) + (iu : Int)) ((((s : Int) + 9) / 9 - 1) + (iu : Int))
        ((fu : Int) - (((s : Int) + 9) / 9 - 1)).toNat
        (by omega) (by omega) (by omega) (by omega) (by omega)
      refine ⟨l2, (if v.lsu.getD (fu - (s + 8) / 9 - 1) 0 ≥ HalfUnit then 1 else 0), q4, q5,
        fun i hi => ?_, Or.inl ⟨hedge, by omega, rfl⟩, ?_⟩
      · rw [q6 i (by omega)]
      · simp only [bind, Except.bind, pure, Except.pure, q1, q2, q3]
        have a1 : ((fu : Int) - (((s : Int) + 9) / 9)).toNat = fu - (s + 8) / 9 - 1 := by omega
        have a2 : ((s : Int) + 9) / 9 - 1 = (((s + 8) / 9 : Nat) : Int) := by omega
        have a4 : (((s + 8) / 9 : Nat) : Int) * 9 - (s : Int) =
            ((9 * ((s + 8) / 9) - s : Nat) : Int) := by omega
        simp only [a1, a2, a4, unitGreaterEqualHalf, decide_eq_true_eq]
    · -- as many fractional limbs as needed, at a limb edge: the lowest limb is dropped
      have hgt : ¬ ((s : Int) + 9) / 9 > (fu : Int) := by omega
      rw [if_neg hlt, if_neg hgt, if_pos hedge']
      rw [rd_ok (le_refl _) (by decide)]
      obtain ⟨src, lsu1, l2, q1, q2, q3, q4, q5, q6⟩ := shift_spec v.lsu hl hL 1
        (iu + (s + 8) / 9) (by omega)
        1 ((fu : Int) + (iu : Int)) ((fu : Int) + (iu : Int) - 1)
        (((s : Int) + 9) / 9 + (iu : Int) - 1)
        ((fu : Int) + (iu : Int) - (((s : Int) + 9) / 9 + (iu : Int) - 1)).toNat
        rfl (by omega) (by omega) (by omega) (by omega)
      have hk : fu - (s + 8) / 9 = 1 := by omega
      refine ⟨l2, (if v.lsu.getD (fu - (s + 8) / 9 - 1) 0 ≥ HalfUnit then 1 else 0), q4, q5,
        fun i hi => ?_, Or.inl ⟨hedge, by omega, rfl⟩, ?_⟩
      · rw [q6 i (by omega), hk]
      · simp only [bind, Except.bind, pure, Except.pure, q1, q2, q3]
        have a2 : (fu : Int) - 1 = (((s + 8) / 9 : Nat) : Int) := by omega
        have a4 : (((s + 8) / 9 : Nat) : Int) * 9 - (s : Int) =
            ((9 * ((s + 8) / 9) - s : Nat) : Int) := by omega
        have a5 : fu - (s + 8) / 9 - 1 = 0 := by omega
        simp only [a2, a4, a5, unitGreaterEqualHalf, decide_eq_true_eq, Int.toNat_zero]
  · have hedge' : ¬ (s : Int) % 9 = 0 := by omega
    by_cases hlt : ((s : Int) + 9) / 9 < (fu : Int)
    · -- more fractional limbs than needed, inside a limb
      rw [if_pos hlt]
      simp only [hedge', decide_False, Bool.false_eq_true, if_false]
      obtain ⟨src, lsu1, l2, q1, q2, q3, q4, q5, q6⟩ := shift_spec v.lsu hl hL (fu - (s + 8) / 9)
        (iu + (s + 8) / 9) (by omega)
        ((fu : Int) - ((s : Int) + 9) / 9) ((fu : Int) + (iu : Int))
        (((s : Int) + 9) / 9 + (iu : Int)) (((s : Int) + 9) / 9 + (iu : Int))
        ((fu : Int) - ((s : Int) + 9) / 9).toNat
        (by omega) (by omega) (by omega) (by omega) (by omega)
      refine ⟨l2, 0, q4, q5, fun i hi => ?_, Or.inr ⟨hedge, rfl⟩, ?_⟩
      · rw [q6 i (by omega)]
      · simp only [bind, Except.bind, pure, Except.pure, q1, q2, q3]
        have a2 : ((s : Int) + 9) / 9 = (((s + 8) / 9 : Nat) : Int) := by omega
        have a4 : (((s + 8) / 9 : Nat) : Int) * 9 - (s : Int) =
            ((9 * ((s + 8) / 9) - s : Nat) : Int) := by omega
        simp only [a2, a4]
    · -- as many fractional limbs as needed, inside a limb: no limb is dropped
      have hgt : ¬ ((s : Int) + 9) / 9 > (fu : Int) := by omega
      rw [if_neg hlt, if_neg hgt, if_neg hedge']
      have hk : fu - (s + 8) / 9 = 0 := by omega
      refine ⟨v.lsu, 0, hl, hL, fun i hi => ?_, Or.inr ⟨hedge, rfl⟩, ?_⟩
      · rw [hk, Nat.zero_add]
      · have a2 : (fu : Int) = (((s + 8) / 9 : Nat) : Int) := by omega
        have a4 : (((s + 8) / 9 : Nat) : Int) * 9 - (s : Int) =
            ((9 * ((s + 8) / 9) - s : Nat) : Int) := by omega
        rw [a2, a4]

theorem abs_value (v : FixedDecimal) (hv : v.Valid) : |v.value| = v.absValue := by
  have := absValue_nonneg v hv
  unfold FixedDecimal.value
  split
  · rw [abs_neg, abs_of_nonneg this]
  · exact abs_of_nonneg this

/-- The limbs after the shift and the rounding target, as integers. -/
theorem round_target (L l2 : List Int) (hL : ∀ x ∈ L, 0 ≤ x ∧ x < Unit) (iu fu fu1 s : Nat)
    (hfu : fu1 ≤ fu) (hs : s ≤ 9 * fu1) (hs2 : 9 * fu1 < s + 9) (c0 : Int)
    (hsh : ∀ i : Nat, i < iu + fu1 → l2.getD i 0 = L.getD (fu - fu1 + i) 0)
    (hc : (s % 9 = 0 ∧ 1 ≤ fu - fu1 ∧
          c0 = (if L.getD (fu - fu1 - 1) 0 ≥ HalfUnit then 1 else 0)) ∨ (s % 9 ≠ 0 ∧ c0 = 0)) :
    ⌊((limbsVal L (iu + fu) : Int) : ℚ) / ((Unit : Int) : ℚ) ^ fu * 10 ^ s + 1 / 2⌋ *
        10 ^ (9 * fu1 - s) =
      limbsVal l2 (iu + fu1) - limbsVal l2 (iu + fu1) % 10 ^ (9 * fu1 - s) +
        (if 10 ^ (9 * fu1 - s) ≤ 2 * (limbsVal l2 (iu + fu1) % 10 ^ (9 * fu1 - s))
          then 10 ^ (9 * fu1 - s) else 0) + c0 := by
  have hT : limbsVal l2 (iu + fu1) = limbsVal (L.drop (fu - fu1)) (iu + fu1) := by
    apply limbsVal_congr
    intro i hi
    rw [hsh i hi, getD_drop]
  have hS : limbsVal L (iu + fu) =
      limbsVal L (fu - fu1) + Unit ^ (fu - fu1) * limbsVal l2 (iu + fu1) := by
    rw [hT, ← limbsVal_drop]; congr 1; omega
  have hUq : ((Unit : Int) : ℚ) = 10 ^ 9 := by norm_num [Unit]
  -- the scaled quotient as a quotient of integers
  have hquot : ((limbsVal L (iu + fu) : Int) : ℚ) / ((Unit : Int) : ℚ) ^ fu * 10 ^ s =
      ((limbsVal L (iu + fu) : Int) : ℚ) /
        (((10 : Int) ^ (9 * fu1 - s) * Unit ^ (fu - fu1) : Int) : ℚ) := by
    have e : ((Unit : Int) : ℚ) ^ fu =
        10 ^ s * (((10 : Int) ^ (9 * fu1 - s) * Unit ^ (fu - fu1) : Int) : ℚ) := by
      push_cast
      rw [hUq, ← pow_mul, ← pow_mul, ← pow_add, ← pow_add]
      congr 1; omega
    rw [e]
    have h10 : (10 : ℚ) ^ s ≠ 0 := by positivity
    field_simp
    ring
  rw [hquot, hS]
  generalize limbsVal l2 (iu + fu1) = T
  have hlow := limbsVal_nonneg hL (fu - fu1)
  have hlow2 := limbsVal_lt hL (fu - fu1)
  rcases hc with ⟨he, hk, hc⟩ | ⟨he, hc⟩
  · have ht : 9 * fu1 - s = 0 := by omega
    rw [ht]
    obtain ⟨k1, hk1⟩ : ∃ k1, fu - fu1 = k1 + 1 := ⟨fu - fu1 - 1, by omega⟩
    have hx := getD_limb_bounds hL k1
    have hl1 := limbsVal_nonneg hL k1
    have hl2 := limbsVal_lt hL k1
    rw [hk1] at hlow hlow2 ⊢
    have e1 : fu - fu1 - 1 = k1 := by omega
    rw [e1] at hc
    have e2 : limbsVal L (k1 + 1) = limbsVal L k1 + L.getD k1 0 * Unit ^ k1 := rfl
    have e3 : limbsVal L (k1 + 1) + Unit ^ (k1 + 1) * T =
        limbsVal L k1 + Unit ^ k1 * L.getD k1 0 + Unit ^ k1 * Unit * T := by
      rw [e2, pow_succ]; ring
    have e4 : (10 : Int) ^ 0 * Unit ^ (k1 + 1) = Unit ^ k1 * Unit := by
      rw [pow_succ]; ring
    rw [e3, e4, round_at_edge T _ _ _ (pow_pos Unit_pos k1) ⟨hl1, hl2⟩ hx, hc]
    simp
  · subst hc
    have hP : (0 : Int) < 10 ^ (9 * fu1 - s) := by positivity
    have hev : (2 : Int) ∣ 10 ^ (9 * fu1 - s) := by
      obtain ⟨t1, ht1⟩ : ∃ t1, 9 * fu1 - s = t1 + 1 := ⟨9 * fu1 - s - 1, by omega⟩
      rw [ht1, pow_succ]
      exact Dvd.dvd.mul_left (by norm_num) _
    rw [round_in_limb T _ _ _ (pow_pos Unit_pos _) hP hev ⟨hlow, hlow2⟩]
    ring

/-- Rounding below the stored fractional width, with room for the result:
`Round` returns a valid decimal with `Frac() = s`, the sign of `v`, and the
magnitude `floor(|v| * 10^s + 1/2) / 10^s`. -/
theorem round_below (v : FixedDecimal) (s : Int) (hv : v.Valid) (h0 : 0 ≤ s)
    (hs : s < v.Frac)
    (hroom : v.IntgUnits + getUnits s < MaxUnits ∨
      ⌊|v.value| * 10 ^ s.toNat + 1 / 2⌋ < 10 ^ s.toNat * Unit ^ v.IntgUnits.toNat) :
    ∃ r, v.Round s = .ok r ∧ r.Valid ∧ r.Frac = s ∧ r.IsNeg = v.IsNeg ∧
      r.absValue = (⌊v.absValue * 10 ^ s.toNat + 1 / 2⌋ : ℚ) / 10 ^ s.toNat := by
  obtain ⟨sN, rfl⟩ := Int.eq_ofNat_of_zero_le h0
  have hv' := hv
  obtain ⟨h1, h2, h3, h4, hl, hL, hu⟩ := hv'
  have h9 : MaxUnits = 9 := rfl
  have hF : v.Frac = v.frac := by unfold FixedDecimal.Frac; omega
  have hfu : v.FracUnits = (v.frac + 8) / 9 := by
    unfold FixedDecimal.FracUnits; rw [hF]; exact getUnits_eq _ h3
  have hgs : getUnits (sN : Int) = (((sN + 8) / 9 : Nat) : Int) := by
    rw [getUnits_eq _ (by omega)]; omega
  obtain ⟨iu, hiu⟩ := Int.eq_ofNat_of_zero_le (intgUnits_nonneg v)
  obtain ⟨fu, hfuN⟩ := Int.eq_ofNat_of_zero_le (fracUnits_nonneg v)
  obtain ⟨l2, c0, q1, q2, q3, q4, q5⟩ := round_reduce v hv sN hs
  simp only [hiu, hfuN, Int.toNat_ofNat] at q3 q4 q5
  rw [hiu, hfuN] at hu
  rw [hfuN] at hfu
  rw [hiu, hgs, abs_value v hv] at hroom
  simp only [Int.toNat_ofNat] at hroom
  simp only [Int.toNat_ofNat]
  have habs : v.absValue = ((limbsVal v.lsu (iu + fu) : Int) : ℚ) / ((Unit : Int) : ℚ) ^ fu := by
    unfold FixedDecimal.absValue FixedDecimal.scaled FixedDecimal.units
    rw [hiu, hfuN]
    have : ((iu : Int) + (fu : Int)).toNat = iu + fu := by omega
    rw [this, Int.toNat_ofNat]
  have htarget := round_target v.lsu l2 hL iu fu ((sN + 8) / 9) sN (by omega) (by omega)
    (by omega) c0 q3 q4
  rw [← habs] at htarget
  generalize hm : ⌊v.absValue * 10 ^ sN + 1 / 2⌋ = m at *
  have hc0 : c0 = 0 ∨ c0 = 1 := by
    rcases q4 with ⟨_, _, h⟩ | ⟨_, h⟩
    · rw [h]; split <;> simp
    · exact Or.inl h
  have hroom2 : iu + (sN + 8) / 9 < 9 ∨
      limbsVal l2 (iu + (sN + 8) / 9) - limbsVal l2 (iu + (sN + 8) / 9) % 10 ^ (9 * ((sN + 8) / 9) - sN) +
        (if 10 ^ (9 * ((sN + 8) / 9) - sN) ≤ 2 * (limbsVal l2 (iu + (sN + 8) / 9) % 10 ^ (9 * ((sN + 8) / 9) - sN))
          then 10 ^ (9 * ((sN + 8) / 9) - sN) else 0) + c0 < Unit ^ (iu + (sN + 8) / 9) := by
    rcases hroom with h | h
    · left; omega
    · right
      rw [← htarget]
      have e : Unit ^ (iu + (sN + 8) / 9) = 10 ^ sN * Unit ^ iu * 10 ^ (9 * ((sN + 8) / 9) - sN) := by
        rw [Unit_eq_pow, ← pow_mul, ← pow_mul, ← pow_add, ← pow_add]; congr 1; omega
      rw [e]
      exact mul_lt_mul_of_pos_right h (by positivity)
  obtain ⟨r, iu1, p1, p2, p3, p4, p5, p6, p7, p8⟩ := roundHalfUp_spec { v with lsu := l2 } iu
    ((sN + 8) / 9) (9 * ((sN + 8) / 9) - sN) sN c0 q1 q2 (by omega) (by omega) hc0
    (by
      intro ht
      rcases q4 with ⟨he, _, _⟩ | ⟨he, h⟩
      · omega
      · exact ⟨h, by omega⟩) hroom2
  rw [q5]
  have hneg : FixedDecimal.IsNeg { v with lsu := l2 } = v.IsNeg := rfl
  rw [hneg] at p7
  simp only [] at p8
  rw [← htarget] at p8
  have hrI : r.Intg = 9 * (iu1 : Int) := by
    unfold FixedDecimal.Intg; rw [p7]; split <;> omega
  have hrIU : r.IntgUnits = iu1 := by
    unfold FixedDecimal.IntgUnits; rw [hrI, getUnits_eq _ (by omega)]; omega
  have hrF : r.Frac = sN := by
    unfold FixedDecimal.Frac; rw [p4]; omega
  have hrFU : r.FracUnits = (((sN + 8) / 9 : Nat) : Int) := by
    unfold FixedDecimal.FracUnits; rw [hrF, hgs]
  have hrneg : r.IsNeg = v.IsNeg := by
    unfold FixedDecimal.IsNeg at p7 ⊢
    rw [p7]
    by_cases c : v.intg < 0
    · simp [c]; omega
    · simp [c]
  have hrabs : r.absValue = (m : ℚ) / 10 ^ sN := by
    unfold FixedDecimal.absValue FixedDecimal.scaled FixedDecimal.units
    rw [hrIU, hrFU]
    have : ((iu1 : Int) + (((sN + 8) / 9 : Nat) : Int)).toNat = iu1 + (sN + 8) / 9 := by omega
    rw [this, Int.toNat_ofNat, p8]
    have hUq : ((Unit : Int) : ℚ) = 10 ^ 9 := by norm_num [Unit]
    have e : ((Unit : Int) : ℚ) ^ ((sN + 8) / 9) = 10 ^ sN * 10 ^ (9 * ((sN + 8) / 9) - sN) := by
      rw [hUq, ← pow_mul, ← pow_add]; congr 1; omega
    rw [e]
    push_cast
    have h10 : (10 : ℚ) ^ sN ≠ 0 := by positivity
    have h10' : (10 : ℚ) ^ (9 * ((sN + 8) / 9) - sN) ≠ 0 := by positivity
    field_simp
    ring
  exact ⟨r, p1, ⟨by rw [p7]; split <;> omega, by rw [p7]; split <;> omega, by rw [p4]; omega,
    by rw [p4]; omega, p2, p3, by rw [hrIU, hrFU, h9]; omega⟩, hrF, hrneg, hrabs⟩

/-- C9 (amended): for a valid non-special decimal `v` and a scale `s` with
`0 ≤ s < v.Frac()`, provided the result fits the nine limbs (an unused limb is
left above the integer limbs and the kept fractional limbs, or the rounded
magnitude stays below `10^(9 * IntgUnits)`), `v.Round(s)` returns a valid
decimal with `Frac() = s` denoting `sign(v) * floor(|v| * 10^s + 1/2) / 10^s`,
also when the carry runs through all limbs in use and adds a new top limb. -/
theorem C9_round_half_away (v : FixedDecimal) (s : Int) (hv : v.Valid) (h0 : 0 ≤ s)
    (hs : s < v.Frac)
    (hroom : v.IntgUnits + getUnits s < MaxUnits ∨
      ⌊|v.value| * 10 ^ s.toNat + 1 / 2⌋ < 10 ^ s.toNat * Unit ^ v.IntgUnits.toNat) :
    ∃ r, v.Round s = .ok r ∧ r.Valid ∧ r.Frac = s ∧
      r.value = (signOf v.value : ℚ) * (⌊|v.value| * 10 ^ s.toNat + 1 / 2⌋ : ℚ) / 10 ^ s.toNat := by
  obtain ⟨r, p1, pv, hrF, hrneg, hrabs⟩ := round_below v s hv h0 hs hroom
  refine ⟨r, p1, pv, hrF, ?_⟩
  rw [abs_value v hv]
  generalize hm : ⌊v.absValue * 10 ^ s.toNat + 1 / 2⌋ = m at hrabs ⊢
  have hna := absValue_nonneg v hv
  unfold FixedDecimal.value
  rw [hrneg, hrabs]
  rcases eq_or_lt_of_le hna with hz | hpos
  · -- a zero value rounds to zero
    have hm0 : m = 0 := by
      rw [← hm, ← hz]; norm_num
    rw [hm0]; simp
  · cases hn : v.IsNeg
    · simp only [Bool.false_eq_true, if_false]
      have : signOf v.absValue = 1 := by
        unfold signOf; rw [if_neg (by linarith), if_neg (ne_of_gt hpos)]
      rw [this]; simp
    · simp only [if_true]
      have : signOf (-v.absValue) = -1 := by
        unfold signOf; rw [if_pos (by linarith)]
      rw [this]; push_cast; ring

/-- C9 (amended), at an instance: `999999999999999999.95` rounded at one
fractional digit, where the carry runs through all three limbs. -/
theorem C9_round_half_away_witness :
    decRoundInput.Valid ∧ (0 : Int) ≤ 1 ∧ (1 : Int) < decRoundInput.Frac ∧
    (decRoundInput.IntgUnits + getUnits 1 < MaxUnits ∨
      ⌊|decRoundInput.value| * 10 ^ (1 : Int).toNat + 1 / 2⌋ <
        10 ^ (1 : Int).toNat * Unit ^ decRoundInput.IntgUnits.toNat) ∧
    ∃ r, decRoundInput.Round 1 = .ok r ∧ r.Valid ∧ r.Frac = 1 ∧
      r.value = (signOf decRoundInput.value : ℚ) *
        (⌊|decRoundInput.value| * 10 ^ (1 : Int).toNat + 1 / 2⌋ : ℚ) / 10 ^ (1 : Int).toNat :=
  ⟨by decide, by decide, by decide, Or.inl (by decide),
    C9_round_half_away decRoundInput 1 (by decide) (by decide) (by decide) (Or.inl (by decide))⟩

/-- C9 (as stated, refuted): with all nine limbs in use and the carry running
through all of them, `Round` writes the new top limb at index nine and the
run ends in an index-out-of-range panic instead of a rounded value. -/
theorem C9_round_full_carry_panics :
    decAllNines.Valid ∧ (0 : Int) ≤ 1 ∧ (1 : Int) < decAllNines.Frac ∧
    decAllNines.Round 1 = .error .panic ∧
    ¬ ∃ r, decAllNines.Round 1 = .ok r ∧
      r.value = (signOf decAllNines.value : ℚ) *
        (⌊|decAllNines.value| * 10 ^ (1 : Int).toNat + 1 / 2⌋ : ℚ) / 10 ^ (1 : Int).toNat := by
  have h : decAllNines.Round 1 = .error .panic := by decide
  refine ⟨by decide, by decide, by decide, h, ?_⟩
  rintro ⟨r, hr, -⟩
  rw [h] at hr
  cases hr

/-! ## Addition and subtraction (C1, C2) -/

theorem limbsVal_drop_succ (l : List Int) (i k : Nat) :
    limbsVal (l.drop i) (k + 1) = l.getD i 0 + Unit * limbsVal (l.drop (i + 1)) k := by
  have h := limbsVal_drop (l.drop i) 1 k
  have e : 1 + k = k + 1 := by omega
  rw [e] at h
  rw [h, List.drop_drop]
  have h1 : limbsVal (l.drop i) 1 = l.getD i 0 := by
    simp [limbsVal, getD_drop]
  rw [h1, pow_one]

theorem limbsVal_set_top (l : List Int) (p : Nat) (v : Int) (hl : p < l.length) :
    limbsVal (l.set p v) (p + 1) = limbsVal l p + v * Unit ^ p := by
  show limbsVal (l.set p v) p + (l.set p v).getD p 0 * Unit ^ p = _
  rw [limbsVal_set_above _ _ _ _ (le_refl _), getD_set_int, if_pos ⟨rfl, hl⟩]

theorem subWithBorrow_spec (a b c : Int) (ha : 0 ≤ a ∧ a < Unit) (hb : 0 ≤ b ∧ b < Unit)
    (hc : c = 0 ∨ c = -1) :
    0 ≤ (subWithBorrow a b c).1 ∧ (subWithBorrow a b c).1 < Unit ∧
    ((subWithBorrow a b c).2 = 0 ∨ (subWithBorrow a b c).2 = -1) ∧
    (subWithBorrow a b c).1 + (subWithBorrow a b c).2 * Unit = a - b + c := by
  unfold subWithBorrow wrap32 Unit at *
  dsimp only
  split
  · refine ⟨?_, ?_, ?_, ?_⟩
    · omega
    · omega
    · right; rfl
    · dsimp only
      omega
  · refine ⟨?_, ?_, ?_, ?_⟩
    · omega
    · omega
    · left; rfl
    · dsimp only
      omega

theorem rd_nat {a : List Int} {i : Nat} (h : i < 9) :
    rd MaxUnits a (i : Int) = .ok (a.getD i 0) := by
  rw [rd_ok (by omega) (by unfold MaxUnits; omega)]; simp

/-- Fraction-only segment: the limbs are copied. -/
theorem copyFracSeg_spec (src : List Int) (hs : ∀ x ∈ src, 0 ≤ x ∧ x < Unit) (k : Nat) :
    ∀ (p : Nat) (res : List Int), p + k ≤ 9 → res.length = 9 →
      (∀ x ∈ res, 0 ≤ x ∧ x < Unit) →
      ∃ res1, copyFracSeg src k (p : Int) res = .ok res1 ∧ res1.length = 9 ∧
        (∀ x ∈ res1, 0 ≤ x ∧ x < Unit) ∧
        (∀ j : Nat, p + k ≤ j → res1.getD j 0 = res.getD j 0) ∧
        limbsVal res1 (p + k) = limbsVal res p + Unit ^ p * limbsVal (src.drop p) k := by
  induction k with
  | zero =>
    intro p res _ hl hr
    exact ⟨res, rfl, hl, hr, fun _ _ => rfl, by simp [limbsVal]⟩
  | succ k ih =>
    intro p res hp hl hr
    unfold copyFracSeg
    rw [rd_nat (by omega)]
    simp only [bind, Except.bind]
    rw [wr_ok _ (by omega)]
    simp only []
    obtain ⟨res1, q1, q2, q3, q4, q5⟩ := ih (p + 1) (res.set p (src.getD p 0)) (by omega)
      (by simp [hl]) (set_bounds hr p _ (getD_limb_bounds hs p))
    refine ⟨res1, ?_, q2, q3, ?_, ?_⟩
    · simpa using q1
    · intro j hj
      rw [q4 j (by omega), getD_set_int, if_neg (by omega)]
    · have e : p + (k + 1) = p + 1 + k := by omega
      rw [e, q5, limbsVal_set_top _ _ _ (by omega), limbsVal_drop_succ, pow_succ]
      ring

/-- Common segment of the addition: one carry chain over both operands. -/
theorem addCommonSeg_spec (l r : List Int) (hl : ∀ x ∈ l, 0 ≤ x ∧ x < Unit)
    (hr : ∀ x ∈ r, 0 ≤ x ∧ x < Unit) (k : Nat) :
    ∀ (li ri p : Nat) (c : Int) (res : List Int), p + k ≤ 9 → li + k ≤ 9 → ri + k ≤ 9 →
      (c = 0 ∨ c = 1) → res.length = 9 → (∀ x ∈ res, 0 ≤ x ∧ x < Unit) →
      ∃ res1 c1, addCommonSeg l r k (li : Int) (ri : Int) (p : Int) c res = .ok (res1, c1) ∧
        (c1 = 0 ∨ c1 = 1) ∧ res1.length = 9 ∧ (∀ x ∈ res1, 0 ≤ x ∧ x < Unit) ∧
        (∀ j : Nat, p + k ≤ j → res1.getD j 0 = res.getD j 0) ∧
        limbsVal res1 (p + k) + c1 * Unit ^ (p + k) =
          limbsVal res p + c * Unit ^ p +
            Unit ^ p * (limbsVal (l.drop li) k + limbsVal (r.drop ri) k) := by
  induction k with
  | zero =>
    intro li ri p c res _ _ _ hc hlen hres
    exact ⟨res, c, rfl, hc, hlen, hres, fun _ _ => rfl, by simp [limbsVal]⟩
  | succ k ih =>
    intro li ri p c res hp hli hri hc hlen hres
    unfold addCommonSeg
    rw [rd_nat (by omega), rd_nat (by omega)]
    simp only [bind, Except.bind]
    rw [wr_ok _ (by omega)]
    simp only []
    obtain ⟨a1, a2, a3, a4⟩ := addWithCarry_spec (l.getD li 0) (r.getD ri 0) c
      (getD_limb_bounds hl li) (getD_limb_bounds hr ri) hc
    obtain ⟨res1, c1, q1, q2, q3, q4, q5, q6⟩ := ih (li + 1) (ri + 1) (p + 1)
      (addWithCarry (l.getD li 0) (r.getD ri 0) c).2
      (res.set p (addWithCarry (l.getD li 0) (r.getD ri 0) c).1) (by omega) (by omega) (by omega)
      a3 (by simp [hlen]) (set_bounds hres p _ ⟨a1, a2⟩)
    refine ⟨res1, c1, ?_, q2, q3, q4, ?_, ?_⟩
    · simpa using q1
    · intro j hj
      rw [q5 j (by omega), getD_set_int, if_neg (by omega)]
    · have e : p + (k + 1) = p + 1 + k := by omega
      rw [e, q6, limbsVal_set_top _ _ _ (by omega), limbsVal_drop_succ, limbsVal_drop_succ,
        pow_succ]
      have : (addWithCarry (l.getD li 0) (r.getD ri 0) c).1 =
          l.getD li 0 + r.getD ri 0 + c -
            (addWithCarry (l.getD li 0) (r.getD ri 0) c).2 * Unit := by omega
      rw [this]
      ring

/-- Integer-only segment of the addition: the longer operand plus the carry. -/
theorem addIntgSeg_spec (src : List Int) (hs : ∀ x ∈ src, 0 ≤ x ∧ x < Unit) (k : Nat) :
    ∀ (si p : Nat) (c : Int) (res : List Int), p + k ≤ 9 → si + k ≤ 9 →
      (c = 0 ∨ c = 1) → res.length = 9 → (∀ x ∈ res, 0 ≤ x ∧ x < Unit) →
      ∃ res1 c1, addIntgSeg src k (si : Int) (p : Int) c res = .ok (res1, c1) ∧
        (c1 = 0 ∨ c1 = 1) ∧ res1.length = 9 ∧ (∀ x ∈ res1, 0 ≤ x ∧ x < Unit) ∧
        (∀ j : Nat, p + k ≤ j → res1.getD j 0 = res.getD j 0) ∧
        limbsVal res1 (p + k) + c1 * Unit ^ (p + k) =
          limbsVal res p + c * Unit ^ p + Unit ^ p * limbsVal (src.drop si) k := by
  induction k with
  | zero =>
    intro si p c res _ _ hc hlen hres
    exact ⟨res, c, rfl, hc, hlen, hres, fun _ _ => rfl, by simp [limbsVal]⟩
  | succ k ih =>
    intro si p c res hp hsi hc hlen hres
    unfold addIntgSeg
    rw [rd_nat (by omega)]
    simp only [bind, Except.bind]
    rw [wr_ok _ (by omega)]
    simp only []
    obtain ⟨a1, a2, a3, a4⟩ := addWithCarry_spec (src.getD si 0) 0 c
      (getD_limb_bounds hs si) ⟨le_refl _, Unit_pos⟩ hc
    obtain ⟨res1, c1, q1, q2, q3, q4, q5, q6⟩ := ih (si + 1) (p + 1)
      (addWithCarry (src.getD si 0) 0 c).2
      (res.set p (addWithCarry (src.getD si 0) 0 c).1) (by omega) (by omega)
      a3 (by simp [hlen]) (set_bounds hres p _ ⟨a1, a2⟩)
    refine ⟨res1, c1, ?_, q2, q3, q4, ?_, ?_⟩
    · simpa using q1
    · intro j hj
      rw [q5 j (by omega), getD_set_int, if_neg (by omega)]
    · have e : p + (k + 1) = p + 1 + k := by omega
      rw [e, q6, limbsVal_set_top _ _ _ (by omega), limbsVal_drop_succ, pow_succ]
      have : (addWithCarry (src.getD si 0) 0 c).1 =
          src.getD si 0 + 0 + c - (addWithCarry (src.getD si 0) 0 c).2 * Unit := by omega
      rw [this]
      ring

/-- Common segment of the subtraction: one borrow chain over both operands. -/
theorem subCommonSeg_spec (l r : List Int) (hl : ∀ x ∈ l, 0 ≤ x ∧ x < Unit)
    (hr : ∀ x ∈ r, 0 ≤ x ∧ x < Unit) (k : Nat) :
    ∀ (li ri p : Nat) (c : Int) (res : List Int), p + k ≤ 9 → li + k ≤ 9 → ri + k ≤ 9 →
      (c = 0 ∨ c = -1) → res.length = 9 → (∀ x ∈ res, 0 ≤ x ∧ x < Unit) →
      ∃ res1 c1, subCommonSeg l r k (li : Int) (ri : Int) (p : Int) c res = .ok (res1, c1) ∧
        (c1 = 0 ∨ c1 = -1) ∧ res1.length = 9 ∧ (∀ x ∈ res1, 0 ≤ x ∧ x < Unit) ∧
        (∀ j : Nat, p + k ≤ j → res1.getD j 0 = res.getD j 0) ∧
        limbsVal res1 (p + k) + c1 * Unit ^ (p + k) =
          limbsVal res p + c * Unit ^ p +
            Unit ^ p * (limbsVal (l.drop li) k - limbsVal (r.drop ri) k) := by
  induction k with
  | zero =>
    intro li ri p c res _ _ _ hc hlen hres
    exact ⟨res, c, rfl, hc, hlen, hres, fun _ _ => rfl, by simp [limbsVal]⟩
  | succ k ih =>
    intro li ri p c res hp hli hri hc hlen hres
    unfold subCommonSeg
    rw [rd_nat (by omega), rd_nat (by omega)]
    simp only [bind, Except.bind]
    rw [wr_ok _ (by omega)]
    simp only []
    obtain ⟨a1, a2, a3, a4⟩ := subWithBorrow_spec (l.getD li 0) (r.getD ri 0) c
      (getD_limb_bounds hl li) (getD_limb_bounds hr ri) hc
    obtain ⟨res1, c1, q1, q2, q3, q4, q5, q6⟩ := ih (li + 1) (ri + 1) (p + 1)
      (subWithBorrow (l.getD li 0) (r.getD ri 0) c).2
      (res.set p (subWithBorrow (l.getD li 0) (r.getD ri 0) c).1) (by omega) (by omega) (by omega)
      a3 (by simp [hlen]) (set_bounds hres p _ ⟨a1, a2⟩)
    refine ⟨res1, c1, ?_, q2, q3, q4, ?_, ?_⟩
    · simpa using q1
    · intro j hj
      rw [q5 j (by omega), getD_set_int, if_neg (by omega)]
    · have e : p + (k + 1) = p + 1 + k := by omega
      rw [e, q6, limbsVal_set_top _ _ _ (by omega), limbsVal_drop_succ, limbsVal_drop_succ,
        pow_succ]
      have : (subWithBorrow (l.getD li 0) (r.getD ri 0) c).1 =
          l.getD li 0 - r.getD ri 0 + c -
            (subWithBorrow (l.getD li 0) (r.getD ri 0) c).2 * Unit := by omega
      rw [this]
      ring

/-- Segment of the subtraction where only the right operand has limbs. -/
theorem subZeroSeg_spec (src : List Int) (hs : ∀ x ∈ src, 0 ≤ x ∧ x < Unit) (k : Nat) :
    ∀ (si p : Nat) (c : Int) (res : List Int), p + k ≤ 9 → si + k ≤ 9 →
      (c = 0 ∨ c = -1) → res.length = 9 → (∀ x ∈ res, 0 ≤ x ∧ x < Unit) →
      ∃ res1 c1, subZeroSeg src k (si : Int) (p : Int) c res = .ok (res1, c1) ∧
        (c1 = 0 ∨ c1 = -1) ∧ res1.length = 9 ∧ (∀ x ∈ res1, 0 ≤ x ∧ x < Unit) ∧
        (∀ j : Nat, p + k ≤ j → res1.getD j 0 = res.getD j 0) ∧
        limbsVal res1 (p + k) + c1 * Unit ^ (p + k) =
          limbsVal res p + c * Unit ^ p - Unit ^ p * limbsVal (src.drop si) k := by
  induction k with
  | zero =>
    intro si p c res _ _ hc hlen hres
    exact ⟨res, c, rfl, hc, hlen, hres, fun _ _ => rfl, by simp [limbsVal]⟩
  | succ k ih =>
    intro si p c res hp hsi hc hlen hres
    unfold subZeroSeg
    rw [rd_nat (by omega)]
    simp only [bind, Except.bind]
    rw [wr_ok _ (by omega)]
    simp only []
    obtain ⟨a1, a2, a3, a4⟩ := subWithBorrow_spec 0 (src.getD si 0) c
      ⟨le_refl _, Unit_pos⟩ (getD_limb_bounds hs si) hc
    obtain ⟨res1, c1, q1, q2, q3, q4, q5, q6⟩ := ih (si + 1) (p + 1)
      (subWithBorrow 0 (src.getD si 0) c).2
      (res.set p (subWithBorrow 0 (src.getD si 0) c).1) (by omega) (by omega)
      a3 (by simp [hlen]) (set_bounds hres p _ ⟨a1, a2⟩)
    refine ⟨res1, c1, ?_, q2, q3, q4, ?_, ?_⟩
    · simpa using q1
    · intro j hj
      rw [q5 j (by omega), getD_set_int, if_neg (by omega)]
    · have e : p + (k + 1) = p + 1 + k := by omega
      rw [e, q6, limbsVal_set_top _ _ _ (by omega), limbsVal_drop_succ, pow_succ]
      have : (subWithBorrow 0 (src.getD si 0) c).1 =
          0 - src.getD si 0 + c - (subWithBorrow 0 (src.getD si 0) c).2 * Unit := by omega
      rw [this]
      ring

/-- Segment of the subtraction where only the left operand has limbs. -/
theorem subIntgSeg_spec (src : List Int) (hs : ∀ x ∈ src, 0 ≤ x ∧ x < Unit) (k : Nat) :
    ∀ (si p : Nat) (c : Int) (res : List Int), p + k ≤ 9 → si + k ≤ 9 →
      (c = 0 ∨ c = -1) → res.length = 9 → (∀ x ∈ res, 0 ≤ x ∧ x < Unit) →
      ∃ res1 c1, subIntgSeg src k (si : Int) (p : Int) c res = .ok (res1, c1) ∧
        (c1 = 0 ∨ c1 = -1) ∧ res1.length = 9 ∧ (∀ x ∈ res1, 0 ≤ x ∧ x < Unit) ∧
        (∀ j : Nat, p + k ≤ j → res1.getD j 0 = res.getD j 0) ∧
        limbsVal res1 (p + k) + c1 * Unit ^ (p + k) =
          limbsVal res p + c * Unit ^ p + Unit ^ p * limbsVal (src.drop si) k := by
  induction k with
  | zero =>
    intro si p c res _ _ hc hlen hres
    exact ⟨res, c, rfl, hc, hlen, hres, fun _ _ => rfl, by simp [limbsVal]⟩
  | succ k ih =>
    intro si p c res hp hsi hc hlen hres
    unfold subIntgSeg
    rw [rd_nat (by omega)]
    simp only [bind, Except.bind]
    rw [wr_ok _ (by omega)]
    simp only []
    obtain ⟨a1, a2, a3, a4⟩ := subWithBorrow_spec (src.getD si 0) 0 c
      (getD_limb_bounds hs si) ⟨le_refl _, Unit_pos⟩ hc
    obtain ⟨res1, c1, q1, q2, q3, q4, q5, q6⟩ := ih (si + 1) (p + 1)
      (subWithBorrow (src.getD si 0) 0 c).2
      (res.set p (subWithBorrow (src.getD si 0) 0 c).1) (by omega) (by omega)
      a3 (by simp [hlen]) (set_bounds hres p _ ⟨a1, a2⟩)
    refine ⟨res1, c1, ?_, q2, q3, q4, ?_, ?_⟩
    · simpa using q1
    · intro j hj
      rw [q5 j (by omega), getD_set_int, if_neg (by omega)]
    · have e : p + (k + 1) = p + 1 + k := by omega
      rw [e, q6, limbsVal_set_top _ _ _ (by omega), limbsVal_drop_succ, pow_succ]
      have : (subWithBorrow (src.getD si 0) 0 c).1 =
          src.getD si 0 - 0 + c - (subWithBorrow (src.getD si 0) 0 c).2 * Unit := by omega
      rw [this]
      ring

/-- Second pass of the subtraction: the limbs are negated in place. -/
theorem negateUnits_spec (k : Nat) :
    ∀ (p : Nat) (c : Int) (res : List Int), p + k ≤ 9 →
      (c = 0 ∨ c = -1) → res.length = 9 → (∀ x ∈ res, 0 ≤ x ∧ x < Unit) →
      ∃ res1 c1, negateUnits k (p : Int) c res = .ok res1 ∧
        (c1 = 0 ∨ c1 = -1) ∧ res1.length = 9 ∧ (∀ x ∈ res1, 0 ≤ x ∧ x < Unit) ∧
        (∀ j : Nat, p + k ≤ j → res1.getD j 0 = res.getD j 0) ∧
        limbsVal res1 (p + k) + c1 * Unit ^ (p + k) =
          limbsVal res p + c * Unit ^ p - Unit ^ p * limbsVal (res.drop p) k := by
  induction k with
  | zero =>
    intro p c res _ hc hlen hres
    exact ⟨res, c, rfl, hc, hlen, hres, fun _ _ => rfl, by simp [limbsVal]⟩
  | succ k ih =>
    intro p c res hp hc hlen hres
    unfold negateUnits
    rw [rd_nat (by omega)]
    simp only [bind, Except.bind]
    rw [wr_ok _ (by omega)]
    simp only []
    obtain ⟨a1, a2, a3, a4⟩ := subWithBorrow_spec 0 (res.getD p 0) c
      ⟨le_refl _, Unit_pos⟩ (getD_limb_bounds hres p) hc
    obtain ⟨res1, c1, q1, q2, q3, q4, q5, q6⟩ := ih (p + 1)
      (subWithBorrow 0 (res.getD p 0) c).2
      (res.set p (subWithBorrow 0 (res.getD p 0) c).1) (by omega)
      a3 (by simp [hlen]) (set_bounds hres p _ ⟨a1, a2⟩)
    refine ⟨res1, c1, ?_, q2, q3, q4, ?_, ?_⟩
    · simpa using q1
    · intro j hj
      rw [q5 j (by omega), getD_set_int, if_neg (by omega)]
    · have e : p + (k + 1) = p + 1 + k := by omega
      have e2 : limbsVal ((res.set p (subWithBorrow 0 (res.getD p 0) c).1).drop (p + 1)) k =
          limbsVal (res.drop (p + 1)) k := by
        apply limbsVal_congr
        intro i _
        rw [getD_drop, getD_drop, getD_set_int, if_neg (by omega)]
      rw [e, q6, e2, limbsVal_set_top _ _ _ (by omega), limbsVal_drop_succ, pow_succ]
      have : (subWithBorrow 0 (res.getD p 0) c).1 =
          0 - res.getD p 0 + c - (subWithBorrow 0 (res.getD p 0) c).2 * Unit := by omega
      rw [this]
      ring

/-- The scan for the highest non-zero integer limb: `m` integer limbs remain. -/
theorem scanIntgNonZero_spec (lsu : List Int) (hL : ∀ x ∈ lsu, 0 ≤ x ∧ x < Unit) (F : Nat)
    (n : Nat) (h : n + F ≤ 9) :
    ∃ m : Nat, m ≤ n ∧ scanIntgNonZero lsu (F : Int) n = .ok ((m : Int) - 1) ∧
      limbsVal lsu (m + F) = limbsVal lsu (n + F) := by
  induction n with
  | zero => exact ⟨0, le_refl _, rfl, rfl⟩
  | succ n ih =>
    unfold scanIntgNonZero
    have e : ((n : Int) + (F : Int)) = ((n + F : Nat) : Int) := by push_cast; rfl
    rw [e, rd_nat (by omega)]
    simp only [bind, Except.bind]
    by_cases hv : lsu.getD (n + F) 0 > 0
    · rw [if_pos hv]
      exact ⟨n + 1, le_refl _, by simp, rfl⟩
    · rw [if_neg hv]
      obtain ⟨m, m1, m2, m3⟩ := ih (by omega)
      refine ⟨m, by omega, m2, ?_⟩
      rw [m3]
      have hz : lsu.getD (n + F) 0 = 0 := by
        have := (getD_limb_bounds hL (n + F)).1
        omega
      have e2 : n + 1 + F = (n + F) + 1 := by omega
      rw [e2]
      show _ = limbsVal lsu (n + F) + lsu.getD (n + F) 0 * Unit ^ (n + F)
      rw [hz]; ring

theorem zeroUnits_getD (j : Nat) : zeroUnits.getD j 0 = 0 := by
  unfold zeroUnits
  rcases Nat.lt_or_ge j 9 with h | h
  · interval_cases j <;> rfl
  · simp [List.getD_eq_getElem?_getD, List.getElem?_eq_none, h]

theorem zeroUnits_bounds : ∀ x ∈ zeroUnits, 0 ≤ x ∧ x < Unit := by decide

theorem limbsVal_zeroUnits (n : Nat) : limbsVal zeroUnits n = 0 := by
  induction n with
  | zero => rfl
  | succ n ih => unfold limbsVal; rw [ih, zeroUnits_getD]; simp

theorem minInt_cast (a b : Nat) : minInt (a : Int) (b : Int) = ((min a b : Nat) : Int) := by
  unfold minInt; split <;> omega

theorem maxInt_cast (a b : Nat) : maxInt (a : Int) (b : Int) = ((max a b : Nat) : Int) := by
  unfold maxInt; split <;> omega

/-- The first two loops of `addAbs`: the fraction-only limbs of the wider
operand are copied and the common limbs are added. -/
theorem addAbs_stageA (a b : FixedDecimal) (LI LF RI RF : Nat)
    (h1 : a.IntgUnits = LI) (h2 : a.FracUnits = LF) (h3 : b.IntgUnits = RI)
    (h4 : b.FracUnits = RF) (hL : ∀ x ∈ a.lsu, 0 ≤ x ∧ x < Unit)
    (hR : ∀ x ∈ b.lsu, 0 ≤ x ∧ x < Unit) (hla : LI + LF ≤ 9) (hlb : RI + RF ≤ 9)
    (hroom : max LI RI + max LF RF ≤ 9) :
    ∃ res2 c2, (c2 = 0 ∨ c2 = 1) ∧ res2.length = 9 ∧ (∀ x ∈ res2, 0 ≤ x ∧ x < Unit) ∧
      (∀ j : Nat, max LF RF + min LI RI ≤ j → res2.getD j 0 = 0) ∧
      limbsVal res2 (max LF RF + min LI RI) + c2 * Unit ^ (max LF RF + min LI RI) =
        limbsVal a.lsu (LF + min LI RI) * Unit ^ (max LF RF - LF) +
        limbsVal b.lsu (RF + min LI RI) * Unit ^ (max LF RF - RF) ∧
      addAbs a b = (do
        let p3 ←
          (if (LI : Int) - (RI : Int) > 0 then do
            let q ← addIntgSeg a.lsu ((LI : Int) - (RI : Int)).toNat ((LF + min LI RI : Nat) : Int)
              ((max LF RF + min LI RI : Nat) : Int) c2 res2
            if q.2 > 0 then do
              let r1 ← wr MaxUnits q.1
                (((max LF RF + min LI RI : Nat) : Int) + (((LI : Int) - (RI : Int)).toNat : Int)) q.2
              pure (r1, q.2)
            else pure (q.1, q.2)
          else if (LI : Int) - (RI : Int) < 0 then do
            let q ← addIntgSeg b.lsu (-((LI : Int) - (RI : Int))).toNat
              ((RF + min LI RI : Nat) : Int) ((max LF RF + min LI RI : Nat) : Int) c2 res2
            if q.2 > 0 then do
              let r1 ← wr MaxUnits q.1
                (((max LF RF + min LI RI : Nat) : Int) + ((-((LI : Int) - (RI : Int))).toNat : Int)) q.2
              pure (r1, q.2)
            else pure (q.1, q.2)
          else if c2 ≠ 0 then do
            let r1 ← wr MaxUnits res2 ((max LF RF + min LI RI : Nat) : Int) c2
            pure (r1, c2)
          else pure (res2, c2))
        finishAddSub a b p3.1 (maxInt (LI : Int) (RI : Int) + p3.2)) := by
  have hn : (minInt (LI : Int) (RI : Int) + minInt (LF : Int) (RF : Int)).toNat =
      min LI RI + min LF RF := by
    rw [minInt_cast, minInt_cast]; omega
  unfold addAbs
  rw [h1, h2, h3, h4]
  dsimp only
  rw [hn]
  rcases lt_trichotomy LF RF with hF | hF | hF
  · -- the right operand has more fractional limbs
    have c1 : ¬ ((LF : Int) - (RF : Int) > 0) := by omega
    have c2 : (LF : Int) - (RF : Int) < 0 := by omega
    simp only [c1, c2, if_true, if_false]
    have e1 : (-((LF : Int) - (RF : Int))).toNat = RF - LF := by omega
    have e2 : -((LF : Int) - (RF : Int)) = ((RF - LF : Nat) : Int) := by omega
    have e3 : (0 : Int) + ((min LI RI + min LF RF : Nat) : Int) = ((LF + min LI RI : Nat) : Int) := by
      omega
    have e4 : ((RF - LF : Nat) : Int) + ((min LI RI + min LF RF : Nat) : Int) =
        ((RF + min LI RI : Nat) : Int) := by omega
    have e5 : max LF RF = RF := by omega
    rw [e1, e2, e3, e4, e5]
    obtain ⟨res1, p1, p2, p3, p4, p5⟩ := copyFracSeg_spec b.lsu hR (RF - LF) 0 zeroUnits (by omega)
      rfl zeroUnits_bounds
    obtain ⟨res2, c, q1, q2, q3, q4, q5, q6⟩ := addCommonSeg_spec a.lsu b.lsu hL hR
      (min LI RI + min LF RF) 0 (RF - LF) (0 + (RF - LF)) 0 res1 (by omega) (by omega) (by omega)
      (Or.inl rfl) p2 p3
    refine ⟨res2, c, q2, q3, q4, ?_, ?_, ?_⟩
    · intro j hj
      rw [q5 j (by omega), p4 j (by omega), zeroUnits_getD]
    · have e6 : 0 + (RF - LF) + (min LI RI + min LF RF) = RF + min LI RI := by omega
      have e7 : min LI RI + min LF RF = LF + min LI RI := by omega
      rw [e6] at q6
      have hb : limbsVal b.lsu (RF + min LI RI) = limbsVal b.lsu (RF - LF) +
          Unit ^ (RF - LF) * limbsVal (b.lsu.drop (RF - LF)) (LF + min LI RI) := by
        rw [← limbsVal_drop]; congr 1; omega
      have e9 : RF - RF = 0 := by omega
      rw [q6, p5, limbsVal_zeroUnits, e7, hb, e9]
      simp
      ring
    · have p1' : copyFracSeg b.lsu (RF - LF) 0 zeroUnits = .ok res1 := by simpa using p1
      have q1' : addCommonSeg a.lsu b.lsu (min LI RI + min LF RF) 0 ((RF - LF : Nat) : Int)
          ((RF - LF : Nat) : Int) 0 res1 = .ok (res2, c) := by simpa using q1
      simp only [p1', q1', bind, Except.bind]
  · -- both operands have the same number of fractional limbs
    subst hF
    have c1 : ¬ ((LF : Int) - (LF : Int) > 0) := by omega
    have c2 : ¬ ((LF : Int) - (LF : Int) < 0) := by omega
    simp only [c1, c2, if_false]
    have e3 : (0 : Int) + ((min LI RI + min LF LF : Nat) : Int) = ((LF + min LI RI : Nat) : Int) := by
      omega
    have e5 : max LF LF = LF := by omega
    rw [e3, e5]
    obtain ⟨res2, c, q1, q2, q3, q4, q5, q6⟩ := addCommonSeg_spec a.lsu b.lsu hL hR
      (min LI RI + min LF LF) 0 0 0 0 zeroUnits (by omega) (by omega) (by omega)
      (Or.inl rfl) rfl zeroUnits_bounds
    refine ⟨res2, c, q2, q3, q4, ?_, ?_, ?_⟩
    · intro j hj
      rw [q5 j (by omega), zeroUnits_getD]
    · have e6 : 0 + (min LI RI + min LF LF) = LF + min LI RI := by omega
      have e7 : min LI RI + min LF LF = LF + min LI RI := by omega
      have e9 : LF - LF = 0 := by omega
      rw [e6] at q6
      rw [q6, e7, e9]
      simp [limbsVal]
    · have q1' : addCommonSeg a.lsu b.lsu (min LI RI + min LF LF) 0 0 0 0 zeroUnits =
          .ok (res2, c) := by simpa using q1
      simp only [q1', bind, Except.bind]
  · -- the left operand has more fractional limbs
    have c1 : ((LF : Int) - (RF : Int) > 0) := by omega
    simp only [c1, if_true]
    have e1 : ((LF : Int) - (RF : Int)).toNat = LF - RF := by omega
    have e2 : (LF : Int) - (RF : Int) = ((LF - RF : Nat) : Int) := by omega
    have e3 : (0 : Int) + ((min LI RI + min LF RF : Nat) : Int) = ((RF + min LI RI : Nat) : Int) := by
      omega
    have e4 : ((LF - RF : Nat) : Int) + ((min LI RI + min LF RF : Nat) : Int) =
        ((LF + min LI RI : Nat) : Int) := by omega
    have e5 : max LF RF = LF := by omega
    rw [e1, e2, e3, e4, e5]
    obtain ⟨res1, p1, p2, p3, p4, p5⟩ := copyFracSeg_spec a.lsu hL (LF - RF) 0 zeroUnits (by omega)
      rfl zeroUnits_bounds
    obtain ⟨res2, c, q1, q2, q3, q4, q5, q6⟩ := addCommonSeg_spec a.lsu b.lsu hL hR
      (min LI RI + min LF RF) (LF - RF) 0 (0 + (LF - RF)) 0 res1 (by omega) (by omega) (by omega)
      (Or.inl rfl) p2 p3
    refine ⟨res2, c, q2, q3, q4, ?_, ?_, ?_⟩
    · intro j hj
      rw [q5 j (by omega), p4 j (by omega), zeroUnits_getD]
    · have e6 : 0 + (LF - RF) + (min LI RI + min LF RF) = LF + min LI RI := by omega
      have e7 : min LI RI + min LF RF = RF + min LI RI := by omega
      have ha : limbsVal a.lsu (LF + min LI RI) = limbsVal a.lsu (LF - RF) +
          Unit ^ (LF - RF) * limbsVal (a.lsu.drop (LF - RF)) (RF + min LI RI) := by
        rw [← limbsVal_drop]; congr 1; omega
      have e9 : LF - LF = 0 := by omega
      rw [e6] at q6
      rw [q6, p5, limbsVal_zeroUnits, e7, ha, e9]
      simp
      ring
    · have p1' : copyFracSeg a.lsu (LF - RF) 0 zeroUnits = .ok res1 := by simpa using p1
      have q1' : addCommonSeg a.lsu b.lsu (min LI RI + min LF RF) ((LF - RF : Nat) : Int) 0
          ((LF - RF : Nat) : Int) 0 res1 = .ok (res2, c) := by simpa using q1
      simp only [p1', q1', bind, Except.bind]

theorem fracUnits_eq (fd : FixedDecimal) (h : 0 ≤ fd.frac ∧ fd.frac < 64) :
    fd.FracUnits = (fd.frac + 8) / 9 := by
  unfold FixedDecimal.FracUnits FixedDecimal.Frac
  rw [getUnits_eq _ (by omega)]
  congr 2
  omega

theorem fracUnits_max (a b : FixedDecimal) (lsu : List Int) (i : Int) (LF RF : Nat)
    (ha : 0 ≤ a.frac ∧ a.frac < 64) (hb : 0 ≤ b.frac ∧ b.frac < 64)
    (h2 : a.FracUnits = LF) (h4 : b.FracUnits = RF) :
    FixedDecimal.FracUnits { intg := i, frac := maxInt8 a.frac b.frac, lsu := lsu } =
      ((max LF RF : Nat) : Int) := by
  rw [fracUnits_eq a ha] at h2
  rw [fracUnits_eq b hb] at h4
  unfold maxInt8
  split
  · rw [fracUnits_eq _ (by simpa using ha)]
    simp only []
    omega
  · rw [fracUnits_eq _ (by simpa using hb)]
    simp only []
    omega

/-- The tail shared by `addAbs` and `subAbs`: `m` integer limbs remain and the
limbs above them do not contribute. -/
theorem finishAddSub_spec (a b : FixedDecimal) (lsu : List Int)
    (hl : ∀ x ∈ lsu, 0 ≤ x ∧ x < Unit) (start F : Nat)
    (hF : FixedDecimal.FracUnits { intg := 0, frac := maxInt8 a.frac b.frac, lsu := lsu } = (F : Int))
    (h : start + 1 + F ≤ 9) :
    ∃ m : Nat, m ≤ start + 1 ∧
      finishAddSub a b lsu (start : Int) =
        .ok { intg := 9 * (m : Int), frac := maxInt8 a.frac b.frac, lsu := lsu } ∧
      limbsVal lsu (m + F) = limbsVal lsu (start + 1 + F) := by
  obtain ⟨m, m1, m2, m3⟩ := scanIntgNonZero_spec lsu hl F (start + 1) h
  refine ⟨m, m1, ?_, m3⟩
  unfold finishAddSub
  dsimp only
  rw [hF]
  have e : ((start : Int) + 1).toNat = start + 1 := by omega
  rw [e, m2]
  simp only [bind, Except.bind]
  have h9 : DigitsPerUnit = 9 := rfl
  by_cases hm : (m : Int) - 1 ≥ 0
  · rw [if_pos hm, h9, wrap8_id _ (by omega)]
    congr 2
    ring
  · rw [if_neg hm]
    have : m = 0 := by omega
    subst this
    rfl

/-- The carry limb and the tail of `addAbs`. -/
theorem add_tail (a b : FixedDecimal) (res3 : List Int) (c3 : Int) (N F maxI : Nat)
    (hN : N = maxI + F) (hc : c3 = 0 ∨ c3 = 1) (hlen : res3.length = 9)
    (hr : ∀ x ∈ res3, 0 ≤ x ∧ x < Unit) (hz : ∀ j : Nat, N ≤ j → res3.getD j 0 = 0)
    (hF : ∀ lsu : List Int,
      FixedDecimal.FracUnits { intg := 0, frac := maxInt8 a.frac b.frac, lsu := lsu } = (F : Int))
    (hroom : (N : Int) + c3 ≤ 8) :
    ∃ (r : FixedDecimal) (m : Nat), (do
        let p3 ← (if c3 > 0 then do
            let r1 ← wr MaxUnits res3 (N : Int) c3
            pure (r1, c3)
          else pure (res3, c3))
        finishAddSub a b p3.1 ((maxI : Int) + p3.2)) = .ok r ∧
      r.intg = 9 * (m : Int) ∧ m + F ≤ 9 ∧ r.frac = maxInt8 a.frac b.frac ∧ r.lsu.length = 9 ∧
      (∀ x ∈ r.lsu, 0 ≤ x ∧ x < Unit) ∧
      limbsVal r.lsu (m + F) = limbsVal res3 N + c3 * Unit ^ N := by
  rcases hc with hc | hc
  · subst hc
    obtain ⟨m, m1, m2, m3⟩ := finishAddSub_spec a b res3 hr maxI F (hF _) (by omega)
    refine ⟨FixedDecimal.mk (9 * (m : Int)) (maxInt8 a.frac b.frac) res3, m, ?_, rfl, by omega,
      rfl, hlen, hr, ?_⟩
    · simp only [gt_iff_lt, lt_self_iff_false, if_false, bind, Except.bind, pure, Except.pure,
        add_zero]
      exact m2
    · simp only []
      rw [m3]
      have e : maxI + 1 + F = N + 1 := by omega
      rw [e]
      show limbsVal res3 N + res3.getD N 0 * Unit ^ N = _
      rw [hz N (le_refl _)]
  · subst hc
    have hr1 := set_bounds hr N 1 (by decide)
    obtain ⟨m, m1, m2, m3⟩ := finishAddSub_spec a b (res3.set N 1) hr1 (maxI + 1) F (hF _)
      (by omega)
    refine ⟨FixedDecimal.mk (9 * (m : Int)) (maxInt8 a.frac b.frac) (res3.set N 1), m, ?_, rfl,
      by omega, rfl, by simp [hlen], hr1, ?_⟩
    · simp only [gt_iff_lt, zero_lt_one, if_true, bind, Except.bind, pure, Except.pure]
      rw [wr_ok _ (by omega)]
      simp only []
      have e : ((maxI : Int) + 1) = ((maxI + 1 : Nat) : Int) := by push_cast; rfl
      rw [e]
      exact m2
    · simp only []
      rw [m3]
      have e : maxI + 1 + 1 + F = (N + 1) + 1 := by omega
      rw [e]
      show limbsVal (res3.set N 1) (N + 1) + (res3.set N 1).getD (N + 1) 0 * Unit ^ (N + 1) = _
      rw [limbsVal_set_top _ _ _ (by omega), getD_set_int, if_neg (by omega),
        hz (N + 1) (by omega)]
      ring

/-- Sum of the magnitudes: `addAbs` returns limbs denoting the sum of the two
scaled magnitudes, aligned on the wider fraction, when the scan for the
leading limb stays inside the array. -/
theorem addAbs_spec (a b : FixedDecimal) (LI LF RI RF : Nat)
    (h1 : a.IntgUnits = LI) (h2 : a.FracUnits = LF) (h3 : b.IntgUnits = RI)
    (h4 : b.FracUnits = RF) (hL : ∀ x ∈ a.lsu, 0 ≤ x ∧ x < Unit)
    (hR : ∀ x ∈ b.lsu, 0 ≤ x ∧ x < Unit) (hla : LI + LF ≤ 9) (hlb : RI + RF ≤ 9)
    (hfa : 0 ≤ a.frac ∧ a.frac < 64) (hfb : 0 ≤ b.frac ∧ b.frac < 64)
    (hroom : ((max LI RI + max LF RF : Nat) : Int) +
      (if Unit ^ (max LI RI + max LF RF) ≤
          limbsVal a.lsu (LI + LF) * Unit ^ (max LF RF - LF) +
          limbsVal b.lsu (RI + RF) * Unit ^ (max LF RF - RF) then 1 else 0) ≤ 8) :
    ∃ (r : FixedDecimal) (m : Nat), addAbs a b = .ok r ∧ r.intg = 9 * (m : Int) ∧
      m + max LF RF ≤ 9 ∧ r.frac = maxInt8 a.frac b.frac ∧ r.lsu.length = 9 ∧
      (∀ x ∈ r.lsu, 0 ≤ x ∧ x < Unit) ∧
      limbsVal r.lsu (m + max LF RF) =
        limbsVal a.lsu (LI + LF) * Unit ^ (max LF RF - LF) +
        limbsVal b.lsu (RI + RF) * Unit ^ (max LF RF - RF) := by
  have hN8 : max LI RI + max LF RF ≤ 8 := by
    have : (0 : Int) ≤ (if Unit ^ (max LI RI + max LF RF) ≤
          limbsVal a.lsu (LI + LF) * Unit ^ (max LF RF - LF) +
          limbsVal b.lsu (RI + RF) * Unit ^ (max LF RF - RF) then 1 else 0) := by
      split <;> omega
    omega
  obtain ⟨res2, c2, s1, s2, s3, s4, s5, s6⟩ := addAbs_stageA a b LI LF RI RF h1 h2 h3 h4 hL hR
    hla hlb (by omega)
  rw [s6]
  have hF := fun lsu => fracUnits_max a b lsu 0 LF RF hfa hfb h2 h4
  -- the facts needed after the integer-only segment
  have tail : ∀ (res3 : List Int) (c3 : Int), (c3 = 0 ∨ c3 = 1) → res3.length = 9 →
      (∀ x ∈ res3, 0 ≤ x ∧ x < Unit) →
      (∀ j : Nat, max LI RI + max LF RF ≤ j → res3.getD j 0 = 0) →
      limbsVal res3 (max LI RI + max LF RF) + c3 * Unit ^ (max LI RI + max LF RF) =
        limbsVal a.lsu (LI + LF) * Unit ^ (max LF RF - LF) +
        limbsVal b.lsu (RI + RF) * Unit ^ (max LF RF - RF) →
      ∃ (r : FixedDecimal) (m : Nat), (do
          let p3 ← (if c3 > 0 then do
              let r1 ← wr MaxUnits res3 ((max LI RI + max LF RF : Nat) : Int) c3
              pure (r1, c3)
            else pure (res3, c3))
          finishAddSub a b p3.1 (((max LI RI : Nat) : Int) + p3.2)) = .ok r ∧
        r.intg = 9 * (m : Int) ∧ m + max LF RF ≤ 9 ∧ r.frac = maxInt8 a.frac b.frac ∧
        r.lsu.length = 9 ∧ (∀ x ∈ r.lsu, 0 ≤ x ∧ x < Unit) ∧
        limbsVal r.lsu (m + max LF RF) =
          limbsVal a.lsu (LI + LF) * Unit ^ (max LF RF - LF) +
          limbsVal b.lsu (RI + RF) * Unit ^ (max LF RF - RF) := by
    intro res3 c3 t1 t2 t3 t4 t5
    have hr8 : ((max LI RI + max LF RF : Nat) : Int) + c3 ≤ 8 := by
      rcases t1 with t1 | t1
      · subst t1; omega
      · subst t1
        have := limbsVal_nonneg t3 (max LI RI + max LF RF)
        rw [if_pos (by rw [← t5]; linarith)] at hroom
        exact hroom
    obtain ⟨r, m, u1, u2, u3, u4, u5, u6, u7⟩ := add_tail a b res3 c3 (max LI RI + max LF RF)
      (max LF RF) (max LI RI) rfl t1 t2 t3 t4 hF hr8
    exact ⟨r, m, u1, u2, u3, u4, u5, u6, by rw [u7, t5]⟩
  rw [maxInt_cast]
  rcases lt_trichotomy LI RI with hI | hI | hI
  · -- the right operand has more integer limbs
    have c1 : ¬ ((LI : Int) - (RI : Int) > 0) := by omega
    have c1' : (LI : Int) - (RI : Int) < 0 := by omega
    simp only [c1, c1', if_true, if_false]
    have e1 : (-((LI : Int) - (RI : Int))).toNat = RI - LI := by omega
    have e2 : min LI RI = LI := by omega
    have e3 : max LI RI = RI := by omega
    rw [e1, e2, e3]
    rw [e2] at s4 s5
    rw [e3] at tail
    obtain ⟨res3, c3, q1, q2, q3, q4, q5, q6⟩ := addIntgSeg_spec b.lsu hR (RI - LI) (RF + LI)
      (max LF RF + LI) c2 res2 (by omega) (by omega) s1 s2 s3
    have e4 : max LF RF + LI + (RI - LI) = RI + max LF RF := by omega
    rw [e4] at q5 q6
    obtain ⟨r, m, u⟩ := tail res3 c3 q2 q3 q4
      (fun j hj => by rw [q5 j hj, s4 j (by omega)])
      (by
        have hb : limbsVal b.lsu (RI + RF) = limbsVal b.lsu (RF + LI) +
            Unit ^ (RF + LI) * limbsVal (b.lsu.drop (RF + LI)) (RI - LI) := by
          rw [← limbsVal_drop]; congr 1; omega
        have e5 : Unit ^ (RF + LI) * Unit ^ (max LF RF - RF) = Unit ^ (max LF RF + LI) := by
          rw [← pow_add]; congr 1; omega
        have e6 : LI + LF = LF + LI := by omega
        rw [q6, s5, hb, e6, add_mul, mul_right_comm, e5]
        ring)
    refine ⟨r, m, ?_, u.2⟩
    rw [← u.1, q1]
    have e7 : (((max LF RF + LI : Nat) : Int) + ((RI - LI : Nat) : Int)) =
        ((RI + max LF RF : Nat) : Int) := by omega
    simp only [bind, Except.bind, e7]
  · -- both operands have the same number of integer limbs
    subst hI
    have c1 : ¬ ((LI : Int) - (LI : Int) > 0) := by omega
    have c1' : ¬ ((LI : Int) - (LI : Int) < 0) := by omega
    simp only [c1, c1', if_false]
    have e2 : min LI LI = LI := by omega
    have e3 : max LI LI = LI := by omega
    rw [e2, e3]
    rw [e2] at s4 s5
    rw [e3] at tail
    have e4 : max LF RF + LI = LI + max LF RF := by omega
    rw [e4] at s4 s5
    obtain ⟨r, m, u⟩ := tail res2 c2 s1 s2 s3 s4
      (by
        have e6 : LI + LF = LF + LI := by omega
        have e7 : LI + RF = RF + LI := by omega
        rw [s5, e6, e7])
    refine ⟨r, m, ?_, u.2⟩
    rw [← u.1, e4]
    rcases s1 with s1 | s1 <;> subst s1 <;> simp
  · -- the left operand has more integer limbs
    have c1 : ((LI : Int) - (RI : Int) > 0) := by omega
    simp only [c1, if_true]
    have e1 : ((LI : Int) - (RI : Int)).toNat = LI - RI := by omega
    have e2 : min LI RI = RI := by omega
    have e3 : max LI RI = LI := by omega
    rw [e1, e2, e3]
    rw [e2] at s4 s5
    rw [e3] at tail
    obtain ⟨res3, c3, q1, q2, q3, q4, q5, q6⟩ := addIntgSeg_spec a.lsu hL (LI - RI) (LF + RI)
      (max LF RF + RI) c2 res2 (by omega) (by omega) s1 s2 s3
    have e4 : max LF RF + RI + (LI - RI) = LI + max LF RF := by omega
    rw [e4] at q5 q6
    obtain ⟨r, m, u⟩ := tail res3 c3 q2 q3 q4
      (fun j hj => by rw [q5 j hj, s4 j (by omega)])
      (by
        have ha : limbsVal a.lsu (LI + LF) = limbsVal a.lsu (LF + RI) +
            Unit ^ (LF + RI) * limbsVal (a.lsu.drop (LF + RI)) (LI - RI) := by
          rw [← limbsVal_drop]; congr 1; omega
        have e5 : Unit ^ (LF + RI) * Unit ^ (max LF RF - LF) = Unit ^ (max LF RF + RI) := by
          rw [← pow_add]; congr 1; omega
        have e6 : RI + RF = RF + RI := by omega
        rw [q6, s5, ha, e6, add_mul, mul_right_comm, e5]
        ring)
    refine ⟨r, m, ?_, u.2⟩
    rw [← u.1, q1]
    have e7 : (((max LF RF + RI : Nat) : Int) + ((LI - RI : Nat) : Int)) =
        ((LI + max LF RF : Nat) : Int) := by omega
    simp only [bind, Except.bind, e7]

/-- The first two loops of `subAbs`: the fraction-only limbs of the wider
operand are copied or subtracted from zero and the common limbs are
subtracted. -/
theorem subAbs_stageA (a b : FixedDecimal) (LI LF RI RF : Nat)
    (h1 : a.IntgUnits = LI) (h2 : a.FracUnits = LF) (h3 : b.IntgUnits = RI)
    (h4 : b.FracUnits = RF) (hL : ∀ x ∈ a.lsu, 0 ≤ x ∧ x < Unit)
    (hR : ∀ x ∈ b.lsu, 0 ≤ x ∧ x < Unit) (hla : LI + LF ≤ 9) (hlb : RI + RF ≤ 9)
    (hroom : max LI RI + max LF RF ≤ 9) :
    ∃ res2 c2, (c2 = 0 ∨ c2 = -1) ∧ res2.length = 9 ∧ (∀ x ∈ res2, 0 ≤ x ∧ x < Unit) ∧
      (∀ j : Nat, max LF RF + min LI RI ≤ j → res2.getD j 0 = 0) ∧
      limbsVal res2 (max LF RF + min LI RI) + c2 * Unit ^ (max LF RF + min LI RI) =
        limbsVal a.lsu (LF + min LI RI) * Unit ^ (max LF RF - LF) -
        limbsVal b.lsu (RF + min LI RI) * Unit ^ (max LF RF - RF) ∧
      subAbs a b = (do
        let p3 ←
          (if (LI : Int) - (RI : Int) > 0 then
            subIntgSeg a.lsu ((LI : Int) - (RI : Int)).toNat ((LF + min LI RI : Nat) : Int)
              ((max LF RF + min LI RI : Nat) : Int) c2 res2
          else if (LI : Int) - (RI : Int) < 0 then
            subZeroSeg b.lsu (-((LI : Int) - (RI : Int))).toNat
              ((RF + min LI RI : Nat) : Int) ((max LF RF + min LI RI : Nat) : Int) c2 res2
          else pure (res2, c2))
        let res4 ←
          (if decide (p3.2 = -1) = true then
            negateUnits
              (if (LI : Int) - (RI : Int) > 0 then
                ((max LF RF + min LI RI : Nat) : Int) + (((LI : Int) - (RI : Int)).toNat : Int)
              else if (LI : Int) - (RI : Int) < 0 then
                ((max LF RF + min LI RI : Nat) : Int) + ((-((LI : Int) - (RI : Int))).toNat : Int)
              else ((max LF RF + min LI RI : Nat) : Int)).toNat 0 0 p3.1
          else pure p3.1)
        let result ← finishAddSub a b res4 (maxInt (LI : Int) (RI : Int))
        pure (decide (p3.2 = -1), result)) := by
  have hn : (minInt (LI : Int) (RI : Int) + minInt (LF : Int) (RF : Int)).toNat =
      min LI RI + min LF RF := by
    rw [minInt_cast, minInt_cast]; omega
  unfold subAbs
  rw [h1, h2, h3, h4]
  dsimp only
  rw [hn]
  rcases lt_trichotomy LF RF with hF | hF | hF
  · -- the right operand has more fractional limbs
    have c1 : ¬ ((LF : Int) - (RF : Int) > 0) := by omega
    have c2 : (LF : Int) - (RF : Int) < 0 := by omega
    simp only [c1, c2, if_true, if_false]
    have e1 : (-((LF : Int) - (RF : Int))).toNat = RF - LF := by omega
    have e2 : -((LF : Int) - (RF : Int)) = ((RF - LF : Nat) : Int) := by omega
    have e3 : (0 : Int) + ((min LI RI + min LF RF : Nat) : Int) = ((LF + min LI RI : Nat) : Int) := by
      omega
    have e4 : ((RF - LF : Nat) : Int) + ((min LI RI + min LF RF : Nat) : Int) =
        ((RF + min LI RI : Nat) : Int) := by omega
    have e5 : max LF RF = RF := by omega
    rw [e1, e2, e3, e4, e5]
    obtain ⟨res1, b1, p1, p2, p3, p4, p5, p6⟩ := subZeroSeg_spec b.lsu hR (RF - LF) 0 0 0 zeroUnits
      (by omega) (by omega) (Or.inl rfl) rfl zeroUnits_bounds
    obtain ⟨res2, c, q1, q2, q3, q4, q5, q6⟩ := subCommonSeg_spec a.lsu b.lsu hL hR
      (min LI RI + min LF RF) 0 (RF - LF) (0 + (RF - LF)) b1 res1 (by omega) (by omega) (by omega)
      p2 p3 p4
    refine ⟨res2, c, q2, q3, q4, ?_, ?_, ?_⟩
    · intro j hj
      rw [q5 j (by omega), p5 j (by omega), zeroUnits_getD]
    · have e6 : 0 + (RF - LF) + (min LI RI + min LF RF) = RF + min LI RI := by omega
      have e7 : min LI RI + min LF RF = LF + min LI RI := by omega
      have hb : limbsVal b.lsu (RF + min LI RI) = limbsVal b.lsu (RF - LF) +
          Unit ^ (RF - LF) * limbsVal (b.lsu.drop (RF - LF)) (LF + min LI RI) := by
        rw [← limbsVal_drop]; congr 1; omega
      have e9 : RF - RF = 0 := by omega
      rw [e6] at q6
      rw [q6, p6, limbsVal_zeroUnits, e7, hb, e9]
      simp
      ring
    · have p1' : subZeroSeg b.lsu (RF - LF) 0 0 0 zeroUnits = .ok (res1, b1) := by simpa using p1
      have q1' : subCommonSeg a.lsu b.lsu (min LI RI + min LF RF) 0 ((RF - LF : Nat) : Int)
          ((RF - LF : Nat) : Int) b1 res1 = .ok (res2, c) := by simpa using q1
      simp only [p1', q1', bind, Except.bind]
  · -- both operands have the same number of fractional limbs
    subst hF
    have c1 : ¬ ((LF : Int) - (LF : Int) > 0) := by omega
    have c2 : ¬ ((LF : Int) - (LF : Int) < 0) := by omega
    simp only [c1, c2, if_false]
    have e3 : (0 : Int) + ((min LI RI + min LF LF : Nat) : Int) = ((LF + min LI RI : Nat) : Int) := by
      omega
    have e5 : max LF LF = LF := by omega
    rw [e3, e5]
    obtain ⟨res2, c, q1, q2, q3, q4, q5, q6⟩ := subCommonSeg_spec a.lsu b.lsu hL hR
      (min LI RI + min LF LF) 0 0 0 0 zeroUnits (by omega) (by omega) (by omega)
      (Or.inl rfl) rfl zeroUnits_bounds
    refine ⟨res2, c, q2, q3, q4, ?_, ?_, ?_⟩
    · intro j hj
      rw [q5 j (by omega), zeroUnits_getD]
    · have e6 : 0 + (min LI RI + min LF LF) = LF + min LI RI := by omega
      have e7 : min LI RI + min LF LF = LF + min LI RI := by omega
      have e9 : LF - LF = 0 := by omega
      rw [e6] at q6
      rw [q6, e7, e9]
      simp [limbsVal]
    · have q1' : subCommonSeg a.lsu b.lsu (min LI RI + min LF LF) 0 0 0 0 zeroUnits =
          .ok (res2, c) := by simpa using q1
      simp only [q1', bind, Except.bind, pure, Except.pure]
  · -- the left operand has more fractional limbs
    have c1 : ((LF : Int) - (RF : Int) > 0) := by omega
    simp only [c1, if_true]
    have e1 : ((LF : Int) - (RF : Int)).toNat = LF - RF := by omega
    have e2 : (LF : Int) - (RF : Int) = ((LF - RF : Nat) : Int) := by omega
    have e3 : (0 : Int) + ((min LI RI + min LF RF : Nat) : Int) = ((RF + min LI RI : Nat) : Int) := by
      omega
    have e4 : ((LF - RF : Nat) : Int) + ((min LI RI + min LF RF : Nat) : Int) =
        ((LF + min LI RI : Nat) : Int) := by omega
    have e5 : max LF RF = LF := by omega
    rw [e1, e2, e3, e4, e5]
    obtain ⟨res1, p1, p2, p3, p4, p5⟩ := copyFracSeg_spec a.lsu hL (LF - RF) 0 zeroUnits (by omega)
      rfl zeroUnits_bounds
    obtain ⟨res2, c, q1, q2, q3, q4, q5, q6⟩ := subCommonSeg_spec a.lsu b.lsu hL hR
      (min LI RI + min LF RF) (LF - RF) 0 (0 + (LF - RF)) 0 res1 (by omega) (by omega) (by omega)
      (Or.inl rfl) p2 p3
    refine ⟨res2, c, q2, q3, q4, ?_, ?_, ?_⟩
    · intro j hj
      rw [q5 j (by omega), p4 j (by omega), zeroUnits_getD]
    · have e6 : 0 + (LF - RF) + (min LI RI + min LF RF) = LF + min LI RI := by omega
      have e7 : min LI RI + min LF RF = RF + min LI RI := by omega
      have ha : limbsVal a.lsu (LF + min LI RI) = limbsVal a.lsu (LF - RF) +
          Unit ^ (LF - RF) * limbsVal (a.lsu.drop (LF - RF)) (RF + min LI RI) := by
        rw [← limbsVal_drop]; congr 1; omega
      have e9 : LF - LF = 0 := by omega
      rw [e6] at q6
      rw [q6, p5, limbsVal_zeroUnits, e7, ha, e9]
      simp
      ring
    · have p1' : copyFracSeg a.lsu (LF - RF) 0 zeroUnits = .ok res1 := by simpa using p1
      have q1' : subCommonSeg a.lsu b.lsu (min LI RI + min LF RF) ((LF - RF : Nat) : Int) 0
          ((LF - RF : Nat) : Int) 0 res1 = .ok (res2, c) := by simpa using q1
      simp only [p1', q1', bind, Except.bind, pure, Except.pure]

theorem aligned_lt (l : List Int) (hl : ∀ x ∈ l, 0 ≤ x ∧ x < Unit) (n k N : Nat)
    (h : n + k ≤ N) : limbsVal l n * Unit ^ k < Unit ^ N := by
  have h1 := limbsVal_lt hl n
  have h2 : limbsVal l n * Unit ^ k < Unit ^ n * Unit ^ k :=
    mul_lt_mul_of_pos_right h1 (pow_pos Unit_pos k)
  have h3 : Unit ^ n * Unit ^ k ≤ Unit ^ N := by
    rw [← pow_add]
    exact pow_le_pow_right₀ (by decide) h
  linarith

/-- The negation pass and the tail of `subAbs`. -/
theorem sub_tail (a b : FixedDecimal) (res3 : List Int) (c3 : Int) (N F maxI : Nat)
    (hN : N = maxI + F) (hc : c3 = 0 ∨ c3 = -1) (hlen : res3.length = 9)
    (hr : ∀ x ∈ res3, 0 ≤ x ∧ x < Unit) (hz : ∀ j : Nat, N ≤ j → res3.getD j 0 = 0)
    (hF : ∀ lsu : List Int,
      FixedDecimal.FracUnits { intg := 0, frac := maxInt8 a.frac b.frac, lsu := lsu } = (F : Int))
    (hroom : N ≤ 8) (V : Int) (hV : limbsVal res3 N + c3 * Unit ^ N = V)
    (hVlow : -(Unit ^ N) < V) :
    ∃ (r : FixedDecimal) (m : Nat), (do
        let res4 ← (if decide (c3 = -1) = true then negateUnits N 0 0 res3 else pure res3)
        let result ← finishAddSub a b res4 (maxI : Int)
        pure (decide (c3 = -1), result)) = .ok (decide (V < 0), r) ∧
      r.intg = 9 * (m : Int) ∧ m + F ≤ 9 ∧ r.frac = maxInt8 a.frac b.frac ∧ r.lsu.length = 9 ∧
      (∀ x ∈ r.lsu, 0 ≤ x ∧ x < Unit) ∧
      limbsVal r.lsu (m + F) = |V| := by
  have hnn := limbsVal_nonneg hr N
  have hlt := limbsVal_lt hr N
  rcases hc with hc | hc
  · subst hc
    have hV0 : 0 ≤ V := by rw [← hV]; linarith
    obtain ⟨m, m1, m2, m3⟩ := finishAddSub_spec a b res3 hr maxI F (hF _) (by omega)
    refine ⟨FixedDecimal.mk (9 * (m : Int)) (maxInt8 a.frac b.frac) res3, m, ?_, rfl, by omega,
      rfl, hlen, hr, ?_⟩
    · have d1 : decide ((0 : Int) = -1) = false := by decide
      have d2 : decide (V < 0) = false := by simp; exact hV0
      simp only [d1, d2, Bool.false_eq_true, if_false, bind, Except.bind, pure, Except.pure, m2]
    · simp only []
      rw [m3, abs_of_nonneg hV0, ← hV]
      have e : maxI + 1 + F = N + 1 := by omega
      rw [e]
      show limbsVal res3 N + res3.getD N 0 * Unit ^ N = _
      rw [hz N (le_refl _)]
  · subst hc
    have hVneg : V < 0 := by rw [← hV]; linarith
    obtain ⟨res4, c4, n1, n2, n3, n4, n5, n6⟩ := negateUnits_spec N 0 0 res3 (by omega)
      (Or.inl rfl) hlen hr
    have n1' : negateUnits N 0 0 res3 = .ok res4 := by simpa using n1
    have e0 : 0 + N = N := by omega
    rw [e0] at n5 n6
    have hnn4 := limbsVal_nonneg n4 N
    have hlt4 := limbsVal_lt n4 N
    have hval : limbsVal res4 N = -V := by
      have h3 : limbsVal res3 N = V + Unit ^ N := by linarith
      have h6 : limbsVal res4 N + c4 * Unit ^ N = -limbsVal res3 N := by
        rw [n6]; simp [limbsVal]
      rcases n2 with n2 | n2
      · subst n2
        have : limbsVal res4 N = -limbsVal res3 N := by linarith
        linarith
      · subst n2
        linarith
    obtain ⟨m, m1, m2, m3⟩ := finishAddSub_spec a b res4 n4 maxI F (hF _) (by omega)
    refine ⟨FixedDecimal.mk (9 * (m : Int)) (maxInt8 a.frac b.frac) res4, m, ?_, rfl, by omega,
      rfl, n3, n4, ?_⟩
    · have d1 : decide ((-1 : Int) = -1) = true := by decide
      have d2 : decide (V < 0) = true := by simp; exact hVneg
      simp only [d2, if_true, bind, Except.bind, pure, Except.pure, n1', m2, decide_True]
    · simp only []
      rw [m3, abs_of_neg hVneg, ← hval]
      have e : maxI + 1 + F = N + 1 := by omega
      rw [e]
      show limbsVal res4 N + res4.getD N 0 * Unit ^ N = _
      rw [n5 N (le_refl _), hz N (le_refl _)]
      ring

/-- Difference of the magnitudes: `subAbs` returns limbs denoting the absolute
difference of the two scaled magnitudes, aligned on the wider fraction, and
the flag telling that the left one is smaller, when the scan for the leading
limb stays inside the array. -/
theorem subAbs_spec (a b : FixedDecimal) (LI LF RI RF : Nat)
    (h1 : a.IntgUnits = LI) (h2 : a.FracUnits = LF) (h3 : b.IntgUnits = RI)
    (h4 : b.FracUnits = RF) (hL : ∀ x ∈ a.lsu, 0 ≤ x ∧ x < Unit)
    (hR : ∀ x ∈ b.lsu, 0 ≤ x ∧ x < Unit) (hla : LI + LF ≤ 9) (hlb : RI + RF ≤ 9)
    (hfa : 0 ≤ a.frac ∧ a.frac < 64) (hfb : 0 ≤ b.frac ∧ b.frac < 64)
    (hroom : max LI RI + max LF RF ≤ 8) :
    ∃ (r : FixedDecimal) (m : Nat),
      subAbs a b = .ok (decide (limbsVal a.lsu (LI + LF) * Unit ^ (max LF RF - LF) -
        limbsVal b.lsu (RI + RF) * Unit ^ (max LF RF - RF) < 0), r) ∧
      r.intg = 9 * (m : Int) ∧
      m + max LF RF ≤ 9 ∧ r.frac = maxInt8 a.frac b.frac ∧ r.lsu.length = 9 ∧
      (∀ x ∈ r.lsu, 0 ≤ x ∧ x < Unit) ∧
      limbsVal r.lsu (m + max LF RF) =
        |limbsVal a.lsu (LI + LF) * Unit ^ (max LF RF - LF) -
          limbsVal b.lsu (RI + RF) * Unit ^ (max LF RF - RF)| := by
  obtain ⟨res2, c2, s1, s2, s3, s4, s5, s6⟩ := subAbs_stageA a b LI LF RI RF h1 h2 h3 h4 hL hR
    hla hlb (by omega)
  rw [s6]
  have hF := fun lsu => fracUnits_max a b lsu 0 LF RF hfa hfb h2 h4
  have hlow : -(Unit ^ (max LI RI + max LF RF)) <
      limbsVal a.lsu (LI + LF) * Unit ^ (max LF RF - LF) -
        limbsVal b.lsu (RI + RF) * Unit ^ (max LF RF - RF) := by
    have hb1 := aligned_lt b.lsu hR (RI + RF) (max LF RF - RF) (max LI RI + max LF RF) (by omega)
    have ha1 : 0 ≤ limbsVal a.lsu (LI + LF) * Unit ^ (max LF RF - LF) :=
      mul_nonneg (limbsVal_nonneg hL _) (le_of_lt (pow_pos Unit_pos _))
    linarith
  have tail := fun (res3 : List Int) (c3 : Int) (t1 : c3 = 0 ∨ c3 = -1) (t2 : res3.length = 9)
      (t3 : ∀ x ∈ res3, 0 ≤ x ∧ x < Unit)
      (t4 : ∀ j : Nat, max LI RI + max LF RF ≤ j → res3.getD j 0 = 0)
      (t5 : limbsVal res3 (max LI RI + max LF RF) + c3 * Unit ^ (max LI RI + max LF RF) =
        limbsVal a.lsu (LI + LF) * Unit ^ (max LF RF - LF) -
        limbsVal b.lsu (RI + RF) * Unit ^ (max LF RF - RF)) =>
    sub_tail a b res3 c3 (max LI RI + max LF RF) (max LF RF) (max LI RI) rfl t1 t2 t3 t4 hF hroom
      _ t5 hlow
  rw [maxInt_cast]
  rcases lt_trichotomy LI RI with hI | hI | hI
  · -- the right operand has more integer limbs
    have c1 : ¬ ((LI : Int) - (RI : Int) > 0) := by omega
    have c1' : (LI : Int) - (RI : Int) < 0 := by omega
    simp only [c1, c1', if_true, if_false]
    have e1 : (-((LI : Int) - (RI : Int))).toNat = RI - LI := by omega
    have e2 : min LI RI = LI := by omega
    have e3 : max LI RI = RI := by omega
    rw [e1, e2, e3]
    rw [e2] at s4 s5
    rw [e3] at tail
    obtain ⟨res3, c3, q1, q2, q3, q4, q5, q6⟩ := subZeroSeg_spec b.lsu hR (RI - LI) (RF + LI)
      (max LF RF + LI) c2 res2 (by omega) (by omega) s1 s2 s3
    have e4 : max LF RF + LI + (RI - LI) = RI + max LF RF := by omega
    rw [e4] at q5 q6
    obtain ⟨r, m, u⟩ := tail res3 c3 q2 q3 q4
      (fun j hj => by rw [q5 j hj, s4 j (by omega)])
      (by
        have hb : limbsVal b.lsu (RI + RF) = limbsVal b.lsu (RF + LI) +
            Unit ^ (RF + LI) * limbsVal (b.lsu.drop (RF + LI)) (RI - LI) := by
          rw [← limbsVal_drop]; congr 1; omega
        have e5 : Unit ^ (RF + LI) * Unit ^ (max LF RF - RF) = Unit ^ (max LF RF + LI) := by
          rw [← pow_add]; congr 1; omega
        have e6 : LI + LF = LF + LI := by omega
        rw [q6, s5, hb, e6, add_mul, mul_right_comm, e5]
        ring)
    refine ⟨r, m, ?_, u.2⟩
    rw [← u.1, q1]
    have e7 : (((max LF RF + LI : Nat) : Int) + ((RI - LI : Nat) : Int)).toNat =
        RI + max LF RF := by omega
    simp only [bind, Except.bind, e7]
  · -- both operands have the same number of integer limbs
    subst hI
    have c1 : ¬ ((LI : Int) - (LI : Int) > 0) := by omega
    have c1' : ¬ ((LI : Int) - (LI : Int) < 0) := by omega
    simp only [c1, c1', if_false]
    have e2 : min LI LI = LI := by omega
    have e3 : max LI LI = LI := by omega
    rw [e2, e3]
    rw [e2] at s4 s5
    rw [e3] at tail
    have e4 : max LF RF + LI = LI + max LF RF := by omega
    rw [e4] at s4 s5
    obtain ⟨r, m, u⟩ := tail res2 c2 s1 s2 s3 s4
      (by
        have e6 : LI + LF = LF + LI := by omega
        have e7 : LI + RF = RF + LI := by omega
        rw [s5, e6, e7])
    refine ⟨r, m, ?_, u.2⟩
    rw [← u.1, e4]
    simp only [bind, Except.bind, pure, Except.pure, Int.toNat_ofNat]
  · -- the left operand has more integer limbs
    have c1 : ((LI : Int) - (RI : Int) > 0) := by omega
    simp only [c1, if_true]
    have e1 : ((LI : Int) - (RI : Int)).toNat = LI - RI := by omega
    have e2 : min LI RI = RI := by omega
    have e3 : max LI RI = LI := by omega
    rw [e1, e2, e3]
    rw [e2] at s4 s5
    rw [e3] at tail
    obtain ⟨res3, c3, q1, q2, q3, q4, q5, q6⟩ := subIntgSeg_spec a.lsu hL (LI - RI) (LF + RI)
      (max LF RF + RI) c2 res2 (by omega) (by omega) s1 s2 s3
    have e4 : max LF RF + RI + (LI - RI) = LI + max LF RF := by omega
    rw [e4] at q5 q6
    obtain ⟨r, m, u⟩ := tail res3 c3 q2 q3 q4
      (fun j hj => by rw [q5 j hj, s4 j (by omega)])
      (by
        have ha : limbsVal a.lsu (LI + LF) = limbsVal a.lsu (LF + RI) +
            Unit ^ (LF + RI) * limbsVal (a.lsu.drop (LF + RI)) (LI - RI) := by
          rw [← limbsVal_drop]; congr 1; omega
        have e5 : Unit ^ (LF + RI) * Unit ^ (max LF RF - LF) = Unit ^ (max LF RF + RI) := by
          rw [← pow_add]; congr 1; omega
        have e6 : RI + RF = RF + RI := by omega
        rw [q6, s5, ha, e6, add_mul, mul_right_comm, e5]
        ring)
    refine ⟨r, m, ?_, u.2⟩
    rw [← u.1, q1]
    have e7 : (((max LF RF + RI : Nat) : Int) + ((LI - RI : Nat) : Int)).toNat =
        LI + max LF RF := by omega
    simp only [bind, Except.bind, e7]

theorem intg_of_valid (fd : FixedDecimal) (h : fd.Valid) (hn : fd.IsNeg = false) :
    fd.Intg = fd.intg := by
  obtain ⟨h1, h2, -⟩ := h
  unfold FixedDecimal.IsNeg at hn
  have : 0 ≤ fd.intg := by simpa using hn
  unfold FixedDecimal.Intg; omega

/-- A decimal built from `m` integer limbs and the fraction digits `fr`. -/
theorem result_value (r : FixedDecimal) (m F : Nat) (hi : r.intg = 9 * (m : Int))
    (hm : m + F ≤ 9) (hfr : 0 ≤ r.frac ∧ r.frac < 64) (hFU : r.FracUnits = (F : Int))
    (hlen : r.lsu.length = 9) (hr : ∀ x ∈ r.lsu, 0 ≤ x ∧ x < Unit) :
    r.Valid ∧ r.IsNeg = false ∧
      r.absValue = ((limbsVal r.lsu (m + F) : Int) : ℚ) / ((Unit : Int) : ℚ) ^ F := by
  have hIU : r.IntgUnits = (m : Int) := by
    unfold FixedDecimal.IntgUnits FixedDecimal.Intg
    rw [hi, getUnits_eq _ (by omega)]; omega
  refine ⟨⟨by omega, by omega, hfr.1, hfr.2, hlen, hr, by rw [hIU, hFU]; unfold MaxUnits; omega⟩,
    ?_, ?_⟩
  · unfold FixedDecimal.IsNeg; rw [hi]; simp
  · unfold FixedDecimal.absValue FixedDecimal.scaled FixedDecimal.units
    rw [hIU, hFU]
    have : ((m : Int) + (F : Int)).toNat = m + F := by omega
    rw [this, Int.toNat_ofNat]

theorem limbsVal_all_zero (l : List Int) (hlen : l.length = 9)
    (hz : ∀ i : Nat, i < 9 → l.getD i 0 = 0) (n : Nat) : limbsVal l n = 0 := by
  induction n with
  | zero => rfl
  | succ n ih =>
    unfold limbsVal
    rw [ih]
    rcases Nat.lt_or_ge n 9 with h | h
    · rw [hz n h]; simp
    · simp [List.getD_eq_getElem?_getD, List.getElem?_eq_none, hlen, h]

theorem zero_valid : DecimalZero.Valid := by decide

theorem zero_value_eq : DecimalZero.value = 0 := by
  have h1 : DecimalZero.scaled = 0 := by decide
  unfold FixedDecimal.value FixedDecimal.absValue
  rw [h1]; simp

/-- Setting the sign on a non-negative decimal negates its value; a result
with no non-zero limb becomes the canonical zero. -/
theorem setNegAndCheckZero_value (r : FixedDecimal) (hv : r.Valid) (hn : r.IsNeg = false) :
    r.setNegAndCheckZero.Valid ∧ r.setNegAndCheckZero.value = -r.absValue := by
  have hI := intg_of_valid r hv hn
  obtain ⟨h1, h2, h3, h4, hlen, hr, hu⟩ := hv
  have h0 : 0 ≤ r.intg := by
    unfold FixedDecimal.IsNeg at hn; simpa using hn
  unfold FixedDecimal.setNegAndCheckZero
  dsimp only
  by_cases hz : r.setNeg.allUnitsZero = true
  · rw [if_pos hz]
    refine ⟨zero_valid, ?_⟩
    have hz' : ∀ i : Nat, i < 9 → r.lsu.getD i 0 = 0 := by
      unfold FixedDecimal.allUnitsZero FixedDecimal.setNeg at hz
      simp only [Bool.and_eq_true, decide_eq_true_eq] at hz
      intro i hi
      interval_cases i <;> omega
    have : r.absValue = 0 := by
      unfold FixedDecimal.absValue FixedDecimal.scaled
      rw [limbsVal_all_zero r.lsu hlen hz']; simp
    rw [this]
    exact (by simpa using zero_value_eq)
  · rw [if_neg hz]
    have hs : r.setNeg = { r with intg := r.intg - 128 } := by
      unfold FixedDecimal.setNeg; rw [if_neg (by omega)]
    rw [hs]
    have hIU : FixedDecimal.IntgUnits { r with intg := r.intg - 128 } = r.IntgUnits := by
      unfold FixedDecimal.IntgUnits FixedDecimal.Intg
      congr 1
      simp only []
      omega
    have hFU : FixedDecimal.FracUnits { r with intg := r.intg - 128 } = r.FracUnits := rfl
    refine ⟨⟨by simp only []; omega, by simp only []; omega, h3, h4, hlen, hr, by rw [hIU, hFU]; exact hu⟩, ?_⟩
    have hneg : FixedDecimal.IsNeg { r with intg := r.intg - 128 } = true := by
      unfold FixedDecimal.IsNeg; simp; omega
    have habs : FixedDecimal.absValue { r with intg := r.intg - 128 } = r.absValue := by
      unfold FixedDecimal.absValue FixedDecimal.scaled FixedDecimal.units
      rw [hIU, hFU]
    unfold FixedDecimal.value
    rw [hneg, if_pos rfl, habs]

theorem value_of_nonneg (r : FixedDecimal) (hn : r.IsNeg = false) : r.value = r.absValue := by
  unfold FixedDecimal.value; rw [hn]; simp

theorem value_of_neg (r : FixedDecimal) (hn : r.IsNeg = true) : r.value = -r.absValue := by
  unfold FixedDecimal.value; rw [hn]; simp

/-- The scaled magnitude aligned on `F ≥ FracUnits` fraction limbs. -/
theorem aligned_value (fd : FixedDecimal) (I Fu F : Nat) (h1 : fd.IntgUnits = I)
    (h2 : fd.FracUnits = Fu) (hF : Fu ≤ F) :
    ((limbsVal fd.lsu (I + Fu) * Unit ^ (F - Fu) : Int) : ℚ) / ((Unit : Int) : ℚ) ^ F =
      fd.absValue := by
  unfold FixedDecimal.absValue FixedDecimal.scaled FixedDecimal.units
  rw [h1, h2]
  have : ((I : Int) + (Fu : Int)).toNat = I + Fu := by omega
  rw [this, Int.toNat_ofNat]
  have hU : ((Unit : Int) : ℚ) ≠ 0 := by norm_num [Unit]
  have e : ((Unit : Int) : ℚ) ^ F = ((Unit : Int) : ℚ) ^ Fu * ((Unit : Int) : ℚ) ^ (F - Fu) := by
    rw [← pow_add]; congr 1; omega
  rw [e]
  push_cast
  field_simp
  ring

theorem maxInt8_range (x y : Int) (hx : 0 ≤ x ∧ x < 64) (hy : 0 ≤ y ∧ y < 64) :
    0 ≤ maxInt8 x y ∧ maxInt8 x y < 64 := by
  unfold maxInt8; split <;> omega

theorem fracUnits_of_frac (r r' : FixedDecimal) (h : r.frac = r'.frac) :
    r.FracUnits = r'.FracUnits := by
  unfold FixedDecimal.FracUnits FixedDecimal.Frac; rw [h]

/-- Value form of `addAbs_spec`. -/
theorem addAbs_value (a b : FixedDecimal) (ha : a.Valid) (hb : b.Valid) (LI LF RI RF : Nat)
    (h1 : a.IntgUnits = LI) (h2 : a.FracUnits = LF) (h3 : b.IntgUnits = RI)
    (h4 : b.FracUnits = RF)
    (hroom : ((max LI RI + max LF RF : Nat) : Int) +
      (if ((Unit : Int) : ℚ) ^ (max LI RI) ≤ a.absValue + b.absValue then 1 else 0) ≤ 8) :
    ∃ r, addAbs a b = .ok r ∧ r.Valid ∧ r.IsNeg = false ∧
      r.absValue = a.absValue + b.absValue := by
  obtain ⟨-, -, a3, a4, -, hL, hla⟩ := ha
  obtain ⟨-, -, b3, b4, -, hR, hlb⟩ := hb
  rw [h1, h2] at hla
  rw [h3, h4] at hlb
  have h9 : MaxUnits = 9 := rfl
  have hUpos : (0 : ℚ) < ((Unit : Int) : ℚ) ^ (max LF RF) := by
    apply pow_pos; norm_num [Unit]
  have hsum : a.absValue + b.absValue =
      ((limbsVal a.lsu (LI + LF) * Unit ^ (max LF RF - LF) +
        limbsVal b.lsu (RI + RF) * Unit ^ (max LF RF - RF) : Int) : ℚ) /
        ((Unit : Int) : ℚ) ^ (max LF RF) := by
    rw [← aligned_value a LI LF (max LF RF) h1 h2 (by omega),
      ← aligned_value b RI RF (max LF RF) h3 h4 (by omega), ← add_div]
    push_cast
    rfl
  have hcond : (((Unit : Int) : ℚ) ^ (max LI RI) ≤ a.absValue + b.absValue) ↔
      (Unit ^ (max LI RI + max LF RF) ≤
        limbsVal a.lsu (LI + LF) * Unit ^ (max LF RF - LF) +
        limbsVal b.lsu (RI + RF) * Unit ^ (max LF RF - RF)) := by
    rw [hsum, le_div_iff₀ hUpos, ← pow_add]
    constructor
    · intro h; exact_mod_cast h
    · intro h; exact_mod_cast h
  have hroom' : ((max LI RI + max LF RF : Nat) : Int) +
      (if Unit ^ (max LI RI + max LF RF) ≤
          limbsVal a.lsu (LI + LF) * Unit ^ (max LF RF - LF) +
          limbsVal b.lsu (RI + RF) * Unit ^ (max LF RF - RF) then 1 else 0) ≤ 8 := by
    by_cases c : Unit ^ (max LI RI + max LF RF) ≤
          limbsVal a.lsu (LI + LF) * Unit ^ (max LF RF - LF) +
          limbsVal b.lsu (RI + RF) * Unit ^ (max LF RF - RF)
    · rw [if_pos c]; rw [if_pos (hcond.mpr c)] at hroom; exact hroom
    · rw [if_neg c]; rw [if_neg (fun h => c (hcond.mp h))] at hroom; exact hroom
  obtain ⟨r, m, u1, u2, u3, u4, u5, u6, u7⟩ := addAbs_spec a b LI LF RI RF h1 h2 h3 h4 hL hR
    (by omega) (by omega) ⟨a3, a4⟩ ⟨b3, b4⟩ hroom'
  have hfr := maxInt8_range a.frac b.frac ⟨a3, a4⟩ ⟨b3, b4⟩
  have hFU : r.FracUnits = ((max LF RF : Nat) : Int) := by
    rw [fracUnits_of_frac r { intg := 0, frac := maxInt8 a.frac b.frac, lsu := [] } u4]
    exact fracUnits_max a b [] 0 LF RF ⟨a3, a4⟩ ⟨b3, b4⟩ h2 h4
  obtain ⟨v1, v2, v3⟩ := result_value r m (max LF RF) u2 u3 (by rw [u4]; exact hfr) hFU u5 u6
  exact ⟨r, u1, v1, v2, by rw [v3, u7, hsum]⟩

/-- Value form of `subAbs_spec`. -/
theorem subAbs_value (a b : FixedDecimal) (ha : a.Valid) (hb : b.Valid) (LI LF RI RF : Nat)
    (h1 : a.IntgUnits = LI) (h2 : a.FracUnits = LF) (h3 : b.IntgUnits = RI)
    (h4 : b.FracUnits = RF) (hroom : max LI RI + max LF RF ≤ 8) :
    ∃ r, subAbs a b = .ok (decide (a.absValue < b.absValue), r) ∧ r.Valid ∧ r.IsNeg = false ∧
      r.absValue = |a.absValue - b.absValue| := by
  obtain ⟨-, -, a3, a4, -, hL, hla⟩ := ha
  obtain ⟨-, -, b3, b4, -, hR, hlb⟩ := hb
  rw [h1, h2] at hla
  rw [h3, h4] at hlb
  have h9 : MaxUnits = 9 := rfl
  have hUpos : (0 : ℚ) < ((Unit : Int) : ℚ) ^ (max LF RF) := by
    apply pow_pos; norm_num [Unit]
  have hdiff : a.absValue - b.absValue =
      ((limbsVal a.lsu (LI + LF) * Unit ^ (max LF RF - LF) -
        limbsVal b.lsu (RI + RF) * Unit ^ (max LF RF - RF) : Int) : ℚ) /
        ((Unit : Int) : ℚ) ^ (max LF RF) := by
    rw [← aligned_value a LI LF (max LF RF) h1 h2 (by omega),
      ← aligned_value b RI RF (max LF RF) h3 h4 (by omega), ← sub_div]
    push_cast
    rfl
  obtain ⟨r, m, u1, u2, u3, u4, u5, u6, u7⟩ := subAbs_spec a b LI LF RI RF h1 h2 h3 h4 hL hR
    (by omega) (by omega) ⟨a3, a4⟩ ⟨b3, b4⟩ hroom
  have hfr := maxInt8_range a.frac b.frac ⟨a3, a4⟩ ⟨b3, b4⟩
  have hFU : r.FracUnits = ((max LF RF : Nat) : Int) := by
    rw [fracUnits_of_frac r { intg := 0, frac := maxInt8 a.frac b.frac, lsu := [] } u4]
    exact fracUnits_max a b [] 0 LF RF ⟨a3, a4⟩ ⟨b3, b4⟩ h2 h4
  obtain ⟨v1, v2, v3⟩ := result_value r m (max LF RF) u2 u3 (by rw [u4]; exact hfr) hFU u5 u6
  have hdec : decide (limbsVal a.lsu (LI + LF) * Unit ^ (max LF RF - LF) -
        limbsVal b.lsu (RI + RF) * Unit ^ (max LF RF - RF) < 0) =
      decide (a.absValue < b.absValue) := by
    have : a.absValue < b.absValue ↔ (limbsVal a.lsu (LI + LF) * Unit ^ (max LF RF - LF) -
        limbsVal b.lsu (RI + RF) * Unit ^ (max LF RF - RF) < 0) := by
      rw [← sub_neg, hdiff, div_lt_iff₀ hUpos, zero_mul]
      constructor
      · intro h; exact_mod_cast h
      · intro h; exact_mod_cast h
    simp only [this]
  rw [hdec] at u1
  refine ⟨r, u1, v1, v2, ?_⟩
  rw [v3, u7, hdiff, abs_div, abs_of_pos hUpos]
  push_cast
  rfl

theorem isZero_value (a : FixedDecimal) (h : a.IsZero = true) : a.value = 0 := by
  unfold FixedDecimal.IsZero at h
  simp only [Bool.and_eq_true, decide_eq_true_eq] at h
  obtain ⟨⟨h0, h1⟩, h2⟩ := h
  have hn : a.IsNeg = false := by unfold FixedDecimal.IsNeg; rw [h1]; decide
  have hs : a.scaled = 0 := by
    unfold FixedDecimal.scaled FixedDecimal.units FixedDecimal.IntgUnits FixedDecimal.FracUnits
      FixedDecimal.Intg FixedDecimal.Frac
    rw [h1, h2]
    have : (getUnits (1 % 128) + getUnits (0 % 64)).toNat = 1 := by decide
    rw [this]
    show limbsVal a.lsu 0 + a.lsu.getD 0 0 * Unit ^ 0 = 0
    rw [h0]; simp [limbsVal]
  rw [value_of_nonneg a hn]
  unfold FixedDecimal.absValue
  rw [hs]; simp

/-- Sum or difference of magnitudes with the sign of the result, as `DecimalAdd`
and `DecimalSub` apply it after `subAbs`. -/
theorem sub_signed (a b : FixedDecimal) (ha : a.Valid) (hb : b.Valid) (LI LF RI RF : Nat)
    (h1 : a.IntgUnits = LI) (h2 : a.FracUnits = LF) (h3 : b.IntgUnits = RI)
    (h4 : b.FracUnits = RF) (hroom : max LI RI + max LF RF ≤ 8) (lneg : Bool) :
    ∃ r, (do
        let p ← subAbs a b
        if p.1 ≠ lneg then pure p.2.setNegAndCheckZero else pure p.2) = .ok r ∧ r.Valid ∧
      r.value = (if lneg then -(a.absValue - b.absValue) else a.absValue - b.absValue) := by
  obtain ⟨r, u1, u2, u3, u4⟩ := subAbs_value a b ha hb LI LF RI RF h1 h2 h3 h4 hroom
  obtain ⟨n1, n2⟩ := setNegAndCheckZero_value r u2 u3
  rw [u1]
  simp only [bind, Except.bind, pure, Except.pure]
  by_cases hlt : a.absValue < b.absValue
  · have hd : decide (a.absValue < b.absValue) = true := by simpa using hlt
    have habs : |a.absValue - b.absValue| = -(a.absValue - b.absValue) :=
      abs_of_neg (by linarith)
    rw [hd]
    cases lneg
    · refine ⟨r.setNegAndCheckZero, by simp, n1, ?_⟩
      rw [n2, u4, habs]; simp
    · refine ⟨r, by simp, u2, ?_⟩
      rw [value_of_nonneg r u3, u4, habs]; simp
  · have hd : decide (a.absValue < b.absValue) = false := by simpa using hlt
    have habs : |a.absValue - b.absValue| = a.absValue - b.absValue :=
      abs_of_nonneg (by linarith)
    rw [hd]
    cases lneg
    · refine ⟨r, by simp, u2, ?_⟩
      rw [value_of_nonneg r u3, u4, habs]; simp
    · refine ⟨r.setNegAndCheckZero, by simp, n1, ?_⟩
      rw [n2, u4, habs]; simp

/-- Sum of magnitudes with the sign of the left operand, as `DecimalAdd` and
`DecimalSub` apply it after `addAbs`. -/
theorem add_signed (a b : FixedDecimal) (ha : a.Valid) (hb : b.Valid) (LI LF RI RF : Nat)
    (h1 : a.IntgUnits = LI) (h2 : a.FracUnits = LF) (h3 : b.IntgUnits = RI)
    (h4 : b.FracUnits = RF)
    (hroom : ((max LI RI + max LF RF : Nat) : Int) +
      (if ((Unit : Int) : ℚ) ^ (max LI RI) ≤ a.absValue + b.absValue then 1 else 0) ≤ 8)
    (lneg : Bool) :
    ∃ r, (do
        let result ← addAbs a b
        if lneg then pure result.setNegAndCheckZero else pure result) = .ok r ∧ r.Valid ∧
      r.value = (if lneg then -(a.absValue + b.absValue) else a.absValue + b.absValue) := by
  obtain ⟨r, u1, u2, u3, u4⟩ := addAbs_value a b ha hb LI LF RI RF h1 h2 h3 h4 hroom
  obtain ⟨n1, n2⟩ := setNegAndCheckZero_value r u2 u3
  rw [u1]
  simp only [bind, Except.bind, pure, Except.pure]
  cases lneg
  · refine ⟨r, by simp, u2, ?_⟩
    rw [value_of_nonneg r u3, u4]; simp
  · refine ⟨r.setNegAndCheckZero, by simp, n1, ?_⟩
    rw [n2, u4]; simp

/-- C1 (amended): for valid non-special decimals `a` and `b`, when one of them
is the canonical zero, or when the wider integer part and the wider fraction
leave a limb unused (two when the signs agree and the magnitudes carry into a
new limb), `DecimalAdd(a, b, r)` returns no error and a valid `r` with
`value(r) = value(a) + value(b)`. -/
theorem C1_add_exact (a b : FixedDecimal) (ha : a.Valid) (hb : b.Valid)
    (hroom : a.IsZero = true ∨ b.IsZero = true ∨
      max a.IntgUnits b.IntgUnits + max a.FracUnits b.FracUnits +
        (if a.IsNeg = b.IsNeg ∧
            ((Unit : Int) : ℚ) ^ (max a.IntgUnits b.IntgUnits).toNat ≤ |a.value| + |b.value|
          then 1 else 0) < MaxUnits) :
    ∃ r, DecimalAdd a b = .ok r ∧ r.Valid ∧ r.value = a.value + b.value := by
  unfold DecimalAdd
  by_cases hza : a.IsZero = true
  · rw [if_pos hza]
    exact ⟨b, rfl, hb, by rw [isZero_value a hza]; simp⟩
  rw [if_neg hza]
  by_cases hzb : b.IsZero = true
  · rw [if_pos hzb]
    exact ⟨a, rfl, ha, by rw [isZero_value b hzb]; simp⟩
  rw [if_neg hzb]
  rcases hroom with h | h | hroom
  · exact absurd h hza
  · exact absurd h hzb
  obtain ⟨LI, h1⟩ := Int.eq_ofNat_of_zero_le (intgUnits_nonneg a)
  obtain ⟨LF, h2⟩ := Int.eq_ofNat_of_zero_le (fracUnits_nonneg a)
  obtain ⟨RI, h3⟩ := Int.eq_ofNat_of_zero_le (intgUnits_nonneg b)
  obtain ⟨RF, h4⟩ := Int.eq_ofNat_of_zero_le (fracUnits_nonneg b)
  rw [h1, h2, h3, h4, abs_value a ha, abs_value b hb] at hroom
  have h9 : MaxUnits = 9 := rfl
  have em : (max (LI : Int) (RI : Int)).toNat = max LI RI := by omega
  rw [em] at hroom
  dsimp only
  by_cases hs : a.IsNeg = b.IsNeg
  · rw [if_pos hs]
    have hroom' : ((max LI RI + max LF RF : Nat) : Int) +
        (if ((Unit : Int) : ℚ) ^ (max LI RI) ≤ a.absValue + b.absValue then 1 else 0) ≤ 8 := by
      by_cases c : ((Unit : Int) : ℚ) ^ (max LI RI) ≤ a.absValue + b.absValue
      · rw [if_pos c]; rw [if_pos ⟨hs, c⟩] at hroom; omega
      · rw [if_neg c]; rw [if_neg (fun h => c h.2)] at hroom; omega
    obtain ⟨r, u1, u2, u3⟩ := add_signed a b ha hb LI LF RI RF h1 h2 h3 h4 hroom' a.IsNeg
    refine ⟨r, u1, u2, ?_⟩
    rw [u3]
    cases hna : a.IsNeg
    · rw [value_of_nonneg a hna, value_of_nonneg b (by rw [← hs]; exact hna)]; simp
    · rw [value_of_neg a hna, value_of_neg b (by rw [← hs]; exact hna)]; simp; ring
  · rw [if_neg hs]
    have hroom' : max LI RI + max LF RF ≤ 8 := by
      have : (0 : Int) ≤ (if a.IsNeg = b.IsNeg ∧
          ((Unit : Int) : ℚ) ^ (max LI RI) ≤ a.absValue + b.absValue then 1 else 0) := by
        split <;> omega
      omega
    obtain ⟨r, u1, u2, u3⟩ := sub_signed a b ha hb LI LF RI RF h1 h2 h3 h4 hroom' a.IsNeg
    refine ⟨r, u1, u2, ?_⟩
    rw [u3]
    cases hna : a.IsNeg
    · have hnb : b.IsNeg = true := by
        cases hb' : b.IsNeg
        · exact absurd (hna.trans hb'.symm) hs
        · rfl
      rw [value_of_nonneg a hna, value_of_neg b hnb]; simp; ring
    · have hnb : b.IsNeg = false := by
        cases hb' : b.IsNeg
        · rfl
        · exact absurd (hna.trans hb'.symm) hs
      rw [value_of_neg a hna, value_of_nonneg b hnb]; simp; ring

/-- Clearing the sign of a negative decimal gives its magnitude. -/
theorem setPos_value (r : FixedDecimal) (hv : r.Valid) (hn : r.IsNeg = true) :
    r.setPos.Valid ∧ r.setPos.value = r.absValue := by
  obtain ⟨h1, h2, h3, h4, hlen, hr, hu⟩ := hv
  have h0 : r.intg < 0 := by
    unfold FixedDecimal.IsNeg at hn; simpa using hn
  have hIU : r.setPos.IntgUnits = r.IntgUnits := by
    unfold FixedDecimal.IntgUnits FixedDecimal.Intg FixedDecimal.setPos
    congr 1
    simp only []
    omega
  have hFU : r.setPos.FracUnits = r.FracUnits := rfl
  refine ⟨⟨by unfold FixedDecimal.setPos; simp only []; omega,
    by unfold FixedDecimal.setPos; simp only []; omega, h3, h4, hlen, hr,
    by rw [hIU, hFU]; exact hu⟩, ?_⟩
  have hneg : r.setPos.IsNeg = false := by
    unfold FixedDecimal.IsNeg FixedDecimal.setPos; simp; omega
  have habs : r.setPos.absValue = r.absValue := by
    unfold FixedDecimal.absValue FixedDecimal.scaled FixedDecimal.units
    rw [hIU, hFU]
    rfl
  rw [value_of_nonneg _ hneg, habs]

/-- C2 (amended): for valid non-special decimals `a` and `b`, when one of them
is the canonical zero, or when the wider integer part and the wider fraction
leave a limb unused (two when the signs differ and the magnitudes carry into a
new limb), `DecimalSub(a, b, r)` returns no error and a valid `r` with
`value(r) = value(a) - value(b)`, negative exactly when `a < b`. -/
theorem C2_sub_exact (a b : FixedDecimal) (ha : a.Valid) (hb : b.Valid)
    (hroom : a.IsZero = true ∨ b.IsZero = true ∨
      max a.IntgUnits b.IntgUnits + max a.FracUnits b.FracUnits +
        (if a.IsNeg ≠ b.IsNeg ∧
            ((Unit : Int) : ℚ) ^ (max a.IntgUnits b.IntgUnits).toNat ≤ |a.value| + |b.value|
          then 1 else 0) < MaxUnits) :
    ∃ r, DecimalSub a b = .ok r ∧ r.Valid ∧ r.value = a.value - b.value ∧
      (r.value < 0 ↔ a.value < b.value) := by
  suffices h : ∃ r, DecimalSub a b = .ok r ∧ r.Valid ∧ r.value = a.value - b.value by
    obtain ⟨r, r1, r2, r3⟩ := h
    exact ⟨r, r1, r2, r3, by rw [r3]; exact sub_neg⟩
  unfold DecimalSub
  by_cases hza : a.IsZero = true
  · rw [if_pos hza, isZero_value a hza]
    cases hnb : b.IsNeg
    · obtain ⟨n1, n2⟩ := setNegAndCheckZero_value b hb hnb
      refine ⟨b.setNegAndCheckZero, by simp, n1, ?_⟩
      rw [n2, value_of_nonneg b hnb]; simp
    · obtain ⟨n1, n2⟩ := setPos_value b hb hnb
      refine ⟨b.setPos, by simp, n1, ?_⟩
      rw [n2, value_of_neg b hnb]; simp
  rw [if_neg hza]
  by_cases hzb : b.IsZero = true
  · rw [if_pos hzb]
    exact ⟨a, rfl, ha, by rw [isZero_value b hzb]; simp⟩
  rw [if_neg hzb]
  rcases hroom with h | h | hroom
  · exact absurd h hza
  · exact absurd h hzb
  obtain ⟨LI, h1⟩ := Int.eq_ofNat_of_zero_le (intgUnits_nonneg a)
  obtain ⟨LF, h2⟩ := Int.eq_ofNat_of_zero_le (fracUnits_nonneg a)
  obtain ⟨RI, h3⟩ := Int.eq_ofNat_of_zero_le (intgUnits_nonneg b)
  obtain ⟨RF, h4⟩ := Int.eq_ofNat_of_zero_le (fracUnits_nonneg b)
  rw [h1, h2, h3, h4, abs_value a ha, abs_value b hb] at hroom
  have h9 : MaxUnits = 9 := rfl
  have em : (max (LI : Int) (RI : Int)).toNat = max LI RI := by omega
  rw [em] at hroom
  dsimp only
  by_cases hs : a.IsNeg ≠ b.IsNeg
  · rw [if_pos hs]
    have hroom' : ((max LI RI + max LF RF : Nat) : Int) +
        (if ((Unit : Int) : ℚ) ^ (max LI RI) ≤ a.absValue + b.absValue then 1 else 0) ≤ 8 := by
      by_cases c : ((Unit : Int) : ℚ) ^ (max LI RI) ≤ a.absValue + b.absValue
      · rw [if_pos c]; rw [if_pos ⟨hs, c⟩] at hroom; omega
      · rw [if_neg c]; rw [if_neg (fun h => c h.2)] at hroom; omega
    obtain ⟨r, u1, u2, u3⟩ := add_signed a b ha hb LI LF RI RF h1 h2 h3 h4 hroom' a.IsNeg
    refine ⟨r, u1, u2, ?_⟩
    rw [u3]
    cases hna : a.IsNeg
    · have hnb : b.IsNeg = true := by
        cases hb' : b.IsNeg
        · exact absurd (hna.trans hb'.symm) hs
        · rfl
      rw [value_of_nonneg a hna, value_of_neg b hnb]; simp
    · have hnb : b.IsNeg = false := by
        cases hb' : b.IsNeg
        · rfl
        · exact absurd (hna.trans hb'.symm) hs
      rw [value_of_neg a hna, value_of_nonneg b hnb]; simp; ring
  · rw [if_neg hs]
    have hs' : a.IsNeg = b.IsNeg := not_not.mp hs
    have hroom' : max LI RI + max LF RF ≤ 8 := by
      have : (0 : Int) ≤ (if a.IsNeg ≠ b.IsNeg ∧
          ((Unit : Int) : ℚ) ^ (max LI RI) ≤ a.absValue + b.absValue then 1 else 0) := by
        split <;> omega
      omega
    obtain ⟨r, u1, u2, u3⟩ := sub_signed a b ha hb LI LF RI RF h1 h2 h3 h4 hroom' a.IsNeg
    refine ⟨r, u1, u2, ?_⟩
    rw [u3]
    cases hna : a.IsNeg
    · rw [value_of_nonneg a hna, value_of_nonneg b (by rw [← hs']; exact hna)]; simp
    · rw [value_of_neg a hna, value_of_neg b (by rw [← hs']; exact hna)]; simp; ring

/-- C1 (amended), at an instance: `999999999 + 1`, where the carry opens a
second limb. -/
theorem C1_add_exact_witness :
    decNines9.Valid ∧ decOne.Valid ∧
    (decNines9.IsZero = true ∨ decOne.IsZero = true ∨
      max decNines9.IntgUnits decOne.IntgUnits + max decNines9.FracUnits decOne.FracUnits +
        (if decNines9.IsNeg = decOne.IsNeg ∧
            ((Unit : Int) : ℚ) ^ (max decNines9.IntgUnits decOne.IntgUnits).toNat ≤
              |decNines9.value| + |decOne.value|
          then 1 else 0) < MaxUnits) ∧
    ∃ r, DecimalAdd decNines9 decOne = .ok r ∧ r.Valid ∧
      r.value = decNines9.value + decOne.value :=
  have h : max decNines9.IntgUnits decOne.IntgUnits + max decNines9.FracUnits decOne.FracUnits +
      (if decNines9.IsNeg = decOne.IsNeg ∧
          ((Unit : Int) : ℚ) ^ (max decNines9.IntgUnits decOne.IntgUnits).toNat ≤
            |decNines9.value| + |decOne.value|
        then 1 else 0) < MaxUnits := by
    split <;> decide
  ⟨by decide, by decide, Or.inr (Or.inr h),
    C1_add_exact decNines9 decOne (by decide) (by decide) (Or.inr (Or.inr h))⟩

/-- C2 (amended), at an instance: `1.00000000001 - 1000.01`, a negative
difference. -/
theorem C2_sub_exact_witness :
    decSubLhs.Valid ∧ decSubRhs.Valid ∧
    (decSubLhs.IsZero = true ∨ decSubRhs.IsZero = true ∨
      max decSubLhs.IntgUnits decSubRhs.IntgUnits + max decSubLhs.FracUnits decSubRhs.FracUnits +
        (if decSubLhs.IsNeg ≠ decSubRhs.IsNeg ∧
            ((Unit : Int) : ℚ) ^ (max decSubLhs.IntgUnits decSubRhs.IntgUnits).toNat ≤
              |decSubLhs.value| + |decSubRhs.value|
          then 1 else 0) < MaxUnits) ∧
    ∃ r, DecimalSub decSubLhs decSubRhs = .ok r ∧ r.Valid ∧
      r.value = decSubLhs.value - decSubRhs.value ∧
      (r.value < 0 ↔ decSubLhs.value < decSubRhs.value) :=
  have h : max decSubLhs.IntgUnits decSubRhs.IntgUnits +
      max decSubLhs.FracUnits decSubRhs.FracUnits +
      (if decSubLhs.IsNeg ≠ decSubRhs.IsNeg ∧
          ((Unit : Int) : ℚ) ^ (max decSubLhs.IntgUnits decSubRhs.IntgUnits).toNat ≤
            |decSubLhs.value| + |decSubRhs.value|
        then 1 else 0) < MaxUnits := by
    split <;> decide
  ⟨by decide, by decide, Or.inr (Or.inr h),
    C2_sub_exact decSubLhs decSubRhs (by decide) (by decide) (Or.inr (Or.inr h))⟩

/-- C1 (as stated, refuted): `10^64` has eight integer limbs and `0.0000000001`
two fractional limbs; both are valid, their sum needs ten limbs, and
`DecimalAdd` ends in an index-out-of-range panic. -/
theorem C1_add_beyond_nine_limbs :
    DecimalFromAsciiString "10000000000000000000000000000000000000000000000000000000000000000"
      DecimalZero = .ok decTenPow64 ∧
    DecimalFromAsciiString "0.0000000001" DecimalZero = .ok decTenPowNeg10 ∧
    decTenPow64.Valid ∧ decTenPowNeg10.Valid ∧
    DecimalAdd decTenPow64 decTenPowNeg10 = .error .panic ∧
    ¬ ∃ r, DecimalAdd decTenPow64 decTenPowNeg10 = .ok r ∧
      r.value = decTenPow64.value + decTenPowNeg10.value := by
  have h : DecimalAdd decTenPow64 decTenPowNeg10 = .error .panic := by decide
  refine ⟨by decide, by decide, by decide, by decide, h, ?_⟩
  rintro ⟨r, hr, -⟩
  rw [h] at hr
  cases hr

/-- C2 (as stated, refuted): the difference of `10^64` and `0.0000000001`
needs ten limbs, and `DecimalSub` ends in an index-out-of-range panic. -/
theorem C2_sub_beyond_nine_limbs :
    decTenPow64.Valid ∧ decTenPowNeg10.Valid ∧
    DecimalSub decTenPow64 decTenPowNeg10 = .error .panic ∧
    ¬ ∃ r, DecimalSub decTenPow64 decTenPowNeg10 = .ok r ∧
      r.value = decTenPow64.value - decTenPowNeg10.value := by
  have h : DecimalSub decTenPow64 decTenPowNeg10 = .error .panic := by decide
  refine ⟨by decide, by decide, h, ?_⟩
  rintro ⟨r, hr, -⟩
  rw [h] at hr
  cases hr

/-! ## Overflow, dispatch and zero results (C11, C12, C15 to C18) -/

/-- C11 (code_bug): `10^64` has 65 integer digits; the product of two of them
has 130, far above 81. The digit sum is formed in `int8` and wraps to `-126`,
the overflow test does not fire, and `DecimalMul` ends in an
index-out-of-range panic instead of returning `DecErrOverflow`. -/
theorem C11_mul_digit_sum_wraps :
    decTenPow64.Valid ∧ decTenPow64.IsNaN = false ∧ decTenPow64.IsInf = false ∧
    decTenPow64.IsZero = false ∧
    decTenPow64.Intg + decTenPow64.Intg = 130 ∧
    getUnits (decTenPow64.Intg + decTenPow64.Intg) > MaxUnits ∧
    wrap8 (decTenPow64.Intg + decTenPow64.Intg) = -126 ∧
    DecimalMul decTenPow64 decTenPow64 = .error .panic ∧
    DecimalMul decTenPow64 decTenPow64 ≠ .error .DecErrOverflow := by
  refine ⟨by decide, by decide, by decide, by decide, by decide, by decide, by decide, by decide,
    by decide⟩

theorem setNaN_isNaN (r : FixedDecimal) (h : r.frac < 128) : r.setNaN.IsNaN = true := by
  unfold FixedDecimal.setNaN FixedDecimal.IsNaN
  by_cases c : r.frac < 0
  · simp [c]
  · simp only [c, if_false]; simp; omega

theorem setInf_isInf (r : FixedDecimal) : r.setInf.IsInf = true := by
  unfold FixedDecimal.setInf FixedDecimal.IsInf
  by_cases c : r.frac / 64 % 2 = 1
  · simp [c]
  · simp only [c, if_false]; simp; omega

/-- C15 (confirmed): each `*Any` wrapper returns nil with a NaN result when an
operand is NaN; otherwise returns nil with an infinite result when an operand
is infinite; otherwise its outcome, error or result, is that of the normal
kernel. The destination `frac` is an `int8`. -/
theorem C15_any_dispatch (lhs rhs result : FixedDecimal) (incrFrac : Int)
    (hr : result.frac < 128) :
    ((lhs.IsNaN = true ∨ rhs.IsNaN = true) →
      (∃ r, DecimalAddAny lhs rhs result = .ok r ∧ r.IsNaN = true) ∧
      (∃ r, DecimalSubAny lhs rhs result = .ok r ∧ r.IsNaN = true) ∧
      (∃ r, DecimalMulAny lhs rhs result = .ok r ∧ r.IsNaN = true) ∧
      (∃ r, DecimalDivAny lhs rhs result incrFrac = .ok r ∧ r.IsNaN = true) ∧
      (∃ r, DecimalModAny lhs rhs result = .ok r ∧ r.IsNaN = true)) ∧
    (¬ (lhs.IsNaN = true ∨ rhs.IsNaN = true) → (lhs.IsInf = true ∨ rhs.IsInf = true) →
      (∃ r, DecimalAddAny lhs rhs result = .ok r ∧ r.IsInf = true) ∧
      (∃ r, DecimalSubAny lhs rhs result = .ok r ∧ r.IsInf = true) ∧
      (∃ r, DecimalMulAny lhs rhs result = .ok r ∧ r.IsInf = true) ∧
      (∃ r, DecimalDivAny lhs rhs result incrFrac = .ok r ∧ r.IsInf = true) ∧
      (∃ r, DecimalModAny lhs rhs result = .ok r ∧ r.IsInf = true)) ∧
    (¬ (lhs.IsNaN = true ∨ rhs.IsNaN = true) → ¬ (lhs.IsInf = true ∨ rhs.IsInf = true) →
      DecimalAddAny lhs rhs result = DecimalAdd lhs rhs ∧
      DecimalSubAny lhs rhs result = DecimalSub lhs rhs ∧
      DecimalMulAny lhs rhs result = DecimalMul lhs rhs ∧
      DecimalDivAny lhs rhs result incrFrac = DecimalDiv lhs rhs incrFrac ∧
      DecimalModAny lhs rhs result = DecimalMod lhs rhs) := by
  refine ⟨fun hn => ?_, fun hn hi => ?_, fun hn hi => ?_⟩
  · have c : (lhs.IsNaN || rhs.IsNaN) = true := by simpa using hn
    have k := setNaN_isNaN result hr
    unfold DecimalAddAny DecimalSubAny DecimalMulAny DecimalDivAny DecimalModAny
    simp only [c, if_true]
    exact ⟨⟨_, rfl, k⟩, ⟨_, rfl, k⟩, ⟨_, rfl, k⟩, ⟨_, rfl, k⟩, ⟨_, rfl, k⟩⟩
  · have c : (lhs.IsNaN || rhs.IsNaN) = false := by simpa using hn
    have d : (lhs.IsInf || rhs.IsInf) = true := by simpa using hi
    have k := setInf_isInf result
    unfold DecimalAddAny DecimalSubAny DecimalMulAny DecimalDivAny DecimalModAny
    simp only [c, d, if_true, Bool.false_eq_true, if_false]
    exact ⟨⟨_, rfl, k⟩, ⟨_, rfl, k⟩, ⟨_, rfl, k⟩, ⟨_, rfl, k⟩, ⟨_, rfl, k⟩⟩
  · have c : (lhs.IsNaN || rhs.IsNaN) = false := by simpa using hn
    have d : (lhs.IsInf || rhs.IsInf) = false := by simpa using hi
    unfold DecimalAddAny DecimalSubAny DecimalMulAny DecimalDivAny DecimalModAny
    simp only [c, d, Bool.false_eq_true, if_false, and_self]

/-- C15, at an instance: destination canonical zero, operands `NaN` and `1`. -/
theorem C15_any_dispatch_witness :
    DecimalZero.frac < 128 ∧
    ((decNaN.IsNaN = true ∨ decOne.IsNaN = true) →
      (∃ r, DecimalAddAny decNaN decOne DecimalZero = .ok r ∧ r.IsNaN = true) ∧
      (∃ r, DecimalSubAny decNaN decOne DecimalZero = .ok r ∧ r.IsNaN = true) ∧
      (∃ r, DecimalMulAny decNaN decOne DecimalZero = .ok r ∧ r.IsNaN = true) ∧
      (∃ r, DecimalDivAny decNaN decOne DecimalZero 4 = .ok r ∧ r.IsNaN = true) ∧
      (∃ r, DecimalModAny decNaN decOne DecimalZero = .ok r ∧ r.IsNaN = true)) :=
  ⟨by decide, (C15_any_dispatch decNaN decOne DecimalZero 4 (by decide)).1⟩

/-- C16 (code_bug): with an infinite operand, no NaN operand, and a destination
that held a NaN before the call, every `*Any` wrapper returns nil and leaves
both the NaN bit and the infinity bit set: `setInf` only ors bit 6 into the old
`frac` byte. The parser rebuilds the destination and gives plain infinity. -/
theorem C16_inf_into_nan_destination :
    decInf.IsInf = true ∧ decInf.IsNaN = false ∧ decOne.IsNaN = false ∧ decNaN.IsNaN = true ∧
    DecimalAddAny decInf decOne decNaN = .ok { intg := 1, frac := -64, lsu := zeroUnits } ∧
    DecimalSubAny decInf decOne decNaN = .ok { intg := 1, frac := -64, lsu := zeroUnits } ∧
    DecimalMulAny decInf decOne decNaN = .ok { intg := 1, frac := -64, lsu := zeroUnits } ∧
    DecimalDivAny decInf decOne decNaN 4 = .ok { intg := 1, frac := -64, lsu := zeroUnits } ∧
    DecimalModAny decInf decOne decNaN = .ok { intg := 1, frac := -64, lsu := zeroUnits } ∧
    FixedDecimal.IsInf { intg := 1, frac := -64, lsu := zeroUnits } = true ∧
    FixedDecimal.IsNaN { intg := 1, frac := -64, lsu := zeroUnits } = true ∧
    DecimalFromAsciiString "Inf" decNaN = .ok decInf := by
  refine ⟨by decide, by decide, by decide, by decide, by decide, by decide, by decide,
    by decide, by decide, by decide, by decide, by decide⟩

/-- C17 (code_bug): the parser sets the sign bit of `-0` and `-0.0` without a
zero check, so the result has the sign bit on all-zero limbs and formats with
a leading minus. `Round` does the same on `-0.4` rounded to no fraction digit. -/
theorem C17_parse_negative_zero :
    DecimalFromAsciiString "-0" DecimalZero = .ok decNegZero ∧
    DecimalFromAsciiString "-0.0" DecimalZero = .ok decNegZeroFrac1 ∧
    decNegZero.IsNeg = true ∧ decNegZero.allUnitsZero = true ∧
    decNegZeroFrac1.IsNeg = true ∧ decNegZeroFrac1.allUnitsZero = true ∧
    decNegZero.ToString (-1) = .ok (bytes "-0") ∧
    decNegZeroFrac1.ToString (-1) = .ok (bytes "-0.0") ∧
    DecimalFromAsciiString "-0.4" DecimalZero = .ok decNegPoint4 ∧
    decNegPoint4.Round 0 = .ok decNegZeroIntg9 ∧
    decNegZeroIntg9.IsNeg = true ∧ decNegZeroIntg9.allUnitsZero = true ∧
    decNegZeroIntg9.ToString (-1) = .ok (bytes "-0") := by
  refine ⟨by decide, by decide, by decide, by decide, by decide, by decide, by decide, by decide,
    by decide, by decide, by decide, by decide, by decide⟩

/-- C18 (code_bug): `1 + (-1)` succeeds with all limbs zero but `intg = 0`,
which `IsZero` does not accept, while `(-1) + 1` gives the canonical zero: the
zero check runs only on the path that sets the sign. -/
theorem C18_add_zero_not_canonical :
    decOne.Valid ∧ decNegOne.Valid ∧
    DecimalAdd decOne decNegOne = .ok decZeroIntg0 ∧
    decZeroIntg0.value = 0 ∧ decZeroIntg0.intg ≠ 1 ∧ decZeroIntg0.IsZero = false ∧
    DecimalAdd decNegOne decOne = .ok DecimalZero ∧ DecimalZero.IsZero = true := by
  refine ⟨by decide, by decide, by decide, ?_, by decide, by decide, by decide, by decide⟩
  have h1 : decZeroIntg0.scaled = 0 := by decide
  unfold FixedDecimal.value FixedDecimal.absValue
  rw [h1]; simp

/-- C12 (amended): when an operand is the canonical zero, or the aligned
operands leave room for a carry limb (the larger integer limb count plus the
larger fraction limb count is below eight), `DecimalAdd` and `DecimalSub`
both return nil with a valid result: no limb index leaves `0..8`. -/
theorem C12_add_sub_return (a b : FixedDecimal) (ha : a.Valid) (hb : b.Valid)
    (hroom : a.IsZero = true ∨ b.IsZero = true ∨
      max a.IntgUnits b.IntgUnits + max a.FracUnits b.FracUnits + 1 < MaxUnits) :
    (∃ r, DecimalAdd a b = .ok r ∧ r.Valid) ∧ (∃ r, DecimalSub a b = .ok r ∧ r.Valid) := by
  unfold DecimalAdd DecimalSub
  by_cases hza : a.IsZero = true
  · rw [if_pos hza, if_pos hza]
    refine ⟨⟨b, rfl, hb⟩, ?_⟩
    cases hnb : b.IsNeg
    · exact ⟨b.setNegAndCheckZero, by simp, (setNegAndCheckZero_value b hb hnb).1⟩
    · exact ⟨b.setPos, by simp, (setPos_value b hb hnb).1⟩
  rw [if_neg hza, if_neg hza]
  by_cases hzb : b.IsZero = true
  · rw [if_pos hzb, if_pos hzb]
    exact ⟨⟨a, rfl, ha⟩, ⟨a, rfl, ha⟩⟩
  rw [if_neg hzb, if_neg hzb]
  rcases hroom with h | h | hroom
  · exact absurd h hza
  · exact absurd h hzb
  obtain ⟨LI, h1⟩ := Int.eq_ofNat_of_zero_le (intgUnits_nonneg a)
  obtain ⟨LF, h2⟩ := Int.eq_ofNat_of_zero_le (fracUnits_nonneg a)
  obtain ⟨RI, h3⟩ := Int.eq_ofNat_of_zero_le (intgUnits_nonneg b)
  obtain ⟨RF, h4⟩ := Int.eq_ofNat_of_zero_le (fracUnits_nonneg b)
  rw [h1, h2, h3, h4] at hroom
  have h9 : MaxUnits = 9 := rfl
  have hadd : ((max LI RI + max LF RF : Nat) : Int) +
      (if ((Unit : Int) : ℚ) ^ (max LI RI) ≤ a.absValue + b.absValue then 1 else 0) ≤ 8 := by
    split <;> omega
  have hsub : max LI RI + max LF RF ≤ 8 := by omega
  obtain ⟨r, u1, u2, -⟩ := add_signed a b ha hb LI LF RI RF h1 h2 h3 h4 hadd a.IsNeg
  obtain ⟨s, v1, v2, -⟩ := sub_signed a b ha hb LI LF RI RF h1 h2 h3 h4 hsub a.IsNeg
  dsimp only
  by_cases hs : a.IsNeg = b.IsNeg
  · rw [if_pos hs, if_neg (not_not.mpr hs)]
    exact ⟨⟨r, u1, u2⟩, ⟨s, v1, v2⟩⟩
  · rw [if_neg hs, if_pos hs]
    exact ⟨⟨s, v1, v2⟩, ⟨r, u1, u2⟩⟩

/-- C12 (amended), at an instance: `1.00000000001` and `1000.01`. -/
theorem C12_add_sub_return_witness :
    decSubLhs.Valid ∧ decSubRhs.Valid ∧
    (decSubLhs.IsZero = true ∨ decSubRhs.IsZero = true ∨
      max decSubLhs.IntgUnits decSubRhs.IntgUnits +
        max decSubLhs.FracUnits decSubRhs.FracUnits + 1 < MaxUnits) ∧
    (∃ r, DecimalAdd decSubLhs decSubRhs = .ok r ∧ r.Valid) ∧
    (∃ r, DecimalSub decSubLhs decSubRhs = .ok r ∧ r.Valid) :=
  ⟨by decide, by decide, by decide,
    C12_add_sub_return decSubLhs decSubRhs (by decide) (by decide) (by decide)⟩

/-- C12 (as stated, refuted): `10^64` (65 integer digits, eight limbs) and
`0.0000000001` (ten fraction digits, two fraction limbs and one integer limb)
are both inside the 65/30 envelope with at most nine limbs each, yet the
aligned operands need ten limbs and both `DecimalAdd` and `DecimalSub` end in
an index-out-of-range panic. -/
theorem C12_envelope_needs_ten_limbs :
    decTenPow64.Valid ∧ decTenPowNeg10.Valid ∧
    decTenPow64.IsNaN = false ∧ decTenPow64.IsInf = false ∧
    decTenPowNeg10.IsNaN = false ∧ decTenPowNeg10.IsInf = false ∧
    decTenPow64.Intg ≤ 65 ∧ decTenPow64.Frac ≤ 30 ∧
    decTenPowNeg10.Intg ≤ 65 ∧ decTenPowNeg10.Frac ≤ 30 ∧
    decTenPow64.IntgUnits + decTenPow64.FracUnits ≤ 9 ∧
    decTenPowNeg10.IntgUnits + decTenPowNeg10.FracUnits ≤ 9 ∧
    DecimalAdd decTenPow64 decTenPowNeg10 = .error .panic ∧
    DecimalSub decTenPow64 decTenPowNeg10 = .error .panic := by
  refine ⟨by decide, by decide, by decide, by decide, by decide, by decide, by decide,
    by decide, by decide, by decide, by decide, by decide, by decide, by decide⟩

/-! ## Fields of accepted input and of results (C19, C20) -/

theorem yields_ok {α : Type} (P : α → Prop) (a : α) (h : P a) :
    Yields P (Except.ok a : Except Fault α) := by
  intro r hr; cases hr; exact h

theorem yields_pure {α : Type} (P : α → Prop) (a : α) (h : P a) :
    Yields P (pure a : Except Fault α) := yields_ok P a h

theorem yields_error {α : Type} (P : α → Prop) (e : Fault) :
    Yields P (Except.error e : Except Fault α) := by
  intro r hr; cases hr

theorem yields_bind {α β : Type} (P : β → Prop) (x : Except Fault α) (f : α → Except Fault β)
    (hf : ∀ a, Yields P (f a)) : Yields P (x >>= f) := by
  cases x with
  | error e => exact yields_error P e
  | ok a => exact hf a

theorem yields_ite {α : Type} (P : α → Prop) (c : Prop) [Decidable c] (x y : Except Fault α)
    (hx : c → Yields P x) (hy : ¬ c → Yields P y) : Yields P (if c then x else y) := by
  split
  · exact hx ‹_›
  · exact hy ‹_›

theorem scanLoop_d_nonneg (cs : List Nat) : ∀ (i : Int) (st : ScanState), 0 ≤ st.d →
    0 ≤ (scanLoop cs i st).d := by
  induction cs with
  | nil => intro i st h; exact h
  | cons c cs ih =>
    intro i st h
    unfold scanLoop
    dsimp only
    split
    · exact ih _ _ (by dsimp only; omega)
    split
    · exact ih _ _ h
    split
    · exact ih _ _ h
    split
    · exact ih _ _ h
    · exact h

/-- Fields of an accepted numeric literal: `digits` is at most 65, the stored
`frac` is `max 0 (fracDigits - exp)` and `Intg()` is `digits - frac`. -/
theorem parseFill_fields (bs : List Nat) (result : FixedDecimal) (st : ScanState) (exp : Int)
    (hd : 0 ≤ st.d) :
    Yields (fun r => ∃ digits frac : Int, 0 ≤ frac ∧ frac ≤ digits ∧ digits ≤ 65 ∧
        r.frac = frac ∧ r.Intg = digits - frac ∧
        frac = max 0 ((if st.dotchar = -1 ∨ st.last < st.dotchar then 0
          else st.last - st.dotchar) - exp))
      (parseFill bs result st exp) := by
  unfold parseFill
  dsimp only
  generalize (if st.dotchar = -1 ∨ st.last < st.dotchar then (0 : Int)
    else st.last - st.dotchar) = fracDigits
  generalize e3 : fracDigits - exp = frac0
  generalize e2 : (if frac0 = 0 then st.d
      else if frac0 > 0 then (if st.d > frac0 then st.d else frac0) else st.d - frac0) = digits
  generalize e1 : (if frac0 < 0 then 0 else frac0) = frac
  have h65 : MaxDigits = 65 := rfl
  refine yields_ite _ _ _ _ (fun _ => yields_error _ _) (fun hdig => ?_)
  have hfr : 0 ≤ frac ∧ frac ≤ digits ∧ digits ≤ 65 := by
    rw [← e1, ← e2]; rw [← e2, h65] at hdig
    split_ifs at hdig ⊢ <;> omega
  have hmx : frac = max 0 frac0 := by
    rw [← e1]; split_ifs <;> omega
  refine yields_bind _ _ _ (fun x => ?_)
  obtain ⟨lsu1, up1, i1⟩ := x
  dsimp only
  refine yields_bind _ _ _ (fun _ => ?_)
  have hfd : wrap8 frac = frac ∧ wrap8 (digits - frac) = digits - frac :=
    ⟨wrap8_id _ (by omega), wrap8_id _ (by omega)⟩
  refine yields_ite _ _ _ _ (fun _ => yields_pure _ _ ?_) (fun _ => yields_pure _ _ ?_)
  · refine ⟨digits, frac, hfr.1, hfr.2.1, hfr.2.2, hfd.1, ?_, hmx⟩
    unfold FixedDecimal.Intg FixedDecimal.setNeg
    dsimp only
    rw [hfd.2]; split_ifs <;> omega
  · refine ⟨digits, frac, hfr.1, hfr.2.1, hfr.2.2, hfd.1, ?_, hmx⟩
    unfold FixedDecimal.Intg
    dsimp only
    rw [hfd.2]; omega

theorem yields_mono {α : Type} (P Q : α → Prop) (x : Except Fault α) (h : ∀ r, P r → Q r)
    (hx : Yields P x) : Yields Q x := fun r hr => h r (hx r hr)

theorem parseSpecial_result (bs : List Nat) (st : ScanState) :
    Yields (fun r => r = DecimalZero.setInf ∨ r = DecimalZero.setNaN) (parseSpecial bs st) := by
  unfold parseSpecial
  repeat' (first
    | exact yields_error _ _
    | exact yields_ok _ _ (Or.inl rfl)
    | exact yields_ok _ _ (Or.inr rfl)
    | refine yields_bind _ _ _ (fun _ => ?_)
    | refine yields_ite _ _ _ _ (fun _ => ?_) (fun _ => ?_))

/-- Outcome of an accepted input: the infinity or NaN value, or a numeric
literal whose fields come from `digits ≤ 65`. -/
theorem parse_result (bs : List Nat) (result : FixedDecimal) :
    Yields (fun r => r = DecimalZero.setInf ∨ r = DecimalZero.setNaN ∨
        ∃ digits frac : Int, 0 ≤ frac ∧ frac ≤ digits ∧ digits ≤ 65 ∧
          r.frac = frac ∧ r.Intg = digits - frac)
      (DecimalFromBytesString bs result) := by
  unfold DecimalFromBytesString
  dsimp only
  have hd := scanLoop_d_nonneg bs 0
    { d := 0, dotchar := -1, last := -1, cfirst := 0, neg := false, i := 0, c := 0,
      moreToProcess := false } (le_refl _)
  have hfill : ∀ exp, Yields (fun r => r = DecimalZero.setInf ∨ r = DecimalZero.setNaN ∨
        ∃ digits frac : Int, 0 ≤ frac ∧ frac ≤ digits ∧ digits ≤ 65 ∧
          r.frac = frac ∧ r.Intg = digits - frac)
      (parseFill bs result (scanLoop bs 0
        { d := 0, dotchar := -1, last := -1, cfirst := 0, neg := false, i := 0, c := 0,
          moreToProcess := false }) exp) := by
    intro exp
    refine yields_mono _ _ _ ?_ (parseFill_fields bs result _ exp hd)
    rintro r ⟨digits, frac, h1, h2, h3, h4, h5, -⟩
    exact Or.inr (Or.inr ⟨digits, frac, h1, h2, h3, h4, h5⟩)
  refine yields_ite _ _ _ _ (fun _ => ?_) (fun _ => ?_)
  · refine yields_mono _ _ _ ?_ (parseSpecial_result bs _)
    rintro r (h | h)
    · exact Or.inl h
    · exact Or.inr (Or.inl h)
  · refine yields_ite _ _ _ _ (fun _ => ?_) (fun _ => hfill 0)
    exact yields_bind _ _ _ (fun exp => hfill exp)

/-- C19 (confirmed): every accepted input, numeric literal or special token,
gives a result with `IntgUnits() + FracUnits() ≤ 9`. In the model a limb write
outside `0..8` is a panic, so an accepted input has had every write in
range. -/
theorem C19_parse_units_le_nine (bs : List Nat) (result r : FixedDecimal)
    (h : DecimalFromBytesString bs result = .ok r) :
    r.IntgUnits + r.FracUnits ≤ MaxUnits := by
  rcases parse_result bs result r h with h | h | ⟨digits, frac, h1, h2, h3, h4, h5⟩
  · rw [h]; decide
  · rw [h]; decide
  · unfold FixedDecimal.IntgUnits FixedDecimal.FracUnits
    rw [h5]
    unfold FixedDecimal.Frac
    rw [h4, getUnits_eq _ (by omega), getUnits_eq _ (by omega)]
    unfold MaxUnits
    omega

/-- C19, at an instance: `0.0000000001` takes one integer limb and two
fraction limbs. -/
theorem C19_parse_units_le_nine_witness :
    DecimalFromBytesString (bytes "0.0000000001") DecimalZero = .ok decTenPowNeg10 ∧
    decTenPowNeg10.IntgUnits + decTenPowNeg10.FracUnits ≤ MaxUnits :=
  ⟨by decide, C19_parse_units_le_nine (bytes "0.0000000001") DecimalZero decTenPowNeg10
    (by decide)⟩

theorem yields_bind_of {α β : Type} (Q : α → Prop) (P : β → Prop) (x : Except Fault α)
    (f : α → Except Fault β) (hx : Yields Q x) (hf : ∀ a, Q a → Yields P (f a)) :
    Yields P (x >>= f) := by
  cases x with
  | error e => exact yields_error P e
  | ok a => exact hf a (hx a rfl)

theorem setNegAndCheckZero_frac (r : FixedDecimal) :
    r.setNegAndCheckZero.frac = r.frac ∨ r.setNegAndCheckZero.frac = 0 := by
  unfold FixedDecimal.setNegAndCheckZero
  dsimp only
  split
  · right; rfl
  · left; rfl

/-- The sign step after a kernel keeps a `frac` range that contains zero. -/
theorem yields_sign (lo hi : Int) (hlo : lo ≤ 0) (hhi : 0 ≤ hi) (c : Prop) [Decidable c]
    (x : Except Fault FixedDecimal) (hx : Yields (fun r => lo ≤ r.frac ∧ r.frac ≤ hi) x) :
    Yields (fun r => lo ≤ r.frac ∧ r.frac ≤ hi)
      (x >>= fun result => if c then pure result.setNegAndCheckZero else pure result) := by
  refine yields_bind_of _ _ _ _ hx (fun r hr => ?_)
  refine yields_ite _ _ _ _ (fun _ => yields_pure _ _ ?_) (fun _ => yields_pure _ _ hr)
  rcases setNegAndCheckZero_frac r with h | h <;> rw [h]
  · exact hr
  · exact ⟨hlo, hhi⟩

theorem finishAddSub_frac (lhs rhs : FixedDecimal) (lsu : List Int) (start : Int) :
    Yields (fun r => r.frac = maxInt8 lhs.frac rhs.frac) (finishAddSub lhs rhs lsu start) := by
  unfold finishAddSub
  dsimp only
  refine yields_bind _ _ _ (fun _ => ?_)
  refine yields_ite _ _ _ _ (fun _ => yields_ok _ _ rfl) (fun _ => yields_ok _ _ rfl)

theorem addAbs_frac (lhs rhs : FixedDecimal) :
    Yields (fun r => r.frac = maxInt8 lhs.frac rhs.frac) (addAbs lhs rhs) := by
  unfold addAbs
  dsimp only
  refine yields_bind _ _ _ (fun _ => ?_)
  refine yields_bind _ _ _ (fun x => ?_)
  obtain ⟨res2, carry2⟩ := x
  dsimp only
  refine yields_bind _ _ _ (fun x => ?_)
  obtain ⟨res3, carry3⟩ := x
  exact finishAddSub_frac _ _ _ _

theorem subAbs_frac (lhs rhs : FixedDecimal) :
    Yields (fun p => p.2.frac = maxInt8 lhs.frac rhs.frac) (subAbs lhs rhs) := by
  unfold subAbs
  dsimp only
  refine yields_bind _ _ _ (fun x => ?_)
  obtain ⟨res1, borrow1⟩ := x
  dsimp only
  refine yields_bind _ _ _ (fun x => ?_)
  obtain ⟨res2, borrow2⟩ := x
  dsimp only
  refine yields_bind _ _ _ (fun x => ?_)
  obtain ⟨res3, borrow3⟩ := x
  dsimp only
  refine yields_bind _ _ _ (fun _ => ?_)
  refine yields_bind_of _ _ _ _ (finishAddSub_frac _ _ _ _) (fun r hr => yields_pure _ _ hr)

theorem maxInt8_le (x y hi : Int) (hx : 0 ≤ x ∧ x ≤ hi) (hy : 0 ≤ y ∧ y ≤ hi) :
    0 ≤ maxInt8 x y ∧ maxInt8 x y ≤ hi := by
  unfold maxInt8; split <;> omega

/-- `addAbs` or `subAbs` followed by the sign step, as in `DecimalAdd` and
`DecimalSub`. -/
theorem addSub_frac (a b : FixedDecimal) (hi : Int) (ha : 0 ≤ a.frac ∧ a.frac ≤ hi)
    (hb : 0 ≤ b.frac ∧ b.frac ≤ hi) (c : Bool) :
    Yields (fun r => 0 ≤ r.frac ∧ r.frac ≤ hi)
      (do let result ← addAbs a b
          if c then pure result.setNegAndCheckZero else pure result) ∧
    Yields (fun r => 0 ≤ r.frac ∧ r.frac ≤ hi)
      (do let (subNeg, result) ← subAbs a b
          if subNeg ≠ c then pure result.setNegAndCheckZero else pure result) := by
  have hm := maxInt8_le a.frac b.frac hi ha hb
  constructor
  · refine yields_sign 0 hi (le_refl _) (by omega) _ _ ?_
    exact yields_mono _ _ _ (fun r hr => by rw [hr]; exact hm) (addAbs_frac a b)
  · refine yields_bind_of _ _ _ _ (subAbs_frac a b) (fun p hp => ?_)
    obtain ⟨subNeg, result⟩ := p
    dsimp only at hp ⊢
    refine yields_ite _ _ _ _ (fun _ => yields_pure _ _ ?_) (fun _ => yields_pure _ _ ?_)
    · rcases setNegAndCheckZero_frac result with h | h <;> rw [h]
      · rw [hp]; exact hm
      · omega
    · rw [hp]; exact hm

theorem DecimalAdd_frac (a b : FixedDecimal) (hi : Int) (ha : 0 ≤ a.frac ∧ a.frac ≤ hi)
    (hb : 0 ≤ b.frac ∧ b.frac ≤ hi) :
    Yields (fun r => 0 ≤ r.frac ∧ r.frac ≤ hi) (DecimalAdd a b) := by
  unfold DecimalAdd
  dsimp only
  refine yields_ite _ _ _ _ (fun _ => yields_ok _ _ hb) (fun _ => ?_)
  refine yields_ite _ _ _ _ (fun _ => yields_ok _ _ ha) (fun _ => ?_)
  refine yields_ite _ _ _ _ (fun _ => ?_) (fun _ => ?_)
  · exact (addSub_frac a b hi ha hb a.IsNeg).1
  · exact (addSub_frac a b hi ha hb a.IsNeg).2

theorem DecimalSub_frac (a b : FixedDecimal) (hi : Int) (ha : 0 ≤ a.frac ∧ a.frac ≤ hi)
    (hb : 0 ≤ b.frac ∧ b.frac ≤ hi) :
    Yields (fun r => 0 ≤ r.frac ∧ r.frac ≤ hi) (DecimalSub a b) := by
  unfold DecimalSub
  dsimp only
  refine yields_ite _ _ _ _ (fun _ => ?_) (fun _ => ?_)
  · refine yields_ite _ _ _ _ (fun _ => yields_ok _ _ hb) (fun _ => yields_ok _ _ ?_)
    rcases setNegAndCheckZero_frac b with h | h <;> rw [h]
    · exact hb
    · omega
  refine yields_ite _ _ _ _ (fun _ => yields_ok _ _ ha) (fun _ => ?_)
  refine yields_ite _ _ _ _ (fun _ => ?_) (fun _ => ?_)
  · exact (addSub_frac a b hi ha hb a.IsNeg).1
  · exact (addSub_frac a b hi ha hb a.IsNeg).2

theorem frac_range (fd : FixedDecimal) : 0 ≤ fd.Frac ∧ fd.Frac < 64 := by
  unfold FixedDecimal.Frac; omega

theorem mulAbs_frac (a b : FixedDecimal) :
    Yields (fun r => 0 ≤ r.frac ∧ r.frac ≤ 36) (mulAbs a b) := by
  unfold mulAbs
  dsimp only
  have ha := frac_range a
  have hb := frac_range b
  have hw : wrap8 (a.Frac + b.Frac) = a.Frac + b.Frac := wrap8_id _ (by omega)
  rw [hw]
  have hF : 0 ≤ getUnits (a.Frac + b.Frac) := getUnits_nonneg _ (by omega)
  generalize getUnits (a.Frac + b.Frac) = RFU0 at hF ⊢
  generalize getUnits (wrap8 (a.Intg + b.Intg)) = RIU
  have h4 : MaxFracUnits = 4 := by decide
  have h9 : MaxUnits = 9 := rfl
  have hD : DigitsPerUnit = 9 := rfl
  refine yields_ite _ _ _ _ (fun _ => yields_error _ _) (fun hov => ?_)
  refine yields_bind _ _ _ (fun _ => ?_)
  refine yields_bind _ _ _ (fun _ => ?_)
  refine yields_bind _ _ _ (fun _ => ?_)
  refine yields_pure _ _ ?_
  dsimp only
  have key : ∀ x A : Int, 0 ≤ x ∧ x ≤ 4 → 0 ≤ A →
      0 ≤ minInt8 A (wrap8 (wrap8 x * DigitsPerUnit)) ∧
        minInt8 A (wrap8 (wrap8 x * DigitsPerUnit)) ≤ 36 := by
    intro x A hx hA
    rw [wrap8_id x (by omega), hD, wrap8_id (x * 9) (by omega)]
    unfold minInt8
    split_ifs <;> omega
  refine key _ _ ?_ (by omega)
  rw [h4, h9]
  rw [h9] at hov
  split_ifs <;> omega

theorem DecimalMul_frac (a b : FixedDecimal) :
    Yields (fun r => 0 ≤ r.frac ∧ r.frac ≤ 36) (DecimalMul a b) := by
  unfold DecimalMul
  refine yields_ite _ _ _ _ (fun _ => yields_ok _ _ (by decide)) (fun _ => ?_)
  exact yields_sign 0 36 (le_refl _) (by omega) _ _ (mulAbs_frac a b)

theorem divAbsCore_frac (a b : FixedDecimal) (incr lnz rnz : Int) :
    Yields (fun r => 0 ≤ r.frac ∧ r.frac ≤ 36) (divAbsCore a b incr lnz rnz) := by
  unfold divAbsCore
  dsimp only
  have ha := frac_range a
  have hb := frac_range b
  have h4 : MaxFracUnits = 4 := by decide
  have h9 : MaxUnits = 9 := rfl
  have hD : DigitsPerUnit = 9 := rfl
  have hla := getUnits_nonneg a.Frac ha.1
  have hlb := getUnits_nonneg b.Frac hb.1
  have hF : 0 ≤ getUnits (getUnits a.Frac * DigitsPerUnit + getUnits b.Frac * DigitsPerUnit +
      if incr - (getUnits a.Frac * DigitsPerUnit - a.Frac +
        getUnits b.Frac * DigitsPerUnit - b.Frac) < 0 then 0
      else incr - (getUnits a.Frac * DigitsPerUnit - a.Frac +
        getUnits b.Frac * DigitsPerUnit - b.Frac)) := by
    refine getUnits_nonneg _ ?_
    rw [hD]; split_ifs <;> omega
  generalize getUnits (getUnits a.Frac * DigitsPerUnit + getUnits b.Frac * DigitsPerUnit +
      if incr - (getUnits a.Frac * DigitsPerUnit - a.Frac +
        getUnits b.Frac * DigitsPerUnit - b.Frac) < 0 then 0
      else incr - (getUnits a.Frac * DigitsPerUnit - a.Frac +
        getUnits b.Frac * DigitsPerUnit - b.Frac)) = RFU0 at hF ⊢
  refine yields_bind _ _ _ (fun rtop => ?_)
  refine yields_bind _ _ _ (fun ls => ?_)
  refine yields_bind _ _ _ (fun rs => ?_)
  generalize (if unitsGreaterEqual ls rs = true then
      lnz * DigitsPerUnit + DigitsPerUnit - unitLeadingZeroes rtop - getUnits a.Frac * DigitsPerUnit -
        (rnz * DigitsPerUnit + DigitsPerUnit - unitLeadingZeroes rtop -
          getUnits b.Frac * DigitsPerUnit) + 1
    else
      lnz * DigitsPerUnit + DigitsPerUnit - unitLeadingZeroes rtop - getUnits a.Frac * DigitsPerUnit -
        (rnz * DigitsPerUnit + DigitsPerUnit - unitLeadingZeroes rtop -
          getUnits b.Frac * DigitsPerUnit)) = RI
  generalize getUnits RI = G
  refine yields_ite _ _ _ _ (fun _ => yields_error _ _) (fun hov => ?_)
  have key : ∀ x : Int, 0 ≤ x ∧ x ≤ 4 →
      0 ≤ wrap8 (x * DigitsPerUnit) ∧ wrap8 (x * DigitsPerUnit) ≤ 36 := by
    intro x hx
    rw [hD, wrap8_id (x * 9) (by omega)]
    omega
  have leaf : ∀ (i : Int) (l : List Int),
      0 ≤ (FixedDecimal.mk i (wrap8 ((if RI > 0 ∧ (if RI > 0 then G else 0) +
          (if RFU0 > MaxFracUnits then MaxFracUnits else RFU0) > MaxUnits then
            MaxUnits - (if RI > 0 then G else 0)
          else (if RFU0 > MaxFracUnits then MaxFracUnits else RFU0)) * DigitsPerUnit)) l).frac ∧
      (FixedDecimal.mk i (wrap8 ((if RI > 0 ∧ (if RI > 0 then G else 0) +
          (if RFU0 > MaxFracUnits then MaxFracUnits else RFU0) > MaxUnits then
            MaxUnits - (if RI > 0 then G else 0)
          else (if RFU0 > MaxFracUnits then MaxFracUnits else RFU0)) * DigitsPerUnit)) l).frac
        ≤ 36 := by
    intro i l
    dsimp only
    refine key _ ?_
    rw [h4, h9]
    rw [h9] at hov
    split_ifs <;> omega
  refine yields_ite _ _ _ _ (fun _ => ?_) (fun _ => ?_)
  · refine yields_bind _ _ _ (fun _ => ?_)
    refine yields_bind _ _ _ (fun _ => ?_)
    exact yields_pure _ _ (leaf _ _)
  · refine yields_bind _ _ _ (fun _ => ?_)
    refine yields_bind _ _ _ (fun x => ?_)
    obtain ⟨buf1, buf2⟩ := x
    dsimp only
    refine yields_bind _ _ _ (fun _ => ?_)
    refine yields_bind _ _ _ (fun _ => ?_)
    refine yields_bind _ _ _ (fun _ => ?_)
    exact yields_pure _ _ (leaf _ _)

theorem DecimalDiv_frac (a b : FixedDecimal) (incr : Int) :
    Yields (fun r => 0 ≤ r.frac ∧ r.frac ≤ 36) (DecimalDiv a b incr) := by
  unfold DecimalDiv
  dsimp only
  refine yields_sign 0 36 (le_refl _) (by omega) _ _ ?_
  unfold divAbs
  dsimp only
  refine yields_bind _ _ _ (fun _ => ?_)
  refine yields_ite _ _ _ _ (fun _ => yields_error _ _) (fun _ => ?_)
  refine yields_bind _ _ _ (fun _ => ?_)
  refine yields_ite _ _ _ _ (fun _ => yields_pure _ _ (by decide)) (fun _ => ?_)
  exact divAbsCore_frac _ _ _ _ _

theorem modAbsCore_frac (a b : FixedDecimal) (lnz rnz : Int) :
    Yields (fun r => 0 ≤ r.frac ∧ r.frac ≤ max a.Frac b.Frac) (modAbsCore a b lnz rnz) := by
  unfold modAbsCore
  dsimp only
  have ha := frac_range a
  have hb := frac_range b
  have leaf1 : ∀ (i : Int) (l : List Int),
      0 ≤ (FixedDecimal.mk i (wrap8 (maxInt a.Frac b.Frac)) l).frac ∧
      (FixedDecimal.mk i (wrap8 (maxInt a.Frac b.Frac)) l).frac ≤ max a.Frac b.Frac := by
    intro i l
    dsimp only
    unfold wrap8 maxInt
    split_ifs <;> omega
  have leaf2 : ∀ (i : Int) (l : List Int),
      0 ≤ (FixedDecimal.mk i (wrap8 b.Frac) l).frac ∧
      (FixedDecimal.mk i (wrap8 b.Frac) l).frac ≤ max a.Frac b.Frac := by
    intro i l
    dsimp only
    unfold wrap8
    omega
  repeat' (first
    | exact yields_error _ _
    | exact yields_pure _ _ (leaf1 _ _)
    | exact yields_pure _ _ (leaf2 _ _)
    | refine yields_bind _ _ _ (fun _ => ?_)
    | refine yields_ite _ _ _ _ (fun _ => ?_) (fun _ => ?_))

theorem DecimalMod_frac (a b : FixedDecimal) :
    Yields (fun r => 0 ≤ r.frac ∧ r.frac ≤ max a.Frac b.Frac) (DecimalMod a b) := by
  unfold DecimalMod
  dsimp only
  have ha := frac_range a
  have hb := frac_range b
  refine yields_sign 0 _ (le_refl _) (by omega) _ _ ?_
  unfold modAbs
  dsimp only
  refine yields_bind _ _ _ (fun _ => ?_)
  refine yields_ite _ _ _ _ (fun _ => yields_error _ _) (fun _ => ?_)
  refine yields_bind _ _ _ (fun _ => ?_)
  refine yields_ite _ _ _ _ (fun _ => yields_pure _ _ ?_) (fun _ => ?_)
  · show (0 : Int) ≤ 0 ∧ (0 : Int) ≤ max a.Frac b.Frac
    omega
  · exact modAbsCore_frac _ _ _ _

theorem nonspecial_of_frac (r : FixedDecimal) (h : 0 ≤ r.frac ∧ r.frac ≤ 63) :
    r.IsNaN = false ∧ r.IsInf = false := by
  unfold FixedDecimal.IsNaN FixedDecimal.IsInf
  constructor
  · simp; omega
  · simp; omega

theorem valid_frac (a : FixedDecimal) (ha : a.Valid) : a.Frac = a.frac := by
  have h1 := ha.2.2.1
  have h2 := ha.2.2.2.1
  unfold FixedDecimal.Frac; omega

/-- C20 (code_bug): the `frac` field is documented with "maximum is 30" and
the parser's exponent guard rejects `1e-31`, yet counts above 30 are stored.
The square of `0.000000000000000001` (18 fraction digits) is stored with 36,
the cap of four fraction limbs that `mulAbs` applies instead of `MaxFrac`; and
the parser, which puts no bound on the fraction digits of the digit form,
stores 31 for a literal with 31 of them. -/
theorem C20_frac_above_thirty :
    DecimalFromAsciiString "0.000000000000000001" DecimalZero = .ok decTenPowNeg18 ∧
    decTenPowNeg18.Valid ∧ decTenPowNeg18.Frac = 18 ∧
    DecimalMul decTenPowNeg18 decTenPowNeg18 = .ok decTenPowNeg36 ∧
    decTenPowNeg36.frac = 36 ∧ decTenPowNeg36.Frac = 36 ∧ MaxFrac = 30 ∧
    DecimalFromAsciiString "0.0000000000000000000000000000001" DecimalZero = .ok decTenPowNeg31 ∧
    decTenPowNeg31.frac = 31 ∧ decTenPowNeg31.Frac = 31 ∧
    DecimalFromAsciiString "1e-31" DecimalZero = .error .DecErrConversionSyntax := by
  refine ⟨by decide, by decide, by decide, by decide, by decide, by decide, by decide, by decide,
    by decide, by decide, by decide⟩

/-! ## Syntax errors of the parser (C13, C14) -/

/-- The scan over a non-empty run of digits. -/
theorem scan_digits (ds : List Nat) (hds : ∀ c ∈ ds, 48 ≤ c ∧ c ≤ 57) (hne : ds ≠ [])
    (rest : List Nat) : ∀ (i : Int) (st : ScanState),
    ∃ c', scanLoop (ds ++ rest) i st = scanLoop rest (i + ds.length)
      { d := st.d + ds.length, dotchar := st.dotchar, last := i + ds.length - 1,
        cfirst := st.cfirst, neg := st.neg, i := i + ds.length - 1, c := c',
        moreToProcess := st.moreToProcess } := by
  induction ds with
  | nil => exact absurd rfl hne
  | cons c ds ih =>
    intro i st
    have hc := hds c (List.mem_cons_self _ _)
    have step : scanLoop (c :: ds ++ rest) i st = scanLoop (ds ++ rest) (i + 1)
        { d := st.d + 1, dotchar := st.dotchar, last := i, cfirst := st.cfirst, neg := st.neg,
          i := i, c := c, moreToProcess := st.moreToProcess } := by
      rw [List.cons_append, scanLoop]
      simp only [ge_iff_le, hc.1, hc.2, and_self, if_true]
    rw [step]
    have e1 : i + (((c :: ds).length : Nat) : Int) = i + 1 + ds.length := by
      simp only [List.length_cons]; push_cast; omega
    have e2 : st.d + (((c :: ds).length : Nat) : Int) = st.d + 1 + ds.length := by
      simp only [List.length_cons]; push_cast; omega
    rw [e1, e2]
    by_cases hd : ds = []
    · subst hd
      refine ⟨c, ?_⟩
      simp only [List.nil_append, List.length_nil, Nat.cast_zero, add_zero, add_sub_cancel_right]
    · obtain ⟨c', h⟩ := ih (fun x hx => hds x (List.mem_cons_of_mem _ hx)) hd (i + 1)
        { d := st.d + 1, dotchar := st.dotchar, last := i, cfirst := st.cfirst, neg := st.neg,
          i := i, c := c, moreToProcess := st.moreToProcess }
      exact ⟨c', h⟩

/-- The scan over a possibly empty run of digits. -/
theorem scan_digits0 (ds : List Nat) (hds : ∀ c ∈ ds, 48 ≤ c ∧ c ≤ 57) (rest : List Nat)
    (i : Int) (st : ScanState) :
    ∃ i' c', scanLoop (ds ++ rest) i st = scanLoop rest (i + ds.length)
      { d := st.d + ds.length, dotchar := st.dotchar,
        last := if ds = [] then st.last else i + ds.length - 1,
        cfirst := st.cfirst, neg := st.neg, i := i', c := c',
        moreToProcess := st.moreToProcess } := by
  by_cases hd : ds = []
  · subst hd
    refine ⟨st.i, st.c, ?_⟩
    simp
  · obtain ⟨c', h⟩ := scan_digits ds hds hd rest i st
    refine ⟨i + ds.length - 1, c', ?_⟩
    rw [h, if_neg hd]

/-- The scan over the optional sign at index 0. -/
theorem scan_sign (sign : List Nat) (hs : sign = [] ∨ sign = [43] ∨ sign = [45])
    (rest : List Nat) :
    ∃ i' c', scanLoop (sign ++ rest) 0
        { d := 0, dotchar := -1, last := -1, cfirst := 0, neg := false, i := 0, c := 0,
          moreToProcess := false } =
      scanLoop rest sign.length
        { d := 0, dotchar := -1, last := -1, cfirst := sign.length, neg := decide (sign = [45]),
          i := i', c := c', moreToProcess := false } := by
  rcases hs with h | h | h <;> subst h
  · exact ⟨0, 0, by simp⟩
  · refine ⟨0, 43, ?_⟩
    rw [List.cons_append, scanLoop]
    simp
  · refine ⟨0, 45, ?_⟩
    rw [List.cons_append, scanLoop]
    simp

/-- The scan over the first decimal point. -/
theorem scan_dot (rest : List Nat) (i : Int) (st : ScanState) (h : st.dotchar = -1) :
    scanLoop (46 :: rest) i st = scanLoop rest (i + 1)
      { d := st.d, dotchar := i, last := st.last,
        cfirst := if i = st.cfirst then st.cfirst + 1 else st.cfirst, neg := st.neg, i := i,
        c := 46, moreToProcess := st.moreToProcess } := by
  rw [scanLoop]
  simp [h]

/-- The scan stops at the exponent letter. -/
theorem scan_exp (e : Nat) (he : e = 101 ∨ e = 69) (rest : List Nat) (i : Int) (st : ScanState) :
    scanLoop (e :: rest) i st =
      { d := st.d, dotchar := st.dotchar, last := st.last, cfirst := st.cfirst, neg := st.neg,
        i := i, c := e, moreToProcess := true } := by
  rw [scanLoop]
  rcases he with h | h <;> subst h <;> simp

/-- The parser state after the first loop, on a literal of the grammar. -/
theorem scan_text (l : NumLit) (hl : l.WF) :
    ∃ st, scanLoop l.text 0
        { d := 0, dotchar := -1, last := -1, cfirst := 0, neg := false, i := 0, c := 0,
          moreToProcess := false } = st ∧
      st.d = l.ip.length + l.fp.length ∧
      st.dotchar = (if l.dot then (l.sign.length : Int) + l.ip.length else -1) ∧
      st.last = (if l.fp = [] then (l.sign.length : Int) + l.ip.length - 1
        else (l.sign.length : Int) + l.ip.length + l.fp.length) ∧
      st.cfirst = (l.sign.length : Int) + (if l.dot = true ∧ l.ip = [] then 1 else 0) ∧
      st.neg = decide (l.sign = [45]) ∧
      st.moreToProcess = l.hasExp ∧
      (l.hasExp = true → st.i = ((l.sign ++ l.ip ++ (if l.dot then 46 :: l.fp else [])).length : Int)) := by
  obtain ⟨hsign, hip, hfp, hdot, hexp⟩ := hl
  unfold NumLit.text
  simp only [List.append_assoc]
  obtain ⟨i1, c1, h1⟩ := scan_sign l.sign hsign
    (l.ip ++ ((if l.dot = true then 46 :: l.fp else []) ++
      if l.hasExp = true then l.e :: (l.esign ++ l.ed) else []))
  rw [h1]
  obtain ⟨i2, c2, h2⟩ := scan_digits0 l.ip hip
    ((if l.dot = true then 46 :: l.fp else []) ++
      if l.hasExp = true then l.e :: (l.esign ++ l.ed) else []) l.sign.length
    { d := 0, dotchar := -1, last := -1, cfirst := l.sign.length, neg := decide (l.sign = [45]),
      i := i1, c := c1, moreToProcess := false }
  rw [h2]
  -- the tail: exponent letter or end of input
  have tail : ∀ (i : Int) (st : ScanState), st.moreToProcess = false →
      ∃ st', scanLoop (if l.hasExp = true then l.e :: (l.esign ++ l.ed) else []) i st = st' ∧
        st'.d = st.d ∧ st'.dotchar = st.dotchar ∧ st'.last = st.last ∧ st'.cfirst = st.cfirst ∧
        st'.neg = st.neg ∧ st'.moreToProcess = l.hasExp ∧ (l.hasExp = true → st'.i = i) := by
    intro i st hm
    cases hE : l.hasExp
    · refine ⟨st, by simp [scanLoop], rfl, rfl, rfl, rfl, rfl, hm, by simp⟩
    · have he := (hexp hE).1
      refine ⟨ScanState.mk st.d st.dotchar st.last st.cfirst st.neg i l.e true, ?_, rfl, rfl, rfl,
        rfl, rfl, rfl, fun _ => rfl⟩
      simp only [if_true]
      exact scan_exp l.e he _ i st
  cases hD : l.dot
  · -- no decimal point
    rw [hD] at hdot
    simp only [Bool.false_eq_true, if_false] at hdot
    obtain ⟨hne, hfe⟩ := hdot
    simp only [Bool.false_eq_true, if_false, List.nil_append, List.append_nil]
    obtain ⟨st', t0, t1, t2, t3, t4, t5, t6, t7⟩ := tail (l.sign.length + l.ip.length)
      { d := 0 + l.ip.length, dotchar := -1,
        last := if l.ip = [] then -1 else (l.sign.length : Int) + l.ip.length - 1,
        cfirst := l.sign.length, neg := decide (l.sign = [45]),
        i := i2, c := c2, moreToProcess := false } rfl
    refine ⟨st', t0, ?_, ?_, ?_, ?_, t5, t6, ?_⟩
    · rw [t1, hfe]; simp
    · rw [t2]
    · rw [t3, if_neg hne, if_pos hfe]
    · rw [t4]; simp
    · intro hE
      rw [t7 hE]; simp
  · -- a decimal point
    rw [hD] at hdot
    simp only [if_true] at hdot
    simp only [if_true, List.cons_append]
    rw [scan_dot _ _ _ rfl]
    obtain ⟨i3, c3, h3⟩ := scan_digits0 l.fp hfp
      (if l.hasExp = true then l.e :: (l.esign ++ l.ed) else [])
      (l.sign.length + l.ip.length + 1)
      { d := 0 + l.ip.length, dotchar := (l.sign.length : Int) + l.ip.length,
        last := if l.ip = [] then -1 else (l.sign.length : Int) + l.ip.length - 1,
        cfirst := if (l.sign.length : Int) + l.ip.length = l.sign.length then
          (l.sign.length : Int) + 1 else l.sign.length,
        neg := decide (l.sign = [45]),
        i := (l.sign.length : Int) + l.ip.length, c := 46, moreToProcess := false }
    rw [h3]
    obtain ⟨st', t0, t1, t2, t3, t4, t5, t6, t7⟩ := tail (l.sign.length + l.ip.length + 1 + l.fp.length)
      { d := 0 + l.ip.length + l.fp.length, dotchar := (l.sign.length : Int) + l.ip.length,
        last := if l.fp = [] then (if l.ip = [] then -1 else (l.sign.length : Int) + l.ip.length - 1)
          else (l.sign.length : Int) + l.ip.length + 1 + l.fp.length - 1,
        cfirst := if (l.sign.length : Int) + l.ip.length = l.sign.length then
          (l.sign.length : Int) + 1 else l.sign.length,
        neg := decide (l.sign = [45]),
        i := i3, c := c3, moreToProcess := false } rfl
    refine ⟨st', t0, ?_, ?_, ?_, ?_, t5, t6, ?_⟩
    · rw [t1]; simp
    · rw [t2]
    · rw [t3]
      by_cases hf : l.fp = []
      · have hne : l.ip ≠ [] := by
          rcases hdot with h | h
          · exact h
          · exact absurd hf h
        rw [if_pos hf, if_pos hf, if_neg hne]
      · rw [if_neg hf, if_neg hf]; dsimp only; omega
    · rw [t4]
      by_cases hi : l.ip = []
      · rw [hi]; simp
      · have : (l.ip.length : Int) ≠ 0 := by
          intro h
          exact hi (List.length_eq_zero.mp (by omega))
        dsimp only
        rw [if_neg (by omega)]
        simp [hi]
    · intro hE
      rw [t7 hE]
      simp only [List.length_append, List.length_cons]
      push_cast; omega

theorem rdB_append (pre : List Nat) (c : Nat) (rest : List Nat) :
    rdB (pre ++ c :: rest) (pre.length : Int) = .ok c := by
  unfold rdB
  rw [if_pos (by simp)]
  simp only [Int.toNat_ofNat]
  congr 1
  rw [List.getD_eq_getElem?_getD, List.getElem?_append_right (le_refl _)]
  simp

/-- The loop that strips insignificant exponent zeros stops inside the digit
run, having passed only zeros, at a non-zero digit or at the last one. -/
theorem skipExpZeros_spec (ed : List Nat) : ∀ (P : List Nat) (fuel : Nat), ed ≠ [] →
    ed.length ≤ fuel →
    ∃ z : Nat, skipExpZeros (P ++ ed) fuel (P.length : Int) = .ok ((P.length : Int) + z) ∧
      z < ed.length ∧ (∀ x ∈ ed.take z, x = 48) ∧ (z + 1 < ed.length → ed.getD z 0 ≠ 48) := by
  induction ed with
  | nil => intro P fuel h; exact absurd rfl h
  | cons c t ih =>
    intro P fuel _ hfuel
    obtain ⟨k, rfl⟩ : ∃ k, fuel = k + 1 := ⟨fuel - 1, by simp at hfuel; omega⟩
    unfold skipExpZeros
    rw [rdB_append]
    simp only [bind, Except.bind]
    by_cases hc : c = 48 ∧ t ≠ []
    · have hcond : c = 48 ∧ (P.length : Int) ≠ ((P ++ c :: t).length : Int) - 1 := by
        refine ⟨hc.1, ?_⟩
        have : 0 < t.length := List.length_pos.mpr hc.2
        simp only [List.length_append, List.length_cons]
        push_cast; omega
      rw [if_pos hcond]
      obtain ⟨z, h1, h2, h3, h4⟩ := ih (P ++ [c]) k hc.2 (by simp at hfuel; omega)
      refine ⟨z + 1, ?_, by simp; omega, ?_, ?_⟩
      · have e : P ++ c :: t = (P ++ [c]) ++ t := by simp
        rw [e]
        have e2 : ((P.length : Int) + 1) = ((P ++ [c]).length : Int) := by simp
        rw [e2, h1]
        simp only [List.length_append, List.length_cons, List.length_nil]
        push_cast
        congr 1
        omega
      · intro x hx
        simp only [List.take_succ_cons, List.mem_cons] at hx
        rcases hx with hx | hx
        · rw [hx]; exact hc.1
        · exact h3 x hx
      · intro hlt
        simp only [List.length_cons] at hlt
        have := h4 (by omega)
        simpa using this
    · have hcond : ¬ (c = 48 ∧ (P.length : Int) ≠ ((P ++ c :: t).length : Int) - 1) := by
        rintro ⟨h1, h2⟩
        apply hc
        refine ⟨h1, ?_⟩
        intro ht
        apply h2
        rw [ht]
        simp
      rw [if_neg hcond]
      refine ⟨0, by simp, by simp, by simp, ?_⟩
      intro hlt
      simp only [List.length_cons] at hlt
      have ht : t ≠ [] := by
        intro h; rw [h] at hlt; simp at hlt
      intro h48
      exact hc ⟨by simpa using h48, ht⟩

/-- The exponent accumulation over a run of digits up to the end of input. -/
theorem expDigits_spec (ds : List Nat) (hds : ∀ c ∈ ds, 48 ≤ c ∧ c ≤ 57) :
    ∀ (P : List Nat) (fuel : Nat) (acc : Int), ds.length ≤ fuel →
    expDigits (P ++ ds) fuel (P.length : Int) acc =
      .ok ((P.length : Int) + ds.length,
        ds.foldl (fun (a : Int) (c : Nat) => a * 10 + (c : Int) - 48) acc) := by
  induction ds with
  | nil =>
    intro P fuel acc _
    cases fuel with
    | zero => simp [expDigits]
    | succ k => simp [expDigits]
  | cons c t ih =>
    intro P fuel acc hfuel
    obtain ⟨k, rfl⟩ : ∃ k, fuel = k + 1 := ⟨fuel - 1, by simp at hfuel; omega⟩
    have hc := hds c (List.mem_cons_self _ _)
    unfold expDigits
    rw [if_pos (by simp), rdB_append]
    simp only [bind, Except.bind]
    rw [if_neg (by omega)]
    have e : P ++ c :: t = (P ++ [c]) ++ t := by simp
    have e2 : ((P.length : Int) + 1) = ((P ++ [c]).length : Int) := by simp
    rw [e, e2, ih (fun x hx => hds x (List.mem_cons_of_mem _ hx)) (P ++ [c]) k _
      (by simp at hfuel; omega)]
    simp only [List.length_append, List.length_cons, List.length_nil, List.foldl_cons]
    congr 2
    push_cast; omega

theorem foldl_zeros (zs ds : List Nat) (hz : ∀ x ∈ zs, x = 48) :
    (zs ++ ds).foldl (fun (a : Int) (c : Nat) => a * 10 + (c : Int) - 48) 0 =
      ds.foldl (fun (a : Int) (c : Nat) => a * 10 + (c : Int) - 48) 0 := by
  induction zs with
  | nil => rfl
  | cons c t ih =>
    have hc := hz c (List.mem_cons_self _ _)
    rw [List.cons_append, List.foldl_cons, hc]
    simp only [zero_mul, zero_add, Nat.cast_ofNat, sub_self]
    exact ih (fun x hx => hz x (List.mem_cons_of_mem _ hx))

theorem foldl_ge (ds : List Nat) (hds : ∀ c ∈ ds, 48 ≤ c ∧ c ≤ 57) : ∀ acc : Int, 0 ≤ acc →
    acc * 10 ^ ds.length ≤ ds.foldl (fun (a : Int) (c : Nat) => a * 10 + (c : Int) - 48) acc := by
  induction ds with
  | nil => intro acc _; simp
  | cons c t ih =>
    intro acc hacc
    have hc := hds c (List.mem_cons_self _ _)
    rw [List.foldl_cons, List.length_cons, pow_succ]
    have h1 := ih (fun x hx => hds x (List.mem_cons_of_mem _ hx)) (acc * 10 + (c : Int) - 48)
      (by omega)
    have h2 : acc * (10 ^ t.length * 10) ≤ (acc * 10 + (c : Int) - 48) * 10 ^ t.length := by
      have hp : (0 : Int) ≤ 10 ^ t.length := by positivity
      nlinarith
    exact le_trans h2 h1

/-- Four or more significant exponent digits denote at least 1000. -/
theorem digitsValue_drop (ed : List Nat) (hed : ∀ c ∈ ed, 48 ≤ c ∧ c ≤ 57) (z : Nat)
    (hz : z < ed.length) (h3 : ∀ x ∈ ed.take z, x = 48) (h4 : z + 1 < ed.length → ed.getD z 0 ≠ 48) :
    (ed.drop z).foldl (fun (a : Int) (c : Nat) => a * 10 + (c : Int) - 48) 0 = digitsValue ed ∧
    (z + 4 ≤ ed.length → 1000 ≤ digitsValue ed) := by
  have hsplit : digitsValue ed =
      (ed.drop z).foldl (fun (a : Int) (c : Nat) => a * 10 + (c : Int) - 48) 0 := by
    unfold digitsValue
    conv_lhs => rw [← List.take_append_drop z ed]
    exact foldl_zeros _ _ h3
  refine ⟨hsplit.symm, fun h => ?_⟩
  rw [hsplit]
  have hd : ed.drop z = ed.getD z 0 :: ed.drop (z + 1) := by
    rw [List.getD_eq_getElem?_getD, List.getElem?_eq_getElem hz]
    simp only [Option.getD_some]
    exact List.drop_eq_getElem_cons hz
  have hmem : ed.getD z 0 ∈ ed := by
    rw [List.getD_eq_getElem?_getD, List.getElem?_eq_getElem hz]
    simp only [Option.getD_some]
    exact List.getElem_mem _
  have hc := hed _ hmem
  have hne := h4 (by omega)
  rw [hd, List.foldl_cons]
  have hrest : ∀ c ∈ ed.drop (z + 1), 48 ≤ c ∧ c ≤ 57 :=
    fun c hc => hed c (List.mem_of_mem_drop hc)
  have hge := foldl_ge (ed.drop (z + 1)) hrest ((0 : Int) * 10 + (ed.getD z 0 : Int) - 48) (by omega)
  have hlen : 3 ≤ (ed.drop (z + 1)).length := by
    rw [List.length_drop]; omega
  have hpow : (1000 : Int) ≤ 10 ^ (ed.drop (z + 1)).length := by
    calc (1000 : Int) = 10 ^ 3 := by norm_num
      _ ≤ 10 ^ (ed.drop (z + 1)).length := pow_le_pow_right₀ (by norm_num) hlen
  have h1 : (1 : Int) ≤ (0 : Int) * 10 + (ed.getD z 0 : Int) - 48 := by omega
  have hp0 : (0 : Int) ≤ 10 ^ (ed.drop (z + 1)).length := by positivity
  nlinarith

/-- The exponent digits, after the letter and the sign. -/
theorem exp_tail (P ed : List Nat) (hne : ed ≠ []) (hed : ∀ c ∈ ed, 48 ≤ c ∧ c ≤ 57)
    (nege : Bool) :
    (do let firstexp ← skipExpZeros (P ++ ed) ((P ++ ed).length + 1) (P.length : Int)
        let (i2, exp) ← expDigits (P ++ ed) ((P ++ ed).length + 1) firstexp 0
        if i2 ≥ firstexp + 4 then .error .DecErrConversionSyntax
        else if (!nege ∧ exp > MaxDigits) ∨ (nege ∧ exp > MaxFrac) then
          .error .DecErrConversionSyntax
        else pure (if nege then -exp else exp) : Except Fault Int) =
      if (nege = false ∧ digitsValue ed > 65) ∨ (nege = true ∧ digitsValue ed > 30) then
        .error .DecErrConversionSyntax
      else .ok (if nege then -digitsValue ed else digitsValue ed) := by
  obtain ⟨z, h1, h2, h3, h4⟩ := skipExpZeros_spec ed P ((P ++ ed).length + 1) hne (by simp; omega)
  obtain ⟨hv, hbig⟩ := digitsValue_drop ed hed z h2 h3 h4
  rw [h1]
  simp only [bind, Except.bind]
  have e1 : P ++ ed = (P ++ ed.take z) ++ ed.drop z := by
    rw [List.append_assoc, List.take_append_drop]
  have e2 : (P.length : Int) + z = ((P ++ ed.take z).length : Int) := by
    rw [List.length_append, List.length_take, Nat.min_eq_left (by omega)]
    push_cast; rfl
  have hx := expDigits_spec (ed.drop z) (fun c hc => hed c (List.mem_of_mem_drop hc))
    (P ++ ed.take z) ((P ++ ed).length + 1) 0 (by simp; omega)
  rw [← e1, ← e2] at hx
  rw [hx, hv]
  dsimp only
  have h65 : MaxDigits = 65 := rfl
  have h30 : MaxFrac = 30 := rfl
  rw [h65, h30]
  have hl : ((ed.drop z).length : Int) = (ed.length : Int) - z := by
    rw [List.length_drop]; omega
  by_cases hfour : z + 4 ≤ ed.length
  · have hV := hbig hfour
    rw [if_pos (by omega)]
    rw [if_pos]
    cases nege
    · left; exact ⟨rfl, by omega⟩
    · right; exact ⟨rfl, by omega⟩
  · rw [if_neg (by omega)]
    cases nege <;> simp [pure, Except.pure]

/-- The exponent branch on a well-formed exponent part: a syntax error exactly
when the exponent is out of range, and the signed exponent otherwise. -/
theorem parseExponent_spec (pre : List Nat) (e : Nat) (esign ed : List Nat)
    (he : e = 101 ∨ e = 69) (hes : esign = [] ∨ esign = [43] ∨ esign = [45])
    (hne : ed ≠ []) (hed : ∀ c ∈ ed, 48 ≤ c ∧ c ≤ 57) :
    parseExponent (pre ++ e :: (esign ++ ed)) (pre.length : Int) =
      if (esign ≠ [45] ∧ digitsValue ed > 65) ∨ (esign = [45] ∧ digitsValue ed > 30) then
        .error .DecErrConversionSyntax
      else .ok (if esign = [45] then -digitsValue ed else digitsValue ed) := by
  unfold parseExponent
  rw [rdB_append]
  simp only [bind, Except.bind]
  rw [if_neg (by rcases he with h | h <;> subst h <;> simp)]
  have e1 : pre ++ e :: (esign ++ ed) = (pre ++ [e]) ++ (esign ++ ed) := by simp
  have e2 : (pre.length : Int) + 1 = ((pre ++ [e]).length : Int) := by simp
  obtain ⟨c, t, hct⟩ : ∃ c t, ed = c :: t := by
    cases ed with
    | nil => exact absurd rfl hne
    | cons c t => exact ⟨c, t, rfl⟩
  have hc := hed c (by rw [hct]; exact List.mem_cons_self _ _)
  have hlen : ∀ sg : List Nat, ¬ ((pre.length : Int) + 1 + sg.length =
      ((pre ++ e :: (sg ++ ed)).length : Int)) := by
    intro sg
    have : 0 < ed.length := List.length_pos.mpr hne
    simp only [List.length_append, List.length_cons]
    push_cast; omega
  rcases hes with h | h | h
  · -- no sign
    subst h
    have r1 : rdB (pre ++ e :: ([] ++ ed)) ((pre.length : Int) + 1) = .ok c := by
      rw [e1, e2, List.nil_append, hct]; exact rdB_append _ _ _
    have hc45 : ¬ c = 45 := by omega
    have hc43 : ¬ c = 43 := by omega
    have hl := hlen []
    simp only [List.length_nil, Nat.cast_zero, add_zero] at hl
    simp only [r1, hc45, hc43, if_false, decide_False, hl]
    have e3 : pre ++ e :: ([] ++ ed) = (pre ++ [e]) ++ ed := by simp
    rw [e3, e2]
    have ht := exp_tail (pre ++ [e]) ed hne hed false
    simp only [bind, Except.bind] at ht
    rw [ht]
    simp
  · -- plus sign
    subst h
    have r1 : rdB (pre ++ e :: ([43] ++ ed)) ((pre.length : Int) + 1) = .ok 43 := by
      rw [e1, e2]; exact rdB_append _ _ _
    have hl := hlen [43]
    have e5 : (pre.length : Int) + 1 + (([43] : List Nat).length : Int) = (pre.length : Int) + 2 := by
      simp only [List.length_cons, List.length_nil]; push_cast; omega
    rw [e5] at hl
    have h1 : ¬ ((43 : Nat) = 45) := by decide
    simp only [r1, h1, if_false, if_true, decide_False, hl]
    have e3 : pre ++ e :: ([43] ++ ed) = (pre ++ [e, 43]) ++ ed := by simp
    have e4 : (pre.length : Int) + 2 = ((pre ++ [e, 43]).length : Int) := by simp
    rw [e3, e4]
    have ht := exp_tail (pre ++ [e, 43]) ed hne hed false
    simp only [bind, Except.bind] at ht
    rw [ht]
    simp
  · -- minus sign
    subst h
    have r1 : rdB (pre ++ e :: ([45] ++ ed)) ((pre.length : Int) + 1) = .ok 45 := by
      rw [e1, e2]; exact rdB_append _ _ _
    have hl := hlen [45]
    have e5 : (pre.length : Int) + 1 + (([45] : List Nat).length : Int) = (pre.length : Int) + 2 := by
      simp only [List.length_cons, List.length_nil]; push_cast; omega
    rw [e5] at hl
    simp only [r1, if_true, decide_True, hl, if_false]
    have e3 : pre ++ e :: ([45] ++ ed) = (pre ++ [e, 45]) ++ ed := by simp
    have e4 : (pre.length : Int) + 2 = ((pre ++ [e, 45]).length : Int) := by simp
    rw [e3, e4]
    have ht := exp_tail (pre ++ [e, 45]) ed hne hed true
    simp only [bind, Except.bind, if_true] at ht
    rw [ht]
    simp

theorem avoids_rdB (e : Fault) (h : e ≠ .panic) (bs : List Nat) (i : Int) :
    Avoids e (rdB bs i) := by
  unfold rdB; split
  · exact avoids_ok _ _
  · exact avoids_panic _ h

theorem avoids_pow10 (e : Fault) (h : e ≠ .panic) (k : Int) : Avoids e (pow10 k) := by
  unfold pow10; split
  · exact avoids_ok _ _
  · exact avoids_panic _ h

theorem avoids_parseIntgLoop (e : Fault) (h : e ≠ .panic) (bs : List Nat) (last : Int) (k : Nat) :
    ∀ i up out cut lsu, Avoids e (parseIntgLoop bs last k i up out cut lsu) := by
  induction k with
  | zero => intro i up out cut lsu; unfold parseIntgLoop; exact avoids_panic _ h
  | succ k ih =>
    intro i up out cut lsu
    unfold parseIntgLoop
    repeat' (first
      | exact avoids_ok _ _ | exact avoids_pure _ _ | exact avoids_panic _ h
      | exact ih _ _ _ _ _
      | exact avoids_rdB _ h _ _ | exact avoids_wr _ h _ _ _ _
      | refine avoids_bind _ _ _ ?_ (fun _ => ?_)
      | refine avoids_ite _ _ _ _ ?_ ?_
      | split)

theorem avoids_zeroDown (e : Fault) (h : e ≠ .panic) (threshold : Int) (k : Nat) :
    ∀ up cnt lsu, Avoids e (zeroDown threshold k up cnt lsu) := by
  induction k with
  | zero => intro up cnt lsu; unfold zeroDown; exact avoids_ok _ _
  | succ k ih =>
    intro up cnt lsu
    unfold zeroDown
    repeat' (first
      | exact avoids_ok _ _ | exact avoids_pure _ _ | exact avoids_panic _ h
      | exact ih _ _ _
      | exact avoids_wr _ h _ _ _ _
      | refine avoids_bind _ _ _ ?_ (fun _ => ?_)
      | refine avoids_ite _ _ _ _ ?_ ?_
      | split)

theorem avoids_parseFracLoop (e : Fault) (h : e ≠ .panic) (bs : List Nat) (last : Int) (k : Nat) :
    ∀ i up out cut lsu, Avoids e (parseFracLoop bs last k i up out cut lsu) := by
  induction k with
  | zero => intro i up out cut lsu; unfold parseFracLoop; exact avoids_panic _ h
  | succ k ih =>
    intro i up out cut lsu
    unfold parseFracLoop
    repeat' (first
      | exact avoids_ok _ _ | exact avoids_pure _ _ | exact avoids_panic _ h
      | exact ih _ _ _ _ _
      | exact avoids_rdB _ h _ _ | exact avoids_wr _ h _ _ _ _ | exact avoids_pow10 _ h _
      | refine avoids_bind _ _ _ ?_ (fun _ => ?_)
      | refine avoids_ite _ _ _ _ ?_ ?_
      | split)

/-- The filling part of the parser returns a syntax error exactly when the
digit count needed exceeds `MaxDigits`. -/
theorem parseFill_rejects (bs : List Nat) (result : FixedDecimal) (st : ScanState) (exp : Int) :
    parseFill bs result st exp = .error .DecErrConversionSyntax ↔
      (if (if st.dotchar = -1 ∨ st.last < st.dotchar then 0 else st.last - st.dotchar) - exp = 0
        then st.d
       else if (if st.dotchar = -1 ∨ st.last < st.dotchar then 0 else st.last - st.dotchar) - exp > 0
        then (if st.d > (if st.dotchar = -1 ∨ st.last < st.dotchar then 0
            else st.last - st.dotchar) - exp then st.d
          else (if st.dotchar = -1 ∨ st.last < st.dotchar then 0 else st.last - st.dotchar) - exp)
       else st.d - ((if st.dotchar = -1 ∨ st.last < st.dotchar then 0
          else st.last - st.dotchar) - exp)) > MaxDigits := by
  have h : Fault.DecErrConversionSyntax ≠ .panic := by decide
  unfold parseFill
  dsimp only
  generalize (if st.dotchar = -1 ∨ st.last < st.dotchar then (0 : Int)
    else st.last - st.dotchar) = fracDigits
  generalize fracDigits - exp = frac0
  generalize (if frac0 = 0 then st.d
      else if frac0 > 0 then (if st.d > frac0 then st.d else frac0) else st.d - frac0) = digits
  generalize (if frac0 < 0 then 0 else frac0) = frac
  constructor
  · intro hE
    by_contra hn
    rw [if_neg hn] at hE
    revert hE
    show Avoids Fault.DecErrConversionSyntax _
    repeat' (first
      | exact avoids_ok _ _ | exact avoids_pure _ _ | exact avoids_panic _ h
      | exact avoids_parseIntgLoop _ h _ _ _ _ _ _ _ _
      | exact avoids_zeroDown _ h _ _ _ _ _
      | exact avoids_parseFracLoop _ h _ _ _ _ _ _ _ _
      | exact avoids_wr _ h _ _ _ _ | exact avoids_pow10 _ h _
      | refine avoids_bind _ _ _ ?_ (fun _ => ?_)
      | refine avoids_ite _ _ _ _ ?_ ?_
      | split)
  · intro hd
    rw [if_pos hd]

/-- C14 (confirmed): on every literal of the numeric grammar and every prior
destination, `DecimalFromBytesString` returns `DecErrConversionSyntax` exactly
when the exponent is out of range (above 65, or negative with magnitude above
30) or the digit count needed after applying the exponent exceeds 65. -/
theorem C14_syntax_error_iff (l : NumLit) (result : FixedDecimal) (hl : l.WF) :
    DecimalFromBytesString l.text result = .error .DecErrConversionSyntax ↔
      (l.ExpOutOfRange ∨ l.digitsNeeded > 65) := by
  obtain ⟨st, hst, hd, hdot, hlast, -, -, hmore, hi⟩ := scan_text l hl
  obtain ⟨hsign, hip, hfp, hdotwf, hexp⟩ := hl
  unfold DecimalFromBytesString
  dsimp only
  rw [hst]
  have hs0 : (0 : Int) ≤ l.sign.length := Int.natCast_nonneg _
  have hi0 : (0 : Int) ≤ l.ip.length := Int.natCast_nonneg _
  have hf0 : (0 : Int) ≤ l.fp.length := Int.natCast_nonneg _
  have hfe : l.fp = [] ↔ (l.fp.length : Int) = 0 := by
    constructor
    · intro h; rw [h]; rfl
    · intro h; exact List.length_eq_zero.mp (by omega)
  have hie : l.ip = [] ↔ (l.ip.length : Int) = 0 := by
    constructor
    · intro h; rw [h]; rfl
    · intro h; exact List.length_eq_zero.mp (by omega)
  have hipos : l.fp = [] → 0 < (l.ip.length : Int) := by
    intro h
    have : l.ip ≠ [] := by
      cases hD : l.dot
      · rw [hD] at hdotwf; exact hdotwf.1
      · rw [hD] at hdotwf
        rcases hdotwf with h' | h'
        · exact h'
        · exact absurd h h'
    have := List.length_pos.mpr this
    omega
  have hfnodot : l.dot = false → (l.fp.length : Int) = 0 := by
    intro hD
    rw [hD] at hdotwf
    exact hfe.mp hdotwf.2
  have hlast_ne : ¬ st.last = -1 := by
    rw [hlast]
    by_cases hf : l.fp = []
    · rw [if_pos hf]; have := hipos hf; omega
    · rw [if_neg hf]; omega
  rw [if_neg hlast_ne]
  -- the digit count of the code is the digit count of the literal
  have hdigits : ∀ exp : Int, exp = l.exponent →
      (parseFill l.text result st exp = .error .DecErrConversionSyntax ↔ l.digitsNeeded > 65) := by
    intro exp hexpv
    rw [parseFill_rejects]
    have h65 : MaxDigits = 65 := rfl
    have hfd : (if st.dotchar = -1 ∨ st.last < st.dotchar then 0 else st.last - st.dotchar) =
        (l.fp.length : Int) := by
      rw [hdot, hlast]
      cases hD : l.dot
      · simp only [Bool.false_eq_true, if_false, true_or, if_true]
        exact (hfnodot hD).symm
      · simp only [if_true]
        by_cases hf : l.fp = []
        · rw [if_pos hf, if_pos (Or.inr (by omega))]
          exact (hfe.mp hf).symm
        · have : (l.fp.length : Int) ≠ 0 := fun h => hf (hfe.mpr h)
          rw [if_neg hf, if_neg (by omega)]
          omega
    rw [hfd, hd, h65, hexpv]
    unfold NumLit.digitsNeeded NumLit.fracNeeded NumLit.digitCount
    generalize l.exponent = E
    split_ifs <;> omega
  cases hE : l.hasExp
  · -- no exponent
    rw [hmore, hE]
    simp only [Bool.false_eq_true, if_false]
    have hexp0 : (0 : Int) = l.exponent := by
      unfold NumLit.exponent; rw [hE]; simp
    rw [hdigits 0 hexp0]
    constructor
    · intro h; exact Or.inr h
    · rintro (h | h)
      · exact absurd h.1 (by rw [hE]; simp)
      · exact h
  · -- an exponent
    rw [hmore, hE]
    simp only [if_true]
    obtain ⟨he, hes, hne, hed⟩ := hexp hE
    have htext : l.text = (l.sign ++ l.ip ++ (if l.dot then 46 :: l.fp else [])) ++
        l.e :: (l.esign ++ l.ed) := by
      unfold NumLit.text; rw [hE]; simp
    rw [hi hE]
    have hpe := parseExponent_spec (l.sign ++ l.ip ++ (if l.dot then 46 :: l.fp else []))
      l.e l.esign l.ed he hes hne hed
    rw [← htext] at hpe
    rw [hpe]
    by_cases hout : (l.esign ≠ [45] ∧ digitsValue l.ed > 65) ∨ (l.esign = [45] ∧ digitsValue l.ed > 30)
    · rw [if_pos hout]
      constructor
      · intro _; exact Or.inl ⟨hE, hout⟩
      · intro _; rfl
    · rw [if_neg hout]
      have hexpv : (if l.esign = [45] then -digitsValue l.ed else digitsValue l.ed) = l.exponent := by
        unfold NumLit.exponent; rw [hE]; simp
      have hb : (Except.ok (if l.esign = [45] then -digitsValue l.ed else digitsValue l.ed) >>=
          fun exp => parseFill l.text result st exp) =
          parseFill l.text result st (if l.esign = [45] then -digitsValue l.ed else digitsValue l.ed) := rfl
      rw [hb, hdigits _ hexpv]
      constructor
      · intro h; exact Or.inr h
      · rintro (h | h)
        · exact absurd h.2 hout
        · exact h

/-- C14, at an instance: the literal `-12.5e+3` is well formed. -/
theorem C14_syntax_error_iff_witness :
    litExample.WF ∧ litExample.text = bytes "-12.5e+3" ∧
    (DecimalFromBytesString litExample.text DecimalZero = .error .DecErrConversionSyntax ↔
      (litExample.ExpOutOfRange ∨ litExample.digitsNeeded > 65)) :=
  ⟨by decide, by decide, C14_syntax_error_iff litExample DecimalZero (by decide)⟩

/-- C13 (code_bug): of the malformed inputs that the claim lists, the empty
string, `Na` and `0E` make `DecimalFromBytesString` read one byte past the end
of the input, which is an index-out-of-range panic and not
`DecErrConversionSyntax`; the other nine return `DecErrConversionSyntax`. -/
theorem C13_reads_past_the_end :
    DecimalFromBytesString (bytes "") DecimalZero = .error .panic ∧
    DecimalFromBytesString (bytes "Na") DecimalZero = .error .panic ∧
    DecimalFromBytesString (bytes "0E") DecimalZero = .error .panic ∧
    rdB (bytes "") 0 = .error .panic ∧ rdB (bytes "Na") 2 = .error .panic ∧
    rdB (bytes "0E") 2 = .error .panic ∧
    DecimalFromBytesString (bytes "abc") DecimalZero = .error .DecErrConversionSyntax ∧
    DecimalFromBytesString (bytes ".") DecimalZero = .error .DecErrConversionSyntax ∧
    DecimalFromBytesString (bytes "N") DecimalZero = .error .DecErrConversionSyntax ∧
    DecimalFromBytesString (bytes "Nab") DecimalZero = .error .DecErrConversionSyntax ∧
    DecimalFromBytesString (bytes "NaNx") DecimalZero = .error .DecErrConversionSyntax ∧
    DecimalFromBytesString (bytes "0x") DecimalZero = .error .DecErrConversionSyntax ∧
    DecimalFromBytesString (bytes ".1e+") DecimalZero = .error .DecErrConversionSyntax ∧
    DecimalFromBytesString (bytes ".1e-") DecimalZero = .error .DecErrConversionSyntax ∧
    DecimalFromBytesString (bytes ".1e+f") DecimalZero = .error .DecErrConversionSyntax := by
  refine ⟨by decide, by decide, by decide, by decide, by decide, by decide, by decide, by decide,
    by decide, by decide, by decide, by decide, by decide, by decide, by decide⟩

/-! ## Operand order, widening, destinations and zero limbs (C22, C23, C25 to C27, C29, C30) -/

/-- C22 (code_bug): `5.0 + (-5.0)` gives all limbs zero with `intg = 0` and one
fraction digit, printed `0.0`, while `(-5.0) + 5.0` gives the canonical zero,
printed `0`: the zero check runs only on the path that sets the sign, so the
two orders differ. -/
theorem C22_add_order_dependent :
    DecimalFromAsciiString "5.0" DecimalZero = .ok decFive ∧
    DecimalFromAsciiString "-5.0" DecimalZero = .ok decNegFive ∧
    decFive.Valid ∧ decNegFive.Valid ∧
    DecimalAdd decFive decNegFive = .ok decZeroFrac1 ∧
    DecimalAdd decNegFive decFive = .ok DecimalZero ∧
    decZeroFrac1 ≠ DecimalZero ∧
    decZeroFrac1.ToString (-1) = .ok (bytes "0.0") ∧
    DecimalZero.ToString (-1) = .ok (bytes "0") := by
  refine ⟨by decide, by decide, by decide, by decide, by decide, by decide, by decide, by decide,
    by decide⟩

/-- C23 (code_bug): with `a = 10^64` and `b = 10^64 + 999999999 * 10^9`, both
valid with 65 integer digits, `DecimalMul(a, b)` returns `DecErrOverflow` and
`DecimalMul(b, a)` ends in an index-out-of-range panic. The digit sum 130
wraps in `int8`, the width test is skipped, and whether the carry test of the
second row fires before the read of `result.lsu[9]` depends on which operand
supplies the rows. -/
theorem C23_mul_order_dependent :
    DecimalFromAsciiString "10000000000000000000000000000000000000000000000999999999000000000"
      DecimalZero = .ok decTenPow64Plus ∧
    decTenPow64.Valid ∧ decTenPow64Plus.Valid ∧
    decTenPow64.IsNaN = false ∧ decTenPow64.IsInf = false ∧
    decTenPow64Plus.IsNaN = false ∧ decTenPow64Plus.IsInf = false ∧
    DecimalMul decTenPow64 decTenPow64Plus = .error .DecErrOverflow ∧
    DecimalMul decTenPow64Plus decTenPow64 = .error .panic := by
  refine ⟨by decide, by decide, by decide, by decide, by decide, by decide, by decide, by decide,
    by decide⟩

theorem value_of_scaled (v : FixedDecimal) (n : Int) (k : Nat) (h1 : v.scaled = n)
    (h2 : v.FracUnits.toNat = k) (h3 : v.IsNeg = false) :
    v.value = (n : ℚ) / ((Unit : Int) : ℚ) ^ k := by
  unfold FixedDecimal.value FixedDecimal.absValue
  rw [h1, h2, h3]; simp

/-- C25 (code_bug): `Round(1)` on the decimal `1` (no fractional limb) needs
one fractional limb and fits easily. The integer limb is copied one place up
and the limb below it is not cleared, so the result has limbs `[1, 1]` and
denotes `1.000000001`, not `1`. -/
theorem C25_round_widen_keeps_low_limb :
    decOne.Valid ∧ decOne.Frac ≤ 1 ∧ decOne.IntgUnits + getUnits 1 ≤ MaxUnits ∧
    decOne.Round 1 = .ok decOneDirty ∧ decOneDirty.Frac = 1 ∧
    decOne.value = 1 ∧ decOneDirty.value = 1000000001 / 1000000000 ∧
    decOneDirty.value ≠ decOne.value := by
  have h1 : decOne.value = 1 := by
    rw [value_of_scaled decOne 1 0 (by decide) (by decide) (by decide)]; simp
  have h2 : decOneDirty.value = 1000000001 / 1000000000 := by
    rw [value_of_scaled decOneDirty 1000000001 1 (by decide) (by decide) (by decide)]
    norm_num [Unit]
  refine ⟨by decide, by decide, by decide, by decide, by decide, h1, h2, ?_⟩
  rw [h1, h2]; norm_num

/-- C26 (code_bug): `RoundTo` and `Round` disagree. For `v = 1` and scale 1
into a zero destination, `RoundTo` gives limbs `[0, 1]` and `Round` in place
gives `[1, 1]`. For `v = 1.5` and scale 0 into a destination that held `-1`,
`RoundTo` gives `-2` and `Round` gives `2`: `roundHalfUp` takes the sign from
the destination, which was not assigned from `v`. -/
theorem C26_round_to_differs :
    decOne.Valid ∧ decOnePointFive.Valid ∧
    decOne.Round 1 = .ok decOneDirty ∧
    decOne.RoundTo DecimalZero 1 = .ok decOneFrac1 ∧
    decOneFrac1 ≠ decOneDirty ∧
    DecimalFromAsciiString "1.5" DecimalZero = .ok decOnePointFive ∧
    decOnePointFive.Round 0 = .ok decTwoIntg9 ∧
    decOnePointFive.RoundTo decNegOne 0 = .ok decNegTwoIntg9 ∧
    decNegTwoIntg9 ≠ decTwoIntg9 ∧ decNegTwoIntg9.IsNeg = true ∧ decTwoIntg9.IsNeg = false := by
  refine ⟨by decide, by decide, by decide, by decide, by decide, by decide, by decide, by decide,
    by decide, by decide, by decide⟩

/-- C27 (code_bug): `1999999999` has ten integer digits, so scale `-9` does not
take the zero branch (`9 + 1 > 10` is false). Half-up rounding to a multiple
of `10^9` gives `2 * 10^9`; `Round(-9)` returns `10^9`. With the truncated
digit count a multiple of nine, `roundHalfUp` has `roundPos = 0`, skips the
rounding step, receives no carry, and only clears the limb below. -/
theorem C27_round_negative_nine_truncates :
    DecimalFromAsciiString "1999999999" DecimalZero = .ok decNearTwoE9 ∧
    decNearTwoE9.Valid ∧ ¬ (-(-9 : Int) + 1 > decNearTwoE9.Intg) ∧
    decNearTwoE9.Round (-9) = .ok decOneE9Intg18 ∧ decOneE9Intg18.Frac = 0 ∧
    decNearTwoE9.value = 1999999999 ∧
    (⌊|decNearTwoE9.value| / 10 ^ 9 + 1 / 2⌋ : Int) = 2 ∧
    decOneE9Intg18.value = 1000000000 ∧
    decOneE9Intg18.value ≠ (signOf decNearTwoE9.value : ℚ) *
      (⌊|decNearTwoE9.value| / 10 ^ 9 + 1 / 2⌋ : ℚ) * 10 ^ 9 := by
  have h1 : decNearTwoE9.value = 1999999999 := by
    rw [value_of_scaled decNearTwoE9 1999999999 0 (by decide) (by decide) (by decide)]; simp
  have h2 : decOneE9Intg18.value = 1000000000 := by
    rw [value_of_scaled decOneE9Intg18 1000000000 0 (by decide) (by decide) (by decide)]; simp
  have h3 : (⌊|(1999999999 : ℚ)| / 10 ^ 9 + 1 / 2⌋ : Int) = 2 := by
    rw [Int.floor_eq_iff]
    constructor <;> norm_num [abs_of_pos]
  have h4 : signOf (1999999999 : ℚ) = 1 := by
    unfold signOf; norm_num
  refine ⟨by decide, by decide, by decide, by decide, by decide, h1, by rw [h1]; exact h3, h2, ?_⟩
  rw [h1, h2, h3, h4]; norm_num

/-- C29 (code_bug): the product of `123456789` and `1` is stored with
`Intg() = 18` and a zero top integer limb. `ToString` writes `0` for that
limb, clears the suppression flag, and writes the next limb in full, so the
text is `0123456789`: a leading zero on a non-zero integer part. -/
theorem C29_leading_zero_printed :
    DecimalFromAsciiString "123456789" DecimalZero = .ok dec123456789 ∧
    DecimalMul dec123456789 decOne = .ok dec123456789Wide ∧
    dec123456789Wide.Valid ∧
    dec123456789Wide.ToString (-1) = .ok (bytes "0123456789") ∧
    dec123456789Wide.ToString 0 = .ok (bytes "0123456789") := by
  refine ⟨by decide, by decide, by decide, by decide, by decide⟩

/-- C30 (code_bug): `IsSpecial` tests the sign bit of `intg` and the mask
`0xcf` of `frac`, which holds the four low bits of the digit count. It is true
for `-1` and for `0.0000000001` (ten fraction digits), neither of which is NaN
or infinite. -/
theorem C30_isSpecial_on_normal_values :
    decNegOne.Valid ∧ decNegOne.IsSpecial = true ∧ decNegOne.IsNaN = false ∧
    decNegOne.IsInf = false ∧
    decTenPowNeg10.Valid ∧ decTenPowNeg10.IsSpecial = true ∧ decTenPowNeg10.IsNaN = false ∧
    decTenPowNeg10.IsInf = false ∧
    decOne.IsSpecial = false ∧ decInf.IsSpecial = true ∧ decNaN.IsSpecial = true := by
  refine ⟨by decide, by decide, by decide, by decide, by decide, by decide, by decide, by decide,
    by decide, by decide, by decide⟩

/-! ## Fraction digits of a quotient (C21) -/

/-- Fields that `divAbs` stores after a division that reaches the digit
loops: `intg` is a digit count `RI` in `0..81` and `frac` is nine times the
fraction limb count, capped at four limbs and at the room left by `RI`. -/
theorem divAbsCore_fields (a b : FixedDecimal) (incr lnz rnz : Int) :
    Yields (fun r => ∃ RI : Int, 0 ≤ RI ∧ RI ≤ 81 ∧ r.intg = RI ∧
        r.frac = 9 * min (min (getUnits (9 * a.FracUnits + 9 * b.FracUnits +
          max 0 (incr - ((9 * a.FracUnits - a.Frac) + (9 * b.FracUnits - b.Frac))))) 4)
          (9 - getUnits RI))
      (divAbsCore a b incr lnz rnz) := by
  unfold divAbsCore
  dsimp only
  have ha := frac_range a
  have hb := frac_range b
  have h4 : MaxFracUnits = 4 := by decide
  have h9 : MaxUnits = 9 := rfl
  have hD : DigitsPerUnit = 9 := rfl
  have hla := getUnits_nonneg a.Frac ha.1
  have hlb := getUnits_nonneg b.Frac hb.1
  have harg : getUnits a.Frac * DigitsPerUnit + getUnits b.Frac * DigitsPerUnit +
      (if incr - (getUnits a.Frac * DigitsPerUnit - a.Frac +
        getUnits b.Frac * DigitsPerUnit - b.Frac) < 0 then 0
      else incr - (getUnits a.Frac * DigitsPerUnit - a.Frac +
        getUnits b.Frac * DigitsPerUnit - b.Frac)) =
      9 * a.FracUnits + 9 * b.FracUnits +
          max 0 (incr - ((9 * a.FracUnits - a.Frac) + (9 * b.FracUnits - b.Frac))) := by
    unfold FixedDecimal.FracUnits
    rw [hD]
    split_ifs <;> omega
  rw [harg]
  have hF : 0 ≤ getUnits (9 * a.FracUnits + 9 * b.FracUnits +
          max 0 (incr - ((9 * a.FracUnits - a.Frac) + (9 * b.FracUnits - b.Frac)))) := by
    refine getUnits_nonneg _ ?_
    unfold FixedDecimal.FracUnits
    omega
  generalize getUnits (9 * a.FracUnits + 9 * b.FracUnits +
          max 0 (incr - ((9 * a.FracUnits - a.Frac) + (9 * b.FracUnits - b.Frac)))) = RFU0 at hF ⊢
  refine yields_bind _ _ _ (fun rtop => ?_)
  refine yields_bind _ _ _ (fun ls => ?_)
  refine yields_bind _ _ _ (fun rs => ?_)
  generalize (if unitsGreaterEqual ls rs = true then
      lnz * DigitsPerUnit + DigitsPerUnit - unitLeadingZeroes rtop - getUnits a.Frac * DigitsPerUnit -
        (rnz * DigitsPerUnit + DigitsPerUnit - unitLeadingZeroes rtop -
          getUnits b.Frac * DigitsPerUnit) + 1
    else
      lnz * DigitsPerUnit + DigitsPerUnit - unitLeadingZeroes rtop - getUnits a.Frac * DigitsPerUnit -
        (rnz * DigitsPerUnit + DigitsPerUnit - unitLeadingZeroes rtop -
          getUnits b.Frac * DigitsPerUnit)) = RI
  refine yields_ite _ _ _ _ (fun _ => yields_error _ _) (fun hov => ?_)
  have leaf : ∀ (l : List Int),
      ∃ RI' : Int, 0 ≤ RI' ∧ RI' ≤ 81 ∧
        (FixedDecimal.mk (wrap8 (if RI > 0 then RI else 0))
          (wrap8 ((if RI > 0 ∧ (if RI > 0 then getUnits RI else 0) +
            (if RFU0 > MaxFracUnits then MaxFracUnits else RFU0) > MaxUnits then
              MaxUnits - (if RI > 0 then getUnits RI else 0)
            else (if RFU0 > MaxFracUnits then MaxFracUnits else RFU0)) * DigitsPerUnit)) l).intg = RI' ∧
        (FixedDecimal.mk (wrap8 (if RI > 0 then RI else 0))
          (wrap8 ((if RI > 0 ∧ (if RI > 0 then getUnits RI else 0) +
            (if RFU0 > MaxFracUnits then MaxFracUnits else RFU0) > MaxUnits then
              MaxUnits - (if RI > 0 then getUnits RI else 0)
            else (if RFU0 > MaxFracUnits then MaxFracUnits else RFU0)) * DigitsPerUnit)) l).frac =
          9 * min (min RFU0 4) (9 - getUnits RI') := by
    intro l
    dsimp only
    rw [h4, h9, hD]
    rw [h9] at hov
    by_cases hpos : RI > 0
    · have hg := getUnits_eq RI (by omega)
      have hle : getUnits RI ≤ 9 := by
        by_contra hc
        exact hov ⟨hpos, by omega⟩
      have hRI : RI ≤ 81 := by rw [hg] at hle; omega
      have hg0 : 0 ≤ getUnits RI := getUnits_nonneg RI (by omega)
      refine ⟨RI, by omega, hRI, ?_, ?_⟩
      · rw [if_pos hpos]; exact wrap8_id _ (by omega)
      · simp only [hpos, if_true, true_and]
        generalize getUnits RI = G at hle hg0 ⊢
        have hw : ∀ x : Int, 0 ≤ x ∧ x ≤ 4 → wrap8 (x * 9) = 9 * x := by
          intro x hx; rw [wrap8_id _ (by omega)]; ring
        split_ifs <;> (rw [hw _ (by omega)]; omega)
    · have hz : getUnits 0 = 0 := by decide
      refine ⟨0, le_refl _, by omega, ?_, ?_⟩
      · rw [if_neg hpos]; decide
      · simp only [hpos, if_false, false_and]
        rw [hz]
        have hw : ∀ x : Int, 0 ≤ x ∧ x ≤ 4 → wrap8 (x * 9) = 9 * x := by
          intro x hx; rw [wrap8_id _ (by omega)]; ring
        split_ifs <;> (rw [hw _ (by omega)]; omega)
  refine yields_ite _ _ _ _ (fun _ => ?_) (fun _ => ?_)
  · refine yields_bind _ _ _ (fun _ => ?_)
    refine yields_bind _ _ _ (fun _ => ?_)
    exact yields_pure _ _ (leaf _)
  · refine yields_bind _ _ _ (fun _ => ?_)
    refine yields_bind _ _ _ (fun x => ?_)
    obtain ⟨buf1, buf2⟩ := x
    dsimp only
    refine yields_bind _ _ _ (fun _ => ?_)
    refine yields_bind _ _ _ (fun _ => ?_)
    refine yields_bind _ _ _ (fun _ => ?_)
    exact yields_pure _ _ (leaf _)

/-- C21 (amended): a successful `DecimalDiv` returns the canonical zero (zero
dividend, or a negative quotient with no non-zero limb) or a result whose
`Frac()` is nine times `resultFracUnits`, the limb count
`ceil((9*fracUnits(a) + 9*fracUnits(b) + max(0, incrFrac - slack)) / 9)` capped
at 4 and at `9 - IntgUnits()` of the result. With one fractional limb in each
operand, `incrFrac` within the slack and at most seven integer limbs in the
result, that is 18 fraction digits. -/
theorem C21_div_frac_digits (a b : FixedDecimal) (incrFrac : Int) (r : FixedDecimal)
    (h : DecimalDiv a b incrFrac = .ok r) :
    (r = DecimalZero ∨
      r.Frac = 9 * min (min (getUnits (9 * a.FracUnits + 9 * b.FracUnits +
        max 0 (incrFrac - ((9 * a.FracUnits - a.Frac) + (9 * b.FracUnits - b.Frac))))) 4)
        (9 - r.IntgUnits)) ∧
    (a.FracUnits = 1 → b.FracUnits = 1 → incrFrac ≤ (9 - a.Frac) + (9 - b.Frac) →
      r.IntgUnits ≤ 7 → r = DecimalZero ∨ r.Frac = 18) := by
  have key : Yields (fun r => r = DecimalZero ∨
      r.Frac = 9 * min (min (getUnits (9 * a.FracUnits + 9 * b.FracUnits +
        max 0 (incrFrac - ((9 * a.FracUnits - a.Frac) + (9 * b.FracUnits - b.Frac))))) 4)
        (9 - r.IntgUnits)) (DecimalDiv a b incrFrac) := by
    unfold DecimalDiv
    dsimp only
    have hcore : Yields (fun r => r = DecimalZero ∨ ∃ RI : Int, 0 ≤ RI ∧ RI ≤ 81 ∧ r.intg = RI ∧
        r.frac = 9 * min (min (getUnits (9 * a.FracUnits + 9 * b.FracUnits +
          max 0 (incrFrac - ((9 * a.FracUnits - a.Frac) + (9 * b.FracUnits - b.Frac))))) 4)
          (9 - getUnits RI)) (divAbs a b incrFrac) := by
      unfold divAbs
      dsimp only
      refine yields_bind _ _ _ (fun _ => ?_)
      refine yields_ite _ _ _ _ (fun _ => yields_error _ _) (fun _ => ?_)
      refine yields_bind _ _ _ (fun _ => ?_)
      refine yields_ite _ _ _ _ (fun _ => yields_pure _ _ (Or.inl rfl)) (fun _ => ?_)
      exact yields_mono _ _ _ (fun r hr => Or.inr hr) (divAbsCore_fields _ _ _ _ _)
    refine yields_bind_of _ _ _ _ hcore (fun q hq => ?_)
    have hF : 0 ≤ getUnits (9 * a.FracUnits + 9 * b.FracUnits +
          max 0 (incrFrac - ((9 * a.FracUnits - a.Frac) + (9 * b.FracUnits - b.Frac)))) := by
      refine getUnits_nonneg _ ?_
      have := fracUnits_nonneg a
      have := fracUnits_nonneg b
      omega
    generalize getUnits (9 * a.FracUnits + 9 * b.FracUnits +
          max 0 (incrFrac - ((9 * a.FracUnits - a.Frac) + (9 * b.FracUnits - b.Frac)))) = RFU0
      at hq hF ⊢
    have fin : ∀ q' : FixedDecimal, (∃ RI : Int, 0 ≤ RI ∧ RI ≤ 81 ∧
        (q'.intg = RI ∨ q'.intg = RI - 128) ∧
        q'.frac = 9 * min (min RFU0 4) (9 - getUnits RI)) →
        q'.Frac = 9 * min (min RFU0 4) (9 - q'.IntgUnits) := by
      rintro q' ⟨RI, h1, h2, h3, h4⟩
      have hI : q'.Intg = RI := by
        unfold FixedDecimal.Intg; rcases h3 with h | h <;> rw [h] <;> omega
      have hg := getUnits_eq RI h1
      unfold FixedDecimal.IntgUnits FixedDecimal.Frac
      rw [hI, ← h4]
      rw [hg] at h4
      omega
    refine yields_ite _ _ _ _ (fun _ => yields_pure _ _ ?_) (fun _ => yields_pure _ _ ?_)
    · -- the sign is set, with the zero check
      rcases hq with hq | ⟨RI, h1, h2, h3, h4⟩
      · left; rw [hq]; decide
      · unfold FixedDecimal.setNegAndCheckZero
        dsimp only
        split
        · left; rfl
        · right
          refine fin _ ⟨RI, h1, h2, ?_, h4⟩
          unfold FixedDecimal.setNeg
          dsimp only
          rw [h3]
          split_ifs <;> omega
    · rcases hq with hq | ⟨RI, h1, h2, h3, h4⟩
      · left; exact hq
      · right
        exact fin _ ⟨RI, h1, h2, Or.inl h3, h4⟩
  have hr := key r h
  refine ⟨hr, fun ha hb hi hu => ?_⟩
  rcases hr with hr | hr
  · left; exact hr
  · right
    rw [hr, ha, hb]
    have e : (9 : Int) * 1 + 9 * 1 + max 0 (incrFrac - ((9 * 1 - a.Frac) + (9 * 1 - b.Frac))) = 18 := by
      omega
    rw [e]
    have h2 : getUnits 18 = 2 := by decide
    rw [h2]
    omega

/-- C21 (amended), at an instance: `0.3 / 0.7` with `incrFrac = 4` is stored
with 18 fraction digits. -/
theorem C21_div_frac_digits_witness :
    DecimalDiv decThreeTenths decSevenTenths 4 = .ok decQuot18 ∧
    (decQuot18 = DecimalZero ∨
      decQuot18.Frac = 9 * min (min (getUnits (9 * decThreeTenths.FracUnits +
        9 * decSevenTenths.FracUnits +
        max 0 (4 - ((9 * decThreeTenths.FracUnits - decThreeTenths.Frac) +
          (9 * decSevenTenths.FracUnits - decSevenTenths.Frac))))) 4)
        (9 - decQuot18.IntgUnits)) ∧
    decQuot18.Frac = 18 :=
  ⟨by decide, (C21_div_frac_digits decThreeTenths decSevenTenths 4 decQuot18 (by decide)).1,
    by decide⟩

/-- C21 (as stated, refuted): `0.123456789` and `0.987654321` have one
fractional limb each and no slack, so `incrFrac = 4` opens a third limb and the
quotient is stored with 27 fraction digits, not 18. And `-0.1 / 10^50` with
`incrFrac = 0` has `resultFracUnits = 1`, yet the quotient has no non-zero
limb and the sign step turns it into the canonical zero with `Frac() = 0`;
the same quotient with a positive dividend keeps `Frac() = 9`. -/
theorem C21_div_frac_other_counts :
    DecimalFromAsciiString "0.123456789" DecimalZero = .ok decFrac9A ∧
    DecimalFromAsciiString "0.987654321" DecimalZero = .ok decFrac9B ∧
    decFrac9A.FracUnits = 1 ∧ decFrac9B.FracUnits = 1 ∧
    DecimalDiv decFrac9A decFrac9B 4 = .ok decQuot27 ∧ decQuot27.Frac = 27 ∧
    DecimalFromAsciiString "-0.1" DecimalZero = .ok decNegTenth ∧
    DecimalFromAsciiString "1e50" DecimalZero = .ok decTenPow50 ∧
    DecimalDiv decNegTenth decTenPow50 0 = .ok DecimalZero ∧ DecimalZero.Frac = 0 ∧
    getUnits (9 * decNegTenth.FracUnits + 9 * decTenPow50.FracUnits +
      max 0 (0 - ((9 * decNegTenth.FracUnits - decNegTenth.Frac) +
        (9 * decTenPow50.FracUnits - decTenPow50.Frac)))) = 1 ∧
    DecimalDiv decTenth decTenPow50 0 = .ok decZeroFrac9 ∧ decZeroFrac9.Frac = 9 := by
  refine ⟨by decide, by decide, by decide, by decide, by decide, by decide, by decide, by decide,
    by decide, by decide, by decide, by decide, by decide⟩

/-! ## Rounding to a scale and rounding again (C24) -/

/-- `Round(s)` on a decimal that already stores `s` fraction digits returns it
unchanged. -/
theorem round_same_frac (r : FixedDecimal) (s : Int) (hf : r.frac = s) (h0 : 0 ≤ s)
    (h64 : s < 64) : r.Round s = .ok r := by
  have hF : r.Frac = s := by unfold FixedDecimal.Frac; omega
  unfold FixedDecimal.Round
  dsimp only
  rw [hF, if_pos (le_refl _)]
  have hu : getUnits s = r.FracUnits := by unfold FixedDecimal.FracUnits; rw [hF]
  rw [if_pos hu, wrap8_id s (by omega), ← hf]
  rfl

/-- `Round(s)` at or above the stored fractional width, when the widened limbs
fit: it returns, and stores `s`. -/
theorem round_widen (v : FixedDecimal) (s : Int) (hv : v.Valid) (h0 : 0 ≤ s) (h64 : s < 64)
    (hs : v.Frac ≤ s) (hroom : v.IntgUnits + getUnits s ≤ MaxUnits) :
    ∃ r, v.Round s = .ok r ∧ r.frac = s := by
  have h9 : MaxUnits = 9 := rfl
  have hiu := intgUnits_nonneg v
  have hfu := fracUnits_nonneg v
  have hF := frac_range v
  have hu := hv.2.2.2.2.2.2
  have hmono : v.FracUnits ≤ getUnits s := by
    unfold FixedDecimal.FracUnits
    rw [getUnits_eq _ hF.1, getUnits_eq _ h0]; omega
  unfold FixedDecimal.Round
  dsimp only
  rw [if_pos (show s ≥ v.Frac from hs)]
  by_cases hsame : getUnits s = v.FracUnits
  · rw [if_pos hsame]
    exact ⟨_, rfl, wrap8_id s (by omega)⟩
  · rw [if_neg hsame]
    have hsl : slice MaxUnits v.lsu 0 (v.FracUnits + v.IntgUnits) =
        .ok ((v.lsu.drop (0 : Int).toNat).take (v.FracUnits + v.IntgUnits - 0).toNat) := by
      unfold slice; rw [if_pos ⟨le_refl _, by omega, by omega⟩]
    rw [hsl]
    simp only [bind, Except.bind]
    unfold copyTo
    rw [if_pos ⟨by omega, by omega, by omega⟩]
    exact ⟨_, rfl, wrap8_id s (by omega)⟩

/-- C24 (amended): for a valid decimal `v` and a scale `0 ≤ s ≤ 30`, when the
result fits the nine limbs (below the stored width: a spare limb, or no carry
out of the top limb; at or above it: `IntgUnits() + ceil(s/9) ≤ 9`),
`v.Round(s)` returns a decimal with `Frac() = s`, and rounding that decimal
again at `s` returns it unchanged. -/
theorem C24_round_idempotent (v : FixedDecimal) (s : Int) (hv : v.Valid) (h0 : 0 ≤ s)
    (h30 : s ≤ 30)
    (hbelow : s < v.Frac → (v.IntgUnits + getUnits s < MaxUnits ∨
      ⌊|v.value| * 10 ^ s.toNat + 1 / 2⌋ < 10 ^ s.toNat * Unit ^ v.IntgUnits.toNat))
    (habove : v.Frac ≤ s → v.IntgUnits + getUnits s ≤ MaxUnits) :
    ∃ r, v.Round s = .ok r ∧ r.Frac = s ∧ r.Round s = .ok r := by
  by_cases hs : s < v.Frac
  · obtain ⟨r, p1, pv, hrF, -, -⟩ := round_below v s hv h0 hs (hbelow hs)
    have hf : r.frac = s := by
      have h3 := pv.2.2.1
      have h4 := pv.2.2.2.1
      unfold FixedDecimal.Frac at hrF; omega
    exact ⟨r, p1, hrF, round_same_frac r s hf h0 (by omega)⟩
  · obtain ⟨r, p1, hf⟩ := round_widen v s hv h0 (by omega) (by omega) (habove (by omega))
    refine ⟨r, p1, ?_, round_same_frac r s hf h0 (by omega)⟩
    unfold FixedDecimal.Frac; omega

/-- C24 (amended), at an instance: `999999999999999999.95` rounded at one
fractional digit. -/
theorem C24_round_idempotent_witness :
    decRoundInput.Valid ∧ (0 : Int) ≤ 1 ∧ (1 : Int) ≤ 30 ∧
    ∃ r, decRoundInput.Round 1 = .ok r ∧ r.Frac = 1 ∧ r.Round 1 = .ok r :=
  ⟨by decide, by decide, by decide,
    C24_round_idempotent decRoundInput 1 (by decide) (by decide) (by decide)
      (fun _ => Or.inl (by decide)) (fun h => absurd h (by decide))⟩

/-- C24 (as stated, refuted): `10^64` is valid with eight integer limbs and no
fraction; scale 30 needs four fraction limbs, twelve in all, and `Round(30)`
ends in a slice-bounds panic. -/
theorem C24_round_widen_panics :
    decTenPow64.Valid ∧ decTenPow64.IsNaN = false ∧ decTenPow64.IsInf = false ∧
    decTenPow64.Intg ≤ 65 ∧ decTenPow64.Frac ≤ 30 ∧
    (0 : Int) ≤ 30 ∧ decTenPow64.IntgUnits + getUnits 30 = 12 ∧
    decTenPow64.Round 30 = .error .panic := by
  refine ⟨by decide, by decide, by decide, by decide, by decide, by decide, by decide, by decide⟩

/-! ## Fraction digits of the text (C28) -/

theorem ok_bind {α β : Type} (a : α) (f : α → Except Fault β) :
    (Except.ok a >>= f) = f a := rfl

theorem limbsText_length (lsu : List Int) (n : Nat) : (limbsText lsu n).length = 9 * n := by
  induction n with
  | zero => rfl
  | succ n ih =>
    unfold limbsText
    rw [List.length_append, ih]
    simp [limbDigits]
    omega

theorem bin2char_ok (v : Int) (n : Nat) (hv : 0 ≤ v ∧ v < 1000) (hn : n ≤ 3) :
    bin2char v (n : Int) =
      .ok (([v.toNat / 100 + 48, v.toNat / 10 % 10 + 48, v.toNat % 10 + 48] : List Nat).take n) := by
  unfold bin2char
  rw [if_pos ⟨hv.1, hv.2, by omega, by omega⟩]
  simp

theorem d3str_spec (g : Int) (hg : 0 ≤ g ∧ g < 1000) (buf : List Nat) (elim : Bool) :
    ∃ ds e, d3str g buf elim = .ok (buf ++ ds, e) ∧ ∀ c ∈ ds, 48 ≤ c ∧ c ≤ 57 := by
  unfold d3str
  have hb := bin2char_ok g 3 hg (le_refl _)
  simp only [Nat.cast_ofNat] at hb
  rw [hb]
  simp only [bind, Except.bind, List.take]
  have hall : ∀ c ∈ ([g.toNat / 100 + 48, g.toNat / 10 % 10 + 48, g.toNat % 10 + 48] : List Nat),
      48 ≤ c ∧ c ≤ 57 := by
    intro c hc
    simp only [List.mem_cons, List.mem_singleton, List.not_mem_nil, or_false] at hc
    have : g.toNat < 1000 := by omega
    rcases hc with h | h | h <;> omega
  cases elim
  · simp only [Bool.false_eq_true, if_false, pure, Except.pure]
    exact ⟨_, _, rfl, hall⟩
  · simp only [if_true, pure, Except.pure]
    refine ⟨_, _, rfl, ?_⟩
    intro c hc
    exact hall c ((List.dropWhile_sublist _).subset hc)

/-- The integer part loop of the formatter returns, appends only digit
characters, and leaves `up` one below the lowest integer limb. -/
theorem appendIntg_spec (lsu : List Int) (hL : ∀ x ∈ lsu, 0 ≤ x ∧ x < Unit)
    (fu : Nat) : ∀ (k : Nat) (buf : List Nat) (elim : Bool), fu + k ≤ 9 →
    ∃ ds, appendIntg lsu (fu : Int) k ((fu : Int) + k - 1) buf elim = .ok (buf ++ ds, (fu : Int) - 1) ∧
      ∀ c ∈ ds, 48 ≤ c ∧ c ≤ 57 := by
  intro k
  induction k with
  | zero =>
    intro buf elim _
    refine ⟨[], ?_, by simp⟩
    unfold appendIntg
    simp
  | succ k ih =>
    intro buf elim hk
    unfold appendIntg
    rw [if_pos (by push_cast; omega)]
    have hidx : ((fu : Int) + ((k + 1 : Nat) : Int) - 1) = ((fu + k : Nat) : Int) := by
      push_cast; omega
    rw [hidx, rd_nat (by omega), ok_bind]
    have hb := getD_limb_bounds hL (fu + k)
    generalize lsu.getD (fu + k) 0 = uv at hb ⊢
    have hnext : ((fu + k : Nat) : Int) - 1 = (fu : Int) + k - 1 := by push_cast; omega
    rw [hnext]
    by_cases hz : elim = true ∧ uv = 0
    · rw [if_pos hz]
      obtain ⟨ds, h1, h2⟩ := ih (buf ++ [48]) false (by omega)
      refine ⟨48 :: ds, ?_, ?_⟩
      · rw [h1]; simp
      · intro c hc
        simp only [List.mem_cons] at hc
        rcases hc with h | h
        · omega
        · exact h2 c h
    · rw [if_neg hz]
      have hU : Unit = 1000000000 := rfl
      have hH : BinHighUnit = 1000000 := rfl
      have hM : BinMidUnit = 1000 := rfl
      rw [hU] at hb
      -- high group
      have hhigh : ∃ ds1 e1 uv1, 0 ≤ uv1 ∧ uv1 < 1000000 ∧
          (if uv ≥ BinHighUnit then do
              let high := Int.tdiv uv BinHighUnit
              let (b, e) ← d3str high buf elim
              pure (b, e, wrap32 (uv - wrap32 (high * BinHighUnit)))
            else do
              let (b, e) ← d3str 0 buf elim
              pure (b, e, uv) : Except Fault (List Nat × Bool × Int)) = .ok (buf ++ ds1, e1, uv1) ∧
          ∀ c ∈ ds1, 48 ≤ c ∧ c ≤ 57 := by
        by_cases hge : uv ≥ BinHighUnit
        · rw [if_pos hge]
          rw [hH] at hge ⊢
          have ht : Int.tdiv uv 1000000 = uv / 1000000 := Int.tdiv_eq_ediv hb.1 (by omega)
          obtain ⟨ds1, e1, h1, h2⟩ := d3str_spec (uv / 1000000) (by omega) buf elim
          refine ⟨ds1, e1, uv % 1000000, by omega, by omega, ?_, h2⟩
          dsimp only
          rw [ht, h1]
          simp only [bind, Except.bind, pure, Except.pure]
          rw [wrap32_id (uv / 1000000 * 1000000) (by omega), wrap32_id _ (by omega)]
          congr 3
          omega
        · rw [if_neg hge]
          rw [hH] at hge
          obtain ⟨ds1, e1, h1, h2⟩ := d3str_spec 0 (by omega) buf elim
          refine ⟨ds1, e1, uv, hb.1, by omega, ?_, h2⟩
          rw [h1]
          rfl
      obtain ⟨ds1, e1, uv1, u1a, u1b, hh, hd1⟩ := hhigh
      rw [hh, ok_bind]
      dsimp only
      have hmid : ∃ ds2 e2 uv2, 0 ≤ uv2 ∧ uv2 < 1000 ∧
          (if uv1 ≥ BinMidUnit then do
              let mid := Int.tdiv uv1 BinMidUnit
              let (b, e) ← d3str mid (buf ++ ds1) e1
              pure (b, e, wrap32 (uv1 - wrap32 (mid * BinMidUnit)))
            else do
              let (b, e) ← d3str 0 (buf ++ ds1) e1
              pure (b, e, uv1) : Except Fault (List Nat × Bool × Int)) =
            .ok (buf ++ ds1 ++ ds2, e2, uv2) ∧
          ∀ c ∈ ds2, 48 ≤ c ∧ c ≤ 57 := by
        by_cases hge : uv1 ≥ BinMidUnit
        · rw [if_pos hge]
          rw [hM] at hge ⊢
          have ht : Int.tdiv uv1 1000 = uv1 / 1000 := Int.tdiv_eq_ediv u1a (by omega)
          obtain ⟨ds2, e2, h1, h2⟩ := d3str_spec (uv1 / 1000) (by omega) (buf ++ ds1) e1
          refine ⟨ds2, e2, uv1 % 1000, by omega, by omega, ?_, h2⟩
          dsimp only
          rw [ht, h1]
          simp only [bind, Except.bind, pure, Except.pure]
          rw [wrap32_id (uv1 / 1000 * 1000) (by omega), wrap32_id _ (by omega)]
          congr 3
          omega
        · rw [if_neg hge]
          rw [hM] at hge
          obtain ⟨ds2, e2, h1, h2⟩ := d3str_spec 0 (by omega) (buf ++ ds1) e1
          refine ⟨ds2, e2, uv1, u1a, by omega, ?_, h2⟩
          rw [h1]
          rfl
      obtain ⟨ds2, e2, uv2, u2a, u2b, hm, hd2⟩ := hmid
      rw [hm, ok_bind]
      dsimp only
      obtain ⟨ds3, e3, h3, hd3⟩ := d3str_spec uv2 ⟨u2a, u2b⟩ (buf ++ ds1 ++ ds2) e2
      rw [h3, ok_bind]
      dsimp only
      obtain ⟨ds, h1, h2⟩ := ih (buf ++ ds1 ++ ds2 ++ ds3) e3 (by omega)
      refine ⟨ds1 ++ ds2 ++ ds3 ++ ds, ?_, ?_⟩
      · rw [h1]; simp
      · intro c hc
        simp only [List.mem_append] at hc
        rcases hc with ((h | h) | h) | h
        · exact hd1 c h
        · exact hd2 c h
        · exact hd3 c h
        · exact h2 c h

theorem fracGroup_spec (g : Nat) (hg : g < 1000) (fd : Int) (hfd : 0 ≤ fd) (buf : List Nat) :
    fracGroup (g : Int) fd buf =
      .ok (buf ++ ([g / 100 + 48, g / 10 % 10 + 48, g % 10 + 48] : List Nat).take fd.toNat,
        if fd < 3 then 0 else fd - 3) := by
  obtain ⟨n, rfl⟩ := Int.eq_ofNat_of_zero_le hfd
  unfold fracGroup
  by_cases h : (n : Int) < 3
  · rw [if_pos h, if_pos h, bin2char_ok (g : Int) n ⟨by omega, by omega⟩ (by omega), ok_bind]
    simp [pure, Except.pure]
  · rw [if_neg h, if_neg h]
    have hb := bin2char_ok (g : Int) 3 ⟨by omega, by omega⟩ (le_refl _)
    simp only [Nat.cast_ofNat] at hb
    rw [hb, ok_bind]
    simp only [pure, Except.pure, Int.toNat_ofNat]
    have h3 : 3 ≤ n := by omega
    have t : ∀ l : List Nat, l.length = 3 → l.take n = l :=
      fun l hl => List.take_of_length_le (by omega)
    rw [t [g / 100 + 48, g / 10 % 10 + 48, g % 10 + 48] rfl]
    simp

theorem appendFrac_zero (lsu : List Int) (k : Nat) (up : Int) (buf : List Nat) :
    appendFrac lsu k up 0 buf = .ok buf := by
  cases k with
  | zero => rfl
  | succ k =>
    unfold appendFrac
    split
    · simp
    · rfl

theorem limbDigits_groups (n : Nat) (hn : n < 1000000000) :
    limbDigits (n : Int) =
      [n / 1000000 / 100 + 48, n / 1000000 / 10 % 10 + 48, n / 1000000 % 10 + 48,
       n % 1000000 / 1000 / 100 + 48, n % 1000000 / 1000 / 10 % 10 + 48,
       n % 1000000 / 1000 % 10 + 48,
       n % 1000 / 100 + 48, n % 1000 / 10 % 10 + 48, n % 1000 % 10 + 48] := by
  unfold limbDigits
  simp only [Int.toNat_ofNat, List.cons.injEq, and_true]
  refine ⟨?_, ?_, ?_, ?_, ?_, ?_, ?_, ?_, ?_⟩ <;> first | trivial | omega

/-- One round of `appendFrac` on a limb `n`: with at most nine digits left it
returns the buffer extended by that many leading digits of the limb; with more
it appends the nine digits and goes on with the next limb. -/
theorem appendFrac_limb (lsu : List Int) (k : Nat) (up : Nat) (hup : up < 9) (n : Nat)
    (hn : n < 1000000000) (hrd : lsu.getD up 0 = (n : Int)) (fd : Nat) (hfd : 0 < fd)
    (buf : List Nat) :
    appendFrac lsu (k + 1) (up : Int) (fd : Int) buf =
      if fd ≤ 9 then .ok (buf ++ (limbDigits (n : Int)).take fd)
      else appendFrac lsu k ((up : Int) - 1) ((fd : Int) - 9) (buf ++ limbDigits (n : Int)) := by
  conv_lhs => unfold appendFrac
  rw [if_pos (by omega), if_neg (by omega), rd_nat hup, ok_bind, hrd]
  have hH : BinHighUnit = 1000000 := rfl
  have hM : BinMidUnit = 1000 := rfl
  have hD : DigitsPerUnit = 9 := rfl
  by_cases hz : n = 0
  · subst hz
    rw [if_pos (by simp), hD]
    by_cases h9 : fd ≤ 9
    · rw [if_neg (by omega), if_pos h9]
      simp only [Int.toNat_ofNat]
      congr 2
      interval_cases fd <;> rfl
    · rw [if_pos (by omega), if_neg h9]
      rfl
  · rw [if_neg (by omega)]
    dsimp only
    -- the three groups, uniformly
    have e1 : (if (n : Int) ≥ BinHighUnit then Int.tdiv (n : Int) BinHighUnit else 0) =
        ((n / 1000000 : Nat) : Int) := by
      rw [hH]
      split
      · rw [Int.tdiv_eq_ediv (by omega) (by omega)]; omega
      · omega
    have e2 : (if (n : Int) ≥ BinHighUnit then
          wrap32 ((n : Int) - wrap32 (((n / 1000000 : Nat) : Int) * BinHighUnit)) else (n : Int)) =
        ((n % 1000000 : Nat) : Int) := by
      rw [hH]
      split
      · rw [wrap32_id (((n / 1000000 : Nat) : Int) * 1000000) (by omega), wrap32_id _ (by omega)]
        omega
      · omega
    rw [e1]
    rw [e2]
    have e3 : (if ((n % 1000000 : Nat) : Int) ≥ BinMidUnit then
          Int.tdiv ((n % 1000000 : Nat) : Int) BinMidUnit else 0) =
        ((n % 1000000 / 1000 : Nat) : Int) := by
      rw [hM]
      split
      · rw [Int.tdiv_eq_ediv (by omega) (by omega)]; omega
      · omega
    rw [e3]
    have e4 : (if ((n % 1000000 : Nat) : Int) ≥ BinMidUnit then
          wrap32 (((n % 1000000 : Nat) : Int) -
            wrap32 (((n % 1000000 / 1000 : Nat) : Int) * BinMidUnit)) else ((n % 1000000 : Nat) : Int)) =
        ((n % 1000 : Nat) : Int) := by
      rw [hM]
      split
      · rw [wrap32_id (((n % 1000000 / 1000 : Nat) : Int) * 1000) (by omega), wrap32_id _ (by omega)]
        omega
      · omega
    rw [e4]
    rw [fracGroup_spec (n / 1000000) (by omega) fd (by omega) buf, ok_bind]
    dsimp only
    have f1 : (0 : Int) ≤ if (fd : Int) < 3 then 0 else (fd : Int) - 3 := by split <;> omega
    rw [fracGroup_spec (n % 1000000 / 1000) (by omega) _ f1, ok_bind]
    dsimp only
    have f2 : (0 : Int) ≤ if (if (fd : Int) < 3 then 0 else (fd : Int) - 3) < 3 then 0
        else (if (fd : Int) < 3 then 0 else (fd : Int) - 3) - 3 := by split_ifs <;> omega
    rw [fracGroup_spec (n % 1000) (by omega) _ f2, ok_bind]
    dsimp only
    have hd := limbDigits_groups n hn
    rw [hd, hH, hM]
    rcases Nat.lt_or_ge fd 9 with h9 | h9
    · rw [if_pos (show fd ≤ 9 by omega)]
      clear e1 e2 e3 e4 f1 f2
      interval_cases fd <;> by_cases c1 : (n : Int) ≥ 1000000 <;>
        by_cases c2 : ((n % 1000000 : Nat) : Int) ≥ 1000 <;>
        simp [c1, c2]
    · clear e1 e2 e3 e4 f1 f2
      have a1 : ¬ ((fd : Int) < 3) := by omega
      have a2 : ¬ ((fd : Int) - 3 = 0) := by omega
      have a3 : ¬ ((fd : Int) - 3 < 3) := by omega
      have a4 : ¬ ((fd : Int) - 3 - 3 = 0) := by omega
      have a5 : ¬ ((fd : Int) - 3 - 3 < 3) := by omega
      simp only [a1, a2, a3, a4, a5, if_false, and_false]
      have t : ∀ (m : Int) (a b c : Nat), 3 ≤ m → [a, b, c].take m.toNat = [a, b, c] :=
        fun m a b c hm => List.take_of_length_le (by simp only [List.length]; omega)
      rw [t _ _ _ _ (by omega), t _ _ _ _ (by omega), t _ _ _ _ (by omega)]
      have e9 : (fd : Int) - 3 - 3 - 3 = (fd : Int) - 9 := by omega
      rw [e9]
      simp only [List.append_assoc, List.cons_append, List.nil_append]
      by_cases h : fd = 9
      · subst h
        rw [if_pos (le_refl _)]
        simp [appendFrac_zero]
      · rw [if_neg (by omega)]

/-- The fraction loop of the formatter, started at limb `up` with `fd` digits
to write, appends the first `fd` of the digits held by the limbs `up` down to
0. -/
theorem appendFrac_spec (lsu : List Int) (hL : ∀ x ∈ lsu, 0 ≤ x ∧ x < Unit) :
    ∀ (up : Nat), up < 9 → ∀ (fd : Nat) (buf : List Nat), fd ≤ 9 * (up + 1) →
      appendFrac lsu (up + 1) (up : Int) (fd : Int) buf =
        .ok (buf ++ (limbsText lsu (up + 1)).take fd) := by
  intro up
  induction up with
  | zero =>
    intro hup fd buf hfd
    rcases Nat.eq_zero_or_pos fd with h0 | hpos
    · subst h0
      rw [Nat.cast_zero (R := Int), appendFrac_zero]
      simp
    · have hb := getD_limb_bounds hL 0
      obtain ⟨n, hn⟩ := Int.eq_ofNat_of_zero_le hb.1
      have hn9 : n < 1000000000 := by
        have := hb.2; rw [hn] at this; unfold Unit at this; omega
      have h := appendFrac_limb lsu 0 0 (by omega) n hn9 hn fd hpos buf
      rw [h, if_pos (by omega)]
      unfold limbsText limbsText
      rw [hn, List.append_nil]
  | succ up ih =>
    intro hup fd buf hfd
    rcases Nat.eq_zero_or_pos fd with h0 | hpos
    · subst h0
      rw [Nat.cast_zero (R := Int), appendFrac_zero]
      simp
    · have hb := getD_limb_bounds hL (up + 1)
      obtain ⟨n, hn⟩ := Int.eq_ofNat_of_zero_le hb.1
      have hn9 : n < 1000000000 := by
        have := hb.2; rw [hn] at this; unfold Unit at this; omega
      have h := appendFrac_limb lsu (up + 1) (up + 1) hup n hn9 hn fd hpos buf
      rw [h]
      have hlen : (limbDigits (n : Int)).length = 9 := rfl
      conv_rhs => unfold limbsText
      rw [hn]
      by_cases h9 : fd ≤ 9
      · rw [if_pos h9, List.take_append_of_le_length (by omega)]
      · rw [if_neg h9]
        have e1 : ((up + 1 : Nat) : Int) - 1 = (up : Int) := by push_cast; omega
        have e2 : (fd : Int) - 9 = ((fd - 9 : Nat) : Int) := by omega
        rw [e1, e2, ih (by omega) (fd - 9) _ (by omega)]
        rw [List.take_append_eq_append_take,
          List.take_of_length_le (show (limbDigits (n : Int)).length ≤ fd by omega), hlen,
          List.append_assoc]

/-- The formatter on a valid decimal: the sign and integer part `ip` hold no
point, and what follows is decided by the scale and the fraction limbs. -/
theorem format_parts (v : FixedDecimal) (hv : v.Valid) :
    ∃ ip : List Nat, 46 ∉ ip ∧ ∀ scale : Int,
      v.ToString scale =
        if scale = 0 then .ok ip
        else if scale < 0 then
          .ok (ip ++ if v.Frac = 0 then [] else
            46 :: (limbsText v.lsu v.FracUnits.toNat).take v.Frac.toNat)
        else .ok (ip ++ 46 :: ((limbsText v.lsu v.FracUnits.toNat).take scale.toNat ++
          List.replicate (scale.toNat - 9 * v.FracUnits.toNat) 48)) := by
  obtain ⟨h1, h2, h3, h4, hlen, hL, hsum⟩ := hv
  have hFrac : v.Frac = v.frac := by unfold FixedDecimal.Frac; omega
  obtain ⟨hnan, hinf⟩ := nonspecial_of_frac v ⟨h3, by omega⟩
  obtain ⟨fu, hfu⟩ := Int.eq_ofNat_of_zero_le (fracUnits_nonneg v)
  obtain ⟨iu, hiu⟩ := Int.eq_ofNat_of_zero_le (intgUnits_nonneg v)
  have hfu9 : v.Frac ≤ 9 * fu ∧ (v.Frac = 0 ↔ fu = 0) := by
    have := getUnits_eq v.Frac (by omega)
    unfold FixedDecimal.FracUnits at hfu
    rw [this] at hfu
    omega
  have hM : MaxUnits = 9 := rfl
  rw [hiu, hfu, hM] at hsum
  -- the integer part
  have hI : ∀ buf : List Nat, ∃ ds, (∀ c ∈ ds, 48 ≤ c ∧ c ≤ 57) ∧
      (if v.IntgUnits > 0 then
          appendIntg v.lsu v.FracUnits (v.IntgUnits + v.FracUnits - 1 + 1 - v.FracUnits).toNat
            (v.IntgUnits + v.FracUnits - 1) buf true
        else pure (buf ++ [48], v.IntgUnits + v.FracUnits - 1)) =
        .ok (buf ++ ds, (fu : Int) - 1) := by
    intro buf
    rw [hiu, hfu]
    by_cases hpos : (iu : Int) > 0
    · rw [if_pos hpos]
      have e1 : ((iu : Int) + fu - 1 + 1 - fu).toNat = iu := by omega
      have e2 : (iu : Int) + fu - 1 = (fu : Int) + iu - 1 := by omega
      rw [e1, e2]
      obtain ⟨ds, p1, p2⟩ := appendIntg_spec v.lsu hL fu iu buf true (by omega)
      exact ⟨ds, p2, p1⟩
    · rw [if_neg hpos]
      refine ⟨[48], by simp, ?_⟩
      have e : (iu : Int) = 0 := by omega
      rw [e, zero_add]
      rfl
  obtain ⟨ds, hds, hI⟩ := hI (if v.IsNeg then [] ++ [45] else [])
  refine ⟨(if v.IsNeg then [] ++ [45] else []) ++ ds, ?_, ?_⟩
  · intro hmem
    rw [List.mem_append] at hmem
    rcases hmem with h | h
    · split at h <;> simp at h
    · have := hds 46 h
      omega
  intro scale
  unfold FixedDecimal.ToString FixedDecimal.AppendStringBuffer
  simp only [hnan, hinf, Bool.false_eq_true, if_false]
  rw [hI, ok_bind]
  dsimp only
  generalize (if v.IsNeg = true then [] ++ [45] else []) ++ ds = ip
  have hF : ∀ (fd : Nat) (buf : List Nat), 0 < fu → fd ≤ 9 * fu →
      appendFrac v.lsu ((fu : Int) - 1 + 1).toNat ((fu : Int) - 1) (fd : Int) buf =
        .ok (buf ++ (limbsText v.lsu fu).take fd) := by
    intro fd buf hpos hfd
    obtain ⟨u, rfl⟩ : ∃ u, fu = u + 1 := ⟨fu - 1, by omega⟩
    have e1 : (((u + 1 : Nat) : Int) - 1 + 1).toNat = u + 1 := by omega
    have e2 : ((u + 1 : Nat) : Int) - 1 = (u : Int) := by omega
    rw [e1, e2]
    exact appendFrac_spec v.lsu hL u (by omega) fd buf hfd
  have hD : DigitsPerUnit = 9 := rfl
  rw [hfu, hD]
  simp only [Int.toNat_ofNat]
  by_cases hs0 : scale = 0
  · rw [if_pos hs0, if_pos hs0]; rfl
  rw [if_neg hs0, if_neg hs0]
  by_cases hneg : scale < 0
  · rw [if_pos hneg, if_pos hneg]
    by_cases hz : fu = 0
    · rw [if_neg (by omega), if_pos (hfu9.2.2 hz)]
      simp [pure, Except.pure]
    · rw [if_pos (by omega), if_neg (fun h => hz (hfu9.2.1 h))]
      obtain ⟨f, hf⟩ := Int.eq_ofNat_of_zero_le (show 0 ≤ v.Frac by omega)
      rw [hf, hF f _ (by omega) (by omega)]
      simp
  · rw [if_neg hneg, if_neg hneg]
    obtain ⟨sc, rfl⟩ := Int.eq_ofNat_of_zero_le (show 0 ≤ scale by omega)
    simp only [Int.toNat_ofNat]
    by_cases hz : fu = 0
    · subst hz
      rw [if_pos (by simp)]
      simp [pure, Except.pure, limbsText]
    · rw [if_neg (by omega)]
      by_cases hle : (sc : Int) ≤ (fu : Int) * 9
      · rw [if_pos hle, hF sc _ (by omega) (by omega)]
        have : sc - 9 * fu = 0 := by omega
        rw [this]
        simp
      · rw [if_neg hle]
        have e : (fu : Int) * 9 = ((9 * fu : Nat) : Int) := by push_cast; omega
        rw [e, hF (9 * fu) _ (by omega) (le_refl _), ok_bind]
        have hl := limbsText_length v.lsu fu
        rw [List.take_of_length_le (by omega), List.take_of_length_le (by omega)]
        have : ((sc : Int) - ((9 * fu : Nat) : Int)).toNat = sc - 9 * fu := by omega
        rw [this]
        simp [pure, Except.pure]

theorem limbDigits_pad (u : Nat) (p : Nat) (hp : p ≤ 9) (h : u % 10 ^ p = 0) :
    limbDigits (u : Int) = (limbDigits (u : Int)).take (9 - p) ++ List.replicate p 48 := by
  unfold limbDigits
  simp only [Int.toNat_ofNat]
  interval_cases p <;> simp [List.replicate] at h ⊢ <;> omega

theorem limbsText_last (lsu : List Int) (n : Nat) :
    limbsText lsu (n + 1) = (limbsText lsu (n + 1)).take (9 * n) ++ limbDigits (lsu.getD 0 0) := by
  induction n with
  | zero => simp [limbsText]
  | succ n ih =>
    have hlen : (limbDigits (lsu.getD (n + 1) 0)).length = 9 := rfl
    have s1 : limbsText lsu (n + 1 + 1) =
        limbDigits (lsu.getD (n + 1) 0) ++ limbsText lsu (n + 1) := rfl
    rw [s1, List.take_append_eq_append_take,
      List.take_of_length_le (show (limbDigits (lsu.getD (n + 1) 0)).length ≤ 9 * (n + 1) by omega),
      hlen]
    have : 9 * (n + 1) - 9 = 9 * n := by omega
    rw [this, List.append_assoc, ← ih]

/-- With zero padding below the last fraction digit, the limb digits are the
`f` fraction digits followed by zeros. -/
theorem limbsText_padding (lsu : List Int) (hL : ∀ x ∈ lsu, 0 ≤ x ∧ x < Unit) (fu f : Nat)
    (hf : f ≤ 9 * fu) (hf2 : 9 * fu < f + 9)
    (hpad : lsu.getD 0 0 % 10 ^ (9 * fu - f) = 0) :
    limbsText lsu fu = (limbsText lsu fu).take f ++ List.replicate (9 * fu - f) 48 := by
  cases fu with
  | zero => simp [limbsText]
  | succ n =>
    have hb := getD_limb_bounds hL 0
    obtain ⟨u, hu⟩ := Int.eq_ofNat_of_zero_le hb.1
    rw [hu] at hpad
    have hpad2 : u % 10 ^ (9 * (n + 1) - f) = 0 := by exact_mod_cast hpad
    have hd := limbDigits_pad u (9 * (n + 1) - f) (by omega) hpad2
    have hl := limbsText_last lsu n
    rw [hu] at hl
    have hlen := limbsText_length lsu (n + 1)
    have hA : ((limbsText lsu (n + 1)).take (9 * n)).length = 9 * n := by
      rw [List.length_take, hlen]; omega
    have e : (limbsText lsu (n + 1)).take f =
        (limbsText lsu (n + 1)).take (9 * n) ++ (limbDigits (u : Int)).take (f - 9 * n) := by
      conv_lhs => rw [hl]
      rw [List.take_append_eq_append_take, List.take_of_length_le (by omega), hA]
    rw [e, List.append_assoc]
    have e2 : 9 - (9 * (n + 1) - f) = f - 9 * n := by omega
    rw [e2] at hd
    rw [← hd]
    exact hl

/-- C28 (amended): for a valid decimal `v` the text of `ToString` starts with
a sign and integer part `ip` that holds no point and is the whole of
`ToString(0)`. For `scale > 0` the text is `ip`, a point and exactly `scale`
digits: the first `scale` of the `9 * FracUnits()` digits held by the fraction
limbs, followed by zeros when `scale` exceeds `9 * FracUnits()`; when the
digits of the lowest fraction limb below the `Frac()`-th fraction digit are
zero and `scale ≥ Frac()`, these are the `Frac()` fraction digits followed by
`scale - Frac()` zeros. For `scale < 0` the text is `ip` alone when
`Frac() = 0`, and otherwise `ip`, a point and the first `Frac()` limb
digits. -/
theorem C28_format_fraction_digits (v : FixedDecimal) (hv : v.Valid) :
    ∃ ip : List Nat, v.ToString 0 = .ok ip ∧ 46 ∉ ip ∧
      (∀ scale : Int, 0 < scale →
        v.ToString scale = .ok (ip ++ 46 ::
          ((limbsText v.lsu v.FracUnits.toNat).take scale.toNat ++
            List.replicate (scale.toNat - 9 * v.FracUnits.toNat) 48)) ∧
        ((limbsText v.lsu v.FracUnits.toNat).take scale.toNat ++
          List.replicate (scale.toNat - 9 * v.FracUnits.toNat) 48).length = scale.toNat ∧
        (v.lsu.getD 0 0 % 10 ^ (9 * v.FracUnits - v.Frac).toNat = 0 → v.Frac ≤ scale →
          v.ToString scale = .ok (ip ++ 46 ::
            ((limbsText v.lsu v.FracUnits.toNat).take v.Frac.toNat ++
              List.replicate (scale - v.Frac).toNat 48)))) ∧
      (∀ scale : Int, scale < 0 →
        v.ToString scale = .ok (ip ++ if v.Frac = 0 then [] else
          46 :: (limbsText v.lsu v.FracUnits.toNat).take v.Frac.toNat) ∧
        ((limbsText v.lsu v.FracUnits.toNat).take v.Frac.toNat).length = v.Frac.toNat) := by
  obtain ⟨ip, hip, hall⟩ := format_parts v hv
  have hL := hv.2.2.2.2.2.1
  have h3 := hv.2.2.1
  have h4 := hv.2.2.2.1
  have hFrac : v.Frac = v.frac := by unfold FixedDecimal.Frac; omega
  obtain ⟨fu, hfu⟩ := Int.eq_ofNat_of_zero_le (fracUnits_nonneg v)
  obtain ⟨f, hf⟩ := Int.eq_ofNat_of_zero_le (show 0 ≤ v.Frac by omega)
  have hfu9 : f ≤ 9 * fu ∧ 9 * fu < f + 9 := by
    have := getUnits_eq v.Frac (by omega)
    unfold FixedDecimal.FracUnits at hfu
    rw [this] at hfu
    omega
  have hlen := limbsText_length v.lsu fu
  refine ⟨ip, ?_, hip, ?_, ?_⟩
  · rw [hall 0, if_pos rfl]
  · intro scale hs
    have hto := hall scale
    rw [if_neg (by omega), if_neg (by omega)] at hto
    obtain ⟨sc, rfl⟩ := Int.eq_ofNat_of_zero_le (show 0 ≤ scale by omega)
    rw [hfu, hf] at *
    simp only [Int.toNat_ofNat] at *
    refine ⟨hto, ?_, ?_⟩
    · rw [List.length_append, List.length_take, List.length_replicate, hlen]
      omega
    · intro hpad hle
      rw [hto]
      have e : ((9 : Int) * (fu : Int) - (f : Int)).toNat = 9 * fu - f := by omega
      rw [e] at hpad
      have hp := limbsText_padding v.lsu hL fu f hfu9.1 hfu9.2 hpad
      have e2 : ((sc : Int) - (f : Int)).toNat = sc - f := by omega
      rw [e2]
      congr 3
      have hf' : f ≤ sc := by omega
      generalize limbsText v.lsu fu = L at hlen hp ⊢
      have hA : (L.take f).length = f := by rw [List.length_take, hlen]; omega
      conv_lhs => rw [hp]
      rw [List.take_append_eq_append_take, List.take_of_length_le (by omega), hA,
        List.take_replicate, List.append_assoc, ← List.replicate_add]
      congr 2
      omega
  · intro scale hs
    have hto := hall scale
    rw [if_neg (by omega), if_pos hs] at hto
    refine ⟨hto, ?_⟩
    rw [hfu, hf]
    simp only [Int.toNat_ofNat]
    rw [List.length_take, hlen]
    omega

theorem C28_format_fraction_digits_witness :
    decOnePointFive.Valid ∧
    ∃ ip : List Nat, decOnePointFive.ToString 0 = .ok ip ∧ 46 ∉ ip ∧
      (∀ scale : Int, 0 < scale →
        decOnePointFive.ToString scale = .ok (ip ++ 46 ::
          ((limbsText decOnePointFive.lsu decOnePointFive.FracUnits.toNat).take scale.toNat ++
            List.replicate (scale.toNat - 9 * decOnePointFive.FracUnits.toNat) 48)) ∧
        ((limbsText decOnePointFive.lsu decOnePointFive.FracUnits.toNat).take scale.toNat ++
          List.replicate (scale.toNat - 9 * decOnePointFive.FracUnits.toNat) 48).length =
            scale.toNat ∧
        (decOnePointFive.lsu.getD 0 0 %
            10 ^ (9 * decOnePointFive.FracUnits - decOnePointFive.Frac).toNat = 0 →
          decOnePointFive.Frac ≤ scale →
          decOnePointFive.ToString scale = .ok (ip ++ 46 ::
            ((limbsText decOnePointFive.lsu decOnePointFive.FracUnits.toNat).take
                decOnePointFive.Frac.toNat ++
              List.replicate (scale - decOnePointFive.Frac).toNat 48)))) ∧
      (∀ scale : Int, scale < 0 →
        decOnePointFive.ToString scale = .ok (ip ++ if decOnePointFive.Frac = 0 then [] else
          46 :: (limbsText decOnePointFive.lsu decOnePointFive.FracUnits.toNat).take
            decOnePointFive.Frac.toNat) ∧
        ((limbsText decOnePointFive.lsu decOnePointFive.FracUnits.toNat).take
          decOnePointFive.Frac.toNat).length = decOnePointFive.Frac.toNat) :=
  ⟨by decide, C28_format_fraction_digits decOnePointFive (by decide)⟩

/-- C28 (counterexample): the valid decimal with `Frac() = 1`, integer limb 1
and fraction limb `500000001` has the one stored fraction digit `5`.
`ToString(-1)` and `ToString(1)` write `1.5`, and `ToString(9)` writes
`1.500000001`: past the first digit come the digits of the limb, not zeros. -/
theorem C28_format_prints_limb_digits :
    decPadded.Valid ∧ decPadded.IsNaN = false ∧ decPadded.IsInf = false ∧
    decPadded.Frac = 1 ∧
    decPadded.ToString (-1) = .ok (bytes "1.5") ∧
    decPadded.ToString 1 = .ok (bytes "1.5") ∧
    decPadded.ToString 9 = .ok (bytes "1.500000001") ∧
    decPadded.ToString 9 ≠ .ok (bytes "1.500000000") := by
  refine ⟨by decide, by decide, by decide, by decide, by decide, by decide, by decide, by decide⟩

/-! ## Conversions, quotient digits and stale limbs (C31, C32, C37, C38, C40) -/

/-- C31 (code_bug): `FromInt64(MinInt64, true)`. The negation `val = -val`
wraps back to `MinInt64`, the loop then divides a negative number, and the
three limbs written are negative (`-854775808`, `-223372036`, `-9`): they are
not in `[0, 10^9)` and their weighted sum is `-2^63`, not `2^63`. For
`MaxInt64` the limbs are the digits of the value. -/
theorem C31_from_min_int64_negative_limbs :
    -9223372036854775808 ≤ MinInt64 ∧ MinInt64 < 9223372036854775808 ∧
    wrap64 (-MinInt64) = MinInt64 ∧
    FixedDecimal.FromInt64 DecimalZero MinInt64 true = .ok decFromMinInt64 ∧
    decFromMinInt64.lsu.getD 0 0 = -854775808 ∧
    ¬ (0 ≤ decFromMinInt64.lsu.getD 0 0) ∧
    limbsVal decFromMinInt64.lsu 9 = -9223372036854775808 ∧
    decFromMinInt64.IsNeg = true ∧
    FixedDecimal.FromInt64 DecimalZero MaxInt64 true =
      .ok { intg := 27, frac := 0, lsu := [854775807, 223372036, 9, 0, 0, 0, 0, 0, 0] } := by
  refine ⟨by decide, by decide, by decide, by decide, by decide, by decide, by decide, by decide,
    by decide⟩

/-- C32 (code_bug): `ToInt` on `1.5` returns 2 and leaves the receiver holding
`2` (one limb `2`, `Intg() = 9`, `Frac() = 0`): `tgt := fd` copies the pointer,
so `tgt.Round(0)` rounds the receiver itself. -/
theorem C32_to_int_rounds_receiver :
    DecimalFromAsciiString "1.5" DecimalZero = .ok decOnePointFive ∧
    decOnePointFive.Valid ∧ decOnePointFive.IsNaN = false ∧ decOnePointFive.IsInf = false ∧
    DecimalFromAsciiString "9223372036854775807" DecimalZero = .ok DecMaxInt64 ∧
    DecimalFromAsciiString "-9223372036854775808" DecimalZero = .ok DecMinInt64 ∧
    decOnePointFive.ToInt = .ok (2, decTwoIntg9) ∧
    decTwoIntg9 ≠ decOnePointFive ∧
    decTwoIntg9.frac ≠ decOnePointFive.frac ∧ decTwoIntg9.lsu ≠ decOnePointFive.lsu := by
  refine ⟨by decide, by decide, by decide, by decide, by decide, by decide, by decide, by decide,
    by decide, by decide⟩

/-- C37 (code_bug): `DecimalDiv(1, 1.0000000001, 4)` reaches the long division
(the divisor has three limbs, the top one is 1) and fails the assertion
`qhat < Unit`. Normalization by `5 * 10^8` gives the divisor limbs
`[0, 50000000, 500000000]` and the dividend limb `500000000`; at the first
quotient position `u0 = vd0 = 500000000` and `u1 = 0`, so the guess is
`500000000 * 10^9 / 500000000 = 10^9`. -/
theorem C37_qhat_reaches_unit :
    DecimalFromAsciiString "1.0000000001" DecimalZero = .ok decOnePlusTenth10 ∧
    decOne.Valid ∧ decOnePlusTenth10.Valid ∧
    leadingNonZero decOnePlusTenth10.lsu 3 = .ok 2 ∧
    goDiv Unit (wrap32 (decOnePlusTenth10.lsu.getD 2 0 + 1)) = .ok 500000000 ∧
    normLoop MaxUnits decOnePlusTenth10.lsu 500000000 3 0 0 0 zeroUnits =
      .ok ([0, 50000000, 500000000, 0, 0, 0, 0, 0, 0], 0) ∧
    normLoop DoubleMaxUnits decOne.lsu 500000000 1 0 2 0 zeroBuf =
      .ok ([0, 0, 500000000, 0, 0, 0, 0, 0, 0, 0, 0, 0, 0, 0, 0, 0, 0, 0], 0) ∧
    goDiv (500000000 * Unit + 0) 500000000 = .ok Unit ∧
    divLongLoop [0, 50000000, 500000000, 0, 0, 0, 0, 0, 0] 2 500000000 50000000 2 1 1
      [0, 0, 500000000, 0, 0, 0, 0, 0, 0, 0, 0, 0, 0, 0, 0, 0, 0, 0] zeroUnits = .error .panic ∧
    DecimalDiv decOne decOnePlusTenth10 4 = .error .panic := by
  refine ⟨by decide, by decide, by decide, by decide, by decide, by decide, by decide, by decide,
    by decide, by decide⟩

/-- C38 (code_bug): in `DecimalDiv(100, 1, 0)` the top limb of the dividend is
`100` (six leading zero digits, so three digits) and the top limb of the
divisor is `1` (eight leading zero digits). `lhsPrec` is computed from the
divisor's limb, `0 * 9 + 9 - 8 = 1` instead of `0 * 9 + 9 - 6 = 3`, and the
quotient is stored as limb `100` with `Intg() = 1` where the parsed `100` has
`Intg() = 3`. `Round(-1)` on that quotient tests `1 + 1 > Intg()` and returns
zero; on the parsed `100` it returns `100`. -/
theorem C38_lhs_prec_from_divisor_limb :
    DecimalFromAsciiString "100" DecimalZero = .ok decHundred ∧
    decHundred.Valid ∧ decOne.Valid ∧
    leadingNonZero decHundred.lsu 1 = .ok 0 ∧ leadingNonZero decOne.lsu 1 = .ok 0 ∧
    unitLeadingZeroes (decHundred.lsu.getD 0 0) = 6 ∧
    unitLeadingZeroes (decOne.lsu.getD 0 0) = 8 ∧
    DecimalDiv decHundred decOne 0 = .ok decHundredIntg1 ∧
    decHundredIntg1.Intg = 1 ∧ decHundred.Intg = 3 ∧
    decHundredIntg1.Round (-1) = .ok DecimalZero ∧
    decHundred.Round (-1) = .ok { intg := 9, frac := 0, lsu := [100, 0, 0, 0, 0, 0, 0, 0, 0] } := by
  refine ⟨by decide, by decide, by decide, by decide, by decide, by decide, by decide, by decide,
    by decide, by decide, by decide, by decide⟩

/-- C40 (code_bug): the parser writes the limbs of the number and the fields
and never clears the destination. Parsing `1` into a destination whose nine
limbs held `999999999` returns one limb in use and leaves the nines in limbs 1
to 8. The arithmetic kernels clear the destination first; `DecimalMod`
still leaves limb 1 set with one limb in use for `3000000000 mod 2000000000`. -/
theorem C40_parser_keeps_stale_limbs :
    decAllNines.lsu.length = 9 ∧
    DecimalFromAsciiString "1" decAllNines = .ok decOneStale ∧
    decOneStale.IntgUnits + decOneStale.FracUnits = 1 ∧
    decOneStale.lsu.getD 1 0 = 999999999 ∧
    DecimalFromAsciiString "1" DecimalZero = .ok decOne ∧
    decThreeE9.Valid ∧ decTwoE9.Valid ∧
    DecimalMod decThreeE9 decTwoE9 = .ok decRemainder ∧
    decRemainder.IntgUnits + decRemainder.FracUnits = 1 ∧
    decRemainder.lsu.getD 1 0 = 1 := by
  refine ⟨by decide, by decide, by decide, by decide, by decide, by decide, by decide, by decide,
    by decide, by decide⟩

/-! ## Limb primitives and subtraction from zero (C35, C33) -/

/-- C35: for limbs `a`, `b` in `[0, 10^9)`: with `carry` 0 or 1 the sum
`a + b + carry` fits `int32` and `addWithCarry` returns a limb `r` and a carry
`c` in `{0, 1}` with `r + c * 10^9 = a + b + carry`; with `borrow` 0 or -1 the
difference `a - b + borrow` fits `int32` and `subWithBorrow` returns a limb `r`
and a borrow `w` in `{0, -1}` with `r + w * 10^9 = a - b + borrow`. -/
theorem C35_limb_add_sub (a b : Int) (ha : 0 ≤ a ∧ a < Unit) (hb : 0 ≤ b ∧ b < Unit) :
    (∀ carry : Int, carry = 0 ∨ carry = 1 →
      -2147483648 ≤ a + b + carry ∧ a + b + carry < 2147483648 ∧
      0 ≤ (addWithCarry a b carry).1 ∧ (addWithCarry a b carry).1 < Unit ∧
      ((addWithCarry a b carry).2 = 0 ∨ (addWithCarry a b carry).2 = 1) ∧
      (addWithCarry a b carry).1 + (addWithCarry a b carry).2 * Unit = a + b + carry) ∧
    (∀ borrow : Int, borrow = 0 ∨ borrow = -1 →
      -2147483648 ≤ a - b + borrow ∧ a - b + borrow < 2147483648 ∧
      0 ≤ (subWithBorrow a b borrow).1 ∧ (subWithBorrow a b borrow).1 < Unit ∧
      ((subWithBorrow a b borrow).2 = 0 ∨ (subWithBorrow a b borrow).2 = -1) ∧
      (subWithBorrow a b borrow).1 + (subWithBorrow a b borrow).2 * Unit = a - b + borrow) := by
  have hU : Unit = 1000000000 := rfl
  constructor
  · intro carry hc
    obtain ⟨h1, h2, h3, h4⟩ := addWithCarry_spec a b carry ha hb hc
    refine ⟨?_, ?_, h1, h2, h3, h4⟩
    · rcases hc with h | h <;> omega
    · rcases hc with h | h <;> omega
  · intro borrow hc
    obtain ⟨h1, h2, h3, h4⟩ := subWithBorrow_spec a b borrow ha hb hc
    refine ⟨?_, ?_, h1, h2, h3, h4⟩
    · rcases hc with h | h <;> omega
    · rcases hc with h | h <;> omega

/-- C35, at the largest limbs: `999999999 + 999999999 + 1` gives limb
`999999999` and carry 1; `0 - 999999999 - 1` gives limb 0 and borrow -1. -/
theorem C35_limb_add_sub_witness :
    ((0 : Int) ≤ 999999999 ∧ (999999999 : Int) < Unit) ∧
    addWithCarry 999999999 999999999 1 = (999999999, 1) ∧
    subWithBorrow 0 999999999 (-1) = (0, -1) ∧
    ((∀ carry : Int, carry = 0 ∨ carry = 1 →
      -2147483648 ≤ 999999999 + 999999999 + carry ∧ 999999999 + 999999999 + carry < 2147483648 ∧
      0 ≤ (addWithCarry 999999999 999999999 carry).1 ∧
      (addWithCarry 999999999 999999999 carry).1 < Unit ∧
      ((addWithCarry 999999999 999999999 carry).2 = 0 ∨
        (addWithCarry 999999999 999999999 carry).2 = 1) ∧
      (addWithCarry 999999999 999999999 carry).1 +
        (addWithCarry 999999999 999999999 carry).2 * Unit = 999999999 + 999999999 + carry) ∧
    (∀ borrow : Int, borrow = 0 ∨ borrow = -1 →
      -2147483648 ≤ 999999999 - 999999999 + borrow ∧ 999999999 - 999999999 + borrow < 2147483648 ∧
      0 ≤ (subWithBorrow 999999999 999999999 borrow).1 ∧
      (subWithBorrow 999999999 999999999 borrow).1 < Unit ∧
      ((subWithBorrow 999999999 999999999 borrow).2 = 0 ∨
        (subWithBorrow 999999999 999999999 borrow).2 = -1) ∧
      (subWithBorrow 999999999 999999999 borrow).1 +
        (subWithBorrow 999999999 999999999 borrow).2 * Unit = 999999999 - 999999999 + borrow)) :=
  ⟨by decide, by decide, by decide,
    C35_limb_add_sub 999999999 999999999 (by decide) (by decide)⟩

/-- A sum of non-negative limbs that is zero has every limb zero. -/
theorem limbsVal_zero_limbs {l : List Int} (h : ∀ x ∈ l, 0 ≤ x ∧ x < Unit) (n : Nat)
    (hz : limbsVal l n = 0) : ∀ i : Nat, i < n → l.getD i 0 = 0 := by
  intro i hi
  by_contra hne
  have hb := getD_limb_bounds h i
  have hpos : 0 < l.getD i 0 := lt_of_le_of_ne hb.1 (Ne.symm hne)
  have := limbsVal_ge_of_pos h i n hi hpos
  have hp : (0 : Int) < Unit ^ i := pow_pos Unit_pos i
  omega

/-- C33 (amended): for a valid decimal `b`, `DecimalSub` with the canonical zero as left
operand returns a valid decimal denoting `-value(b)`: negative for a positive
`b`, positive for a negative `b`, with the sign bit cleared whenever `b` carries
it, and the canonical zero for a zero `b` without the sign bit whose limbs
above the ones in use are zero. -/
theorem C33_sub_from_zero (b : FixedDecimal) (hb : b.Valid) :
    ∃ r, DecimalSub DecimalZero b = .ok r ∧ r.Valid ∧ r.value = -b.value ∧
      (0 < b.value → r.IsNeg = true ∧ r.value < 0) ∧
      (b.value < 0 → r.IsNeg = false ∧ 0 < r.value) ∧
      (b.IsNeg = true → r.IsNeg = false) ∧
      (b.value = 0 → b.IsNeg = false → (∀ i : Nat, b.units ≤ i → b.lsu.getD i 0 = 0) →
        r = DecimalZero) := by
  have hz : DecimalZero.IsZero = true := by decide
  have hsub : DecimalSub DecimalZero b =
      if b.IsNeg then .ok b.setPos else .ok b.setNegAndCheckZero := by
    unfold DecimalSub
    rw [if_pos hz]
  have hna := absValue_nonneg b hb
  cases hneg : b.IsNeg
  · -- no sign bit: the sign is set and a zero is reset
    obtain ⟨v1, v2⟩ := setNegAndCheckZero_value b hb hneg
    have hbv := value_of_nonneg b hneg
    have hrna := absValue_nonneg _ v1
    refine ⟨b.setNegAndCheckZero, ?_, v1, ?_, ?_, ?_, ?_, ?_⟩
    · rw [hsub, hneg]; rfl
    · rw [v2, hbv]
    · intro hpos
      rw [hbv] at hpos
      refine ⟨?_, by rw [v2]; linarith⟩
      by_contra hc
      have hc' : b.setNegAndCheckZero.IsNeg = false := by simpa using hc
      have := value_of_nonneg _ hc'
      rw [v2] at this
      linarith
    · intro hlt
      rw [hbv] at hlt
      linarith
    · intro h; cases h
    · intro h0 _ hclean
      rw [hbv] at h0
      have hs : b.scaled = 0 := (absValue_eq_zero_iff b).1 h0
      have hlow := limbsVal_zero_limbs hb.2.2.2.2.2.1 b.units hs
      have hall : ∀ i : Nat, b.lsu.getD i 0 = 0 := by
        intro i
        rcases Nat.lt_or_ge i b.units with h | h
        · exact hlow i h
        · exact hclean i h
      unfold FixedDecimal.setNegAndCheckZero
      dsimp only
      have : b.setNeg.allUnitsZero = true := by
        unfold FixedDecimal.allUnitsZero FixedDecimal.setNeg
        dsimp only
        rw [hall 0, hall 1, hall 2, hall 3, hall 4, hall 5, hall 6, hall 7, hall 8]
        rfl
      rw [if_pos this]
      rfl
  · -- sign bit set: it is cleared
    obtain ⟨v1, v2⟩ := setPos_value b hb hneg
    have hbv := value_of_neg b hneg
    have hrn : b.setPos.IsNeg = false := by
      unfold FixedDecimal.IsNeg FixedDecimal.setPos
      simp only [decide_eq_false_iff_not, not_lt]
      omega
    refine ⟨b.setPos, ?_, v1, ?_, ?_, ?_, ?_, ?_⟩
    · rw [hsub, hneg]; rfl
    · rw [v2, hbv]; ring
    · intro hpos
      rw [hbv] at hpos
      linarith
    · intro hlt
      rw [hbv] at hlt
      exact ⟨hrn, by rw [v2]; linarith⟩
    · intro _; exact hrn
    · intro _ h; cases h

/-- C33 (amended), at `1`: `0 - 1` is `-1`. -/
theorem C33_sub_from_zero_witness :
    decOne.Valid ∧ DecimalSub DecimalZero decOne = .ok decNegOne ∧
    ∃ r, DecimalSub DecimalZero decOne = .ok r ∧ r.Valid ∧ r.value = -decOne.value ∧
      (0 < decOne.value → r.IsNeg = true ∧ r.value < 0) ∧
      (decOne.value < 0 → r.IsNeg = false ∧ 0 < r.value) ∧
      (decOne.IsNeg = true → r.IsNeg = false) ∧
      (decOne.value = 0 → decOne.IsNeg = false →
        (∀ i : Nat, decOne.units ≤ i → decOne.lsu.getD i 0 = 0) → r = DecimalZero) :=
  ⟨by decide, by decide, C33_sub_from_zero decOne (by decide)⟩

/-- C33 (as stated, refuted): two valid zeros for which `DecimalSub(0, b)` is
not the canonical zero. The parsed `-0.0` carries the sign bit; the bit is
cleared and `intg = 1`, `frac = 1` are kept, so `IsZero()` is false. The `0`
parsed into a destination that held nines has stale limbs above the one in
use; the zero test looks at all nine limbs, so the sign bit is set and kept.
Both results still denote 0. -/
theorem C33_sub_zero_not_canonical :
    DecimalFromAsciiString "-0.0" DecimalZero = .ok decNegZeroFrac1 ∧
    decNegZeroFrac1.Valid ∧ decNegZeroFrac1.IsNaN = false ∧ decNegZeroFrac1.IsInf = false ∧
    decNegZeroFrac1.value = 0 ∧
    DecimalSub DecimalZero decNegZeroFrac1 = .ok decPosZeroFrac1 ∧
    decPosZeroFrac1 ≠ DecimalZero ∧ decPosZeroFrac1.IsZero = false ∧
    decPosZeroFrac1.value = 0 ∧
    DecimalFromAsciiString "0" decAllNines = .ok decZeroStale ∧
    decZeroStale.Valid ∧ decZeroStale.IsNeg = false ∧ decZeroStale.value = 0 ∧
    decZeroStale.units = 1 ∧ decZeroStale.lsu.getD 1 0 = 999999999 ∧
    DecimalSub DecimalZero decZeroStale = .ok decNegZeroStale ∧
    decNegZeroStale ≠ DecimalZero ∧ decNegZeroStale.IsNeg = true ∧
    decNegZeroStale.value = 0 := by
  have hv : ∀ v : FixedDecimal, v.scaled = 0 → v.value = 0 := by
    intro v h
    unfold FixedDecimal.value FixedDecimal.absValue
    rw [h]; simp
  refine ⟨by decide, by decide, by decide, by decide, hv _ (by decide), by decide, by decide,
    by decide, hv _ (by decide), by decide, by decide, by decide, hv _ (by decide), by decide,
    by decide, by decide, by decide, by decide, hv _ (by decide)⟩

/-! ## Top-down comparison of limb slices (C39) -/

theorem topVal_bounds {xs : List Int} (h : ∀ x ∈ xs, 0 ≤ x ∧ x < Unit) :
    0 ≤ topVal xs ∧ topVal xs < Unit ^ xs.length := by
  induction xs with
  | nil => simp [topVal]
  | cons x xs ih =>
    have hx := h x (List.mem_cons_self _ _)
    obtain ⟨i1, i2⟩ := ih (fun y hy => h y (List.mem_cons_of_mem _ hy))
    have hp : (0 : Int) < Unit ^ xs.length := pow_pos Unit_pos _
    simp only [topVal, List.length_cons, pow_succ]
    constructor
    · nlinarith
    · nlinarith

theorem topVal_reverse (l : List Int) : topVal l.reverse = limbsVal l l.length := by
  induction l using List.reverseRecOn with
  | nil => rfl
  | append_singleton l x ih =>
    rw [List.reverse_append, List.reverse_singleton, List.singleton_append]
    simp only [topVal, List.length_reverse, List.length_append, List.length_singleton, limbsVal]
    rw [ih]
    have h1 : limbsVal (l ++ [x]) l.length = limbsVal l l.length := by
      apply limbsVal_congr
      intro i hi
      rw [List.getD_append _ _ _ _ hi]
    have h2 : (l ++ [x]).getD l.length 0 = x := by
      rw [List.getD_append_right _ _ _ _ (le_refl _)]
      simp
    rw [h1, h2]
    ring

theorem all_nonpos_iff {ys : List Int} (h : ∀ y ∈ ys, 0 ≤ y ∧ y < Unit) :
    ys.all (fun y => decide (y ≤ 0)) = true ↔ topVal ys ≤ 0 := by
  induction ys with
  | nil => simp [topVal]
  | cons y ys ih =>
    have hy := h y (List.mem_cons_self _ _)
    have hys : ∀ z ∈ ys, 0 ≤ z ∧ z < Unit := fun z hz => h z (List.mem_cons_of_mem _ hz)
    obtain ⟨i1, _⟩ := topVal_bounds hys
    have hp : (0 : Int) < Unit ^ ys.length := pow_pos Unit_pos _
    rw [List.all_cons, Bool.and_eq_true, ih hys, decide_eq_true_eq]
    simp only [topVal]
    constructor
    · rintro ⟨a, b⟩
      have : y = 0 := by omega
      rw [this]; simpa using b
    · intro hle
      have hy0 : y = 0 := by
        by_contra hne
        have : 1 ≤ y := by omega
        nlinarith
      refine ⟨by omega, ?_⟩
      rw [hy0] at hle
      simpa using hle

/-- The top-down comparison decides the order of the two numbers once the
shorter sequence is extended with zero limbs at the bottom. -/
theorem geFromTop_iff : ∀ (xs ys : List Int), (∀ x ∈ xs, 0 ≤ x ∧ x < Unit) →
    (∀ y ∈ ys, 0 ≤ y ∧ y < Unit) →
    (geFromTop xs ys = true ↔
      topVal ys * Unit ^ (max xs.length ys.length - ys.length) ≤
        topVal xs * Unit ^ (max xs.length ys.length - xs.length)) := by
  intro xs
  induction xs with
  | nil =>
    intro ys _ hy
    unfold geFromTop
    rw [all_nonpos_iff hy]
    simp [topVal]
  | cons x xs ih =>
    intro ys hx hy
    cases ys with
    | nil =>
      have := (topVal_bounds hx).1
      simp only [geFromTop, topVal, List.length_nil, zero_mul, true_iff]
      have hp : (0 : Int) < Unit ^ (max (x :: xs).length 0 - (x :: xs).length) := pow_pos Unit_pos _
      have h2 : topVal (x :: xs) = x * Unit ^ xs.length + topVal xs := rfl
      rw [← h2]
      positivity
    | cons y ys =>
      have hx0 := hx x (List.mem_cons_self _ _)
      have hy0 := hy y (List.mem_cons_self _ _)
      have hxs : ∀ z ∈ xs, 0 ≤ z ∧ z < Unit := fun z hz => hx z (List.mem_cons_of_mem _ hz)
      have hys : ∀ z ∈ ys, 0 ≤ z ∧ z < Unit := fun z hz => hy z (List.mem_cons_of_mem _ hz)
      obtain ⟨bx1, bx2⟩ := topVal_bounds hxs
      obtain ⟨by1, by2⟩ := topVal_bounds hys
      have IH := ih ys hxs hys
      set p := xs.length with hp
      set q := ys.length with hq
      set m := max p q with hm
      have e1 : max (x :: xs).length (y :: ys).length - (y :: ys).length = m - q := by
        simp only [List.length_cons]; omega
      have e2 : max (x :: xs).length (y :: ys).length - (x :: xs).length = m - p := by
        simp only [List.length_cons]; omega
      rw [e1, e2]
      simp only [topVal]
      rw [← hp, ← hq]
      have hB : (0 : Int) < Unit := Unit_pos
      have pq : Unit ^ q * Unit ^ (m - q) = Unit ^ m := by rw [← pow_add]; congr 1; omega
      have pp : Unit ^ p * Unit ^ (m - p) = Unit ^ m := by rw [← pow_add]; congr 1; omega
      have hBm : (0 : Int) < Unit ^ m := pow_pos hB _
      have hBq : (0 : Int) < Unit ^ (m - q) := pow_pos hB _
      have hBp : (0 : Int) < Unit ^ (m - p) := pow_pos hB _
      have ya : topVal ys * Unit ^ (m - q) < Unit ^ m := by
        rw [← pq]; exact mul_lt_mul_of_pos_right by2 hBq
      have xa : topVal xs * Unit ^ (m - p) < Unit ^ m := by
        rw [← pp]; exact mul_lt_mul_of_pos_right bx2 hBp
      have ya0 : 0 ≤ topVal ys * Unit ^ (m - q) := mul_nonneg by1 (le_of_lt hBq)
      have xa0 : 0 ≤ topVal xs * Unit ^ (m - p) := mul_nonneg bx1 (le_of_lt hBp)
      have ey : (y * Unit ^ q + topVal ys) * Unit ^ (m - q) =
          y * Unit ^ m + topVal ys * Unit ^ (m - q) := by rw [add_mul, mul_assoc, pq]
      have ex : (x * Unit ^ p + topVal xs) * Unit ^ (m - p) =
          x * Unit ^ m + topVal xs * Unit ^ (m - p) := by rw [add_mul, mul_assoc, pp]
      rw [ey, ex]
      generalize topVal ys * Unit ^ (m - q) = a at ya ya0 IH ⊢
      generalize topVal xs * Unit ^ (m - p) = b at xa xa0 IH ⊢
      generalize Unit ^ m = Bm at hBm ya xa ⊢
      unfold geFromTop
      by_cases hgt : x > y
      · rw [if_pos hgt]
        simp only [true_iff]
        have : (y + 1) * Bm ≤ x * Bm := mul_le_mul_of_nonneg_right (by omega) (le_of_lt hBm)
        nlinarith
      · rw [if_neg hgt]
        by_cases hlt : x < y
        · rw [if_pos hlt]
          simp only [Bool.false_eq_true, false_iff, not_le]
          have : (x + 1) * Bm ≤ y * Bm := mul_le_mul_of_nonneg_right (by omega) (le_of_lt hBm)
          nlinarith
        · rw [if_neg hlt]
          have hxy : x = y := by omega
          rw [IH, hxy]
          constructor <;> intro h <;> linarith

theorem limbsVal_padLow (n : Nat) (l : List Int) (h : l.length ≤ n) :
    limbsVal (padLow n l) n = limbsVal l l.length * Unit ^ (n - l.length) := by
  have hsplit := limbsVal_drop (padLow n l) (n - l.length) l.length
  have hn : n - l.length + l.length = n := by omega
  rw [hn] at hsplit
  have hd : (padLow n l).drop (n - l.length) = l := by
    unfold padLow
    rw [List.drop_left' (by simp)]
  have hz : limbsVal (padLow n l) (n - l.length) = 0 := by
    rw [limbsVal_zero_above _ 0 _ (Nat.zero_le _)]
    · rfl
    · intro t _ ht
      unfold padLow
      rw [List.getD_append _ _ _ _ (by simpa using ht)]
      rw [List.getD_eq_getElem?_getD, List.getElem?_replicate]
      simp [ht]
  rw [hsplit, hd, hz]
  ring

/-- C39: for limb slices `lhs` and `rhs` (least significant limb first, limbs
in `[0, 10^9)`), `unitsGreaterEqual(lhs, rhs)` is true exactly when, with the
shorter slice padded with zero limbs at the low end to the length of the
longer, the number held by `lhs` is at least the number held by `rhs`: the
comparison from the top limb downward. -/
theorem C39_units_greater_equal (lhs rhs : List Int) (hl : ∀ x ∈ lhs, 0 ≤ x ∧ x < Unit)
    (hr : ∀ x ∈ rhs, 0 ≤ x ∧ x < Unit) :
    unitsGreaterEqual lhs rhs = true ↔
      limbsVal (padLow (max lhs.length rhs.length) rhs) (max lhs.length rhs.length) ≤
        limbsVal (padLow (max lhs.length rhs.length) lhs) (max lhs.length rhs.length) := by
  unfold unitsGreaterEqual
  have hl' : ∀ x ∈ lhs.reverse, 0 ≤ x ∧ x < Unit := fun x hx => hl x (List.mem_reverse.1 hx)
  have hr' : ∀ x ∈ rhs.reverse, 0 ≤ x ∧ x < Unit := fun x hx => hr x (List.mem_reverse.1 hx)
  rw [geFromTop_iff _ _ hl' hr', topVal_reverse, topVal_reverse, List.length_reverse,
    List.length_reverse, limbsVal_padLow _ rhs (le_max_right _ _),
    limbsVal_padLow _ lhs (le_max_left _ _)]

/-- C39, at the slices of the repository's test: `[1,1]` against `[1,1,1]` is
false, since padded it is `[0,1,1]`; the other three orders named by the claim
are true. -/
theorem C39_units_greater_equal_witness :
    (∀ x ∈ ([1, 1] : List Int), 0 ≤ x ∧ x < Unit) ∧
    (∀ x ∈ ([1, 1, 1] : List Int), 0 ≤ x ∧ x < Unit) ∧
    padLow 3 [1, 1] = [0, 1, 1] ∧
    unitsGreaterEqual [1, 1] [1, 1, 1] = false ∧
    unitsGreaterEqual [1, 1, 1] [1, 1] = true ∧
    unitsGreaterEqual [0, 1, 1] [1, 1] = true ∧
    unitsGreaterEqual [1, 1] [0, 1, 1] = true ∧
    (unitsGreaterEqual [1, 1] [1, 1, 1] = true ↔
      limbsVal (padLow (max ([1, 1] : List Int).length ([1, 1, 1] : List Int).length) [1, 1, 1])
          (max ([1, 1] : List Int).length ([1, 1, 1] : List Int).length) ≤
        limbsVal (padLow (max ([1, 1] : List Int).length ([1, 1, 1] : List Int).length) [1, 1])
          (max ([1, 1] : List Int).length ([1, 1, 1] : List Int).length)) :=
  ⟨by decide, by decide, by decide, by decide, by decide, by decide, by decide,
    C39_units_greater_equal [1, 1] [1, 1, 1] (by decide) (by decide)⟩

/-! ## Normalization of the divisor (C36) -/

/-- The normalization factor `floor(10^9 / (t + 1))` of a top limb `t` in
`[1, 10^9)`: at least 1, `(t + 1) * factor ≤ 10^9`, and `t * factor` is at
least half of `10^9`. -/
theorem normFactor_bounds (t : Int) (ht : 1 ≤ t ∧ t < Unit) :
    1 ≤ Unit / (t + 1) ∧ (t + 1) * (Unit / (t + 1)) ≤ Unit ∧ HalfUnit ≤ t * (Unit / (t + 1)) := by
  have hU : Unit = 1000000000 := rfl
  have hH : HalfUnit = 500000000 := rfl
  rw [hU] at ht ⊢
  rw [hH]
  have hpos : 0 < t + 1 := by omega
  have h1 : (t + 1) * (1000000000 / (t + 1)) ≤ 1000000000 := Int.mul_ediv_self_le (by omega)
  have h2 : 1000000000 < (t + 1) * (1000000000 / (t + 1)) + (t + 1) :=
    Int.lt_mul_ediv_self_add hpos
  have hq1 : 1 ≤ 1000000000 / (t + 1) := by
    have : (t + 1) * 1 ≤ 1000000000 := by omega
    exact (Int.le_ediv_iff_mul_le hpos).2 (by omega)
  refine ⟨hq1, h1, ?_⟩
  generalize 1000000000 / (t + 1) = q at h1 h2 hq1 ⊢
  have e1 : (t + 1) * q = t * q + q := by ring
  rw [e1] at h1 h2
  rcases eq_or_lt_of_le hq1 with hq | hq
  · rw [← hq] at h2 ⊢
    omega
  · rcases eq_or_lt_of_le ht.1 with h | h
    · rw [← h] at h1 h2 ⊢
      omega
    · have : t + q ≤ t * q := by nlinarith
      generalize t * q = p at h1 h2 this ⊢
      omega

/-- The normalization loop on the limbs `i .. i + k` of a divisor whose limb
`i + k` is the top limb `t`: with an incoming carry below the factor it
returns carry 0 and a top limb of at least half of `10^9`. -/
theorem normLoop_top (size : Int) (src : List Int) (nf : Int) (nz : Nat) (hnz : nz < 9)
    (hsrc : ∀ i : Nat, i ≤ nz → 0 ≤ src.getD i 0 ∧ src.getD i 0 < Unit)
    (hnf : 1 ≤ nf) (hfit : (src.getD nz 0 + 1) * nf ≤ Unit)
    (hhalf : HalfUnit ≤ src.getD nz 0 * nf) :
    ∀ (k i j : Nat) (carry : Int) (buf : List Int), i + k = nz → 0 ≤ carry → carry < nf →
      ((j + k : Nat) : Int) < size → j + k < buf.length →
      ∃ buf1, normLoop size src nf (k + 1) (i : Int) (j : Int) carry buf = .ok (buf1, 0) ∧
        buf1.length = buf.length ∧
        HalfUnit ≤ buf1.getD (j + k) 0 ∧ buf1.getD (j + k) 0 < Unit := by
  have hU : Unit = 1000000000 := rfl
  intro k
  induction k with
  | zero =>
    intro i j carry buf hik hc0 hc1 hsz hlen
    have hi : i = nz := by omega
    subst hi
    unfold normLoop
    rw [rd_nat hnz, ok_bind]
    dsimp only
    generalize hx : src.getD i 0 = x at hfit hhalf
    have hxb := hsrc i (le_refl _)
    rw [hx] at hxb
    have hv0 : 0 ≤ x * nf + carry := by nlinarith
    have hv1 : x * nf + carry < Unit := by nlinarith
    have hc : Int.tdiv (x * nf + carry) Unit = 0 := by
      rw [Int.tdiv_eq_ediv hv0 (by omega)]
      exact Int.ediv_eq_zero_of_lt hv0 hv1
    rw [hc]
    simp only [zero_mul, sub_zero]
    rw [wrap32_id _ (by omega)]
    unfold wr
    rw [if_pos ⟨by omega, by push_cast at hsz; omega⟩, ok_bind]
    unfold normLoop
    refine ⟨_, rfl, by simp, ?_, ?_⟩
    · rw [getD_set_int, if_pos ⟨by simp, by simpa using hlen⟩]
      linarith
    · rw [getD_set_int, if_pos ⟨by simp, by simpa using hlen⟩]
      exact hv1
  | succ k ih =>
    intro i j carry buf hik hc0 hc1 hsz hlen
    unfold normLoop
    rw [rd_nat (by omega), ok_bind]
    dsimp only
    have hxb := hsrc i (by omega)
    generalize src.getD i 0 = x at hxb
    have hv0 : 0 ≤ x * nf + carry := by nlinarith
    have hv1 : x * nf + carry < Unit * nf := by nlinarith
    have hdiv : Int.tdiv (x * nf + carry) Unit = (x * nf + carry) / Unit :=
      Int.tdiv_eq_ediv hv0 (by omega)
    rw [hdiv]
    have hq0 : 0 ≤ (x * nf + carry) / Unit := Int.ediv_nonneg hv0 (by omega)
    have hq1 : (x * nf + carry) / Unit < nf :=
      Int.ediv_lt_of_lt_mul Unit_pos (by linarith)
    have hr := Int.emod_add_ediv (x * nf + carry) Unit
    have hr0 := Int.emod_nonneg (x * nf + carry) (ne_of_gt Unit_pos)
    have hr1 := Int.emod_lt_of_pos (x * nf + carry) Unit_pos
    have hlimb : x * nf + carry - (x * nf + carry) / Unit * Unit = (x * nf + carry) % Unit := by
      linarith
    rw [hlimb, wrap32_id _ (by omega)]
    unfold wr
    rw [if_pos ⟨by omega, by push_cast at hsz; omega⟩, ok_bind]
    have e1 : (i : Int) + 1 = ((i + 1 : Nat) : Int) := by push_cast; rfl
    have e2 : (j : Int) + 1 = ((j + 1 : Nat) : Int) := by push_cast; rfl
    rw [e1, e2]
    obtain ⟨buf1, p1, p2, p3, p4⟩ := ih (i + 1) (j + 1) ((x * nf + carry) / Unit)
      (buf.set (j : Int).toNat ((x * nf + carry) % Unit)) (by omega) hq0 hq1
      (by push_cast at hsz ⊢; omega) (by simp; omega)
    have e3 : j + 1 + k = j + (k + 1) := by omega
    rw [e3] at p3 p4
    exact ⟨buf1, p1, by rw [p2]; simp, p3, p4⟩

/-- C36: for a divisor whose limbs `0 .. nz` are in `[0, 10^9)` with top limb
`t = src[nz] ≥ 1`, the factor computed by `divAbs` and `modAbs` is
`floor(10^9 / (t + 1)) ≥ 1`; the normalization loop over the limbs `0 .. nz`
(written from index `j0` of a buffer of `size` limbs: `j0 = 0`, `size = 9` in
`divAbs`, `j0 = rhsLeftShiftUnits`, `size = 18` in `modAbs`) ends with carry 0,
which is what the assertion tests, and leaves a top limb of at least `5 * 10^8`; when the
factor is 1 and the limbs are copied instead, the top limb is already at least
`5 * 10^8`. -/
theorem C36_divisor_normalization (src : List Int) (nz : Nat) (size : Int) (j0 : Nat)
    (buf0 : List Int) (hnz : nz < 9)
    (hsrc : ∀ i : Nat, i ≤ nz → 0 ≤ src.getD i 0 ∧ src.getD i 0 < Unit)
    (ht : 1 ≤ src.getD nz 0) (hsize : ((j0 + nz : Nat) : Int) < size)
    (hlen : j0 + nz < buf0.length) :
    ∃ nf, goDiv Unit (wrap32 (src.getD nz 0 + 1)) = .ok nf ∧
      nf = Unit / (src.getD nz 0 + 1) ∧ 1 ≤ nf ∧
      (nf = 1 → HalfUnit ≤ src.getD nz 0) ∧
      ∃ buf, normLoop size src nf (nz + 1) 0 (j0 : Int) 0 buf0 = .ok (buf, 0) ∧
        HalfUnit ≤ buf.getD (j0 + nz) 0 ∧ buf.getD (j0 + nz) 0 < Unit := by
  have hU : Unit = 1000000000 := rfl
  have htb := hsrc nz (le_refl _)
  obtain ⟨b1, b2, b3⟩ := normFactor_bounds (src.getD nz 0) ⟨ht, htb.2⟩
  have hgo : goDiv Unit (wrap32 (src.getD nz 0 + 1)) = .ok (Unit / (src.getD nz 0 + 1)) := by
    rw [wrap32_id _ (by omega)]
    unfold goDiv
    rw [if_neg (by omega), Int.tdiv_eq_ediv (by omega) (by omega)]
  refine ⟨_, hgo, rfl, b1, ?_, ?_⟩
  · intro h1
    rw [h1, mul_one] at b3
    exact b3
  · have e0 : ((0 : Nat) : Int) = 0 := rfl
    obtain ⟨buf, p1, _, p3, p4⟩ := normLoop_top size src _ nz hnz hsrc b1 b2 b3 nz 0 j0 0 buf0
      (by omega) (le_refl _) (by omega) hsize hlen
    rw [e0] at p1
    exact ⟨buf, p1, p3, p4⟩

/-- C36, at the divisor `1.0000000001` (limbs `[100000000, 0, 1]`): the factor
is `5 * 10^8` and the normalized limbs are `[0, 50000000, 500000000]`. -/
theorem C36_divisor_normalization_witness :
    normLoop MaxUnits decOnePlusTenth10.lsu 500000000 3 0 0 0 zeroUnits =
      .ok ([0, 50000000, 500000000, 0, 0, 0, 0, 0, 0], 0) ∧
    ∃ nf, goDiv Unit (wrap32 (decOnePlusTenth10.lsu.getD 2 0 + 1)) = .ok nf ∧
      nf = Unit / (decOnePlusTenth10.lsu.getD 2 0 + 1) ∧ 1 ≤ nf ∧
      (nf = 1 → HalfUnit ≤ decOnePlusTenth10.lsu.getD 2 0) ∧
      ∃ buf, normLoop MaxUnits decOnePlusTenth10.lsu nf (2 + 1) 0 ((0 : Nat) : Int) 0 zeroUnits =
          .ok (buf, 0) ∧
        HalfUnit ≤ buf.getD (0 + 2) 0 ∧ buf.getD (0 + 2) 0 < Unit :=
  ⟨by decide, C36_divisor_normalization decOnePlusTenth10.lsu 2 MaxUnits 0 zeroUnits (by decide)
    (by decide) (by decide) (by decide) (by decide)⟩

/-! ## Fraction digits of a remainder (C34) -/

theorem modAbsCore_frac_eq (a b : FixedDecimal) (lnz rnz : Int) :
    Yields (fun r => r.frac = max a.Frac b.Frac) (modAbsCore a b lnz rnz) := by
  unfold modAbsCore
  dsimp only
  have ha := frac_range a
  have hb := frac_range b
  have leaf1 : ∀ (i : Int) (l : List Int),
      (FixedDecimal.mk i (wrap8 (maxInt a.Frac b.Frac)) l).frac = max a.Frac b.Frac := by
    intro i l
    dsimp only
    unfold wrap8 maxInt
    split_ifs <;> omega
  refine yields_bind _ _ _ (fun _ => ?_)
  refine yields_ite _ _ _ _ (fun _ => ?_) (fun _ => ?_)
  · refine yields_ite _ _ _ _ (fun hgt => ?_) (fun _ => ?_)
    · refine yields_bind _ _ _ (fun _ => ?_)
      refine yields_bind _ _ _ (fun _ => ?_)
      refine yields_pure _ _ ?_
      dsimp only
      rw [getUnits_eq _ hb.1, getUnits_eq _ ha.1] at hgt
      unfold wrap8
      omega
    · refine yields_bind _ _ _ (fun _ => ?_)
      refine yields_bind _ _ _ (fun _ => ?_)
      exact yields_pure _ _ (leaf1 _ _)
  · repeat' (first
      | exact yields_error _ _
      | exact yields_pure _ _ (leaf1 _ _)
      | refine yields_bind _ _ _ (fun _ => ?_)
      | refine yields_ite _ _ _ _ (fun _ => ?_) (fun _ => ?_))

/-- What `modAbs` returns: the canonical zero for a dividend with no non-zero
limb in use, and otherwise a result with `frac = max(a.Frac(), b.Frac())`. -/
theorem modAbs_frac_eq (a b : FixedDecimal) (ha : a.Valid) :
    Yields (fun r => (r = DecimalZero ∧ a.unitsInUseZero) ∨ r.frac = max a.Frac b.Frac)
      (modAbs a b) := by
  unfold modAbs
  dsimp only
  refine yields_bind _ _ _ (fun _ => ?_)
  refine yields_ite _ _ _ _ (fun _ => yields_error _ _) (fun _ => ?_)
  have hlead : Yields (fun r => r < 0 → a.unitsInUseZero)
      (leadingNonZero a.lsu (getUnits a.Intg + getUnits a.Frac).toNat) := by
    obtain ⟨r, p1, p2, -⟩ := leadingNonZero_spec a.lsu (getUnits a.Intg + getUnits a.Frac).toNat
      (valid_units_le ha)
    intro r' hr'
    rw [p1] at hr'
    cases hr'
    intro hneg
    exact p2.1 hneg
  refine yields_bind_of _ _ _ _ hlead (fun lnz hl => ?_)
  refine yields_ite _ _ _ _ (fun hneg => yields_pure _ _ (Or.inl ⟨rfl, hl hneg⟩)) (fun _ => ?_)
  exact yields_mono _ _ _ (fun r hr => Or.inr hr) (modAbsCore_frac_eq _ _ _ _)

theorem value_zero_of_unitsInUseZero (a : FixedDecimal) (h : a.unitsInUseZero) : a.value = 0 := by
  have hs : a.scaled = 0 := by
    unfold FixedDecimal.scaled
    rw [limbsVal_zero_above a.lsu 0 a.units (Nat.zero_le _) (fun t _ ht => h t ht)]
    rfl
  unfold FixedDecimal.value FixedDecimal.absValue
  rw [hs]
  simp

/-- C34 (amended): a successful `DecimalMod` on a valid dividend returns the
canonical zero or a result whose `Frac()` is `max(a.Frac(), b.Frac())`; for a
non-zero dividend without the sign bit it is always the latter, in the three
branches of `modAbs` alike. -/
theorem C34_mod_frac (a b r : FixedDecimal) (ha : a.Valid) (h : DecimalMod a b = .ok r) :
    (r = DecimalZero ∨ r.Frac = max a.Frac b.Frac) ∧
    (a.IsNeg = false → a.value ≠ 0 → r.Frac = max a.Frac b.Frac) := by
  have hfa := frac_range a
  have hfb := frac_range b
  have hFrac : ∀ x : FixedDecimal, x.frac = max a.Frac b.Frac → x.Frac = max a.Frac b.Frac := by
    intro x hx
    unfold FixedDecimal.Frac at hx ⊢
    omega
  have key : Yields (fun r => (r = DecimalZero ∨ r.Frac = max a.Frac b.Frac) ∧
      (a.IsNeg = false → a.value ≠ 0 → r.Frac = max a.Frac b.Frac)) (DecimalMod a b) := by
    unfold DecimalMod
    dsimp only
    refine yields_bind_of _ _ _ _ (modAbs_frac_eq a b ha) (fun q hq => ?_)
    refine yields_ite _ _ _ _ (fun hneg => yields_pure _ _ ?_) (fun hneg => yields_pure _ _ ?_)
    · refine ⟨?_, fun hn => by rw [hn] at hneg; cases hneg⟩
      unfold FixedDecimal.setNegAndCheckZero
      dsimp only
      split
      · left; rfl
      · rcases hq with ⟨hq0, -⟩ | hq
        · exfalso
          rename_i hnz
          apply hnz
          rw [hq0]
          decide
        · right
          exact hFrac _ hq
    · rcases hq with ⟨hq0, hz⟩ | hq
      · exact ⟨Or.inl hq0, fun _ hv => absurd (value_zero_of_unitsInUseZero a hz) hv⟩
      · exact ⟨Or.inr (hFrac _ hq), fun _ _ => hFrac _ hq⟩
  exact key r h

/-- C34 (amended), at an instance: `4.0 mod 2` is a zero with one fraction
digit. -/
theorem C34_mod_frac_witness :
    decFourFrac1.Valid ∧ DecimalMod decFourFrac1 decTwo = .ok decZeroFrac1 ∧
    decZeroFrac1.Frac = 1 ∧
    (decZeroFrac1 = DecimalZero ∨ decZeroFrac1.Frac = max decFourFrac1.Frac decTwo.Frac) ∧
    (decFourFrac1.IsNeg = false → decFourFrac1.value ≠ 0 →
      decZeroFrac1.Frac = max decFourFrac1.Frac decTwo.Frac) :=
  ⟨by decide, by decide, by decide,
    C34_mod_frac decFourFrac1 decTwo decZeroFrac1 (by decide) (by decide)⟩

/-- C34 (as stated, refuted): `-4.0 mod 2` has a non-zero, negative dividend
with one fraction digit; the remainder has no non-zero limb, the sign step
resets it to the canonical zero, and `Frac()` is 0, not `max(1, 0) = 1`. With
the dividend `4.0` the result keeps `Frac() = 1`. -/
theorem C34_mod_negative_zero_remainder :
    DecimalFromAsciiString "-4.0" DecimalZero = .ok decNegFourFrac1 ∧
    DecimalFromAsciiString "2" DecimalZero = .ok decTwo ∧
    decNegFourFrac1.Valid ∧ decTwo.Valid ∧
    decNegFourFrac1.IsNeg = true ∧ decNegFourFrac1.lsu.getD 1 0 = 4 ∧
    decNegFourFrac1.units = 2 ∧
    max decNegFourFrac1.Frac decTwo.Frac = 1 ∧
    DecimalMod decNegFourFrac1 decTwo = .ok DecimalZero ∧
    DecimalZero.Frac = 0 ∧
    DecimalMod decFourFrac1 decTwo = .ok decZeroFrac1 ∧ decZeroFrac1.Frac = 1 := by
  refine ⟨by decide, by decide, by decide, by decide, by decide, by decide, by decide, by decide,
    by decide, by decide, by decide, by decide⟩

/-! ## Round trip of a widened product (C8) -/

end Fxd
